import Mathlib

/-!
# Sparse linear algebra core, boundary enforcement and element engine of `fea_solver_small.c`

A shallow embedding of the sparse-matrix code (storage, skyline view, ILU
decomposition, conjugate gradients with and without preconditioner), of the
prescribed displacements, of the local stiffness matrix and its assembly
into the global matrix, of the shape gradients, the deformation gradient
and the stress at a Gauss node, and of the tables and shape functions of
the element TETRAHEDRA10 of `src/c/fea_solver_small.c`, and proofs of
properties of them.

Conventions of the embedding

* `real` is modelled by `ℚ` (exact arithmetic); C `int` by `Int`, without
  overflow (sizes stay far below `2^31`).  Loop counters that only run
  upwards from `0` are `Nat`.
* A C buffer is a `List`; the cell `p[k]` is `p.getD k 0` and the store
  `p[k] = v` is `p.set k v`.
* A `real*` returned by `sp_matrix_element` is modelled by the slot number
  inside the row it points into (`none` is the null pointer).
* A function that can abort (a failing `assert`, a store outside the
  allocated buffer) returns `Option`, `none` being the abort.
* A `for` loop with a known trip count is `loop` (`range_loop` when it does
  not start at `0`); the recursion of `indexed_array_sort` carries a bound on
  its depth, and running into the bound is `none`.
* Division is the division of `ℚ`, for which `x / 0 = 0`; in C it gives an
  infinity or a NaN.  The general theorems whose conclusion depends on a
  quotient assume the divisor nonzero, and in the two evaluated tests every
  divisor is nonzero.  The divisors themselves are definitions
  (`ilu_pivot`, `cg_denominator`), and `ilu_zero_division` and
  `sp_matrix_solve_cg_zero_division` say whether a run divides by zero; up
  to its first division by zero a run is the run of the C code.
* A two-dimensional array is a `List (List ℚ)`, read by `cell` and stored
  into by `store`.
* Memory that `malloc` or `realloc` returns uninitialised is zero-filled
  where every cell is stored before it is read, and is a parameter (`junk`)
  where a cell can be read unwritten.

The definitions come first, the theorems after them.  Every matrix reached
from `init_sp_matrix` by `sp_matrix_element_add` and `sp_matrix_reorder`
satisfies the invariant `sp_matrix_wf` (`sp_matrix_run_wf`), which is the
hypothesis of the theorems that are not stated over a run.
-/

namespace Fea

/-! ## Loops -/

/-- The loop `for (i = 0; i < n; ++i) s = f i s`. -/
def loop {σ : Type} : Nat → (Nat → σ → σ) → σ → σ
  | 0, _, s => s
  | n + 1, f, s => f n (loop n f s)

/-! ## Data model (lines 262-317) -/

/-- Sparse matrix row storage, `indexed_array` (line 265). -/
structure indexed_array where
  width : Int
  last_index : Int
  indexes : List Int
  values : List ℚ
  deriving DecidableEq

instance : Inhabited indexed_array := ⟨⟨0, -1, [], []⟩⟩

/-- Sparse matrix in row storage, `sp_matrix` (line 277). -/
structure sp_matrix where
  rows_count : Int
  cols_count : Int
  rows : List indexed_array
  ordered : Bool
  deriving DecidableEq

/-- The row `self->rows[i]`. -/
def sp_matrix.row (self : sp_matrix) (i : Nat) : indexed_array :=
  self.rows.getD i default

/-! ## Construction and element access (lines 919-1123) -/

/-- Function `init_sp_matrix` (line 919): `rows` rows of capacity `bandwidth`, all
empty (`last_index = -1`), zero-filled, `ordered = FALSE`. -/
def init_sp_matrix (rows cols bandwidth : Int) : sp_matrix :=
  { rows_count := rows
    cols_count := cols
    ordered := false
    rows := List.replicate rows.toNat
      { width := bandwidth
        last_index := -1
        indexes := List.replicate bandwidth.toNat 0
        values := List.replicate bandwidth.toNat 0 } }

/-- The search loop shared by `sp_matrix_element` and
`sp_matrix_element_add` (lines 1075-1077, 1093-1094): the first slot
`index` in `0..last_index` with `indexes[index] == j`. -/
def indexed_array_find (row : indexed_array) (j : Int) : Option Nat :=
  (List.range (row.last_index + 1).toNat).find?
    (fun index => row.indexes.getD index 0 == j)

/-- Function `sp_matrix_element` (line 1066): pointer to the stored element `(i,j)`,
as the slot number in row `i`; `none` is the null pointer. -/
def sp_matrix_element (self : sp_matrix) (i j : Int) : Option Nat :=
  if 0 ≤ i ∧ i < self.rows_count ∧ 0 ≤ j ∧ j < self.cols_count then
    indexed_array_find (self.row i.toNat) j
  else none

/-- Dereference of the pointer returned by `sp_matrix_element`:
`none` when the pointer is null. -/
def sp_matrix_get (self : sp_matrix) (i j : Int) : Option ℚ :=
  (sp_matrix_element self i j).map (fun k => (self.row i.toNat).values.getD k 0)

/-- The entry `A_ij` as the code reads it: `pvalue ? *pvalue : 0`. -/
def sp_matrix_value (self : sp_matrix) (i j : Int) : ℚ :=
  (sp_matrix_get self i j).getD 0

/-- The call `realloc(p, n * sizeof *p)` for `n > 0`: the old content is kept, the
new cells are indeterminate (never read before written; `0` here). -/
def realloc {α : Type} [Zero α] (p : List α) (n : Int) : List α :=
  (p ++ List.replicate n.toNat 0).take n.toNat

/-- Lines 1118-1121: `last_index++; values[last_index] = value;
indexes[last_index] = j`.  A store outside the buffers is the abort. -/
def indexed_array_append (row : indexed_array) (j : Int) (value : ℚ) :
    Option indexed_array :=
  let last_index := row.last_index + 1
  if 0 ≤ last_index ∧ last_index.toNat < row.values.length
      ∧ last_index.toNat < row.indexes.length then
    some { row with
      last_index := last_index
      values := row.values.set last_index.toNat value
      indexes := row.indexes.set last_index.toNat j }
  else none

/-- Function `sp_matrix_element_add` (line 1082).  Out-of-range `(i,j)` leaves the
matrix as it is.  `realloc` to a non-positive size returns null, and
`assert(indexes)` aborts. -/
def sp_matrix_element_add (self : sp_matrix) (i j : Int) (value : ℚ) :
    Option sp_matrix :=
  if 0 ≤ i ∧ i < self.rows_count ∧ 0 ≤ j ∧ j < self.cols_count then
    let row := self.row i.toNat
    match indexed_array_find row j with
    | some index =>
      some { self with
        rows := self.rows.set i.toNat
          { row with values := row.values.set index (row.values.getD index 0 + value) } }
    | none =>
      if row.last_index = row.width - 1 then
        let new_width := row.width * 2
        if new_width ≤ 0 then none
        else
          (indexed_array_append
            { row with
              indexes := realloc row.indexes new_width
              values := realloc row.values new_width
              width := new_width } j value).map
            (fun row1 => { self with rows := self.rows.set i.toNat row1, ordered := false })
      else
        (indexed_array_append row j value).map
          (fun row1 => { self with rows := self.rows.set i.toNat row1 })
  else some self

/-! ## Sorting the rows (lines 1125-1187) -/

/-- Function `indexed_array_swap` (line 1126). -/
def indexed_array_swap (self : indexed_array) (i j : Int) : indexed_array :=
  let tmp_idx := self.indexes.getD i.toNat 0
  let indexes1 := self.indexes.set i.toNat (self.indexes.getD j.toNat 0)
  let indexes2 := indexes1.set j.toNat tmp_idx
  let tmp_val := self.values.getD i.toNat 0
  let values1 := self.values.set i.toNat (self.values.getD j.toNat 0)
  let values2 := values1.set j.toNat tmp_val
  { self with indexes := indexes2, values := values2 }

/-- One pass of the partition loop of `indexed_array_sort`
(lines 1164-1171), on the pair `(self, pivot)`. -/
def indexed_array_sort_step (tmp_idx : Int) (i : Int)
    (s : indexed_array × Int) : indexed_array × Int :=
  if s.1.indexes.getD i.toNat 0 ≤ tmp_idx then
    (indexed_array_swap s.1 i s.2, s.2 + 1)
  else s

/-- The partition of `indexed_array_sort` (lines 1158-1172): returns the
array and the final place of the pivot. -/
def indexed_array_partition (self : indexed_array) (l r : Int) :
    indexed_array × Int :=
  let pivot := Int.tdiv (r + l) 2
  let tmp_idx := self.indexes.getD pivot.toNat 0
  let self1 := indexed_array_swap self pivot r
  let s := loop (r - l).toNat
    (fun t s => indexed_array_sort_step tmp_idx (l + (t : Int)) s) (self1, l)
  (indexed_array_swap s.1 r s.2, s.2)

/-- Function `indexed_array_sort` (line 1138) with a bound `fuel` on the depth of the
recursion; `none` when the bound is reached. -/
def indexed_array_sort_fuel : Nat → indexed_array → Int → Int → Option indexed_array
  | 0, _, _, _ => none
  | fuel + 1, self, l, r =>
    if l < r then
      if r - l = 1 then
        if self.indexes.getD l.toNat 0 > self.indexes.getD r.toNat 0 then
          some (indexed_array_swap self r l)
        else some self
      else
        let p := indexed_array_partition self l r
        match indexed_array_sort_fuel fuel p.1 l (p.2 - 1) with
        | none => none
        | some self1 => indexed_array_sort_fuel fuel self1 (p.2 + 1) r
    else some self

/-- Function `indexed_array_sort` (line 1138): the recursion is at most
`r - l + 1` deep. -/
def indexed_array_sort (self : indexed_array) (l r : Int) : Option indexed_array :=
  indexed_array_sort_fuel ((r - l).toNat + 1) self l r

/-- The loop of `sp_matrix_reorder` (lines 1184-1185), `n` rows done. -/
def sp_matrix_reorder_loop : Nat → sp_matrix → Option sp_matrix
  | 0, self => some self
  | n + 1, self =>
    match sp_matrix_reorder_loop n self with
    | none => none
    | some self1 =>
      (indexed_array_sort (self1.row n) 0 (self1.row n).last_index).map
        (fun row1 => { self1 with rows := self1.rows.set n row1 })

/-- Function `sp_matrix_reorder` (line 1180). -/
def sp_matrix_reorder (self : sp_matrix) : Option sp_matrix :=
  (sp_matrix_reorder_loop self.rows_count.toNat self).map
    (fun self1 => { self1 with ordered := true })

/-! ## Reachable matrices -/

/-- A call that changes a sparse matrix. -/
inductive sp_matrix_op where
  | add (i j : Int) (v : ℚ)
  | reorder
  deriving DecidableEq

/-- The effect of one call. -/
def sp_matrix_apply (self : sp_matrix) : sp_matrix_op → Option sp_matrix
  | .add i j v => sp_matrix_element_add self i j v
  | .reorder => sp_matrix_reorder self

/-- The effect of a sequence of calls, `none` when one of them aborts. -/
def sp_matrix_run (self : sp_matrix) : List sp_matrix_op → Option sp_matrix
  | [] => some self
  | op :: ops =>
    match sp_matrix_apply self op with
    | none => none
    | some self1 => sp_matrix_run self1 ops

/-- The adds of `test_solver` (lines 3600-3607). -/
def test_solver_ops : List sp_matrix_op :=
  [.add 0 2 (-2), .add 0 0 1, .add 1 1 1, .add 2 2 5, .add 2 0 (-2)]

/-! ## Invariants and specification predicates -/

/-- The invariant of a row of a matrix with `cols` columns: the buffers have
`width` cells, the used slots `0..last_index` fit, hold column numbers in
range and hold no column twice. -/
@[mk_iff]
structure indexed_array_wf (cols : Int) (row : indexed_array) : Prop where
  last_ge : -1 ≤ row.last_index
  idx_len : row.indexes.length = row.width.toNat
  val_len : row.values.length = row.width.toNat
  last_lt : row.last_index + 1 ≤ row.width.toNat
  in_range : ∀ k : Nat, k < (row.last_index + 1).toNat →
    0 ≤ row.indexes.getD k 0 ∧ row.indexes.getD k 0 < cols
  nodup : ∀ k : Nat, k < (row.last_index + 1).toNat → ∀ k' : Nat, k' < k →
    row.indexes.getD k' 0 ≠ row.indexes.getD k 0

instance (cols : Int) (row : indexed_array) : Decidable (indexed_array_wf cols row) :=
  decidable_of_iff _ (indexed_array_wf_iff cols row).symm

/-- The invariant of a sparse matrix: `rows_count` rows, each well formed. -/
@[mk_iff]
structure sp_matrix_wf (mtx : sp_matrix) : Prop where
  rows_len : mtx.rows.length = mtx.rows_count.toNat
  rows_wf : ∀ i : Nat, i < mtx.rows_count.toNat →
    indexed_array_wf mtx.cols_count (mtx.row i)

instance (mtx : sp_matrix) : Decidable (sp_matrix_wf mtx) :=
  decidable_of_iff _ (sp_matrix_wf_iff mtx).symm

/-- Every row has room to grow: its capacity is positive. -/
def sp_matrix_cap (self : sp_matrix) : Prop :=
  ∀ i : Nat, i < self.rows_count.toNat → 0 < (self.row i).width

/-- The value a row holds for column `j`, `none` when the column is not
stored. -/
def indexed_array_get (row : indexed_array) (j : Int) : Option ℚ :=
  (indexed_array_find row j).map (fun k => row.values.getD k 0)

/-- The effect of `sp_matrix_element_add` on the row it touches: either the
column was found and its value was increased, or the column was appended in
slot `last_index + 1`, the slots before it being kept. -/
def indexed_array_added (row row1 : indexed_array) (j : Int) (v : ℚ) : Prop :=
  (∃ index, indexed_array_find row j = some index ∧
    row1 = { row with values := row.values.set index (row.values.getD index 0 + v) })
  ∨ (indexed_array_find row j = none ∧ row1.last_index = row.last_index + 1
      ∧ 0 < row1.width
      ∧ row1.indexes.length = row1.width.toNat
      ∧ row1.values.length = row1.width.toNat
      ∧ row1.last_index + 1 ≤ row1.width.toNat
      ∧ row1.indexes.getD (row.last_index + 1).toNat 0 = j
      ∧ row1.values.getD (row.last_index + 1).toNat 0 = v
      ∧ ∀ k : Nat, (k : Int) ≤ row.last_index →
          row1.indexes.getD k 0 = row.indexes.getD k 0
            ∧ row1.values.getD k 0 = row.values.getD k 0)

/-- The row `row1` holds the (column, value) pairs of `row`, those of the
slots `l..r` rearranged among these slots, and nothing else is changed. -/
def indexed_array_permuted (row row1 : indexed_array) (l r : Int) : Prop :=
  row1.width = row.width ∧ row1.last_index = row.last_index
    ∧ row1.indexes.length = row.indexes.length
    ∧ row1.values.length = row.values.length
    ∧ ∃ σ : Equiv.Perm ℕ, (∀ k : ℕ, ((k : Int) < l ∨ r < (k : Int)) → σ k = k)
        ∧ ∀ k : ℕ, row1.indexes.getD k 0 = row.indexes.getD (σ k) 0
            ∧ row1.values.getD k 0 = row.values.getD (σ k) 0

/-- The column numbers in the slots `l..r` do not decrease. -/
def indexed_array_sorted (row : indexed_array) (l r : Int) : Prop :=
  ∀ k k' : ℕ, l ≤ (k : Int) → k < k' → (k' : Int) ≤ r →
    row.indexes.getD k 0 ≤ row.indexes.getD k' 0

/-- The matrix of `test_solver` after its five adds (line 3607), before
`sp_matrix_reorder`. -/
def test_solver_mtx : sp_matrix :=
  { rows_count := 3
    cols_count := 3
    ordered := false
    rows :=
      [ { width := 2, last_index := 1, indexes := [2, 0], values := [-2, 1] },
        { width := 2, last_index := 0, indexes := [1, 0], values := [1, 0] },
        { width := 2, last_index := 1, indexes := [2, 0], values := [5, -2] } ] }

/-! ## Matrix-vector product (line 1189) -/

/-- Function `sp_matrix_mv` (line 1189): `y = A*x`, stored into the buffer `y`. -/
def sp_matrix_mv (self : sp_matrix) (x y : List ℚ) : List ℚ :=
  loop self.rows_count.toNat
    (fun i y =>
      loop ((self.row i).last_index + 1).toNat
        (fun j y => y.set i (y.getD i 0
          + (self.row i).values.getD j 0
            * x.getD ((self.row i).indexes.getD j 0).toNat 0))
        (y.set i 0)) y

/-! ## Skyline (CSLR) format (lines 291-305, 962-1047) -/

/-- The loop `for (j = a; j < b; ++j) s = f j s`. -/
def range_loop {σ : Type} (a b : Int) (f : Int → σ → σ) (s : σ) : σ :=
  loop (b - a).toNat (fun t s => f (a + (t : Int)) s) s

/-- Sparse matrix in CSLR (skyline) format, `sp_matrix_skyline` (line 291). -/
structure sp_matrix_skyline where
  rows_count : Int
  cols_count : Int
  nonzeros : Int
  tr_nonzeros : Int
  diag : List ℚ
  lower_triangle : List ℚ
  upper_triangle : List ℚ
  jptr : List Int
  iptr : List Int
  deriving DecidableEq

/-- The counting loops of `init_sp_matrix_skyline` (lines 984-991): the pair
`(l_count, u_count)`. -/
def skyline_count (mtx : sp_matrix) : Int × Int :=
  loop mtx.rows_count.toNat
    (fun i c =>
      loop ((mtx.row i).last_index + 1).toNat
        (fun j c =>
          if (mtx.row i).indexes.getD j 0 > (i : Int) then (c.1, c.2 + 1)
          else if (mtx.row i).indexes.getD j 0 < (i : Int) then (c.1 + 1, c.2)
          else c) c) (0, 0)

/-- The variables of the fill loops of `init_sp_matrix_skyline`
(lines 1013-1044): the flag `iptr`, the counter `l_count` and the arrays
being filled. -/
structure skyline_fill where
  iptr_flag : Int
  l_count : Int
  jptr : List Int
  lower_triangle : List ℚ
  upper_triangle : List ℚ
  iptr : List Int

/-- The body of the loop over the slots `j` of row `i` (lines 1020-1041).
The search of lines 1033-1039 stores the paired element `(column, i)` when
the row `column` holds it and leaves `upper_triangle[l_count]` as it is
otherwise. -/
def skyline_fill_slot (mtx : sp_matrix) (i j : Nat) (s : skyline_fill) : skyline_fill :=
  if (mtx.row i).indexes.getD j 0 < (i : Int) then
    let iptr_flag := if s.iptr_flag = -1 then s.l_count else s.iptr_flag
    let column := (mtx.row i).indexes.getD j 0
    { iptr_flag := iptr_flag
      l_count := s.l_count + 1
      jptr := s.jptr.set s.l_count.toNat column
      lower_triangle := s.lower_triangle.set s.l_count.toNat ((mtx.row i).values.getD j 0)
      upper_triangle :=
        match indexed_array_find (mtx.row column.toNat) (i : Int) with
        | some k =>
          s.upper_triangle.set s.l_count.toNat ((mtx.row column.toNat).values.getD k 0)
        | none => s.upper_triangle
      iptr := s.iptr }
  else s

/-- The body of the loop over the rows `i` (lines 1015-1043). -/
def skyline_fill_row (mtx : sp_matrix) (i : Nat) (s : skyline_fill) : skyline_fill :=
  let s1 := loop ((mtx.row i).last_index + 1).toNat (skyline_fill_slot mtx i)
    { s with iptr_flag := -1, iptr := s.iptr.set i 0 }
  { s1 with iptr := s1.iptr.set i (if s1.iptr_flag = -1 then s1.l_count else s1.iptr_flag) }

/-- Function `init_sp_matrix_skyline` (line 962).  The two `assert`s abort.  The
buffers come from `malloc`: those of which every cell is stored before the
return start zero-filled here; `upper_triangle`, a cell of which stays
unwritten when the paired element is not stored, starts with the
indeterminate content `junk`. -/
def init_sp_matrix_skyline (junk : Nat → ℚ) (mtx : sp_matrix) : Option sp_matrix_skyline :=
  if mtx.ordered ≠ true then none
  else
    let nonzeros := loop mtx.rows_count.toNat
      (fun i (s : Int) => s + ((mtx.row i).last_index + 1)) 0
    let c := skyline_count mtx
    if c.1 ≠ c.2 then none
    else
      let diag := loop mtx.rows_count.toNat
        (fun i (diag : List ℚ) => diag.set i (sp_matrix_value mtx (i : Int) (i : Int)))
        (List.replicate mtx.rows_count.toNat 0)
      let s := loop mtx.rows_count.toNat (skyline_fill_row mtx)
        { iptr_flag := -1
          l_count := 0
          jptr := List.replicate c.1.toNat 0
          lower_triangle := List.replicate c.1.toNat 0
          upper_triangle := (List.range c.2.toNat).map junk
          iptr := List.replicate (mtx.rows_count + 1).toNat 0 }
      some
        { rows_count := mtx.rows_count
          cols_count := mtx.cols_count
          nonzeros := nonzeros
          tr_nonzeros := c.1
          diag := diag
          lower_triangle := s.lower_triangle
          upper_triangle := s.upper_triangle
          jptr := s.jptr
          iptr := s.iptr.set mtx.rows_count.toNat c.1 }

/-! ## ILU decomposition over the skyline (lines 311-317, 1471-1616) -/

/-- ILU decomposition in skyline format, `sp_matrix_skyline_ilu`
(line 311). -/
structure sp_matrix_skyline_ilu where
  parent : sp_matrix_skyline
  ilu_diag : List ℚ
  ilu_lowertr : List ℚ
  ilu_uppertr : List ℚ
  deriving DecidableEq

/-- The double loop that both `L` and `U` entries use (lines 1498-1506 and
1536-1542): the sum of `ilu_lowertr[i] * ilu_uppertr[l]` over the slots `i`
of row `k` and `l` of row `q` with the same column. -/
def ilu_sum (self : sp_matrix_skyline_ilu) (k q : Int) : ℚ :=
  let parent := self.parent
  range_loop (parent.iptr.getD k.toNat 0) (parent.iptr.getD (k + 1).toNat 0)
    (fun i sum =>
      range_loop (parent.iptr.getD q.toNat 0) (parent.iptr.getD (q + 1).toNat 0)
        (fun l sum =>
          if parent.jptr.getD i.toNat 0 = parent.jptr.getD l.toNat 0 then
            sum + self.ilu_lowertr.getD i.toNat 0 * self.ilu_uppertr.getD l.toNat 0
          else sum) sum) 0

/-- The body of the loop over `k` of `init_copy_sp_matrix_skyline_ilu`
(lines 1489-1545). -/
def ilu_step (k : Nat) (self : sp_matrix_skyline_ilu) : sp_matrix_skyline_ilu :=
  let parent := self.parent
  -- lines 1490-1509: the row `k` of `L`
  let self1 := range_loop (parent.iptr.getD k 0) (parent.iptr.getD (k + 1) 0)
    (fun j (self : sp_matrix_skyline_ilu) =>
      let q := parent.jptr.getD j.toNat 0
      let sum := ilu_sum self (k : Int) q
      { self with
        ilu_lowertr := self.ilu_lowertr.set j.toNat
          ((parent.lower_triangle.getD j.toNat 0 - sum) / self.ilu_diag.getD q.toNat 0) })
    self
  -- lines 1515-1518: the diagonal element `U_kk`
  let sum := range_loop (parent.iptr.getD k 0) (parent.iptr.getD (k + 1) 0)
    (fun i sum => sum + self1.ilu_lowertr.getD i.toNat 0 * self1.ilu_uppertr.getD i.toNat 0) 0
  let self2 := { self1 with ilu_diag := self1.ilu_diag.set k (parent.diag.getD k 0 - sum) }
  -- lines 1520-1545: the row `k` of `U`
  range_loop (k : Int) parent.rows_count
    (fun j (self : sp_matrix_skyline_ilu) =>
      range_loop (parent.iptr.getD j.toNat 0) (parent.iptr.getD (j + 1).toNat 0)
        (fun q (self : sp_matrix_skyline_ilu) =>
          if (k : Int) = parent.jptr.getD q.toNat 0 then
            let sum := ilu_sum self (k : Int) j
            { self with
              ilu_uppertr := self.ilu_uppertr.set q.toNat
                (parent.upper_triangle.getD q.toNat 0 - sum) }
          else self) self)
    self2

/-- Function `init_copy_sp_matrix_skyline_ilu` (line 1471).  A division by a zero
`ilu_diag[q]` is not detected by the code; here it yields `0` (in C an
infinity or a NaN). -/
def init_copy_sp_matrix_skyline_ilu (parent : sp_matrix_skyline) : sp_matrix_skyline_ilu :=
  loop parent.rows_count.toNat ilu_step
    { parent := parent
      ilu_diag := List.replicate parent.rows_count.toNat 0
      ilu_lowertr := List.replicate parent.tr_nonzeros.toNat 0
      ilu_uppertr := List.replicate parent.tr_nonzeros.toNat 0 }

/-- The call `memset(p, 0, sizeof(real) * n)`. -/
def memset_zero (p : List ℚ) (n : Int) : List ℚ :=
  List.replicate n.toNat 0 ++ p.drop n.toNat

/-- The body of the loop of `sp_matrix_skyline_ilu_lower_mv`
(lines 1566-1568): row `i` of `y = L*x`. -/
def sp_matrix_skyline_ilu_lower_mv_row (self : sp_matrix_skyline_ilu) (x : List ℚ)
    (i : Nat) (y : List ℚ) : List ℚ :=
  range_loop (self.parent.iptr.getD i 0) (self.parent.iptr.getD (i + 1) 0)
    (fun j y => y.set i (y.getD i 0
      + x.getD (self.parent.jptr.getD j.toNat 0).toNat 0 * self.ilu_lowertr.getD j.toNat 0))
    (y.set i (x.getD i 0))

/-- Function `sp_matrix_skyline_ilu_lower_mv` (line 1558): `y = L*x`. -/
def sp_matrix_skyline_ilu_lower_mv (self : sp_matrix_skyline_ilu) (x y : List ℚ) : List ℚ :=
  loop self.parent.rows_count.toNat (sp_matrix_skyline_ilu_lower_mv_row self x)
    (memset_zero y self.parent.rows_count)

/-- The body of the second loop of `sp_matrix_skyline_ilu_upper_mv`
(lines 1583-1584): the column `i` of `U` above the diagonal, times `x[i]`,
is added to `y`. -/
def sp_matrix_skyline_ilu_upper_mv_row (self : sp_matrix_skyline_ilu) (x : List ℚ)
    (i : Nat) (y : List ℚ) : List ℚ :=
  range_loop (self.parent.iptr.getD i 0) (self.parent.iptr.getD (i + 1) 0)
    (fun j y => y.set (self.parent.jptr.getD j.toNat 0).toNat
      (y.getD (self.parent.jptr.getD j.toNat 0).toNat 0
        + x.getD i 0 * self.ilu_uppertr.getD j.toNat 0)) y

/-- Function `sp_matrix_skyline_ilu_upper_mv` (line 1572): `y = U*x`. -/
def sp_matrix_skyline_ilu_upper_mv (self : sp_matrix_skyline_ilu) (x y : List ℚ) : List ℚ :=
  loop self.parent.rows_count.toNat (sp_matrix_skyline_ilu_upper_mv_row self x)
    (loop self.parent.rows_count.toNat
      (fun i y => y.set i (x.getD i 0 * self.ilu_diag.getD i 0))
      (memset_zero y self.parent.rows_count))

/-- The body of the loop of `sp_matrix_skyline_ilu_lower_solve`
(lines 1597-1599), on the pair `(b, x)`. -/
def sp_matrix_skyline_ilu_lower_solve_row (self : sp_matrix_skyline_ilu) (i : Nat)
    (s : List ℚ × List ℚ) : List ℚ × List ℚ :=
  let b1 := range_loop (self.parent.iptr.getD i 0) (self.parent.iptr.getD (i + 1) 0)
    (fun j b => b.set i (b.getD i 0
      - s.2.getD (self.parent.jptr.getD j.toNat 0).toNat 0 * self.ilu_lowertr.getD j.toNat 0))
    s.1
  (b1, s.2.set i (b1.getD i 0))

/-- Function `sp_matrix_skyline_ilu_lower_solve` (line 1588): solves `L*x = b`;
returns the pair `(b, x)`, `b` being modified. -/
def sp_matrix_skyline_ilu_lower_solve (self : sp_matrix_skyline_ilu) (b x : List ℚ) :
    List ℚ × List ℚ :=
  loop self.parent.rows_count.toNat (sp_matrix_skyline_ilu_lower_solve_row self)
    (b, memset_zero x self.parent.rows_count)

/-- The body of the loop of `sp_matrix_skyline_ilu_upper_solve`
(lines 1612-1614), on the pair `(b, x)`. -/
def sp_matrix_skyline_ilu_upper_solve_row (self : sp_matrix_skyline_ilu) (i : Nat)
    (s : List ℚ × List ℚ) : List ℚ × List ℚ :=
  let x1 := s.2.set i (s.1.getD i 0 / self.ilu_diag.getD i 0)
  let b1 := range_loop (self.parent.iptr.getD i 0) (self.parent.iptr.getD (i + 1) 0)
    (fun j b => b.set (self.parent.jptr.getD j.toNat 0).toNat
      (b.getD (self.parent.jptr.getD j.toNat 0).toNat 0
        - x1.getD i 0 * self.ilu_uppertr.getD j.toNat 0)) s.1
  (b1, x1)

/-- Function `sp_matrix_skyline_ilu_upper_solve` (line 1603): solves `U*x = b`;
returns the pair `(b, x)`, `b` being modified.  The loop runs `i` from
`rows_count - 1` down to `0`; a division by a zero `ilu_diag[i]` yields `0`
here (in C an infinity or a NaN). -/
def sp_matrix_skyline_ilu_upper_solve (self : sp_matrix_skyline_ilu) (b x : List ℚ) :
    List ℚ × List ℚ :=
  loop self.parent.rows_count.toNat
    (fun t s => sp_matrix_skyline_ilu_upper_solve_row self
      (self.parent.rows_count.toNat - 1 - t) s)
    (b, memset_zero x self.parent.rows_count)

/-- The adds of `test_ilu` (lines 3676-3685): the 7x7 matrix from Balandin. -/
def test_ilu_ops : List sp_matrix_op :=
  [ .add 0 0 9, .add 0 3 3, .add 0 4 1, .add 0 6 1,
    .add 1 1 11, .add 1 2 2, .add 1 3 1, .add 1 6 2,
    .add 2 1 1, .add 2 2 10, .add 2 3 2,
    .add 3 0 2, .add 3 1 1, .add 3 2 2, .add 3 3 9, .add 3 4 1,
    .add 4 0 1, .add 4 3 1, .add 4 4 12, .add 4 6 1,
    .add 5 5 8,
    .add 6 0 2, .add 6 1 2, .add 6 4 3, .add 6 6 8 ]

/-! ## Conjugate gradients (lines 1200-1311) -/

/-- The constant `MAX_ITER` (line 31). -/
def MAX_ITER : Int := 10000

/-- The constant `TOLERANCE` (line 32). -/
def TOLERANCE : ℚ := 1e-10

/-- The call `memcpy(dst, src, sizeof(real) * n)`. -/
def memcpy (dst src : List ℚ) (n : Int) : List ℚ :=
  src.take n.toNat ++ dst.drop n.toNat

/-- The variables of the loop of `sp_matrix_solve_cg`. -/
structure cg_vars where
  x : List ℚ
  r : List ℚ
  p : List ℚ
  temp : List ℚ
  residn : ℚ
  j : Int
  deriving DecidableEq

/-- Lines 1262-1289 of the loop body: `temp = A*p`, the scalar products
`a1 = (r,r)` and `a2 = (p,A*p)`, `alpha = a1/a2`, the updates of `x` and `r`
and the norm `residn` of the new residual.  Returns the variables and `a1`. -/
def cg_update (self : sp_matrix) (msize : Nat) (s : cg_vars) : cg_vars × ℚ :=
  let temp := sp_matrix_mv self s.p s.temp
  let a := loop msize
    (fun i (a : ℚ × ℚ) =>
      (a.1 + s.r.getD i 0 * s.r.getD i 0, a.2 + s.p.getD i 0 * temp.getD i 0)) (0, 0)
  let alpha := a.1 / a.2
  let x := loop msize (fun i (x : List ℚ) => x.set i (x.getD i 0 + alpha * s.p.getD i 0)) s.x
  let r := loop msize (fun i (r : List ℚ) => r.set i (r.getD i 0 - alpha * temp.getD i 0)) s.r
  let residn := loop (msize - 1)
    (fun t (residn : ℚ) => if |r.getD (t + 1) 0| > residn then |r.getD (t + 1) 0| else residn)
    |r.getD 0 0|
  ({ s with x := x, r := r, temp := temp, residn := residn }, a.1)

/-- Lines 1293-1303 of the loop body: `beta = (r,r)/a1` and the new search
direction `p = r + beta*p`. -/
def cg_direction (msize : Nat) (s : cg_vars) (a1 : ℚ) : cg_vars :=
  let a2 := loop msize (fun i (a2 : ℚ) => a2 + s.r.getD i 0 * s.r.getD i 0) 0
  let beta := a2 / a1
  { s with p := loop msize (fun i (p : List ℚ) => p.set i (s.r.getD i 0 + beta * p.getD i 0)) s.p }

/-- The loop of `sp_matrix_solve_cg` (lines 1260-1304) with `n` passes left:
it ends at the `break` of line 1291 or when no pass is left. -/
def sp_matrix_solve_cg_loop (self : sp_matrix) (msize : Nat) (tol : ℚ) :
    Nat → cg_vars → cg_vars
  | 0, s => s
  | n + 1, s =>
    let u := cg_update self msize s
    if u.1.residn < tol then u.1
    else sp_matrix_solve_cg_loop self msize tol n
      { cg_direction msize u.1 u.2 with j := u.1.j + 1 }

/-- Function `sp_matrix_solve_cg` (line 1212).  `max_iter` and `tolerance` are
pointers (`none` is null): both are stored through on return, which aborts
when one is null.  Returns `(x, *max_iter, *tolerance)`. -/
def sp_matrix_solve_cg (self : sp_matrix) (b x0 : List ℚ) (max_iter : Option Int)
    (tolerance : Option ℚ) (x : List ℚ) : Option (List ℚ × Int × ℚ) :=
  let msize := self.rows_count.toNat
  let max_iterations := match max_iter with
    | some m => m
    | none => MAX_ITER
  let tol := match tolerance with
    | some t => t
    | none => TOLERANCE
  let r := List.replicate msize (0 : ℚ)
  let p := List.replicate msize (0 : ℚ)
  let temp := List.replicate msize (0 : ℚ)
  let x := loop msize (fun i (x : List ℚ) => x.set i (x0.getD i 0)) x
  let r := sp_matrix_mv self b r
  let r := loop msize (fun i (r : List ℚ) => r.set i (b.getD i 0 - r.getD i 0)) r
  let p := memcpy p r self.rows_count
  let s := sp_matrix_solve_cg_loop self msize tol max_iterations.toNat
    { x := x, r := r, p := p, temp := temp, residn := 0, j := 0 }
  match max_iter, tolerance with
  | some _, some _ => some (s.x, s.j, s.residn)
  | _, _ => none

/-- Function `sp_matrix_solve` (line 1200): reorder, then CG started from `x0 = b`
with `tolerance = 1e-15` and `max_iter = 20000`.  Returns the reordered
matrix and `x`. -/
def sp_matrix_solve (self : sp_matrix) (b x : List ℚ) : Option (sp_matrix × List ℚ) :=
  match sp_matrix_reorder self with
  | none => none
  | some self1 =>
    (sp_matrix_solve_cg self1 b b (some 20000) (some 1e-15) x).map
      (fun res => (self1, res.1))

/-! ## Prescribed displacements (lines 2360-2388) -/

/-- The fields of `fea_solver` (line 323) that the boundary conditions use. -/
structure fea_solver where
  global_mtx : sp_matrix
  global_forces_vct : List ℚ
  deriving DecidableEq

/-- The store `*pvalue = v` through the pointer to slot `k` of row `i`. -/
def sp_matrix_store (self : sp_matrix) (i k : Nat) (v : ℚ) : sp_matrix :=
  { self with
    rows := self.rows.set i
      { self.row i with values := (self.row i).values.set k v } }

/-- The body of the loop of `solver_apply_single_bc` (lines 2373-2384). -/
def solver_apply_single_bc_step (index : Int) (presc : ℚ) (j : Nat) (self : fea_solver) :
    fea_solver :=
  let self1 :=
    match sp_matrix_element self.global_mtx (j : Int) index with
    | some pvalue =>
      { self with
        global_forces_vct := self.global_forces_vct.set j
          (self.global_forces_vct.getD j 0
            - (self.global_mtx.row j).values.getD pvalue 0 * presc)
        global_mtx := sp_matrix_store self.global_mtx j pvalue 0 }
    | none => self
  match sp_matrix_element self1.global_mtx index (j : Int) with
  | some pvalue =>
    { self1 with global_mtx := sp_matrix_store self1.global_mtx index.toNat pvalue 0 }
  | none => self1

/-- Function `solver_apply_single_bc` (line 2360); `assert(pvalue)` aborts when the
diagonal element is not stored. -/
def solver_apply_single_bc (self : fea_solver) (index : Int) (presc : ℚ) :
    Option fea_solver :=
  match sp_matrix_element self.global_mtx index index with
  | none => none
  | some pvalue1 =>
    let value := (self.global_mtx.row index.toNat).values.getD pvalue1 0
    let self1 := loop self.global_mtx.rows_count.toNat
      (solver_apply_single_bc_step index presc) self
    some { self1 with
      global_mtx := sp_matrix_store self1.global_mtx index.toNat pvalue1 value
      global_forces_vct := self1.global_forces_vct.set index.toNat (value * presc) }

/-- A sequence of calls of `solver_apply_single_bc`, one for each prescribed
dof `(index, presc)`. -/
def solver_apply_bcs (self : fea_solver) : List (Int × ℚ) → Option fea_solver
  | [] => some self
  | bc :: bcs =>
    match solver_apply_single_bc self bc.1 bc.2 with
    | none => none
    | some self1 => solver_apply_bcs self1 bcs

/-! ## The data of the tests (lines 3583-3731) -/

/-- The matrix of `test_solver` after `sp_matrix_reorder` (line 3610). -/
def test_solver_mtx_reordered : sp_matrix :=
  { rows_count := 3
    cols_count := 3
    ordered := true
    rows :=
      [ { width := 2, last_index := 1, indexes := [0, 2], values := [1, -2] },
        { width := 2, last_index := 0, indexes := [1, 0], values := [1, 0] },
        { width := 2, last_index := 1, indexes := [0, 2], values := [-2, 5] } ] }

/-- The matrix of `test_ilu` after its adds and `sp_matrix_reorder`
(line 3688). -/
def test_ilu_mtx : sp_matrix :=
  { rows_count := 7
    cols_count := 7
    ordered := true
    rows :=
      [ { width := 5, last_index := 3, indexes := [0, 3, 4, 6, 0], values := [9, 3, 1, 1, 0] },
        { width := 5, last_index := 3, indexes := [1, 2, 3, 6, 0], values := [11, 2, 1, 2, 0] },
        { width := 5, last_index := 2, indexes := [1, 2, 3, 0, 0], values := [1, 10, 2, 0, 0] },
        { width := 5, last_index := 4, indexes := [0, 1, 2, 3, 4], values := [2, 1, 2, 9, 1] },
        { width := 5, last_index := 3, indexes := [0, 3, 4, 6, 0], values := [1, 1, 12, 1, 0] },
        { width := 5, last_index := 0, indexes := [5, 0, 0, 0, 0], values := [8, 0, 0, 0, 0] },
        { width := 5, last_index := 3, indexes := [0, 1, 4, 6, 0], values := [2, 2, 3, 8, 0] } ] }

/-- The skyline view of `test_ilu` (line 3689). -/
def test_ilu_skyline : sp_matrix_skyline :=
  { rows_count := 7
    cols_count := 7
    nonzeros := 25
    tr_nonzeros := 9
    diag := [9, 11, 10, 9, 12, 8, 8]
    lower_triangle := [1, 2, 1, 2, 1, 1, 2, 2, 3]
    upper_triangle := [2, 3, 1, 2, 1, 1, 1, 2, 1]
    jptr := [1, 0, 1, 2, 0, 3, 0, 1, 4]
    iptr := [0, 0, 0, 1, 4, 6, 6, 9] }

/-- The array `lu_diag_expected` of `test_ilu` (line 3632). -/
def lu_diag_expected : List ℚ :=
  [9.000000, 11.000000, 9.818182, 7.888889, 11.823161, 8.000000, 7.205303]

/-- The array `lu_lowertr_expected` of `test_ilu` (line 3639). -/
def lu_lowertr_expected : List ℚ :=
  [0.090909, 0.222222, 0.090909, 0.185185, 0.111111, 0.084507, 0.222222, 0.181818, 0.234944]

/-- The array `lu_uppertr_expected` of `test_ilu` (line 3648). -/
def lu_uppertr_expected : List ℚ :=
  [2.000000, 3.000000, 1.000000, 1.909091, 1.000000, 0.777778, 1.000000, 2.000000, 0.888889]

/-- The array `x_exact` of `test_ilu` (line 3627). -/
def x_exact : List ℚ := [1, 2, 3, 0, 3, 2, 1]

/-- The skyline view is valid for the triangular products and solves: every
column index stored for row `i` (the slots `iptr[i] .. iptr[i+1]-1`) is a
row number below `i`. -/
def sp_matrix_skyline_valid (self : sp_matrix_skyline) : Prop :=
  ∀ i : Nat, i < self.rows_count.toNat →
    ∀ t : Nat, t < (self.iptr.getD (i + 1) 0 - self.iptr.getD i 0).toNat →
      0 ≤ self.jptr.getD (self.iptr.getD i 0 + (t : Int)).toNat 0
        ∧ self.jptr.getD (self.iptr.getD i 0 + (t : Int)).toNat 0 < (i : Int)

instance (self : sp_matrix_skyline) : Decidable (sp_matrix_skyline_valid self) := by
  unfold sp_matrix_skyline_valid
  infer_instance

/-- The off-diagonal part of row `i` of `L*x`: the sum over the slots `j` of
row `i` of `x[jptr[j]] * ilu_lowertr[j]`. -/
def ilu_lower_dot (self : sp_matrix_skyline_ilu) (x : List ℚ) (i : Nat) : ℚ :=
  ∑ t in Finset.range (self.parent.iptr.getD (i + 1) 0 - self.parent.iptr.getD i 0).toNat,
    x.getD (self.parent.jptr.getD (self.parent.iptr.getD i 0 + (t : Int)).toNat 0).toNat 0
      * self.ilu_lowertr.getD (self.parent.iptr.getD i 0 + (t : Int)).toNat 0

/-- What the slots of row `i` add to the cell `m` of the buffer in
`sp_matrix_skyline_ilu_upper_mv` (and take from it in
`sp_matrix_skyline_ilu_upper_solve`), `c` being `x[i]`: the sum of
`c * ilu_uppertr[j]` over the slots `j` of row `i` with `jptr[j] = m`. -/
def ilu_upper_scatter (self : sp_matrix_skyline_ilu) (c : ℚ) (i m : Nat) : ℚ :=
  ∑ t in Finset.range (self.parent.iptr.getD (i + 1) 0 - self.parent.iptr.getD i 0).toNat,
    if (self.parent.jptr.getD (self.parent.iptr.getD i 0 + (t : Int)).toNat 0).toNat = m then
      c * self.ilu_uppertr.getD (self.parent.iptr.getD i 0 + (t : Int)).toNat 0
    else 0

/-- The matrix `K1` stores the same positions as `K`, in the same slots:
only values differ. -/
def sp_matrix_same_pattern (K K1 : sp_matrix) : Prop :=
  K1.rows_count = K.rows_count ∧ K1.cols_count = K.cols_count
    ∧ K1.rows.length = K.rows.length ∧ K1.ordered = K.ordered
    ∧ ∀ i : Nat, (K1.row i).width = (K.row i).width
        ∧ (K1.row i).last_index = (K.row i).last_index
        ∧ (K1.row i).indexes = (K.row i).indexes
        ∧ (K1.row i).values.length = (K.row i).values.length

/-- A solver state for the examples of the boundary conditions: the matrix
of `test_solver` with the right-hand side `(-5, 2, 13)`. -/
def test_solver_bc : fea_solver :=
  { global_mtx := test_solver_mtx
    global_forces_vct := [-5, 2, 13] }

/-- The number of slots among the first `n` of row `i` that hold a column
below the diagonal. -/
def skyline_lower_in_row (mtx : sp_matrix) (i n : Nat) : Nat :=
  ∑ k in Finset.range n, if (mtx.row i).indexes.getD k 0 < (i : Int) then 1 else 0

/-- The number of slots among the first `n` of row `i` that hold a column
above the diagonal. -/
def skyline_upper_in_row (mtx : sp_matrix) (i n : Nat) : Nat :=
  ∑ k in Finset.range n, if (mtx.row i).indexes.getD k 0 > (i : Int) then 1 else 0

/-- The number of stored elements below the diagonal in the rows before
`i`: the place in the triangle arrays where row `i` starts. -/
def skyline_lower_before (mtx : sp_matrix) (i : Nat) : Nat :=
  ∑ a in Finset.range i, skyline_lower_in_row mtx a ((mtx.row a).last_index + 1).toNat

/-- The number of stored elements above the diagonal in the rows before `i`. -/
def skyline_upper_before (mtx : sp_matrix) (i : Nat) : Nat :=
  ∑ a in Finset.range i, skyline_upper_in_row mtx a ((mtx.row a).last_index + 1).toNat

/-- What the fill loop leaves in `upper_triangle[p]` for the slot `k` of row
`i`: the value of the paired element `(column, i)` when row `column` stores
it, and what `malloc` left there otherwise. -/
def skyline_upper_expected (junk : Nat → ℚ) (mtx : sp_matrix) (i k p : Nat) : ℚ :=
  match indexed_array_find (mtx.row ((mtx.row i).indexes.getD k 0).toNat) (i : Int) with
  | some q => (mtx.row ((mtx.row i).indexes.getD k 0).toNat).values.getD q 0
  | none => junk p

/-- The invariant of the fill loops of `init_sp_matrix_skyline` when the
rows before `i` and the slots before `n` of row `i` are done: every element
below the diagonal met so far sits in the triangle arrays (of length `T`) at
the place given by the count of such elements before it, and the cells of
`upper_triangle` not reached yet are as `malloc` left them. -/
structure skyline_fill_inv (junk : Nat → ℚ) (mtx : sp_matrix) (T i n : Nat)
    (s : skyline_fill) : Prop where
  l_count : s.l_count = ((skyline_lower_before mtx i + skyline_lower_in_row mtx i n : Nat) : Int)
  jptr_len : s.jptr.length = T
  lower_len : s.lower_triangle.length = T
  upper_len : s.upper_triangle.length = T
  filled : ∀ a k : Nat,
    ((a < i ∧ k < ((mtx.row a).last_index + 1).toNat) ∨ (a = i ∧ k < n)) →
    (mtx.row a).indexes.getD k 0 < (a : Int) →
      s.jptr.getD (skyline_lower_before mtx a + skyline_lower_in_row mtx a k) 0
          = (mtx.row a).indexes.getD k 0
        ∧ s.lower_triangle.getD (skyline_lower_before mtx a + skyline_lower_in_row mtx a k) 0
          = (mtx.row a).values.getD k 0
        ∧ s.upper_triangle.getD (skyline_lower_before mtx a + skyline_lower_in_row mtx a k) 0
          = skyline_upper_expected junk mtx a k
              (skyline_lower_before mtx a + skyline_lower_in_row mtx a k)
  fresh : ∀ p : Nat, s.l_count ≤ (p : Int) → p < T → s.upper_triangle.getD p 0 = junk p

/-! ## Examples for the skyline view -/

/-- Five adds and a reorder that store `(1,0)` below and `(0,2)` above the
diagonal of a 3x3 matrix: as many elements below as above, but not at
mirrored places. -/
def skyline_asym_ops : List sp_matrix_op :=
  [.add 0 2 5, .add 0 0 1, .add 1 1 1, .add 1 0 7, .add 2 2 1, .reorder]

/-- The matrix that `skyline_asym_ops` builds. -/
def skyline_asym_mtx : sp_matrix :=
  { rows_count := 3
    cols_count := 3
    ordered := true
    rows :=
      [ { width := 2, last_index := 1, indexes := [0, 2], values := [1, 5] },
        { width := 2, last_index := 1, indexes := [0, 1], values := [7, 1] },
        { width := 2, last_index := 0, indexes := [2, 0], values := [1, 0] } ] }

/-! ## Examples for the boundary conditions -/

/-- Four adds that store a 2x2 matrix whose diagonal element `(0,0)` is
stored with the value `0`. -/
def bc_zero_diag_ops : List sp_matrix_op :=
  [.add 0 0 0, .add 0 1 5, .add 1 0 5, .add 1 1 1]

/-- The matrix that `bc_zero_diag_ops` builds, with the right-hand side
`(1, 2)`. -/
def bc_zero_diag : fea_solver :=
  { global_mtx :=
      { rows_count := 2
        cols_count := 2
        ordered := false
        rows :=
          [ { width := 2, last_index := 1, indexes := [0, 1], values := [0, 5] },
            { width := 2, last_index := 1, indexes := [0, 1], values := [5, 1] } ] }
    global_forces_vct := [1, 2] }

/-- What `solver_apply_single_bc(0, 3)` makes of `bc_zero_diag`. -/
def bc_zero_diag_after : fea_solver :=
  { global_mtx :=
      { rows_count := 2
        cols_count := 2
        ordered := false
        rows :=
          [ { width := 2, last_index := 1, indexes := [0, 1], values := [0, 0] },
            { width := 2, last_index := 1, indexes := [0, 1], values := [0, 1] } ] }
    global_forces_vct := [0, -13] }

/-- What `solver_apply_single_bc(0, 1)` makes of `test_solver_bc`. -/
def test_solver_bc_after : fea_solver :=
  { global_mtx :=
      { rows_count := 3
        cols_count := 3
        ordered := false
        rows :=
          [ { width := 2, last_index := 1, indexes := [2, 0], values := [0, 1] },
            { width := 2, last_index := 0, indexes := [1, 0], values := [1, 0] },
            { width := 2, last_index := 1, indexes := [2, 0], values := [5, 0] } ] }
    global_forces_vct := [1, 2, 15] }

/-! ## The course of the loop of `sp_matrix_solve_cg` -/

/-- The variables of `sp_matrix_solve_cg` when its loop is entered
(lines 1229-1257): `x = x0`, `r = b - A*b` (line 1252 multiplies `b`),
`p = r`, `residn = 0`, `j = 0`. -/
def sp_matrix_solve_cg_init (self : sp_matrix) (b x0 x : List ℚ) : cg_vars :=
  let msize := self.rows_count.toNat
  let r := List.replicate msize (0 : ℚ)
  let p := List.replicate msize (0 : ℚ)
  let temp := List.replicate msize (0 : ℚ)
  let x := loop msize (fun i (x : List ℚ) => x.set i (x0.getD i 0)) x
  let r := sp_matrix_mv self b r
  let r := loop msize (fun i (r : List ℚ) => r.set i (b.getD i 0 - r.getD i 0)) r
  let p := memcpy p r self.rows_count
  { x := x, r := r, p := p, temp := temp, residn := 0, j := 0 }

/-- The variables at the end of a pass that does not end at the `break`
(lines 1293-1303 and the `j ++` of line 1260). -/
def cg_next (self : sp_matrix) (msize : Nat) (s : cg_vars) : cg_vars :=
  { cg_direction msize (cg_update self msize s).1 (cg_update self msize s).2 with
    j := (cg_update self msize s).1.j + 1 }

/-- Whether the loop of `sp_matrix_solve_cg`, with `n` passes left, ends at
the `break` of line 1291 (the convergence test) and not by running out of
passes. -/
def sp_matrix_solve_cg_converged (self : sp_matrix) (msize : Nat) (tol : ℚ) :
    Nat → cg_vars → Bool
  | 0, _ => false
  | n + 1, s =>
    if (cg_update self msize s).1.residn < tol then true
    else sp_matrix_solve_cg_converged self msize tol n (cg_next self msize s)

/-- The number of passes the loop of `sp_matrix_solve_cg` makes through
the updates of `x` and `r` (lines 1278-1284), with `n` passes left. -/
def sp_matrix_solve_cg_passes (self : sp_matrix) (msize : Nat) (tol : ℚ) :
    Nat → cg_vars → Nat
  | 0, _ => 0
  | n + 1, s =>
    if (cg_update self msize s).1.residn < tol then 1
    else sp_matrix_solve_cg_passes self msize tol n (cg_next self msize s) + 1

/-! ## The divisors of the ILU decomposition -/

/-- The state of `init_copy_sp_matrix_skyline_ilu` before its loop
(lines 1478-1486). -/
def ilu_init (parent : sp_matrix_skyline) : sp_matrix_skyline_ilu :=
  { parent := parent
    ilu_diag := List.replicate parent.rows_count.toNat 0
    ilu_lowertr := List.replicate parent.tr_nonzeros.toNat 0
    ilu_uppertr := List.replicate parent.tr_nonzeros.toNat 0 }

/-- The body of the loop over the slots `j` of row `k` in `ilu_step`
(lines 1496-1508): the entry `L_kq`, `q = jptr[j]`, a quotient by
`ilu_diag[q]`. -/
def ilu_lower_entry (parent : sp_matrix_skyline) (k : Nat) (j : Int)
    (self : sp_matrix_skyline_ilu) : sp_matrix_skyline_ilu :=
  let q := parent.jptr.getD j.toNat 0
  let sum := ilu_sum self (k : Int) q
  { self with
    ilu_lowertr := self.ilu_lowertr.set j.toNat
      ((parent.lower_triangle.getD j.toNat 0 - sum) / self.ilu_diag.getD q.toNat 0) }

/-- The divisor of line 1508 for the slot `iptr[k] + t` of row `k`: the cell
`ilu_diag[q]`, `q = jptr[iptr[k] + t]`, as it is when the loop reaches this
slot. -/
def ilu_pivot (parent : sp_matrix_skyline) (k t : Nat) : ℚ :=
  let self0 := loop k ilu_step (ilu_init parent)
  let j := parent.iptr.getD k 0 + (t : Int)
  let self1 := range_loop (parent.iptr.getD k 0) j (ilu_lower_entry parent k) self0
  self1.ilu_diag.getD (parent.jptr.getD j.toNat 0).toNat 0

/-- Some division of `init_copy_sp_matrix_skyline_ilu` (line 1508) has the
divisor zero. -/
def ilu_zero_division (parent : sp_matrix_skyline) : Prop :=
  ∃ k : Nat, k < parent.rows_count.toNat
    ∧ ∃ t : Nat, t < (parent.iptr.getD (k + 1) 0 - parent.iptr.getD k 0).toNat
      ∧ ilu_pivot parent k t = 0

instance (parent : sp_matrix_skyline) : Decidable (ilu_zero_division parent) := by
  unfold ilu_zero_division
  infer_instance

/-- Four adds and a reorder that store the 2x2 matrix `(0 1; 1 1)`, the
diagonal element `(0,0)` being stored with the value `0`. -/
def ilu_zero_pivot_ops : List sp_matrix_op :=
  [.add 0 0 0, .add 0 1 1, .add 1 0 1, .add 1 1 1, .reorder]

/-- The skyline view of the matrix that `ilu_zero_pivot_ops` builds. -/
def ilu_zero_pivot_skyline : sp_matrix_skyline :=
  { rows_count := 2
    cols_count := 2
    nonzeros := 4
    tr_nonzeros := 1
    diag := [0, 1]
    lower_triangle := [1]
    upper_triangle := [1]
    jptr := [0]
    iptr := [0, 0, 1] }

/-! ## The element engine (lines 1927-1996, 2081-2178, 2295-2311, 2787-2822) -/

/-- The constant `MAX_DOF` (line 24). -/
def MAX_DOF : Nat := 3

/-- The macro `DELTA` (line 49). -/
def DELTA (i j : Nat) : ℚ := if i = j then 1 else 0

/-- The constant `DBL_MIN` of `float.h`, `2^-1022`. -/
def DBL_MIN : ℚ := 1 / 2 ^ 1022

/-- The macro `EQL` (line 46): `fabs(x - y) <= DBL_MIN`. -/
def EQL (x y : ℚ) : Bool := decide (|x - y| ≤ DBL_MIN)

/-- The cell `m[i][j]` of a two-dimensional buffer. -/
def cell (m : List (List ℚ)) (i j : Nat) : ℚ := (m.getD i []).getD j 0

/-- The store `m[i][j] = v` into a two-dimensional buffer. -/
def store (m : List (List ℚ)) (i j : Nat) (v : ℚ) : List (List ℚ) :=
  m.set i ((m.getD i []).set j v)

/-- Function `det3x3` (line 2787). -/
def det3x3 (m : List (List ℚ)) : ℚ :=
  cell m 0 0 * (cell m 1 1 * cell m 2 2 - cell m 1 2 * cell m 2 1)
    - cell m 0 1 * (cell m 1 0 * cell m 2 2 - cell m 1 2 * cell m 2 0)
    + cell m 0 2 * (cell m 1 0 * cell m 2 1 - cell m 1 1 * cell m 2 0)

/-- Function `inv3x3` (line 2796): returns the result, the matrix `m` as the call
leaves it and the value stored through `det`. -/
def inv3x3 (m : List (List ℚ)) : Bool × List (List ℚ) × ℚ :=
  let det := det3x3 m
  if EQL det 0 = true then (false, m, det)
  else
    let m00 := (cell m 1 1 * cell m 2 2 - cell m 1 2 * cell m 2 1) / det
    let m01 := (cell m 0 2 * cell m 2 1 - cell m 0 1 * cell m 2 2) / det
    let m02 := (cell m 0 1 * cell m 1 2 - cell m 0 2 * cell m 1 1) / det
    let m10 := (cell m 1 2 * cell m 2 0 - cell m 1 0 * cell m 2 2) / det
    let m11 := (cell m 0 0 * cell m 2 2 - cell m 0 2 * cell m 2 0) / det
    let m12 := (cell m 0 2 * cell m 1 0 - cell m 0 0 * cell m 1 2) / det
    let m20 := (cell m 1 0 * cell m 2 1 - cell m 1 1 * cell m 2 0) / det
    let m21 := (cell m 0 1 * cell m 2 0 - cell m 0 0 * cell m 2 1) / det
    let m22 := (cell m 0 0 * cell m 1 1 - cell m 0 1 * cell m 1 0) / det
    let m := store (store (store m 0 0 m00) 0 1 m01) 0 2 m02
    let m := store (store (store m 1 0 m10) 1 1 m11) 1 2 m12
    let m := store (store (store m 2 0 m20) 2 1 m21) 2 2 m22
    (true, m, det)

/-- Information for a Gauss node, `gauss_node` (line 219). -/
structure gauss_node where
  weight : ℚ
  forms : List ℚ
  dforms : List (List ℚ)
  deriving DecidableEq

instance : Inhabited gauss_node := ⟨⟨0, [], []⟩⟩

/-- Gradients of the shape functions in one Gauss node of an element,
`shape_gradients` (line 254). -/
structure shape_gradients where
  grads : List (List ℚ)
  detJ : ℚ
  deriving DecidableEq

/-- The fields of `fea_solver` (line 323), and of the records it points to,
that the element engine reads: `task_p->dof`, `task_p->model.parameters`,
`fea_params_p->nodes_per_element`, `fea_params_p->gauss_nodes_count`,
`nodes_p->nodes`, `elements_p->elements` and `elements_db.gauss_nodes`. -/
structure fea_solver_input where
  dof : Nat
  parameters : List ℚ
  nodes_per_element : Int
  gauss_nodes_count : Int
  nodes : List (List ℚ)
  elements : List (List Int)
  gauss_nodes : List gauss_node
  deriving DecidableEq

/-- Function `solver_node_dof` (line 669):
`nodes[elements[element][node]][dof]`. -/
def solver_node_dof (self : fea_solver_input) (element node dof : Nat) : ℚ :=
  cell self.nodes ((self.elements.getD element []).getD node 0).toNat dof

/-- Function `solver_new_shape_gradients` (line 1927); `none` is the null pointer
returned when `inv3x3` finds no inverse. -/
def solver_new_shape_gradients (self : fea_solver_input) (element gauss : Nat) :
    Option shape_gradients :=
  let nelem := self.nodes_per_element.toNat
  let dforms := (self.gauss_nodes.getD gauss default).dforms
  let J := loop MAX_DOF
    (fun i J => loop MAX_DOF
      (fun j J => loop nelem
        (fun k J => store J i j (cell J i j + cell dforms i k * solver_node_dof self element k j))
        J) J)
    (List.replicate MAX_DOF (List.replicate MAX_DOF 0))
  let inv := inv3x3 J
  if inv.1 = true then
    let grads := loop MAX_DOF
      (fun i G => loop nelem
        (fun j G => loop MAX_DOF
          (fun k G => store G i j (cell G i j + cell inv.2.1 i k * cell dforms k j)) G) G)
      (List.replicate self.dof (List.replicate nelem 0))
    some { grads := grads, detJ := inv.2.2 }
  else none

/-- Function `solver_ctensor` (line 2295): the array `ctensor`, every cell of which
the four loops store. -/
def solver_ctensor (self : fea_solver_input) : List (List (List (List ℚ))) :=
  let lambda := self.parameters.getD 0 0
  let mu := self.parameters.getD 1 0
  (List.range MAX_DOF).map fun i =>
    (List.range MAX_DOF).map fun j =>
      (List.range MAX_DOF).map fun k =>
        (List.range MAX_DOF).map fun l =>
          lambda * DELTA i j * DELTA k l + mu * DELTA i k * DELTA j l
            + mu * DELTA i l * DELTA j k

/-- The cell `ctens[i][j][k][l]`. -/
def ctensor_cell (ctens : List (List (List (List ℚ)))) (i j k l : Nat) : ℚ :=
  (((ctens.getD i []).getD j []).getD k []).getD l 0

/-- A `for` loop with a known trip count whose body can abort. -/
def loop_abort {σ : Type} (n : Nat) (f : Nat → σ → Option σ) (s : σ) : Option σ :=
  loop n (fun t o => o.bind (f t)) (some s)

/-- What `solver_local_stiffness` works on: the local matrix `stiff`, the
global matrix and the row `self->shape_gradients[element]`. -/
structure local_stiffness where
  stiff : List (List ℚ)
  global_mtx : sp_matrix
  shape_gradients : List (Option shape_gradients)
  deriving DecidableEq

/-- The sum of lines 2139-2152 for the block entry `[K_ab]_ij`. -/
def solver_local_stiffness_sum (self : fea_solver_input)
    (ctens : List (List (List (List ℚ)))) (grads : shape_gradients) (weight : ℚ)
    (a b i j : Nat) : ℚ :=
  let sum := loop self.dof
    (fun k sum => loop self.dof
      (fun l sum => sum + cell grads.grads k a * ctensor_cell ctens i k j l * cell grads.grads l b)
      sum) 0
  let sum := sum * |grads.detJ|
  sum * weight

/-- The body of the loops over `i` and `j` of `solver_local_stiffness`
(lines 2136-2161): the entry is added to `stiff[I][J]` and to the global
matrix, whose `sp_matrix_element_add` can abort. -/
def solver_local_stiffness_entry (self : fea_solver_input) (element : Nat)
    (ctens : List (List (List (List ℚ)))) (grads : shape_gradients) (weight : ℚ)
    (a b i j : Nat) (s : local_stiffness) : Option local_stiffness :=
  let I := a * self.dof + i
  let J := b * self.dof + j
  let sum := solver_local_stiffness_sum self ctens grads weight a b i j
  let globalI := (self.elements.getD element []).getD a 0 * (self.dof : Int) + (i : Int)
  let globalJ := (self.elements.getD element []).getD b 0 * (self.dof : Int) + (j : Int)
  (sp_matrix_element_add s.global_mtx globalI globalJ sum).map
    (fun K => { s with stiff := store s.stiff I J (cell s.stiff I J + sum), global_mtx := K })

/-- The body of the loop over the Gauss nodes of `solver_local_stiffness`
(lines 2122-2167). -/
def solver_local_stiffness_gauss (self : fea_solver_input) (element : Nat)
    (ctens : List (List (List (List ℚ)))) (gauss : Nat) (s : local_stiffness) :
    Option local_stiffness :=
  let nelem := self.nodes_per_element.toNat
  let grads := solver_new_shape_gradients self element gauss
  let s1 :=
    match grads with
    | some g =>
      loop_abort nelem
        (fun a s => loop_abort nelem
          (fun b s => loop_abort self.dof
            (fun i s => loop_abort self.dof
              (fun j s => solver_local_stiffness_entry self element ctens g
                (self.gauss_nodes.getD gauss default).weight a b i j s) s) s) s) s
    | none => some s
  s1.map (fun s1 => { s1 with shape_gradients := s1.shape_gradients.set gauss grads })

/-- Function `solver_local_stiffness` (line 2081), on the global matrix and the row
`shape_gradients[element]`; returns them together with the local matrix
`stiff` as it is before it is freed. -/
def solver_local_stiffness (self : fea_solver_input) (element : Nat) (global_mtx : sp_matrix)
    (shape_gradients : List (Option shape_gradients)) : Option local_stiffness :=
  let size := (self.nodes_per_element * (self.dof : Int)).toNat
  let stiff := List.replicate size (List.replicate size (0 : ℚ))
  let ctens := solver_ctensor self
  loop_abort self.gauss_nodes_count.toNat (solver_local_stiffness_gauss self element ctens)
    { stiff := stiff, global_mtx := global_mtx, shape_gradients := shape_gradients }

/-- What the Gauss node `gauss` adds to the cell `stiff[I][J]`: the entries
`[K_ab]_ij` with `a*dof + i = I` and `b*dof + j = J`, nothing when the node
has no gradients. -/
def local_stiffness_term (self : fea_solver_input) (element gauss : Nat) (c : Nat × Nat) : ℚ :=
  match solver_new_shape_gradients self element gauss with
  | some g =>
    ∑ a in Finset.range self.nodes_per_element.toNat,
      ∑ b in Finset.range self.nodes_per_element.toNat,
        ∑ i in Finset.range self.dof, ∑ j in Finset.range self.dof,
          if a * self.dof + i = c.1 ∧ b * self.dof + j = c.2 then
            solver_local_stiffness_sum self (solver_ctensor self) g
              (self.gauss_nodes.getD gauss default).weight a b i j
          else 0
  | none => 0

/-- Solver data for the examples of the element engine: one element of four
nodes, the corners of the unit tetrahedron, with the linear shape functions
`1-r-s-t, r, s, t` and one Gauss node of weight `1/6`; `lambda = mu = 100`. -/
def test_element_input : fea_solver_input :=
  { dof := 3
    parameters := [100, 100]
    nodes_per_element := 4
    gauss_nodes_count := 1
    nodes := [[0, 0, 0], [1, 0, 0], [0, 1, 0], [0, 0, 1]]
    elements := [[0, 1, 2, 3]]
    gauss_nodes :=
      [ { weight := 1 / 6
          forms := [1 / 4, 1 / 4, 1 / 4, 1 / 4]
          dforms := [[-1, 1, 0, 0], [-1, 0, 1, 0], [-1, 0, 0, 1]] } ] }

/-! ## The divisors of the conjugate gradient loop -/

/-- The divisor `a2 = (p, A*p)` of `alpha = a1/a2` (line 1276) in a pass
that starts with the variables `s`. -/
def cg_denominator (self : sp_matrix) (msize : Nat) (s : cg_vars) : ℚ :=
  let temp := sp_matrix_mv self s.p s.temp
  (loop msize
    (fun i (a : ℚ × ℚ) =>
      (a.1 + s.r.getD i 0 * s.r.getD i 0, a.2 + s.p.getD i 0 * temp.getD i 0)) (0, 0)).2

/-- Whether some division of the loop of `sp_matrix_solve_cg`, with `n`
passes left, has the divisor zero: `alpha = a1/a2` (line 1276) with
`a2 = (p, A*p) = 0`, or `beta = a2/a1` (line 1299) with `a1 = (r, r) = 0`. -/
def sp_matrix_solve_cg_zero_division (self : sp_matrix) (msize : Nat) (tol : ℚ) :
    Nat → cg_vars → Bool
  | 0, _ => false
  | n + 1, s =>
    if cg_denominator self msize s = 0 then true
    else if (cg_update self msize s).1.residn < tol then false
    else if (cg_update self msize s).2 = 0 then true
    else sp_matrix_solve_cg_zero_division self msize tol n (cg_next self msize s)

/-- The variables after `k` passes none of which ends at the `break`. -/
def cg_iter (self : sp_matrix) (msize : Nat) : Nat → cg_vars → cg_vars
  | 0, s => s
  | k + 1, s => cg_next self msize (cg_iter self msize k s)

/-- The first `n` cells of a buffer, as a vector. -/
def vec (n : Nat) (l : List ℚ) : Fin n → ℚ := fun i => l.getD i.val 0

/-- The `n x n` matrix of the values that `sp_matrix_element` reads. -/
def sp_matrix_dense (self : sp_matrix) (n : Nat) : Matrix (Fin n) (Fin n) ℚ :=
  Matrix.of fun i j => sp_matrix_value self (i.val : Int) (j.val : Int)

/-! ## Examples for the flag `ordered` -/

/-- An add, a reorder and an add that appends to the row without growing
it. -/
def ordered_flag_ops : List sp_matrix_op :=
  [.add 0 1 7, .reorder, .add 0 0 5]

/-- The matrix that `ordered_flag_ops` builds from `init_sp_matrix 2 2 2`. -/
def ordered_flag_mtx : sp_matrix :=
  { rows_count := 2
    cols_count := 2
    ordered := true
    rows :=
      [ { width := 2, last_index := 1, indexes := [1, 0], values := [7, 5] },
        { width := 2, last_index := -1, indexes := [0, 0], values := [0, 0] } ] }

/-! ## Examples for the divisors of the conjugate gradient loop -/

/-- An add and a reorder that build the 1x1 matrix `(-1)`. -/
def cg_negative_ops : List sp_matrix_op := [.add 0 0 (-1), .reorder]

/-- The 1x1 matrix `(-1)`, for which `(p, A*p)` is negative. -/
def cg_negative_mtx : sp_matrix :=
  { rows_count := 1
    cols_count := 1
    ordered := true
    rows := [ { width := 1, last_index := 0, indexes := [0], values := [-1] } ] }

/-! ## The Gauss nodes and the shape functions of TETRAHEDRA10 (lines 75-108, 2412-2428) -/

/-- The table `gauss_nodes4_tetr10` (line 86), rows `{weight, r, s, t}`; the
constants of the source are read as rationals. -/
def gauss_nodes4_tetr10 : List (List ℚ) :=
  [ [(1 / 4) / 6, 0.58541020, 0.13819660, 0.13819660],
    [(1 / 4) / 6, 0.13819660, 0.58541020, 0.13819660],
    [(1 / 4) / 6, 0.13819660, 0.13819660, 0.58541020],
    [(1 / 4) / 6, 0.13819660, 0.13819660, 0.13819660] ]

/-- The table `gauss_nodes5_tetr10` (line 104), rows `{weight, r, s, t}`. -/
def gauss_nodes5_tetr10 : List (List ℚ) :=
  [ [(-4 / 5) / 6, 1 / 4, 1 / 4, 1 / 4],
    [(9 / 20) / 6, 1 / 2, 1 / 6, 1 / 6],
    [(9 / 20) / 6, 1 / 6, 1 / 2, 1 / 6],
    [(9 / 20) / 6, 1 / 6, 1 / 6, 1 / 2],
    [(9 / 20) / 6, 1 / 6, 1 / 6, 1 / 6] ]

/-- The barycentric coordinates `(1-r-s-t, r, s, t)` of the point of a row
`{weight, r, s, t}` of a table of Gauss nodes. -/
def gauss_node_barycentric (row : List ℚ) : List ℚ :=
  [1 - row.getD 1 0 - row.getD 2 0 - row.getD 3 0, row.getD 1 0, row.getD 2 0, row.getD 3 0]

/-- Function `tetrahedra10_isoform` (line 2412). -/
def tetrahedra10_isoform (i : Int) (r s t : ℚ) : ℚ :=
  if i = 0 then (2 * (1 - r - s - t) - 1) * (1 - r - s - t)
  else if i = 1 then (2 * r - 1) * r
  else if i = 2 then (2 * s - 1) * s
  else if i = 3 then (2 * t - 1) * t
  else if i = 4 then 4 * r * (1 - r - s - t)
  else if i = 5 then 4 * r * s
  else if i = 6 then 4 * s * (1 - r - s - t)
  else if i = 7 then 4 * t * (1 - r - s - t)
  else if i = 8 then 4 * r * t
  else if i = 9 then 4 * s * t
  else 0

/-- The parent coordinates `(r, s, t)` of the ten nodes of the element in
its local order (the diagram of lines 2522-2541): the corners `0..3` and the
middles `4..9` of the edges `0-1, 1-2, 0-2, 0-3, 1-3, 2-3`. -/
def tetrahedra10_nodes : List (ℚ × ℚ × ℚ) :=
  [ (0, 0, 0), (1, 0, 0), (0, 1, 0), (0, 0, 1),
    (1 / 2, 0, 0), (1 / 2, 1 / 2, 0), (0, 1 / 2, 0),
    (0, 0, 1 / 2), (1 / 2, 0, 1 / 2), (0, 1 / 2, 1 / 2) ]

/-! ## Prescribed boundary nodes (lines 128-137, 196-201, 2319-2358) -/

/-- The constant `FREE` of `presc_boundary_type` (line 129). -/
def FREE : Int := 0

/-- The constant `PRESCRIBEDX` of `presc_boundary_type`. -/
def PRESCRIBEDX : Int := 1

/-- The constant `PRESCRIBEDY` of `presc_boundary_type`. -/
def PRESCRIBEDY : Int := 2

/-- The constant `PRESCRIBEDXY` of `presc_boundary_type`. -/
def PRESCRIBEDXY : Int := 3

/-- The constant `PRESCRIBEDZ` of `presc_boundary_type`. -/
def PRESCRIBEDZ : Int := 4

/-- The constant `PRESCRIBEDXZ` of `presc_boundary_type`. -/
def PRESCRIBEDXZ : Int := 5

/-- The constant `PRESCRIBEDYZ` of `presc_boundary_type`. -/
def PRESCRIBEDYZ : Int := 6

/-- The constant `PRESCRIBEDXYZ` of `presc_boundary_type`. -/
def PRESCRIBEDXYZ : Int := 7

/-- Particular prescribed boundary node, `prescibed_boundary_node`
(line 196). -/
structure prescibed_boundary_node where
  node_number : Int
  values : List ℚ
  type : Int
  deriving DecidableEq

instance : Inhabited prescibed_boundary_node := ⟨⟨0, [], 0⟩⟩

/-- The body of the loop of `solver_apply_prescribed_bc` (lines 2326-2353)
for one prescribed node; `dof` is `task_p->dof` and `presc0` is what the
local array `presc` holds before the `memcpy`.  A failing assertion of
`solver_apply_single_bc` is the abort. -/
def solver_apply_prescribed_bc_node (dof : Nat) (presc0 : List ℚ)
    (node : prescibed_boundary_node) (self : fea_solver) : Option fea_solver :=
  let node_number := node.node_number
  let presc := memcpy presc0 node.values (dof : Int)
  let type := node.type
  let self1 :=
    if type = PRESCRIBEDX ∨ type = PRESCRIBEDXY ∨ type = PRESCRIBEDXZ ∨ type = PRESCRIBEDXYZ then
      solver_apply_single_bc self (node_number * (dof : Int) + 0) (presc.getD 0 0)
    else some self
  let self2 := self1.bind fun self =>
    if type = PRESCRIBEDY ∨ type = PRESCRIBEDXY ∨ type = PRESCRIBEDYZ ∨ type = PRESCRIBEDXYZ then
      solver_apply_single_bc self (node_number * (dof : Int) + 1) (presc.getD 1 0)
    else some self
  self2.bind fun self =>
    if type = PRESCRIBEDZ ∨ type = PRESCRIBEDXZ ∨ type = PRESCRIBEDYZ ∨ type = PRESCRIBEDXYZ then
      solver_apply_single_bc self (node_number * (dof : Int) + 2) (presc.getD 2 0)
    else some self

/-- Function `solver_apply_prescribed_bc` (line 2319) for the array
`presc_boundary_p->prescribed_nodes` of prescribed nodes. -/
def solver_apply_prescribed_bc (dof : Nat) (presc0 : List ℚ)
    (prescribed_nodes : List prescibed_boundary_node) (self : fea_solver) : Option fea_solver :=
  loop_abort prescribed_nodes.length
    (fun i self => solver_apply_prescribed_bc_node dof presc0 (prescribed_nodes.getD i default) self)
    self

/-- The prescribed dofs `(3*n + a, v[a])` of a prescribed node, for the axes
`a` in `0, 1, 2` whose bit `2^a` is set in the type of the node. -/
def prescribed_dofs (node : prescibed_boundary_node) : List (Int × ℚ) :=
  ((List.range 3).filter (fun a => node.type.toNat.testBit a)).map
    (fun (a : Nat) => (3 * node.node_number + (a : Int), node.values.getD a 0))

/-! ## Examples for `inv3x3` -/

/-- The matrix `diag(2^-1022, 1, 1)`, whose determinant is `DBL_MIN`. -/
def inv3x3_tiny : List (List ℚ) := [[1 / 2 ^ 1022, 0, 0], [0, 1, 0], [0, 0, 1]]

/-! ## The derivatives of the shape functions of TETRAHEDRA10 (lines 2435-2516) -/

/-- Function `tetrahedra10_df_dr` (line 2435). -/
def tetrahedra10_df_dr (i : Int) (r s t : ℚ) : ℚ :=
  if i = 0 then 4 * t + 4 * s + 4 * r - 3
  else if i = 1 then 4 * r - 1
  else if i = 2 then 0
  else if i = 3 then 0
  else if i = 4 then -4 * t - 4 * s - 8 * r + 4
  else if i = 5 then 4 * s
  else if i = 6 then -4 * s
  else if i = 7 then -4 * t
  else if i = 8 then 4 * t
  else if i = 9 then 0
  else 0

/-- Function `tetrahedra10_df_ds` (line 2458). -/
def tetrahedra10_df_ds (i : Int) (r s t : ℚ) : ℚ :=
  if i = 0 then 4 * t + 4 * s + 4 * r - 3
  else if i = 1 then 0
  else if i = 2 then 4 * s - 1
  else if i = 3 then 0
  else if i = 4 then -4 * r
  else if i = 5 then 4 * r
  else if i = 6 then -4 * t - 8 * s - 4 * r + 4
  else if i = 7 then -4 * t
  else if i = 8 then 0
  else if i = 9 then 4 * t
  else 0

/-- Function `tetrahedra10_df_dt` (line 2481). -/
def tetrahedra10_df_dt (i : Int) (r s t : ℚ) : ℚ :=
  if i = 0 then 4 * t + 4 * s + 4 * r - 3
  else if i = 1 then 0
  else if i = 2 then 0
  else if i = 3 then 4 * t - 1
  else if i = 4 then -4 * r
  else if i = 5 then 0
  else if i = 6 then -4 * s
  else if i = 7 then -8 * t - 4 * s - 4 * r + 4
  else if i = 8 then 4 * r
  else if i = 9 then 4 * s
  else 0

/-- Function `tetrahedra10_disoform` (line 2507). -/
def tetrahedra10_disoform (shape dof : Int) (r s t : ℚ) : ℚ :=
  if dof = 0 then tetrahedra10_df_dr shape r s t
  else if dof = 1 then tetrahedra10_df_ds shape r s t
  else if dof = 2 then tetrahedra10_df_dt shape r s t
  else 0

/-! ## The assembly of the global matrix (lines 826-827, 1722-1739) -/

/-- The global matrix as `new_fea_solver` creates it (lines 1735-1739):
`msize = nodes_count * dof` rows and columns with the bandwidth
`(int)sqrt(msize) * 2`; `nodes_count` is the length of the array of nodes. -/
def new_fea_solver_global_mtx (self : fea_solver_input) : sp_matrix :=
  let msize : Int := (self.nodes.length : Int) * (self.dof : Int)
  let bandwidth : Int := (Nat.sqrt msize.toNat : Int) * 2
  init_sp_matrix msize msize bandwidth

/-- The array `shape_gradients` as `new_fea_solver` creates it
(lines 1722-1731): a row of null pointers for each element. -/
def new_fea_solver_shape_gradients (self : fea_solver_input) :
    List (List (Option shape_gradients)) :=
  List.replicate self.elements.length (List.replicate self.gauss_nodes_count.toNat none)

/-- The loop over the elements of `solve` (lines 826-827), on the global
matrix and the array `shape_gradients`; `elements_count` is the length of the
array of elements. -/
def solve_local_stiffness (self : fea_solver_input)
    (s : sp_matrix × List (List (Option shape_gradients))) :
    Option (sp_matrix × List (List (Option shape_gradients))) :=
  loop_abort self.elements.length
    (fun i s => (solver_local_stiffness self i s.1 (s.2.getD i [])).map
      (fun res => (res.global_mtx, s.2.set i res.shape_gradients))) s

/-- The index `globalI` of lines 2156-2157: the row of the global matrix for
the dof `i` of the node `a` of the element. -/
def solver_global_index (self : fea_solver_input) (element a i : Nat) : Int :=
  (self.elements.getD element []).getD a 0 * (self.dof : Int) + (i : Int)

/-- What the Gauss node `gauss` of the element adds to the element `(I, J)`
of the global matrix: the entries `[K_ab]_ij` with `globalI = I` and
`globalJ = J`, nothing when the node has no gradients. -/
def global_stiffness_term (self : fea_solver_input) (element gauss : Nat) (c : Int × Int) : ℚ :=
  match solver_new_shape_gradients self element gauss with
  | some g =>
    ∑ a in Finset.range self.nodes_per_element.toNat,
      ∑ b in Finset.range self.nodes_per_element.toNat,
        ∑ i in Finset.range self.dof, ∑ j in Finset.range self.dof,
          if solver_global_index self element a i = c.1
              ∧ solver_global_index self element b j = c.2 then
            solver_local_stiffness_sum self (solver_ctensor self) g
              (self.gauss_nodes.getD gauss default).weight a b i j
          else 0
  | none => 0

/-- The Gauss node `gauss` of the element has gradients and one of its
entries `[K_ab]_ij` goes to the element `(I, J)` of the global matrix. -/
def global_stiffness_hit (self : fea_solver_input) (element gauss : Nat) (c : Int × Int) :
    Prop :=
  (solver_new_shape_gradients self element gauss).isSome = true
    ∧ ∃ a : Nat, a < self.nodes_per_element.toNat ∧ ∃ b : Nat, b < self.nodes_per_element.toNat
      ∧ ∃ i : Nat, i < self.dof ∧ ∃ j : Nat, j < self.dof
        ∧ solver_global_index self element a i = c.1
        ∧ solver_global_index self element b j = c.2

/-! ## The Jacobi matrix and the deformation gradient (lines 1942-1966, 2181-2291) -/

/-- The Jacobi matrix `J` that `solver_new_shape_gradients` fills
(lines 1942-1966) before it calls `inv3x3`. -/
def solver_jacobi_matrix (self : fea_solver_input) (element gauss : Nat) : List (List ℚ) :=
  let nelem := self.nodes_per_element.toNat
  let dforms := (self.gauss_nodes.getD gauss default).dforms
  loop MAX_DOF
    (fun i J => loop MAX_DOF
      (fun j J => loop nelem
        (fun k J => store J i j (cell J i j + cell dforms i k * solver_node_dof self element k j))
        J) J)
    (List.replicate MAX_DOF (List.replicate MAX_DOF 0))

/-- The two-dimensional buffer `m` has `R` rows of `C` cells. -/
def buffer_shape (R C : Nat) (m : List (List ℚ)) : Prop :=
  m.length = R ∧ ∀ r : Nat, r < R → (m.getD r []).length = C

/-! ## The element database of TETRAHEDRA10 (lines 1782-1847, 2627-2641) -/

/-- Function `solver_new_gauss_node` (line 1782) for the element TETRAHEDRA10,
whose `shape` and `dshape` are `tetrahedra10_isoform` and
`tetrahedra10_disoform` (lines 2629-2630); `none` is the null pointer
returned for an index out of range. -/
def solver_new_gauss_node (dof : Nat) (nodes_per_element gauss_nodes_count : Int)
    (gauss_nodes_data : List (List ℚ)) (gauss_node_index : Int) : Option gauss_node :=
  if 0 ≤ gauss_node_index ∧ gauss_node_index < gauss_nodes_count then
    let r := cell gauss_nodes_data gauss_node_index.toNat 1
    let s := cell gauss_nodes_data gauss_node_index.toNat 2
    let t := cell gauss_nodes_data gauss_node_index.toNat 3
    some
      { weight := cell gauss_nodes_data gauss_node_index.toNat 0
        forms := (List.range nodes_per_element.toNat).map
          (fun i => tetrahedra10_isoform (i : Int) r s t)
        dforms := (List.range dof).map
          (fun j => (List.range nodes_per_element.toNat).map
            (fun i => tetrahedra10_disoform (i : Int) (j : Int) r s t)) }
  else none

/-- Function `solver_create_element_database` (line 1832): the array
`elements_db.gauss_nodes`. -/
def solver_create_element_database (dof : Nat) (nodes_per_element gauss_nodes_count : Int)
    (gauss_nodes_data : List (List ℚ)) : List gauss_node :=
  (List.range gauss_nodes_count.toNat).map
    (fun gauss => (solver_new_gauss_node dof nodes_per_element gauss_nodes_count
      gauss_nodes_data (gauss : Int)).getD default)

/-- Solver data for one element TETRAHEDRA10 with the five Gauss nodes of
`gauss_nodes5_tetr10` and `lambda = mu = 100`, on the given array of ten
nodes. -/
def tetrahedra10_input (nodes : List (List ℚ)) : fea_solver_input :=
  { dof := 3
    parameters := [100, 100]
    nodes_per_element := 10
    gauss_nodes_count := 5
    nodes := nodes
    elements := [[0, 1, 2, 3, 4, 5, 6, 7, 8, 9]]
    gauss_nodes := solver_create_element_database 3 10 5 gauss_nodes5_tetr10 }

/-- The ten nodes of the unit tetrahedron, the node `4` moved from the middle
`(1/2, 0, 0)` of its edge to `(1/2, 1, 0)`: the Jacobi matrix is singular at
the first Gauss node `(1/4, 1/4, 1/4)` and regular at the other four. -/
def tetrahedra10_bent_nodes : List (List ℚ) :=
  [ [0, 0, 0], [1, 0, 0], [0, 1, 0], [0, 0, 1],
    [1 / 2, 1, 0], [1 / 2, 1 / 2, 0], [0, 1 / 2, 0],
    [0, 0, 1 / 2], [1 / 2, 0, 1 / 2], [0, 1 / 2, 1 / 2] ]

/-- Function `solver_element_gauss_graddef` (line 2181) as it is compiled, with
`BONET_DEFGRADIENT` defined (line 2180): the inverse of the deformation
gradient is summed from the gradients in the current nodes and the initial
nodes `nodes0` (the array `nodes0_p->nodes`), then inverted by `inv3x3`, whose
result is not tested.  `none` stands for the null pointer of
`solver_new_shape_gradients`, which the function dereferences.  The array
`graddef` starts zero-filled here: every cell is stored before it is read. -/
def solver_element_gauss_graddef (self : fea_solver_input) (nodes0 : List (List ℚ))
    (element gauss : Nat) : Option (List (List ℚ)) :=
  match solver_new_shape_gradients self element gauss with
  | none => none
  | some grads =>
    let graddef := loop MAX_DOF
      (fun i graddef => loop MAX_DOF
        (fun j graddef => loop self.nodes_per_element.toNat
          (fun k graddef => store graddef i j (cell graddef i j
            + cell grads.grads j k
              * cell nodes0 ((self.elements.getD element []).getD k 0).toNat i))
          (store graddef i j 0)) graddef)
      (List.replicate MAX_DOF (List.replicate MAX_DOF 0))
    some (inv3x3 graddef).2.1

/-- The stress tensor that `solver_element_gauss_stress` computes from the
deformation gradient `F` (lines 2257-2290); the local arrays start
zero-filled here, every cell being stored before it is read, and a division
by a zero `detF` yields `0` (in C an infinity or a NaN). -/
def solver_element_gauss_stress_of (lambda mu : ℚ) (F : List (List ℚ)) : List (List ℚ) :=
  let zero := List.replicate MAX_DOF (List.replicate MAX_DOF (0 : ℚ))
  let G := loop MAX_DOF
    (fun i G => loop MAX_DOF
      (fun j G => loop MAX_DOF
        (fun k G => store G i j (cell G i j + cell F k i * cell F k j)) (store G i j 0)) G)
    zero
  let C := loop MAX_DOF
    (fun i C => loop MAX_DOF (fun j C => store C i j (0.5 * (cell G i j - DELTA i j))) C) zero
  let I1 := loop MAX_DOF (fun i I1 => I1 + cell C i i) 0
  let detF := det3x3 F
  let Sn := loop MAX_DOF
    (fun i Sn => loop MAX_DOF
      (fun j Sn => store Sn i j ((lambda * I1 * DELTA i j + 2 * mu * cell C i j) / detF)) Sn)
    zero
  loop MAX_DOF
    (fun i stress_tensor => loop MAX_DOF
      (fun j stress_tensor => store stress_tensor i j (cell Sn i j)) stress_tensor) zero

/-- Function `solver_element_gauss_stress` (line 2238): the array `stress_tensor`;
`none` when `solver_element_gauss_graddef` dereferences a null pointer. -/
def solver_element_gauss_stress (self : fea_solver_input) (nodes0 : List (List ℚ))
    (element gauss : Nat) : Option (List (List ℚ)) :=
  (solver_element_gauss_graddef self nodes0 element gauss).map
    (solver_element_gauss_stress_of (self.parameters.getD 0 0) (self.parameters.getD 1 0))

/-- The ten nodes of the unit tetrahedron: the corners and the middles of
the edges, in the order of `tetrahedra10_nodes`. -/
def tetrahedra10_unit_nodes : List (List ℚ) :=
  tetrahedra10_nodes.map (fun p => [p.1, p.2.1, p.2.2])

/-- The nodes of the unit tetrahedron after the displacement
`u_x = eps * X`, `u_y = u_z = 0`. -/
def tetrahedra10_stretched_nodes (eps : ℚ) : List (List ℚ) :=
  tetrahedra10_nodes.map (fun p => [p.1 + eps * p.1, p.2.1, p.2.2])

/-! ## The factors of the ILU decomposition as matrices -/

/-- The slot `iptr[i] + t` of row `i` of a skyline view. -/
def skyline_slot (S : sp_matrix_skyline) (i t : Nat) : Nat :=
  (S.iptr.getD i 0 + (t : Int)).toNat

/-- The number `iptr[i+1] - iptr[i]` of slots of row `i` of a skyline view. -/
def skyline_row_count (S : sp_matrix_skyline) (i : Nat) : Nat :=
  (S.iptr.getD (i + 1) 0 - S.iptr.getD i 0).toNat

/-- The sum of `ilu_sum` for the rows `a` and `b`: over the slots `t` of row
`a` and `u` of row `b` with the same column, of
`ilu_lowertr[t] * ilu_uppertr[u]`. -/
def ilu_dot (F : sp_matrix_skyline_ilu) (a b : Nat) : ℚ :=
  ∑ t in Finset.range (skyline_row_count F.parent a),
    ∑ u in Finset.range (skyline_row_count F.parent b),
      if F.parent.jptr.getD (skyline_slot F.parent a t) 0
          = F.parent.jptr.getD (skyline_slot F.parent b u) 0 then
        F.ilu_lowertr.getD (skyline_slot F.parent a t) 0
          * F.ilu_uppertr.getD (skyline_slot F.parent b u) 0
      else 0

/-- The strictly lower triangular matrix that holds `ilu_lowertr[s]` at
`(i, jptr[s])` for every slot `s` of every row `i`. -/
def ilu_lower_strict (F : sp_matrix_skyline_ilu) (n : Nat) : Matrix (Fin n) (Fin n) ℚ :=
  Matrix.of fun i j =>
    ∑ t in Finset.range (skyline_row_count F.parent i.val),
      if F.parent.jptr.getD (skyline_slot F.parent i.val t) 0 = (j.val : Int) then
        F.ilu_lowertr.getD (skyline_slot F.parent i.val t) 0
      else 0

/-- The strictly upper triangular matrix that holds `ilu_uppertr[s]` at
`(jptr[s], i)` for every slot `s` of every row `i`. -/
def ilu_upper_strict (F : sp_matrix_skyline_ilu) (n : Nat) : Matrix (Fin n) (Fin n) ℚ :=
  Matrix.of fun i j =>
    ∑ t in Finset.range (skyline_row_count F.parent j.val),
      if F.parent.jptr.getD (skyline_slot F.parent j.val t) 0 = (i.val : Int) then
        F.ilu_uppertr.getD (skyline_slot F.parent j.val t) 0
      else 0

/-- The factor `L`: the unit lower triangular matrix that holds
`ilu_lowertr[s]` at `(i, jptr[s])`. -/
def ilu_lower_dense (F : sp_matrix_skyline_ilu) (n : Nat) : Matrix (Fin n) (Fin n) ℚ :=
  1 + ilu_lower_strict F n

/-- The factor `U`: the upper triangular matrix that holds `ilu_diag[i]` at
`(i, i)` and `ilu_uppertr[s]` at `(jptr[s], i)`. -/
def ilu_upper_dense (F : sp_matrix_skyline_ilu) (n : Nat) : Matrix (Fin n) (Fin n) ℚ :=
  Matrix.diagonal (fun i => F.ilu_diag.getD i.val 0) + ilu_upper_strict F n

/-- The pointers of a skyline view of `n` rows are in order: `iptr` starts
at a slot, does not decrease and ends within the triangle arrays, the
columns of the slots of row `i` are rows before `i`, and they increase
strictly along the row. -/
structure skyline_sorted (S : sp_matrix_skyline) : Prop where
  iptr_zero : 0 ≤ S.iptr.getD 0 0
  iptr_mono : ∀ i : Nat, i < S.rows_count.toNat → S.iptr.getD i 0 ≤ S.iptr.getD (i + 1) 0
  iptr_last : S.iptr.getD S.rows_count.toNat 0 ≤ S.tr_nonzeros
  valid : ∀ i : Nat, i < S.rows_count.toNat → ∀ t : Nat, t < skyline_row_count S i →
    0 ≤ S.jptr.getD (skyline_slot S i t) 0 ∧ S.jptr.getD (skyline_slot S i t) 0 < (i : Int)
  sorted : ∀ i : Nat, i < S.rows_count.toNat → ∀ t' : Nat, t' < skyline_row_count S i →
    ∀ t : Nat, t < t' →
      S.jptr.getD (skyline_slot S i t) 0 < S.jptr.getD (skyline_slot S i t') 0

/-- The body of the loop over the slots `q` of row `j` in the last part of
`ilu_step` (lines 1523-1544): the entry `U_kj` when `jptr[q] = k`. -/
def ilu_upper_entry (parent : sp_matrix_skyline) (k : Nat) (j q : Int)
    (self : sp_matrix_skyline_ilu) : sp_matrix_skyline_ilu :=
  if (k : Int) = parent.jptr.getD q.toNat 0 then
    let sum := ilu_sum self (k : Int) j
    { self with
      ilu_uppertr := self.ilu_uppertr.set q.toNat
        (parent.upper_triangle.getD q.toNat 0 - sum) }
  else self

/-! ## Preconditioned conjugate gradients (lines 1313-1469) -/

/-- The variables of `sp_matrix_solve_pcg`. -/
structure pcg_vars where
  x : List ℚ
  r : List ℚ
  r1 : List ℚ
  p : List ℚ
  z : List ℚ
  temp : List ℚ
  residn : ℚ
  j : Int
  deriving DecidableEq

/-- The preconditioner applied to the residual (lines 1386-1395 and
1437-1440): `memcpy(r1, r, size)`, the lower solve on `r1` into `temp`, the
upper solve on `temp` into `z`.  Both solves modify their right-hand side. -/
def pcg_precondition (ILU : sp_matrix_skyline_ilu) (rows_count : Int) (s : pcg_vars) :
    pcg_vars :=
  let r1 := memcpy s.r1 s.r rows_count
  let l := sp_matrix_skyline_ilu_lower_solve ILU r1 s.temp
  let u := sp_matrix_skyline_ilu_upper_solve ILU l.2 s.z
  { s with r1 := l.1, temp := u.1, z := u.2 }

/-- Lines 1402-1434 of the loop body: `temp = A*p`, the scalar products
`a1 = (r,z)` and `a2 = (p,A*p)`, `alpha = a1/a2`, the updates of `x` and `r`
and the norm `residn` of the new residual.  Returns the variables and `a1`. -/
def pcg_update (self : sp_matrix) (msize : Nat) (s : pcg_vars) : pcg_vars × ℚ :=
  let temp := sp_matrix_mv self s.p (memset_zero s.temp self.rows_count)
  let a := loop msize
    (fun i (a : ℚ × ℚ) =>
      (a.1 + s.r.getD i 0 * s.z.getD i 0, a.2 + s.p.getD i 0 * temp.getD i 0)) (0, 0)
  let alpha := a.1 / a.2
  let x := loop msize (fun i (x : List ℚ) => x.set i (x.getD i 0 + alpha * s.p.getD i 0)) s.x
  let r := loop msize (fun i (r : List ℚ) => r.set i (r.getD i 0 - alpha * temp.getD i 0)) s.r
  let residn := loop (msize - 1)
    (fun t (residn : ℚ) => if |r.getD (t + 1) 0| > residn then |r.getD (t + 1) 0| else residn)
    |r.getD 0 0|
  ({ s with x := x, r := r, temp := temp, residn := residn }, a.1)

/-- Lines 1443-1452 of the loop body: `beta = (r,z)/a1` and the new search
direction `p = z + beta*p`. -/
def pcg_direction (msize : Nat) (s : pcg_vars) (a1 : ℚ) : pcg_vars :=
  let a2 := loop msize (fun i (a2 : ℚ) => a2 + s.r.getD i 0 * s.z.getD i 0) 0
  let beta := a2 / a1
  { s with p := loop msize (fun i (p : List ℚ) => p.set i (s.z.getD i 0 + beta * p.getD i 0)) s.p }

/-- The loop of `sp_matrix_solve_pcg` (lines 1400-1453) with `n` passes left:
it ends at the `break` of line 1434 or when no pass is left.  Before the
preconditioner is applied `temp` is cleared (line 1438). -/
def sp_matrix_solve_pcg_loop (self : sp_matrix) (ILU : sp_matrix_skyline_ilu) (msize : Nat)
    (tol : ℚ) : Nat → pcg_vars → pcg_vars
  | 0, s => s
  | n + 1, s =>
    let u := pcg_update self msize s
    if u.1.residn < tol then u.1
    else
      let v := pcg_precondition ILU self.rows_count
        { u.1 with temp := memset_zero u.1.temp self.rows_count }
      sp_matrix_solve_pcg_loop self ILU msize tol n
        { pcg_direction msize v u.2 with j := v.j + 1 }

/-- The variables of `sp_matrix_solve_pcg` when the preconditioner is applied
for the first time (lines 1369-1384): the buffers are cleared, `x = x0` and
`r = b - sp_matrix_mv(b)`. -/
def sp_matrix_solve_pcg_init (self : sp_matrix) (b x0 x : List ℚ) : pcg_vars :=
  let msize := self.rows_count.toNat
  let r := List.replicate msize (0 : ℚ)
  let r1 := List.replicate msize (0 : ℚ)
  let p := List.replicate msize (0 : ℚ)
  let z := List.replicate msize (0 : ℚ)
  let temp := List.replicate msize (0 : ℚ)
  let x := loop msize (fun i (x : List ℚ) => x.set i (x0.getD i 0)) x
  let r := sp_matrix_mv self b r
  let r := loop msize (fun i (r : List ℚ) => r.set i (b.getD i 0 - r.getD i 0)) r
  { x := x, r := r, r1 := r1, p := p, z := z, temp := temp, residn := 0, j := 0 }

/-- Function `sp_matrix_solve_pcg` (line 1313).  The `assert`s of
`init_sp_matrix_skyline` abort, and so do the stores through `max_iter` and
`tolerance` on return when one of them is null (`none`).  Returns
`(x, *max_iter, *tolerance)`. -/
def sp_matrix_solve_pcg (junk : Nat → ℚ) (self : sp_matrix) (b x0 : List ℚ)
    (max_iter : Option Int) (tolerance : Option ℚ) (x : List ℚ) :
    Option (List ℚ × Int × ℚ) :=
  let msize := self.rows_count.toNat
  let max_iterations := match max_iter with
    | some m => m
    | none => MAX_ITER
  let tol := match tolerance with
    | some t => t
    | none => TOLERANCE
  match init_sp_matrix_skyline junk self with
  | none => none
  | some A =>
    let ILU := init_copy_sp_matrix_skyline_ilu A
    let s := pcg_precondition ILU self.rows_count (sp_matrix_solve_pcg_init self b x0 x)
    let s := { s with p := memcpy s.p s.z self.rows_count }
    let s := sp_matrix_solve_pcg_loop self ILU msize tol max_iterations.toNat s
    match max_iter, tolerance with
    | some _, some _ => some (s.x, s.j, s.residn)
    | _, _ => none

/-! # Theorems -/

/-! ## Basic facts about buffers -/

theorem getD_set_eq {α : Type} (l : List α) (i k : Nat) (a d : α) :
    (l.set i a).getD k d = if i = k ∧ i < l.length then a else l.getD k d := by
  simp only [List.getD_eq_getElem?_getD, List.getElem?_set]
  by_cases h : i = k
  · subst h
    by_cases h2 : i < l.length
    · simp [h2]
    · simp [h2, List.getElem?_eq_none (Nat.le_of_not_lt h2)]
  · simp [h]

theorem getD_set_self {α : Type} (l : List α) (i : Nat) (a d : α) (h : i < l.length) :
    (l.set i a).getD i d = a := by
  rw [getD_set_eq]; simp [h]

theorem getD_set_ne {α : Type} (l : List α) (i k : Nat) (a d : α) (h : i ≠ k) :
    (l.set i a).getD k d = l.getD k d := by
  rw [getD_set_eq]; simp [h]

theorem getD_realloc {α : Type} [Zero α] (p : List α) (n : Int) (k : Nat)
    (hk : k < p.length) (hn : (p.length : Int) ≤ n) :
    (realloc p n).getD k 0 = p.getD k 0 := by
  unfold realloc
  have h1 : k < n.toNat := by omega
  simp only [List.getD_eq_getElem?_getD]
  rw [List.getElem?_take_of_lt h1, List.getElem?_append_left hk]

theorem length_realloc {α : Type} [Zero α] (p : List α) (n : Int) :
    (realloc p n).length = n.toNat := by
  unfold realloc
  simp

/-! ## Facts about the search loop -/

theorem indexed_array_find_eq_some (row : indexed_array) (j : Int) (k : Nat) :
    indexed_array_find row j = some k ↔
      (k : Int) ≤ row.last_index ∧ row.indexes.getD k 0 = j
        ∧ ∀ k' : Nat, k' < k → row.indexes.getD k' 0 ≠ j := by
  unfold indexed_array_find
  rw [List.find?_range_eq_some]
  simp only [List.mem_range, beq_iff_eq, Bool.not_eq_true', beq_eq_false_iff_ne, ne_eq]
  constructor
  · rintro ⟨h1, h2, h3⟩
    exact ⟨by omega, h1, h3⟩
  · rintro ⟨h1, h2, h3⟩
    exact ⟨h2, by omega, h3⟩

theorem indexed_array_find_eq_none (row : indexed_array) (j : Int) :
    indexed_array_find row j = none ↔
      ∀ k : Nat, (k : Int) ≤ row.last_index → row.indexes.getD k 0 ≠ j := by
  unfold indexed_array_find
  rw [List.find?_range_eq_none]
  simp only [beq_iff_eq, Bool.not_eq_true', beq_eq_false_iff_ne, ne_eq]
  constructor
  · intro h k hk
    exact h k (by omega)
  · intro h k hk
    exact h k (by omega)

/-- The search only looks at `last_index` and the slots up to it. -/
theorem indexed_array_find_congr (row row1 : indexed_array) (j : Int)
    (hl : row1.last_index = row.last_index)
    (hi : ∀ k : Nat, (k : Int) ≤ row.last_index →
      row1.indexes.getD k 0 = row.indexes.getD k 0) :
    indexed_array_find row1 j = indexed_array_find row j := by
  cases h : indexed_array_find row j with
  | none =>
    rw [indexed_array_find_eq_none] at h ⊢
    intro k hk
    rw [hl] at hk
    rw [hi k hk]
    exact h k hk
  | some k =>
    rw [indexed_array_find_eq_some] at h ⊢
    obtain ⟨h1, h2, h3⟩ := h
    refine ⟨by omega, by rw [hi k h1]; exact h2, ?_⟩
    intro k' hk'
    rw [hi k' (by omega)]
    exact h3 k' hk'

/-! ## The structural invariant of a sparse matrix -/

theorem indexed_array_wf.nodup_eq {cols : Int} {row : indexed_array}
    (h : indexed_array_wf cols row) (k k' : Nat) (hk : (k : Int) ≤ row.last_index)
    (hk' : (k' : Int) ≤ row.last_index)
    (e : row.indexes.getD k 0 = row.indexes.getD k' 0) : k = k' := by
  rcases Nat.lt_trichotomy k k' with hlt | heq | hgt
  · exact absurd e (h.nodup k' (by omega) k hlt)
  · exact heq
  · exact absurd e.symm (h.nodup k (by omega) k' hgt)

theorem row_set_self (self : sp_matrix) (i : Nat) (row : indexed_array)
    (rc cc : Int) (o : Bool) (h : i < self.rows.length) :
    (sp_matrix.mk rc cc (self.rows.set i row) o).row i = row := by
  unfold sp_matrix.row
  exact getD_set_self _ _ _ _ h

theorem row_set_ne (self : sp_matrix) (i k : Nat) (row : indexed_array)
    (rc cc : Int) (o : Bool) (h : i ≠ k) :
    (sp_matrix.mk rc cc (self.rows.set i row) o).row k = self.row k := by
  unfold sp_matrix.row
  exact getD_set_ne _ _ _ _ _ h

theorem init_sp_matrix_row (rows cols bandwidth : Int) (i : Nat) (h : i < rows.toNat) :
    (init_sp_matrix rows cols bandwidth).row i =
      { width := bandwidth, last_index := -1
        indexes := List.replicate bandwidth.toNat 0
        values := List.replicate bandwidth.toNat 0 } := by
  unfold sp_matrix.row init_sp_matrix
  simp only [List.getD_eq_getElem?_getD]
  rw [List.getElem?_replicate]
  simp [h]

theorem init_sp_matrix_wf (rows cols bandwidth : Int) :
    sp_matrix_wf (init_sp_matrix rows cols bandwidth) := by
  constructor
  · simp [init_sp_matrix]
  · intro i hi
    have hi' : i < rows.toNat := hi
    rw [init_sp_matrix_row _ _ _ _ hi']
    constructor <;> simp

theorem init_sp_matrix_cap (rows cols bandwidth : Int) (h : 0 < bandwidth) :
    sp_matrix_cap (init_sp_matrix rows cols bandwidth) := by
  intro i hi
  have hi' : i < rows.toNat := hi
  rw [init_sp_matrix_row _ _ _ _ hi']
  exact h

/-! ## What `sp_matrix_element_add` does -/

theorem sp_matrix_get_eq (self : sp_matrix) (i j : Int) :
    sp_matrix_get self i j =
      if 0 ≤ i ∧ i < self.rows_count ∧ 0 ≤ j ∧ j < self.cols_count then
        indexed_array_get (self.row i.toNat) j
      else none := by
  unfold sp_matrix_get sp_matrix_element indexed_array_get
  split <;> simp

theorem indexed_array_append_added (row0 row row1 : indexed_array) (j : Int) (v : ℚ)
    (hl : row.last_index = row0.last_index) (hge : -1 ≤ row0.last_index)
    (hil : row.indexes.length = row.width.toNat)
    (hvl : row.values.length = row.width.toNat)
    (hk : ∀ k : Nat, (k : Int) ≤ row0.last_index →
      row.indexes.getD k 0 = row0.indexes.getD k 0
        ∧ row.values.getD k 0 = row0.values.getD k 0)
    (hf : indexed_array_find row0 j = none)
    (h : indexed_array_append row j v = some row1) :
    indexed_array_added row0 row1 j v := by
  unfold indexed_array_append at h
  simp only at h
  split at h
  · rename_i hc
    obtain ⟨hc1, hc2, hc3⟩ := hc
    injection h with h
    subst h
    right
    refine ⟨hf, by simp [hl], by simp only; omega, by simp [hil], by simp [hvl], ?_, ?_, ?_, ?_⟩
    · simp only
      omega
    · simp only [hl]
      rw [getD_set_self]
      rw [hl] at hc3
      exact hc3
    · simp only [hl]
      rw [getD_set_self]
      rw [hl] at hc2
      exact hc2
    · intro k hk'
      simp only
      rw [getD_set_ne _ _ _ _ _ (by omega), getD_set_ne _ _ _ _ _ (by omega)]
      exact hk k hk'
  · exact absurd h (by simp)

/-- The effect of `sp_matrix_element_add` at an in-range position: only row
`i` changes, in the way `indexed_array_added` says. -/
theorem sp_matrix_element_add_spec (self self1 : sp_matrix) (i j : Int) (v : ℚ)
    (hwf : sp_matrix_wf self)
    (hin : 0 ≤ i ∧ i < self.rows_count ∧ 0 ≤ j ∧ j < self.cols_count)
    (h : sp_matrix_element_add self i j v = some self1) :
    self1.rows_count = self.rows_count ∧ self1.cols_count = self.cols_count
      ∧ self1.rows.length = self.rows.length
      ∧ (∀ k : Nat, k ≠ i.toNat → self1.row k = self.row k)
      ∧ indexed_array_added (self.row i.toNat) (self1.row i.toNat) j v := by
  have hi : i.toNat < self.rows.length := by rw [hwf.rows_len]; omega
  have hrow := hwf.rows_wf i.toNat (by omega)
  unfold sp_matrix_element_add at h
  rw [if_pos hin] at h
  simp only at h
  split at h
  · rename_i index hf
    injection h with h
    subst h
    refine ⟨rfl, rfl, by simp, ?_, ?_⟩
    · intro k hk
      exact row_set_ne _ _ _ _ _ _ _ (Ne.symm hk)
    · rw [row_set_self _ _ _ _ _ _ hi]
      exact Or.inl ⟨index, hf, rfl⟩
  · rename_i hf
    split at h
    · rename_i hfull
      split at h
      · exact absurd h (by simp)
      · rename_i hnw
        rw [Option.map_eq_some'] at h
        obtain ⟨row1, happ, h⟩ := h
        subst h
        refine ⟨rfl, rfl, by simp, ?_, ?_⟩
        · intro k hk
          exact row_set_ne _ _ _ _ _ _ _ (Ne.symm hk)
        · rw [row_set_self _ _ _ _ _ _ hi]
          refine indexed_array_append_added (self.row i.toNat)
            { self.row i.toNat with
              indexes := realloc (self.row i.toNat).indexes ((self.row i.toNat).width * 2)
              values := realloc (self.row i.toNat).values ((self.row i.toNat).width * 2)
              width := (self.row i.toNat).width * 2 } row1 j v rfl hrow.last_ge
            (by simp only [length_realloc]) (by simp only [length_realloc])
            ?_ hf happ
          intro k hk
          have h1 := hrow.idx_len
          have h2 := hrow.val_len
          have h3 := hrow.last_lt
          constructor
          · exact getD_realloc _ _ _ (by omega) (by omega)
          · exact getD_realloc _ _ _ (by omega) (by omega)
    · rename_i hfull
      rw [Option.map_eq_some'] at h
      obtain ⟨row1, happ, h⟩ := h
      subst h
      refine ⟨rfl, rfl, by simp, ?_, ?_⟩
      · intro k hk
        exact row_set_ne _ _ _ _ _ _ _ (Ne.symm hk)
      · rw [row_set_self _ _ _ _ _ _ hi]
        have h3 := hrow.last_lt
        have h4 := hrow.last_ge
        refine indexed_array_append_added (self.row i.toNat) _ row1 j v rfl hrow.last_ge
          hrow.idx_len hrow.val_len (fun k _ => ⟨rfl, rfl⟩) hf happ

theorem indexed_array_added_wf (cols : Int) (row row1 : indexed_array) (j : Int) (v : ℚ)
    (hj : 0 ≤ j ∧ j < cols) (hwf : indexed_array_wf cols row)
    (h : indexed_array_added row row1 j v) : indexed_array_wf cols row1 := by
  rcases h with ⟨index, hf, rfl⟩ | ⟨hf, h1, h2, h3, h4, h5, h6, h7, h8⟩
  · exact ⟨hwf.last_ge, hwf.idx_len, by simp [hwf.val_len], hwf.last_lt, hwf.in_range,
      hwf.nodup⟩
  · have hge := hwf.last_ge
    rw [indexed_array_find_eq_none] at hf
    refine ⟨by omega, h3, h4, h5, ?_, ?_⟩
    · intro k hk
      by_cases hkl : (k : Int) ≤ row.last_index
      · rw [(h8 k hkl).1]
        exact hwf.in_range k (by omega)
      · have : k = (row.last_index + 1).toNat := by omega
        subst this
        rw [h6]
        exact hj
    · intro k hk k' hk'
      by_cases hkl : (k : Int) ≤ row.last_index
      · rw [(h8 k hkl).1, (h8 k' (by omega)).1]
        exact hwf.nodup k (by omega) k' hk'
      · have : k = (row.last_index + 1).toNat := by omega
        subst this
        rw [h6, (h8 k' (by omega)).1]
        exact hf k' (by omega)

/-- After the add, the row holds for column `j` its old value (zero when the
column was not stored) plus `v`. -/
theorem indexed_array_added_get_self (cols : Int) (row row1 : indexed_array) (j : Int) (v : ℚ)
    (hwf : indexed_array_wf cols row)
    (h : indexed_array_added row row1 j v) :
    indexed_array_get row1 j = some ((indexed_array_get row j).getD 0 + v) := by
  rcases h with ⟨index, hf, rfl⟩ | ⟨hf, h1, h2, h3, h4, h5, h6, h7, h8⟩
  · have hf1 : indexed_array_find
        { row with values := row.values.set index (row.values.getD index 0 + v) } j
          = some index :=
      (indexed_array_find_congr row _ j rfl (fun _ _ => rfl)).trans hf
    unfold indexed_array_get
    rw [hf1, hf]
    rw [indexed_array_find_eq_some] at hf
    have := hwf.val_len
    have := hwf.last_lt
    simp only [Option.map_some', Option.getD_some]
    rw [getD_set_self _ _ _ _ (by omega)]
  · have hge := hwf.last_ge
    have hf1 : indexed_array_find row1 j = some (row.last_index + 1).toNat := by
      rw [indexed_array_find_eq_some]
      rw [indexed_array_find_eq_none] at hf
      refine ⟨by omega, h6, ?_⟩
      intro k' hk'
      rw [(h8 k' (by omega)).1]
      exact hf k' (by omega)
    unfold indexed_array_get
    rw [hf1, hf]
    simp only [Option.map_some', Option.map_none', Option.getD_none, zero_add, h7]

/-- After the add, the row holds for every other column what it held. -/
theorem indexed_array_added_get_other (cols : Int) (row row1 : indexed_array) (j j' : Int)
    (v : ℚ) (hwf : indexed_array_wf cols row) (hne : j' ≠ j)
    (h : indexed_array_added row row1 j v) :
    indexed_array_get row1 j' = indexed_array_get row j' := by
  rcases h with ⟨index, hf, rfl⟩ | ⟨hf, h1, h2, h3, h4, h5, h6, h7, h8⟩
  · have hf1 : indexed_array_find
        { row with values := row.values.set index (row.values.getD index 0 + v) } j'
          = indexed_array_find row j' :=
      indexed_array_find_congr row _ j' rfl (fun _ _ => rfl)
    unfold indexed_array_get
    rw [hf1]
    cases hf' : indexed_array_find row j' with
    | none => rfl
    | some k =>
      rw [indexed_array_find_eq_some] at hf hf'
      have : index ≠ k := by
        rintro rfl
        exact hne (hf'.2.1.symm.trans hf.2.1)
      simp only [Option.map_some']
      rw [getD_set_ne _ _ _ _ _ this]
  · have hge := hwf.last_ge
    unfold indexed_array_get
    cases hf' : indexed_array_find row j' with
    | none =>
      have : indexed_array_find row1 j' = none := by
        rw [indexed_array_find_eq_none] at hf' ⊢
        intro k hk
        by_cases hkl : (k : Int) ≤ row.last_index
        · rw [(h8 k hkl).1]
          exact hf' k hkl
        · have : k = (row.last_index + 1).toNat := by omega
          subst this
          rw [h6]
          exact Ne.symm hne
      rw [this]
      rfl
    | some k =>
      have hk := (indexed_array_find_eq_some _ _ _).1 hf'
      have : indexed_array_find row1 j' = some k := by
        rw [indexed_array_find_eq_some]
        refine ⟨by omega, by rw [(h8 k hk.1).1]; exact hk.2.1, ?_⟩
        intro k' hk'
        rw [(h8 k' (by omega)).1]
        exact hk.2.2 k' hk'
      rw [this]
      simp only [Option.map_some']
      rw [(h8 k hk.1).2]

theorem sp_matrix_element_add_wf (self self1 : sp_matrix) (i j : Int) (v : ℚ)
    (hwf : sp_matrix_wf self) (h : sp_matrix_element_add self i j v = some self1) :
    sp_matrix_wf self1 := by
  by_cases hin : 0 ≤ i ∧ i < self.rows_count ∧ 0 ≤ j ∧ j < self.cols_count
  · obtain ⟨h1, h2, h3, h4, h5⟩ := sp_matrix_element_add_spec self self1 i j v hwf hin h
    constructor
    · rw [h3, h1]; exact hwf.rows_len
    · intro k hk
      rw [h1] at hk
      rw [h2]
      by_cases hki : k = i.toNat
      · subst hki
        exact indexed_array_added_wf _ _ _ j v ⟨hin.2.2.1, hin.2.2.2⟩ (hwf.rows_wf _ hk) h5
      · rw [h4 k hki]
        exact hwf.rows_wf k hk
  · unfold sp_matrix_element_add at h
    rw [if_neg hin] at h
    injection h with h
    subst h
    exact hwf

theorem sp_matrix_element_add_cap (self self1 : sp_matrix) (i j : Int) (v : ℚ)
    (hwf : sp_matrix_wf self) (hcap : sp_matrix_cap self)
    (h : sp_matrix_element_add self i j v = some self1) :
    sp_matrix_cap self1 := by
  by_cases hin : 0 ≤ i ∧ i < self.rows_count ∧ 0 ≤ j ∧ j < self.cols_count
  · obtain ⟨h1, h2, h3, h4, h5⟩ := sp_matrix_element_add_spec self self1 i j v hwf hin h
    intro k hk
    rw [h1] at hk
    by_cases hki : k = i.toNat
    · subst hki
      rcases h5 with ⟨index, hf, h5⟩ | ⟨hf, h5, h6, _⟩
      · rw [h5]
        exact hcap _ hk
      · exact h6
    · rw [h4 k hki]
      exact hcap k hk
  · unfold sp_matrix_element_add at h
    rw [if_neg hin] at h
    injection h with h
    subst h
    exact hcap

/-- With positive capacities `sp_matrix_element_add` does not abort. -/
theorem sp_matrix_element_add_isSome (self : sp_matrix) (i j : Int) (v : ℚ)
    (hwf : sp_matrix_wf self) (hcap : sp_matrix_cap self) :
    (sp_matrix_element_add self i j v).isSome = true := by
  unfold sp_matrix_element_add
  split
  · rename_i hin
    have hrow := hwf.rows_wf i.toNat (by omega)
    have hw := hcap i.toNat (by omega)
    have h1 := hrow.idx_len
    have h2 := hrow.val_len
    have h3 := hrow.last_lt
    have h4 := hrow.last_ge
    simp only
    split
    · rfl
    · split
      · rw [if_neg (by omega)]
        unfold indexed_array_append
        simp only [length_realloc]
        rw [if_pos (by omega)]
        rfl
      · unfold indexed_array_append
        simp only
        rw [if_pos (by omega)]
        rfl
  · rfl

/-! ## Sorting: rearrangements -/

/-- A permutation that fixes everything outside `l..r` maps `l..r` to itself. -/
theorem perm_maps_range (σ : Equiv.Perm ℕ) (l r : Int)
    (hfix : ∀ k : ℕ, ((k : Int) < l ∨ r < (k : Int)) → σ k = k) (k : ℕ)
    (hk : l ≤ (k : Int) ∧ (k : Int) ≤ r) : l ≤ ((σ k : ℕ) : Int) ∧ ((σ k : ℕ) : Int) ≤ r := by
  by_contra hcon
  have hout : ((σ k : ℕ) : Int) < l ∨ r < ((σ k : ℕ) : Int) := by omega
  have h1 : σ (σ k) = σ k := hfix (σ k) hout
  have h2 : σ k = k := σ.injective h1
  rw [h2] at hout
  omega

theorem indexed_array_permuted_refl (row : indexed_array) (l r : Int) :
    indexed_array_permuted row row l r :=
  ⟨rfl, rfl, rfl, rfl, 1, fun _ _ => rfl, fun _ => ⟨rfl, rfl⟩⟩

theorem indexed_array_permuted_trans (a b c : indexed_array) (l r : Int)
    (h1 : indexed_array_permuted a b l r) (h2 : indexed_array_permuted b c l r) :
    indexed_array_permuted a c l r := by
  obtain ⟨a1, a2, a3, a4, σ, hσ, hσ'⟩ := h1
  obtain ⟨b1, b2, b3, b4, τ, hτ, hτ'⟩ := h2
  refine ⟨b1.trans a1, b2.trans a2, b3.trans a3, b4.trans a4, τ.trans σ, ?_, ?_⟩
  · intro k hk
    simp only [Equiv.trans_apply]
    rw [hτ k hk, hσ k hk]
  · intro k
    simp only [Equiv.trans_apply]
    exact ⟨(hτ' k).1.trans (hσ' (τ k)).1, (hτ' k).2.trans (hσ' (τ k)).2⟩

theorem indexed_array_permuted_mono (a b : indexed_array) (l r l1 r1 : Int)
    (hl : l ≤ l1) (hr : r1 ≤ r) (h : indexed_array_permuted a b l1 r1) :
    indexed_array_permuted a b l r := by
  obtain ⟨a1, a2, a3, a4, σ, hσ, hσ'⟩ := h
  exact ⟨a1, a2, a3, a4, σ, fun k hk => hσ k (by omega), hσ'⟩

theorem swap_getD {α : Type} (p : List α) (d : α) (i j k : ℕ) (hi : i < p.length)
    (hj : j < p.length) :
    ((p.set i (p.getD j d)).set j (p.getD i d)).getD k d = p.getD (Equiv.swap i j k) d := by
  rw [Equiv.swap_apply_def, getD_set_eq, getD_set_eq]
  simp only [List.length_set]
  by_cases h1 : j = k
  · subst h1
    by_cases h2 : i = j
    · subst h2; simp [hi]
    · have h3 : ¬ j = i := fun h => h2 h.symm
      simp [hj, h3]
  · have h1' : ¬ k = j := fun h => h1 h.symm
    by_cases h2 : i = k
    · subst h2; simp [h1, hi]
    · have h2' : ¬ k = i := fun h => h2 h.symm
      simp [h1, h2, h1', h2']

theorem indexed_array_swap_permuted (row : indexed_array) (l r i j : Int)
    (hi : l ≤ i ∧ i ≤ r) (hj : l ≤ j ∧ j ≤ r) (h0 : 0 ≤ l)
    (hil : r.toNat < row.indexes.length) (hvl : r.toNat < row.values.length) :
    indexed_array_permuted row (indexed_array_swap row i j) l r := by
  unfold indexed_array_swap
  refine ⟨rfl, rfl, by simp, by simp, Equiv.swap i.toNat j.toNat, ?_, ?_⟩
  · intro k hk
    exact Equiv.swap_apply_of_ne_of_ne (by omega) (by omega)
  · intro k
    exact ⟨swap_getD _ _ _ _ _ (by omega) (by omega), swap_getD _ _ _ _ _ (by omega) (by omega)⟩

/-- The cells of a swapped row. -/
theorem indexed_array_swap_getD (row : indexed_array) (i j : Int) (k : ℕ)
    (hi : 0 ≤ i ∧ i.toNat < row.indexes.length)
    (hj : 0 ≤ j ∧ j.toNat < row.indexes.length) :
    (indexed_array_swap row i j).indexes.getD k 0 =
      if k = i.toNat then row.indexes.getD j.toNat 0
      else if k = j.toNat then row.indexes.getD i.toNat 0
      else row.indexes.getD k 0 := by
  unfold indexed_array_swap
  simp only
  rw [swap_getD _ _ _ _ _ hi.2 hj.2, Equiv.swap_apply_def]
  split
  · rfl
  · split <;> rfl

/-! ## Sorting: the partition -/

theorem loop_invariant {σ : Type} (P : Nat → σ → Prop) (n : Nat) (f : Nat → σ → σ) (s : σ)
    (h0 : P 0 s) (hstep : ∀ t : Nat, t < n → ∀ s : σ, P t s → P (t + 1) (f t s)) :
    P n (loop n f s) := by
  induction n with
  | zero => exact h0
  | succ n ih =>
    exact hstep n (Nat.lt_succ_self n) _
      (ih (fun t ht s hs => hstep t (Nat.lt_succ_of_lt ht) s hs))

/-- The invariant of the partition loop after `t` passes: the slots
`l..pivot-1` hold columns `≤ tmp_idx`, the slots `pivot..l+t-1` hold columns
`> tmp_idx`, and slot `r` holds `tmp_idx`. -/
theorem indexed_array_sort_step_invariant (row : indexed_array) (l r tmp_idx : Int)
    (h0 : 0 ≤ l) (hil : r.toNat < row.indexes.length) (hvl : r.toNat < row.values.length)
    (t : ℕ) (ht : l + (t : Int) < r) (s : indexed_array × Int)
    (hs : indexed_array_permuted row s.1 l r ∧ l ≤ s.2 ∧ s.2 ≤ l + (t : Int)
      ∧ s.1.indexes.getD r.toNat 0 = tmp_idx
      ∧ (∀ k : ℕ, l ≤ (k : Int) → (k : Int) < s.2 → s.1.indexes.getD k 0 ≤ tmp_idx)
      ∧ (∀ k : ℕ, s.2 ≤ (k : Int) → (k : Int) < l + (t : Int) →
          tmp_idx < s.1.indexes.getD k 0)) :
    let s1 := indexed_array_sort_step tmp_idx (l + (t : Int)) s
    indexed_array_permuted row s1.1 l r ∧ l ≤ s1.2 ∧ s1.2 ≤ l + ((t + 1 : ℕ) : Int)
      ∧ s1.1.indexes.getD r.toNat 0 = tmp_idx
      ∧ (∀ k : ℕ, l ≤ (k : Int) → (k : Int) < s1.2 → s1.1.indexes.getD k 0 ≤ tmp_idx)
      ∧ (∀ k : ℕ, s1.2 ≤ (k : Int) → (k : Int) < l + ((t + 1 : ℕ) : Int) →
          tmp_idx < s1.1.indexes.getD k 0) := by
  obtain ⟨a, pv⟩ := s
  obtain ⟨hp, h1, h2, h3, h4, h5⟩ := hs
  simp only at hp h1 h2 h3 h4 h5
  have hlen : a.indexes.length = row.indexes.length := hp.2.2.1
  have hlenv : a.values.length = row.values.length := hp.2.2.2.1
  unfold indexed_array_sort_step
  simp only
  split
  · rename_i hle
    simp only
    have hsw : ∀ k : ℕ, (indexed_array_swap a (l + (t : Int)) pv).indexes.getD k 0 =
        if k = (l + (t : Int)).toNat then a.indexes.getD pv.toNat 0
        else if k = pv.toNat then a.indexes.getD (l + (t : Int)).toNat 0
        else a.indexes.getD k 0 := fun k =>
      indexed_array_swap_getD a _ _ k ⟨by omega, by omega⟩ ⟨by omega, by omega⟩
    refine ⟨?_, by omega, by omega, ?_, ?_, ?_⟩
    · exact indexed_array_permuted_trans _ _ _ _ _ hp
        (indexed_array_swap_permuted a l r _ _ ⟨by omega, by omega⟩ ⟨by omega, by omega⟩ h0
          (by omega) (by omega))
    · rw [hsw, if_neg (by omega), if_neg (by omega)]
      exact h3
    · intro k hk1 hk2
      rw [hsw]
      split
      · rename_i hki
        have : pv = l + (t : Int) := by omega
        rw [this]
        exact hle
      · split
        · exact hle
        · exact h4 k hk1 (by omega)
    · intro k hk1 hk2
      rw [hsw]
      split
      · exact h5 pv.toNat (by omega) (by omega)
      · rw [if_neg (by omega)]
        exact h5 k (by omega) (by omega)
  · rename_i hgt
    simp only
    refine ⟨hp, h1, by omega, h3, h4, ?_⟩
    intro k hk1 hk2
    by_cases hk : (k : Int) < l + (t : Int)
    · exact h5 k hk1 hk
    · have : k = (l + (t : Int)).toNat := by omega
      rw [this]
      omega

/-- The partition: the pivot ends in slot `p.2` of `l..r`, with the columns
not above it before and the columns above it after. -/
theorem indexed_array_partition_spec (row : indexed_array) (l r : Int)
    (h0 : 0 ≤ l) (hlr : l < r)
    (hil : r.toNat < row.indexes.length) (hvl : r.toNat < row.values.length) :
    l ≤ (indexed_array_partition row l r).2 ∧ (indexed_array_partition row l r).2 ≤ r
      ∧ indexed_array_permuted row (indexed_array_partition row l r).1 l r
      ∧ (∀ k : ℕ, l ≤ (k : Int) → (k : Int) < (indexed_array_partition row l r).2 →
          (indexed_array_partition row l r).1.indexes.getD k 0 ≤
            (indexed_array_partition row l r).1.indexes.getD
              (indexed_array_partition row l r).2.toNat 0)
      ∧ (∀ k : ℕ, (indexed_array_partition row l r).2 < (k : Int) → (k : Int) ≤ r →
          (indexed_array_partition row l r).1.indexes.getD
              (indexed_array_partition row l r).2.toNat 0 <
            (indexed_array_partition row l r).1.indexes.getD k 0) := by
  have hpiv : Int.tdiv (r + l) 2 = (r + l) / 2 := Int.tdiv_eq_ediv (by omega) (by omega)
  have hpl : l ≤ (r + l) / 2 := by omega
  have hpr : (r + l) / 2 < r := by omega
  have hinv := loop_invariant
    (fun (t : ℕ) (s : indexed_array × Int) =>
      indexed_array_permuted row s.1 l r ∧ l ≤ s.2 ∧ s.2 ≤ l + (t : Int)
      ∧ s.1.indexes.getD r.toNat 0 = row.indexes.getD ((r + l) / 2).toNat 0
      ∧ (∀ k : ℕ, l ≤ (k : Int) → (k : Int) < s.2 →
          s.1.indexes.getD k 0 ≤ row.indexes.getD ((r + l) / 2).toNat 0)
      ∧ (∀ k : ℕ, s.2 ≤ (k : Int) → (k : Int) < l + (t : Int) →
          row.indexes.getD ((r + l) / 2).toNat 0 < s.1.indexes.getD k 0))
    (r - l).toNat
    (fun t s => indexed_array_sort_step (row.indexes.getD ((r + l) / 2).toNat 0)
      (l + (t : Int)) s)
    (indexed_array_swap row ((r + l) / 2) r, l)
    (by
      refine ⟨?_, le_refl _, by omega, ?_, ?_, ?_⟩
      · exact indexed_array_swap_permuted row l r _ _ ⟨hpl, by omega⟩ ⟨by omega, le_refl _⟩
          h0 hil hvl
      · simp only
        rw [indexed_array_swap_getD row _ _ _ ⟨by omega, by omega⟩ ⟨by omega, by omega⟩]
        rw [if_neg (by omega), if_pos rfl]
      · intro k hk1 hk2; simp only at hk2; omega
      · intro k hk1 hk2; simp only at hk1; omega)
    (fun t ht s hs =>
      indexed_array_sort_step_invariant row l r _ h0 hil hvl t (by omega) s hs)
  unfold indexed_array_partition
  simp only [hpiv]
  generalize loop (r - l).toNat
    (fun t s => indexed_array_sort_step (row.indexes.getD ((r + l) / 2).toNat 0)
      (l + (t : Int)) s)
    (indexed_array_swap row ((r + l) / 2) r, l) = s at hinv
  obtain ⟨a, pv⟩ := s
  obtain ⟨hp, h1, h2, h3, h4, h5⟩ := hinv
  simp only at hp h1 h2 h3 h4 h5 ⊢
  have hlen : a.indexes.length = row.indexes.length := hp.2.2.1
  have hlenv : a.values.length = row.values.length := hp.2.2.2.1
  have hsw : ∀ k : ℕ, (indexed_array_swap a r pv).indexes.getD k 0 =
      if k = r.toNat then a.indexes.getD pv.toNat 0
      else if k = pv.toNat then a.indexes.getD r.toNat 0
      else a.indexes.getD k 0 := fun k =>
    indexed_array_swap_getD a _ _ k ⟨by omega, by omega⟩ ⟨by omega, by omega⟩
  have hpv : (indexed_array_swap a r pv).indexes.getD pv.toNat 0 =
      row.indexes.getD ((r + l) / 2).toNat 0 := by
    rw [hsw]
    split
    · rename_i h
      have : pv.toNat = r.toNat := h
      rw [this]; exact h3
    · rw [if_pos rfl]; exact h3
  refine ⟨h1, by omega, ?_, ?_, ?_⟩
  · exact indexed_array_permuted_trans _ _ _ _ _ hp
      (indexed_array_swap_permuted a l r _ _ ⟨by omega, le_refl _⟩ ⟨by omega, by omega⟩ h0
        (by omega) (by omega))
  · intro k hk1 hk2
    rw [hpv, hsw, if_neg (by omega), if_neg (by omega)]
    exact h4 k hk1 hk2
  · intro k hk1 hk2
    rw [hpv, hsw]
    split
    · exact h5 pv.toNat (by omega) (by omega)
    · rw [if_neg (by omega)]
      exact h5 k (by omega) (by omega)

/-! ## Sorting: `indexed_array_sort` sorts -/

theorem indexed_array_permuted_getD_in (row row1 : indexed_array) (l r : Int)
    (h : indexed_array_permuted row row1 l r) (k : ℕ) (hk : l ≤ (k : Int) ∧ (k : Int) ≤ r) :
    ∃ k1 : ℕ, (l ≤ (k1 : Int) ∧ (k1 : Int) ≤ r)
      ∧ row1.indexes.getD k 0 = row.indexes.getD k1 0 := by
  obtain ⟨_, _, _, _, σ, hσ, hσ'⟩ := h
  exact ⟨σ k, perm_maps_range σ l r hσ k hk, (hσ' k).1⟩

theorem indexed_array_permuted_getD_out (row row1 : indexed_array) (l r : Int)
    (h : indexed_array_permuted row row1 l r) (k : ℕ) (hk : (k : Int) < l ∨ r < (k : Int)) :
    row1.indexes.getD k 0 = row.indexes.getD k 0 := by
  obtain ⟨_, _, _, _, σ, hσ, hσ'⟩ := h
  have := (hσ' k).1
  rw [hσ k hk] at this
  exact this

/-- With enough fuel `indexed_array_sort_fuel` returns, and the result is the
row with the slots `l..r` rearranged into non-decreasing column order. -/
theorem indexed_array_sort_fuel_spec (fuel : ℕ) :
    ∀ (row : indexed_array) (l r : Int), 0 ≤ l →
      (l < r → r.toNat < row.indexes.length ∧ r.toNat < row.values.length) →
      (r - l).toNat < fuel →
      ∃ row1, indexed_array_sort_fuel fuel row l r = some row1
        ∧ indexed_array_permuted row row1 l r ∧ indexed_array_sorted row1 l r := by
  induction fuel with
  | zero => intro row l r _ _ hf; omega
  | succ fuel ih =>
    intro row l r h0 hlen hf
    unfold indexed_array_sort_fuel
    split
    · rename_i hlr
      obtain ⟨hil, hvl⟩ := hlen hlr
      split
      · rename_i h1
        split
        · rename_i hgt
          refine ⟨_, rfl, ?_, ?_⟩
          · exact indexed_array_swap_permuted row l r _ _ ⟨by omega, le_refl _⟩
              ⟨le_refl _, by omega⟩ h0 hil hvl
          · intro k k' hk1 hk2 hk3
            rw [indexed_array_swap_getD row _ _ _ ⟨by omega, by omega⟩ ⟨by omega, by omega⟩,
              indexed_array_swap_getD row _ _ _ ⟨by omega, by omega⟩ ⟨by omega, by omega⟩]
            have e1 : k = l.toNat := by omega
            have e2 : k' = r.toNat := by omega
            rw [if_neg (by omega), if_pos e1, if_pos e2]
            omega
        · rename_i hgt
          refine ⟨_, rfl, indexed_array_permuted_refl _ _ _, ?_⟩
          intro k k' hk1 hk2 hk3
          have e1 : k = l.toNat := by omega
          have e2 : k' = r.toNat := by omega
          rw [e1, e2]
          omega
      · rename_i h1
        obtain ⟨hp1, hp2, hp3, hp4, hp5⟩ := indexed_array_partition_spec row l r h0 hlr hil hvl
        generalize indexed_array_partition row l r = p at hp1 hp2 hp3 hp4 hp5
        obtain ⟨a, pv⟩ := p
        simp only at hp1 hp2 hp3 hp4 hp5 ⊢
        have hla : a.indexes.length = row.indexes.length := hp3.2.2.1
        have hlva : a.values.length = row.values.length := hp3.2.2.2.1
        obtain ⟨row1, hs1, hq1, hsorted1⟩ := ih a l (pv - 1) h0
          (fun _ => ⟨by omega, by omega⟩) (by omega)
        have hl1 : row1.indexes.length = a.indexes.length := hq1.2.2.1
        have hlv1 : row1.values.length = a.values.length := hq1.2.2.2.1
        obtain ⟨row2, hs2, hq2, hsorted2⟩ := ih row1 (pv + 1) r (by omega)
          (fun _ => ⟨by omega, by omega⟩) (by omega)
        rw [hs1]
        simp only
        refine ⟨row2, hs2, ?_, ?_⟩
        · exact indexed_array_permuted_trans _ _ _ _ _ hp3
            (indexed_array_permuted_trans _ _ _ _ _
              (indexed_array_permuted_mono _ _ l r l (pv - 1) (le_refl _) (by omega) hq1)
              (indexed_array_permuted_mono _ _ l r (pv + 1) r (by omega) (le_refl _) hq2))
        · -- the three regions: before the pivot, the pivot, after the pivot
          have hA : ∀ k : ℕ, l ≤ (k : Int) → (k : Int) < pv →
              row2.indexes.getD k 0 ≤ a.indexes.getD pv.toNat 0 := by
            intro k hk1 hk2
            rw [indexed_array_permuted_getD_out _ _ _ _ hq2 k (by omega)]
            obtain ⟨k1, hk1', e⟩ := indexed_array_permuted_getD_in _ _ _ _ hq1 k ⟨hk1, by omega⟩
            rw [e]
            exact hp4 k1 hk1'.1 (by omega)
          have hB : row2.indexes.getD pv.toNat 0 = a.indexes.getD pv.toNat 0 := by
            rw [indexed_array_permuted_getD_out _ _ _ _ hq2 pv.toNat (by omega),
              indexed_array_permuted_getD_out _ _ _ _ hq1 pv.toNat (by omega)]
          have hC : ∀ k : ℕ, pv < (k : Int) → (k : Int) ≤ r →
              a.indexes.getD pv.toNat 0 < row2.indexes.getD k 0 := by
            intro k hk1 hk2
            obtain ⟨k1, hk1', e⟩ := indexed_array_permuted_getD_in _ _ _ _ hq2 k ⟨by omega, hk2⟩
            rw [e, indexed_array_permuted_getD_out _ _ _ _ hq1 k1 (by omega)]
            exact hp5 k1 (by omega) hk1'.2
          intro k k' hk1 hk2 hk3
          rcases lt_trichotomy (k' : Int) pv with hlt | heq | hgt
          · rw [indexed_array_permuted_getD_out _ _ _ _ hq2 k (by omega),
              indexed_array_permuted_getD_out _ _ _ _ hq2 k' (by omega)]
            exact hsorted1 k k' hk1 hk2 (by omega)
          · have e : k' = pv.toNat := by omega
            rw [e, hB]
            exact hA k hk1 (by omega)
          · rcases lt_trichotomy (k : Int) pv with hlt' | heq' | hgt'
            · exact le_of_lt (lt_of_le_of_lt (hA k hk1 hlt') (hC k' hgt hk3))
            · have e : k = pv.toNat := by omega
              rw [e, hB]
              exact le_of_lt (hC k' hgt hk3)
            · exact hsorted2 k k' (by omega) hk2 hk3
    · rename_i hlr
      refine ⟨_, rfl, indexed_array_permuted_refl _ _ _, ?_⟩
      intro k k' hk1 hk2 hk3
      omega

/-- Function `indexed_array_sort` on the used slots of a well-formed row returns. -/
theorem indexed_array_sort_spec (cols : Int) (row : indexed_array)
    (hwf : indexed_array_wf cols row) :
    ∃ row1, indexed_array_sort row 0 row.last_index = some row1
      ∧ indexed_array_permuted row row1 0 row.last_index
      ∧ indexed_array_sorted row1 0 row.last_index := by
  have h1 := hwf.idx_len
  have h2 := hwf.val_len
  have h3 := hwf.last_lt
  exact indexed_array_sort_fuel_spec _ row 0 row.last_index (le_refl _)
    (fun _ => ⟨by omega, by omega⟩) (by omega)

/-- Rearranging the used slots keeps a row well formed. -/
theorem indexed_array_permuted_wf (cols : Int) (row row1 : indexed_array)
    (hwf : indexed_array_wf cols row)
    (h : indexed_array_permuted row row1 0 row.last_index) : indexed_array_wf cols row1 := by
  obtain ⟨a1, a2, a3, a4, σ, hσ, hσ'⟩ := h
  have hm := perm_maps_range σ 0 row.last_index hσ
  refine ⟨by rw [a2]; exact hwf.last_ge, by rw [a3, a1]; exact hwf.idx_len,
    by rw [a4, a1]; exact hwf.val_len, by rw [a2, a1]; exact hwf.last_lt, ?_, ?_⟩
  · intro k hk
    rw [a2] at hk
    rw [(hσ' k).1]
    exact hwf.in_range (σ k) (by have := hm k (by omega); omega)
  · intro k hk k' hk' e
    rw [a2] at hk
    rw [(hσ' k).1, (hσ' k').1] at e
    have h1 := hm k (by omega)
    have h2 := hm k' (by omega)
    have := hwf.nodup_eq (σ k') (σ k) (by omega) (by omega) e
    have := σ.injective this
    omega

/-- In a well-formed row sorted slots are strictly increasing. -/
theorem indexed_array_sorted_strict (cols : Int) (row : indexed_array)
    (hwf : indexed_array_wf cols row) (h : indexed_array_sorted row 0 row.last_index)
    (k k' : ℕ) (hk : k < k') (hk' : (k' : Int) ≤ row.last_index) :
    row.indexes.getD k 0 < row.indexes.getD k' 0 := by
  have h1 := h k k' (by omega) hk hk'
  have h2 := hwf.nodup k' (by omega) k hk
  omega

/-! ## `sp_matrix_reorder` -/

theorem sp_matrix_reorder_loop_spec (self : sp_matrix) (hwf : sp_matrix_wf self) (n : ℕ)
    (hn : n ≤ self.rows_count.toNat) :
    ∃ self1, sp_matrix_reorder_loop n self = some self1
      ∧ self1.rows_count = self.rows_count ∧ self1.cols_count = self.cols_count
      ∧ self1.ordered = self.ordered ∧ self1.rows.length = self.rows.length
      ∧ (∀ i : ℕ, i < n →
          indexed_array_permuted (self.row i) (self1.row i) 0 (self.row i).last_index
            ∧ indexed_array_sorted (self1.row i) 0 (self.row i).last_index)
      ∧ (∀ i : ℕ, n ≤ i → self1.row i = self.row i) := by
  induction n with
  | zero =>
    exact ⟨self, rfl, rfl, rfl, rfl, rfl, fun i hi => absurd hi (Nat.not_lt_zero i),
      fun _ _ => rfl⟩
  | succ n ih =>
    obtain ⟨self1, h1, h2, h3, h4, h5, h6, h7⟩ := ih (by omega)
    unfold sp_matrix_reorder_loop
    rw [h1]
    simp only
    have hrow : self1.row n = self.row n := h7 n (le_refl _)
    obtain ⟨row1, hs, hp, hsorted⟩ :=
      indexed_array_sort_spec self.cols_count (self.row n) (hwf.rows_wf n (by omega))
    rw [hrow, hs]
    have hlen : n < self1.rows.length := by rw [h5, hwf.rows_len]; omega
    refine ⟨_, rfl, h2, h3, h4, by simp [h5], ?_, ?_⟩
    · intro i hi
      by_cases hin : i = n
      · subst hin
        rw [row_set_self _ _ _ _ _ _ hlen]
        exact ⟨hp, hsorted⟩
      · rw [row_set_ne _ _ _ _ _ _ _ (Ne.symm hin)]
        exact h6 i (by omega)
    · intro i hi
      rw [row_set_ne _ _ _ _ _ _ _ (by omega)]
      exact h7 i (by omega)

/-- Function `sp_matrix_reorder` returns; every row is rearranged into non-decreasing
column order and the flag `ordered` is set. -/
theorem sp_matrix_reorder_spec (self : sp_matrix) (hwf : sp_matrix_wf self) :
    ∃ self1, sp_matrix_reorder self = some self1
      ∧ self1.rows_count = self.rows_count ∧ self1.cols_count = self.cols_count
      ∧ self1.ordered = true ∧ self1.rows.length = self.rows.length
      ∧ (∀ i : ℕ, i < self.rows_count.toNat →
          indexed_array_permuted (self.row i) (self1.row i) 0 (self.row i).last_index
            ∧ indexed_array_sorted (self1.row i) 0 (self.row i).last_index) := by
  obtain ⟨self1, h1, h2, h3, h4, h5, h6, h7⟩ :=
    sp_matrix_reorder_loop_spec self hwf self.rows_count.toNat (le_refl _)
  unfold sp_matrix_reorder
  rw [h1]
  exact ⟨_, rfl, h2, h3, rfl, h5, h6⟩

theorem sp_matrix_reorder_wf (self self1 : sp_matrix) (hwf : sp_matrix_wf self)
    (h : sp_matrix_reorder self = some self1) : sp_matrix_wf self1 := by
  obtain ⟨self2, h1, h2, h3, h4, h5, h6⟩ := sp_matrix_reorder_spec self hwf
  rw [h] at h1
  injection h1 with h1
  subst h1
  constructor
  · rw [h5, h2]; exact hwf.rows_len
  · intro i hi
    rw [h2] at hi
    rw [h3]
    exact indexed_array_permuted_wf _ _ _ (hwf.rows_wf i hi) (h6 i hi).1

theorem sp_matrix_reorder_cap (self self1 : sp_matrix) (hwf : sp_matrix_wf self)
    (hcap : sp_matrix_cap self) (h : sp_matrix_reorder self = some self1) :
    sp_matrix_cap self1 := by
  obtain ⟨self2, h1, h2, h3, h4, h5, h6⟩ := sp_matrix_reorder_spec self hwf
  rw [h] at h1
  injection h1 with h1
  subst h1
  intro i hi
  rw [h2] at hi
  rw [(h6 i hi).1.1]
  exact hcap i hi

/-! ## Reachable matrices are well formed -/

theorem sp_matrix_apply_wf (self self1 : sp_matrix) (op : sp_matrix_op)
    (hwf : sp_matrix_wf self) (h : sp_matrix_apply self op = some self1) :
    sp_matrix_wf self1 := by
  cases op with
  | add i j v => exact sp_matrix_element_add_wf self self1 i j v hwf h
  | reorder => exact sp_matrix_reorder_wf self self1 hwf h

theorem sp_matrix_apply_cap (self self1 : sp_matrix) (op : sp_matrix_op)
    (hwf : sp_matrix_wf self) (hcap : sp_matrix_cap self)
    (h : sp_matrix_apply self op = some self1) : sp_matrix_cap self1 := by
  cases op with
  | add i j v => exact sp_matrix_element_add_cap self self1 i j v hwf hcap h
  | reorder => exact sp_matrix_reorder_cap self self1 hwf hcap h

theorem sp_matrix_run_wf (ops : List sp_matrix_op) :
    ∀ (self self1 : sp_matrix), sp_matrix_wf self → sp_matrix_run self ops = some self1 →
      sp_matrix_wf self1 := by
  induction ops with
  | nil =>
    intro self self1 hwf h
    injection h with h
    subst h
    exact hwf
  | cons op ops ih =>
    intro self self1 hwf h
    unfold sp_matrix_run at h
    split at h
    · exact absurd h (by simp)
    · rename_i self2 h2
      exact ih self2 self1 (sp_matrix_apply_wf self self2 op hwf h2) h

theorem sp_matrix_run_cap (ops : List sp_matrix_op) :
    ∀ (self self1 : sp_matrix), sp_matrix_wf self → sp_matrix_cap self →
      sp_matrix_run self ops = some self1 → sp_matrix_cap self1 := by
  induction ops with
  | nil =>
    intro self self1 _ hcap h
    injection h with h
    subst h
    exact hcap
  | cons op ops ih =>
    intro self self1 hwf hcap h
    unfold sp_matrix_run at h
    split at h
    · exact absurd h (by simp)
    · rename_i self2 h2
      exact ih self2 self1 (sp_matrix_apply_wf self self2 op hwf h2)
        (sp_matrix_apply_cap self self2 op hwf hcap h2) h

/-- With a positive bandwidth no call aborts. -/
theorem sp_matrix_run_isSome (ops : List sp_matrix_op) :
    ∀ (self : sp_matrix), sp_matrix_wf self → sp_matrix_cap self →
      (sp_matrix_run self ops).isSome = true := by
  induction ops with
  | nil => intro self _ _; rfl
  | cons op ops ih =>
    intro self hwf hcap
    have hop : (sp_matrix_apply self op).isSome = true := by
      cases op with
      | add i j v => exact sp_matrix_element_add_isSome self i j v hwf hcap
      | reorder =>
        obtain ⟨self1, h1, _⟩ := sp_matrix_reorder_spec self hwf
        show (sp_matrix_reorder self).isSome = true
        rw [h1]; rfl
    obtain ⟨self2, h2⟩ := Option.isSome_iff_exists.1 hop
    unfold sp_matrix_run
    rw [h2]
    exact ih self2 (sp_matrix_apply_wf self self2 op hwf h2)
      (sp_matrix_apply_cap self self2 op hwf hcap h2)

/-! ## C1: `sp_matrix_element_add` adds to one entry -/

/-- C1. For every matrix reached from `init_sp_matrix` by calls of
`sp_matrix_element_add` (and of `sp_matrix_reorder`), every in-range `(i,j)`
and every `v`: the add returns when the bandwidth is positive, and after it
the entry read at `(i,j)` is its previous value (zero when it was not stored)
plus `v`, while the read at every other position is what it was. -/
theorem C1_sp_matrix_element_add_reads (rows cols bandwidth : Int)
    (ops : List sp_matrix_op) (M : sp_matrix)
    (hM : sp_matrix_run (init_sp_matrix rows cols bandwidth) ops = some M)
    (i j : Int) (hi : 0 ≤ i ∧ i < M.rows_count) (hj : 0 ≤ j ∧ j < M.cols_count) (v : ℚ) :
    (0 < bandwidth → (sp_matrix_element_add M i j v).isSome = true)
      ∧ ∀ M1 : sp_matrix, sp_matrix_element_add M i j v = some M1 →
          sp_matrix_get M1 i j = some (sp_matrix_value M i j + v)
            ∧ sp_matrix_value M1 i j = sp_matrix_value M i j + v
            ∧ ∀ i1 j1 : Int, (i1 ≠ i ∨ j1 ≠ j) →
                sp_matrix_get M1 i1 j1 = sp_matrix_get M i1 j1
                  ∧ sp_matrix_value M1 i1 j1 = sp_matrix_value M i1 j1 := by
  have hwf : sp_matrix_wf M := sp_matrix_run_wf ops _ M (init_sp_matrix_wf _ _ _) hM
  constructor
  · intro hbw
    exact sp_matrix_element_add_isSome M i j v hwf
      (sp_matrix_run_cap ops _ M (init_sp_matrix_wf _ _ _) (init_sp_matrix_cap _ _ _ hbw) hM)
  · intro M1 hadd
    have hin : 0 ≤ i ∧ i < M.rows_count ∧ 0 ≤ j ∧ j < M.cols_count :=
      ⟨hi.1, hi.2, hj.1, hj.2⟩
    obtain ⟨h1, h2, h3, h4, h5⟩ := sp_matrix_element_add_spec M M1 i j v hwf hin hadd
    have hrow := hwf.rows_wf i.toNat (by omega)
    have hself : sp_matrix_get M1 i j = some (sp_matrix_value M i j + v) := by
      unfold sp_matrix_value
      rw [sp_matrix_get_eq, sp_matrix_get_eq, h1, h2, if_pos hin, if_pos hin]
      exact indexed_array_added_get_self _ _ _ j v hrow h5
    have hother : ∀ i1 j1 : Int, (i1 ≠ i ∨ j1 ≠ j) →
        sp_matrix_get M1 i1 j1 = sp_matrix_get M i1 j1 := by
      intro i1 j1 hne
      rw [sp_matrix_get_eq, sp_matrix_get_eq, h1, h2]
      split
      · rename_i hin1
        by_cases hii : i1 = i
        · subst hii
          have hjj : j1 ≠ j := by
            rcases hne with h | h
            · exact absurd rfl h
            · exact h
          exact indexed_array_added_get_other _ _ _ j j1 v hrow hjj h5
        · rw [h4 i1.toNat (by omega)]
      · rfl
    refine ⟨hself, ?_, ?_⟩
    · show (sp_matrix_get M1 i j).getD 0 = _
      rw [hself]; rfl
    · intro i1 j1 hne
      refine ⟨hother i1 j1 hne, ?_⟩
      unfold sp_matrix_value
      rw [hother i1 j1 hne]

/-- C1 at the matrix of `test_solver`, adding 7 at the new position (0,1). -/
theorem C1_sp_matrix_element_add_reads_witness :
    sp_matrix_run (init_sp_matrix 3 3 2) test_solver_ops = some test_solver_mtx
      ∧ ((0 : Int) < 2 → (sp_matrix_element_add test_solver_mtx 0 1 7).isSome = true)
      ∧ ∀ M1 : sp_matrix, sp_matrix_element_add test_solver_mtx 0 1 7 = some M1 →
          sp_matrix_get M1 0 1 = some (sp_matrix_value test_solver_mtx 0 1 + 7)
            ∧ sp_matrix_value M1 0 1 = sp_matrix_value test_solver_mtx 0 1 + 7
            ∧ ∀ i1 j1 : Int, (i1 ≠ 0 ∨ j1 ≠ 1) →
                sp_matrix_get M1 i1 j1 = sp_matrix_get test_solver_mtx i1 j1
                  ∧ sp_matrix_value M1 i1 j1 = sp_matrix_value test_solver_mtx i1 j1 :=
  ⟨by decide!,
    C1_sp_matrix_element_add_reads 3 3 2 test_solver_ops test_solver_mtx (by decide!) 0 1
      ⟨by decide, by decide⟩ ⟨by decide, by decide⟩ 7⟩

/-! ## C2: after `sp_matrix_reorder` the rows are strictly increasing -/

/-- C2. For every matrix built from `init_sp_matrix` by calls of
`sp_matrix_element_add` (and of `sp_matrix_reorder`), `sp_matrix_reorder`
returns and afterwards the column indices in the slots `0..last_index` of
every row are strictly increasing. -/
theorem C2_sp_matrix_reorder_strictly_increasing (rows cols bandwidth : Int)
    (ops : List sp_matrix_op) (M : sp_matrix)
    (hM : sp_matrix_run (init_sp_matrix rows cols bandwidth) ops = some M) :
    ∃ M1 : sp_matrix, sp_matrix_reorder M = some M1
      ∧ M1.ordered = true
      ∧ ∀ i : ℕ, (i : Int) < M1.rows_count → ∀ k k1 : ℕ, k < k1 →
          (k1 : Int) ≤ (M1.row i).last_index →
          (M1.row i).indexes.getD k 0 < (M1.row i).indexes.getD k1 0 := by
  have hwf : sp_matrix_wf M := sp_matrix_run_wf ops _ M (init_sp_matrix_wf _ _ _) hM
  obtain ⟨M1, h1, h2, h3, h4, h5, h6⟩ := sp_matrix_reorder_spec M hwf
  refine ⟨M1, h1, h4, ?_⟩
  intro i hi k k1 hk hk1
  rw [h2] at hi
  have hwf1 := sp_matrix_reorder_wf M M1 hwf h1
  have hrow := hwf1.rows_wf i (by omega)
  have hl : (M1.row i).last_index = (M.row i).last_index := (h6 i (by omega)).1.2.1
  have hs := (h6 i (by omega)).2
  rw [← hl] at hs
  exact indexed_array_sorted_strict _ _ hrow hs k k1 hk hk1

/-- C2 at the matrix of `test_solver`. -/
theorem C2_sp_matrix_reorder_strictly_increasing_witness :
    sp_matrix_run (init_sp_matrix 3 3 2) test_solver_ops = some test_solver_mtx
      ∧ ∃ M1 : sp_matrix, sp_matrix_reorder test_solver_mtx = some M1
        ∧ M1.ordered = true
        ∧ ∀ i : ℕ, (i : Int) < M1.rows_count → ∀ k k1 : ℕ, k < k1 →
            (k1 : Int) ≤ (M1.row i).last_index →
            (M1.row i).indexes.getD k 0 < (M1.row i).indexes.getD k1 0 :=
  ⟨by decide!,
    C2_sp_matrix_reorder_strictly_increasing 3 3 2 test_solver_ops test_solver_mtx
      (by decide!)⟩

/-! ## C3: `sp_matrix_mv` is the dense product -/

/-- A loop that accumulates into the cell `i` of a buffer. -/
theorem loop_accumulate (f : ℕ → ℚ) (i : ℕ) (n : ℕ) (y : List ℚ) (hi : i < y.length) :
    loop n (fun j y => y.set i (y.getD i 0 + f j)) y
      = y.set i (y.getD i 0 + ∑ j in Finset.range n, f j) := by
  induction n with
  | zero =>
    simp only [loop, Finset.range_zero, Finset.sum_empty, add_zero]
    apply List.ext_getElem?
    intro k
    by_cases h : i = k
    · subst h
      rw [List.getElem?_set_self hi, List.getD_eq_getElem?_getD, List.getElem?_eq_getElem hi]
      rfl
    · rw [List.getElem?_set_ne h]
  | succ n ih =>
    simp only [loop]
    rw [ih, getD_set_self _ _ _ _ hi, List.set_set, Finset.sum_range_succ, add_assoc]

theorem sp_matrix_mv_loop_spec (self : sp_matrix) (x : List ℚ) (n : ℕ) (y : List ℚ)
    (hn : n ≤ y.length) :
    (loop n
      (fun i y =>
        loop ((self.row i).last_index + 1).toNat
          (fun j y => y.set i (y.getD i 0
            + (self.row i).values.getD j 0
              * x.getD ((self.row i).indexes.getD j 0).toNat 0))
          (y.set i 0)) y).length = y.length
      ∧ ∀ i : ℕ,
        (loop n
          (fun i y =>
            loop ((self.row i).last_index + 1).toNat
              (fun j y => y.set i (y.getD i 0
                + (self.row i).values.getD j 0
                  * x.getD ((self.row i).indexes.getD j 0).toNat 0))
              (y.set i 0)) y).getD i 0
          = if i < n then
              ∑ j in Finset.range ((self.row i).last_index + 1).toNat,
                (self.row i).values.getD j 0
                  * x.getD ((self.row i).indexes.getD j 0).toNat 0
            else y.getD i 0 := by
  induction n with
  | zero => exact ⟨rfl, fun i => by simp [loop]⟩
  | succ n ih =>
    obtain ⟨ih1, ih2⟩ := ih (by omega)
    simp only [loop]
    rw [loop_accumulate _ n _ _ (by rw [List.length_set, ih1]; omega)]
    refine ⟨by simp only [List.length_set, ih1], ?_⟩
    intro i
    rw [List.set_set, getD_set_eq]
    by_cases h : n = i
    · subst h
      rw [if_pos ⟨rfl, by rw [ih1]; omega⟩, if_pos (Nat.lt_succ_self n),
        getD_set_self _ _ _ _ (by rw [ih1]; omega), zero_add]
    · rw [if_neg (fun hc => h hc.1), ih2 i]
      by_cases h2 : i < n
      · rw [if_pos h2, if_pos (by omega)]
      · rw [if_neg h2, if_neg (by omega)]

/-- The value a well-formed row holds for a column is the sum of the values
of the slots that hold this column (there is at most one). -/
theorem indexed_array_get_eq_sum (cols : Int) (row : indexed_array)
    (hwf : indexed_array_wf cols row) (j : Int) :
    (indexed_array_get row j).getD 0
      = ∑ k in Finset.range (row.last_index + 1).toNat,
          if row.indexes.getD k 0 = j then row.values.getD k 0 else 0 := by
  unfold indexed_array_get
  cases hf : indexed_array_find row j with
  | none =>
    rw [indexed_array_find_eq_none] at hf
    symm
    apply Finset.sum_eq_zero
    intro k hk
    rw [Finset.mem_range] at hk
    rw [if_neg (hf k (by omega))]
  | some k0 =>
    rw [indexed_array_find_eq_some] at hf
    symm
    rw [Finset.sum_eq_single k0]
    · rw [if_pos hf.2.1]; rfl
    · intro k hk hne
      rw [Finset.mem_range] at hk
      rw [if_neg]
      intro e
      exact hne (hwf.nodup_eq k k0 (by omega) hf.1 (e.trans hf.2.1.symm))
    · intro hk
      rw [Finset.mem_range] at hk
      omega

/-- The sparse row product is the dense row product. -/
theorem indexed_array_dot_eq_dense (cols : Int) (row : indexed_array)
    (hwf : indexed_array_wf cols row) (x : List ℚ) :
    ∑ k in Finset.range (row.last_index + 1).toNat,
        row.values.getD k 0 * x.getD (row.indexes.getD k 0).toNat 0
      = ∑ j in Finset.range cols.toNat,
          (indexed_array_get row (j : Int)).getD 0 * x.getD j 0 := by
  have h1 : ∀ j : ℕ, (indexed_array_get row (j : Int)).getD 0 * x.getD j 0
      = ∑ k in Finset.range (row.last_index + 1).toNat,
          (if row.indexes.getD k 0 = (j : Int) then row.values.getD k 0 else 0)
            * x.getD j 0 := by
    intro j
    rw [indexed_array_get_eq_sum cols row hwf, Finset.sum_mul]
  rw [Finset.sum_congr rfl (fun j _ => h1 j), Finset.sum_comm]
  apply Finset.sum_congr rfl
  intro k hk
  rw [Finset.mem_range] at hk
  have hr := hwf.in_range k hk
  rw [Finset.sum_eq_single (row.indexes.getD k 0).toNat]
  · rw [if_pos (by omega)]
  · intro j _ hne
    rw [if_neg (by omega), zero_mul]
  · intro hnot
    rw [Finset.mem_range] at hnot
    omega

/-- C3. For every matrix `A` reached from `init_sp_matrix` by calls of
`sp_matrix_element_add` and `sp_matrix_reorder`, every `x` of length
`cols_count` and every buffer `y` of length `rows_count`: `sp_matrix_mv`
stores in `y[i]`, for every row `i`, the sum over all columns `j` of
`A_ij * x[j]`, `A_ij` being the value `sp_matrix_element` reads (zero when
absent). -/
theorem C3_sp_matrix_mv_dense (rows cols bandwidth : Int)
    (ops : List sp_matrix_op) (M : sp_matrix)
    (hM : sp_matrix_run (init_sp_matrix rows cols bandwidth) ops = some M)
    (x y : List ℚ) (_hx : x.length = M.cols_count.toNat)
    (hy : y.length = M.rows_count.toNat) :
    (sp_matrix_mv M x y).length = M.rows_count.toNat
      ∧ ∀ i : ℕ, (i : Int) < M.rows_count →
          (sp_matrix_mv M x y).getD i 0
            = ∑ j in Finset.range M.cols_count.toNat,
                sp_matrix_value M (i : Int) (j : Int) * x.getD j 0 := by
  have hwf : sp_matrix_wf M := sp_matrix_run_wf ops _ M (init_sp_matrix_wf _ _ _) hM
  obtain ⟨h1, h2⟩ := sp_matrix_mv_loop_spec M x M.rows_count.toNat y (by omega)
  unfold sp_matrix_mv
  refine ⟨by rw [h1, hy], ?_⟩
  intro i hi
  rw [h2 i, if_pos (by omega),
    indexed_array_dot_eq_dense M.cols_count (M.row i) (hwf.rows_wf i (by omega)) x]
  apply Finset.sum_congr rfl
  intro j hj
  rw [Finset.mem_range] at hj
  unfold sp_matrix_value
  rw [sp_matrix_get_eq, if_pos ⟨by omega, hi, by omega, by omega⟩]
  simp only [Int.toNat_ofNat]

/-- C3 at the matrix of `test_solver` and `x = (1,2,3)`. -/
theorem C3_sp_matrix_mv_dense_witness :
    sp_matrix_run (init_sp_matrix 3 3 2) test_solver_ops = some test_solver_mtx
      ∧ (sp_matrix_mv test_solver_mtx [1, 2, 3] [0, 0, 0]).length
          = test_solver_mtx.rows_count.toNat
      ∧ ∀ i : ℕ, (i : Int) < test_solver_mtx.rows_count →
          (sp_matrix_mv test_solver_mtx [1, 2, 3] [0, 0, 0]).getD i 0
            = ∑ j in Finset.range test_solver_mtx.cols_count.toNat,
                sp_matrix_value test_solver_mtx (i : Int) (j : Int)
                  * ([1, 2, 3] : List ℚ).getD j 0 :=
  ⟨by decide!,
    C3_sp_matrix_mv_dense 3 3 2 test_solver_ops test_solver_mtx (by decide!)
      [1, 2, 3] [0, 0, 0] (by decide) (by decide)⟩

/-! ## C7, C8: the tests `test_ilu` and `test_solver` in exact arithmetic -/

/-- C7. For the 7x7 matrix of `test_ilu` (its adds, `sp_matrix_reorder`,
`init_sp_matrix_skyline`, whatever `malloc` left in the buffers),
`init_copy_sp_matrix_skyline_ilu` yields `ilu_diag`, `ilu_lowertr` and
`ilu_uppertr` (7, 9 and 9 values, in slot order) each within `1e-5` of the
expected values listed in the test; in exact arithmetic, every pivot
`ilu_diag[i]` being nonzero. -/
theorem C7_test_ilu_expected (junk : ℕ → ℚ) :
    sp_matrix_run (init_sp_matrix 7 7 5) (test_ilu_ops ++ [.reorder]) = some test_ilu_mtx
      ∧ init_sp_matrix_skyline junk test_ilu_mtx = some test_ilu_skyline
      ∧ test_ilu_skyline.rows_count = 7 ∧ test_ilu_skyline.tr_nonzeros = 9
      ∧ (∀ i : ℕ, i < 7 →
          |(init_copy_sp_matrix_skyline_ilu test_ilu_skyline).ilu_diag.getD i 0
            - lu_diag_expected.getD i 0| < 1e-5)
      ∧ (∀ i : ℕ, i < 9 →
          |(init_copy_sp_matrix_skyline_ilu test_ilu_skyline).ilu_lowertr.getD i 0
            - lu_lowertr_expected.getD i 0| < 1e-5)
      ∧ (∀ i : ℕ, i < 9 →
          |(init_copy_sp_matrix_skyline_ilu test_ilu_skyline).ilu_uppertr.getD i 0
            - lu_uppertr_expected.getD i 0| < 1e-5)
      ∧ (∀ i : ℕ, i < 7 →
          (init_copy_sp_matrix_skyline_ilu test_ilu_skyline).ilu_diag.getD i 0 ≠ 0) := by
  refine ⟨by decide!, by with_unfolding_all rfl, rfl, rfl, ?_, ?_, ?_, ?_⟩
  · decide!
  · decide!
  · decide!
  · decide!

/-- The buffer `x` is overwritten with `x0` before it is read. -/
theorem sp_matrix_solve_cg_buffer (self : sp_matrix) (b x0 : List ℚ) (max_iter : Option Int)
    (tolerance : Option ℚ) (x x' : List ℚ)
    (h : loop self.rows_count.toNat (fun i (x : List ℚ) => x.set i (x0.getD i 0)) x
      = loop self.rows_count.toNat (fun i (x : List ℚ) => x.set i (x0.getD i 0)) x') :
    sp_matrix_solve_cg self b x0 max_iter tolerance x
      = sp_matrix_solve_cg self b x0 max_iter tolerance x' := by
  unfold sp_matrix_solve_cg
  simp only [h]

/-- C8. For the matrix built by the adds of `test_solver` and reordered, and
`b = (-5, 2, 13)`, `sp_matrix_solve` (reorder, then CG started from
`x0 = b`) returns, whatever the buffer `x` held, `x = (1, 2, 3)` in exact
arithmetic, so the test's three comparisons with `TOLERANCE` succeed; CG
leaves its loop at the convergence test of its second pass (`*max_iter = 1`)
with the residual norm `0`. -/
theorem C8_test_solver_solution (x0 x1 x2 : ℚ) :
    sp_matrix_run (init_sp_matrix 3 3 2) (test_solver_ops ++ [.reorder])
        = some test_solver_mtx_reordered
      ∧ sp_matrix_solve_cg test_solver_mtx_reordered [-5, 2, 13] [-5, 2, 13] (some 20000)
          (some 1e-15) [x0, x1, x2] = some ([1, 2, 3], 1, 0)
      ∧ ∃ res : sp_matrix × List ℚ,
          sp_matrix_solve test_solver_mtx_reordered [-5, 2, 13] [x0, x1, x2] = some res
            ∧ res.2 = [1, 2, 3]
            ∧ ¬ (|res.2.getD 0 0 - 1| > TOLERANCE ∨ |res.2.getD 1 0 - 2| > TOLERANCE
                  ∨ |res.2.getD 2 0 - 3| > TOLERANCE) := by
  have hcg : sp_matrix_solve_cg test_solver_mtx_reordered [-5, 2, 13] [-5, 2, 13] (some 20000)
      (some 1e-15) [x0, x1, x2] = some ([1, 2, 3], 1, 0) := by
    have h0 : sp_matrix_solve_cg test_solver_mtx_reordered [-5, 2, 13] [-5, 2, 13]
        (some 20000) (some 1e-15) [0, 0, 0] = some ([1, 2, 3], 1, 0) := by decide!
    rw [← h0]
    exact sp_matrix_solve_cg_buffer test_solver_mtx_reordered _ _ _ _ [x0, x1, x2] [0, 0, 0] rfl
  refine ⟨by decide!, hcg, (test_solver_mtx_reordered, [1, 2, 3]), ?_, rfl, by decide!⟩
  have hr : sp_matrix_reorder test_solver_mtx_reordered = some test_solver_mtx_reordered := by
    decide!
  unfold sp_matrix_solve
  rw [hr]
  simp only
  rw [hcg]
  rfl

/-! ## C5: the lower solve inverts the lower product -/

theorem list_ext_getD (a b : List ℚ) (hl : a.length = b.length)
    (h : ∀ m : ℕ, m < a.length → a.getD m 0 = b.getD m 0) : a = b := by
  apply List.ext_getElem hl
  intro m h1 h2
  have := h m h1
  rw [List.getD_eq_getElem _ _ h1, List.getD_eq_getElem _ _ h2] at this
  exact this

theorem length_memset_zero (p : List ℚ) (n : Int) (h : p.length = n.toNat) :
    (memset_zero p n).length = n.toNat := by
  unfold memset_zero
  simp [h]

theorem range_loop_accumulate (f : Int → ℚ) (i : ℕ) (a b : Int) (y : List ℚ)
    (hi : i < y.length) :
    range_loop a b (fun j y => y.set i (y.getD i 0 + f j)) y
      = y.set i (y.getD i 0 + ∑ t in Finset.range (b - a).toNat, f (a + (t : Int))) :=
  loop_accumulate (fun t => f (a + (t : Int))) i (b - a).toNat y hi

theorem range_loop_accumulate_sub (f : Int → ℚ) (i : ℕ) (a b : Int) (y : List ℚ)
    (hi : i < y.length) :
    range_loop a b (fun j y => y.set i (y.getD i 0 - f j)) y
      = y.set i (y.getD i 0 - ∑ t in Finset.range (b - a).toNat, f (a + (t : Int))) := by
  have h := range_loop_accumulate (fun j => - f j) i a b y hi
  simp only [Finset.sum_neg_distrib, ← sub_eq_add_neg] at h
  exact h

theorem sp_matrix_skyline_ilu_lower_mv_row_eq (self : sp_matrix_skyline_ilu) (x : List ℚ)
    (i : ℕ) (y : List ℚ) (hi : i < y.length) :
    sp_matrix_skyline_ilu_lower_mv_row self x i y
      = y.set i (x.getD i 0 + ilu_lower_dot self x i) := by
  unfold sp_matrix_skyline_ilu_lower_mv_row
  rw [range_loop_accumulate
    (fun j => x.getD (self.parent.jptr.getD j.toNat 0).toNat 0
      * self.ilu_lowertr.getD j.toNat 0) i _ _ _ (by rw [List.length_set]; exact hi)]
  rw [List.set_set, getD_set_self _ _ _ _ hi]
  rfl

theorem sp_matrix_skyline_ilu_lower_solve_row_eq (self : sp_matrix_skyline_ilu)
    (i : ℕ) (s : List ℚ × List ℚ) (hi : i < s.1.length) :
    sp_matrix_skyline_ilu_lower_solve_row self i s
      = (s.1.set i (s.1.getD i 0 - ilu_lower_dot self s.2 i),
          s.2.set i (s.1.getD i 0 - ilu_lower_dot self s.2 i)) := by
  unfold sp_matrix_skyline_ilu_lower_solve_row
  simp only
  rw [range_loop_accumulate_sub
    (fun j => s.2.getD (self.parent.jptr.getD j.toNat 0).toNat 0
      * self.ilu_lowertr.getD j.toNat 0) i _ _ _ hi]
  rw [getD_set_self _ _ _ _ hi]
  rfl

/-- The off-diagonal part of row `i` only reads `x` below `i`. -/
theorem ilu_lower_dot_congr (self : sp_matrix_skyline_ilu)
    (hv : sp_matrix_skyline_valid self.parent) (x x1 : List ℚ) (i : ℕ)
    (hi : i < self.parent.rows_count.toNat)
    (h : ∀ m : ℕ, m < i → x1.getD m 0 = x.getD m 0) :
    ilu_lower_dot self x1 i = ilu_lower_dot self x i := by
  unfold ilu_lower_dot
  apply Finset.sum_congr rfl
  intro t ht
  rw [Finset.mem_range] at ht
  have hc := hv i hi t ht
  rw [h _ (by omega)]

/-- The rows below `n` of the product `L*x`, the rest of the buffer kept. -/
theorem sp_matrix_skyline_ilu_lower_mv_loop (self : sp_matrix_skyline_ilu) (x : List ℚ)
    (n : ℕ) (y : List ℚ) (hn : n ≤ y.length) :
    (loop n (sp_matrix_skyline_ilu_lower_mv_row self x) y).length = y.length
      ∧ ∀ i : ℕ, i < n →
        (loop n (sp_matrix_skyline_ilu_lower_mv_row self x) y).getD i 0
          = x.getD i 0 + ilu_lower_dot self x i := by
  induction n with
  | zero => exact ⟨rfl, fun i hi => absurd hi (Nat.not_lt_zero i)⟩
  | succ n ih =>
    obtain ⟨ih1, ih2⟩ := ih (by omega)
    simp only [loop]
    rw [sp_matrix_skyline_ilu_lower_mv_row_eq _ _ _ _ (by rw [ih1]; omega)]
    refine ⟨by simp only [List.length_set, ih1], ?_⟩
    intro i hi
    rw [getD_set_eq]
    by_cases h : n = i
    · subst h
      rw [if_pos ⟨rfl, by rw [ih1]; omega⟩]
    · rw [if_neg (fun hc => h hc.1)]
      exact ih2 i (by omega)

/-- The invariant of the loop of `sp_matrix_skyline_ilu_lower_solve` run on
`b = L*x`: the rows done hold `x`, the rows to do still hold `b`. -/
theorem sp_matrix_skyline_ilu_lower_solve_loop (self : sp_matrix_skyline_ilu)
    (hv : sp_matrix_skyline_valid self.parent) (x b x1 : List ℚ)
    (hb : b.length = self.parent.rows_count.toNat)
    (hx1 : x1.length = self.parent.rows_count.toNat)
    (hbx : ∀ i : ℕ, i < self.parent.rows_count.toNat →
      b.getD i 0 = x.getD i 0 + ilu_lower_dot self x i)
    (n : ℕ) (hn : n ≤ self.parent.rows_count.toNat) :
    (loop n (sp_matrix_skyline_ilu_lower_solve_row self) (b, x1)).1.length
        = self.parent.rows_count.toNat
      ∧ (loop n (sp_matrix_skyline_ilu_lower_solve_row self) (b, x1)).2.length
        = self.parent.rows_count.toNat
      ∧ ∀ m : ℕ, m < self.parent.rows_count.toNat →
          (m < n →
            (loop n (sp_matrix_skyline_ilu_lower_solve_row self) (b, x1)).2.getD m 0
              = x.getD m 0)
          ∧ (n ≤ m →
            (loop n (sp_matrix_skyline_ilu_lower_solve_row self) (b, x1)).1.getD m 0
              = b.getD m 0) := by
  induction n with
  | zero => exact ⟨hb, hx1, fun m _ => ⟨fun h => absurd h (Nat.not_lt_zero m), fun _ => rfl⟩⟩
  | succ n ih =>
    obtain ⟨ih1, ih2, ih3⟩ := ih (by omega)
    simp only [loop]
    generalize loop n (sp_matrix_skyline_ilu_lower_solve_row self) (b, x1) = s at ih1 ih2 ih3
    rw [sp_matrix_skyline_ilu_lower_solve_row_eq _ _ _ (by omega)]
    refine ⟨by simp only [List.length_set, ih1], by simp only [List.length_set, ih2], ?_⟩
    intro m hm
    constructor
    · intro hmn
      simp only
      rw [getD_set_eq]
      by_cases h : n = m
      · subst h
        rw [if_pos ⟨rfl, by omega⟩, (ih3 n hm).2 (le_refl _), hbx n hm,
          ilu_lower_dot_congr self hv x s.2 n hm (fun m hm' => (ih3 m (by omega)).1 hm')]
        ring
      · rw [if_neg (fun hc => h hc.1)]
        exact (ih3 m hm).1 (by omega)
    · intro hmn
      simp only
      rw [getD_set_ne _ _ _ _ _ (by omega)]
      exact (ih3 m hm).2 (by omega)

/-- C5. For every ILU factor over a valid skyline view (every column index
of row `i` is a row below `i`) and every vector `x`:
`sp_matrix_skyline_ilu_lower_solve` applied to
`b = sp_matrix_skyline_ilu_lower_mv(x)` returns exactly `x`, in exact
arithmetic, whatever the buffers held before. -/
theorem C5_lower_solve_lower_mv (self : sp_matrix_skyline_ilu)
    (hv : sp_matrix_skyline_valid self.parent) (x y0 x0 : List ℚ)
    (hx : x.length = self.parent.rows_count.toNat)
    (hy0 : y0.length = self.parent.rows_count.toNat)
    (hx0 : x0.length = self.parent.rows_count.toNat) :
    (sp_matrix_skyline_ilu_lower_solve self
      (sp_matrix_skyline_ilu_lower_mv self x y0) x0).2 = x := by
  have hmv := sp_matrix_skyline_ilu_lower_mv_loop self x self.parent.rows_count.toNat
    (memset_zero y0 self.parent.rows_count) (by rw [length_memset_zero _ _ hy0])
  have hb : (sp_matrix_skyline_ilu_lower_mv self x y0).length
      = self.parent.rows_count.toNat := by
    unfold sp_matrix_skyline_ilu_lower_mv
    rw [hmv.1, length_memset_zero _ _ hy0]
  have hs := sp_matrix_skyline_ilu_lower_solve_loop self hv x
    (sp_matrix_skyline_ilu_lower_mv self x y0) (memset_zero x0 self.parent.rows_count)
    hb (length_memset_zero _ _ hx0) hmv.2 self.parent.rows_count.toNat (le_refl _)
  unfold sp_matrix_skyline_ilu_lower_solve
  apply list_ext_getD _ _ (by rw [hs.2.1, hx])
  intro m hm
  rw [hs.2.1] at hm
  exact (hs.2.2 m hm).1 hm

/-- C5 at the factor of `test_ilu` and `x_exact = (1,2,3,0,3,2,1)`
(lines 3705-3712). -/
theorem C5_lower_solve_lower_mv_witness :
    sp_matrix_skyline_valid (init_copy_sp_matrix_skyline_ilu test_ilu_skyline).parent
      ∧ (sp_matrix_skyline_ilu_lower_solve (init_copy_sp_matrix_skyline_ilu test_ilu_skyline)
          (sp_matrix_skyline_ilu_lower_mv (init_copy_sp_matrix_skyline_ilu test_ilu_skyline)
            x_exact [0, 0, 0, 0, 0, 0, 0]) [0, 0, 0, 0, 0, 0, 0]).2 = x_exact :=
  ⟨by decide!,
    C5_lower_solve_lower_mv (init_copy_sp_matrix_skyline_ilu test_ilu_skyline) (by decide!)
      x_exact [0, 0, 0, 0, 0, 0, 0] [0, 0, 0, 0, 0, 0, 0] (by decide!) (by decide!)
      (by decide!)⟩

/-! ## C6: the upper solve inverts the upper product -/

/-- A loop that adds `a t` to the cell `τ t` of a buffer, cell by cell. -/
theorem loop_scatter (τ : ℕ → ℕ) (a : ℕ → ℚ) (n : ℕ) (y : List ℚ) :
    (loop n (fun t y => y.set (τ t) (y.getD (τ t) 0 + a t)) y).length = y.length
      ∧ ∀ m : ℕ, m < y.length →
        (loop n (fun t y => y.set (τ t) (y.getD (τ t) 0 + a t)) y).getD m 0
          = y.getD m 0 + ∑ t in Finset.range n, if τ t = m then a t else 0 := by
  induction n with
  | zero => exact ⟨rfl, fun m _ => by simp [loop]⟩
  | succ n ih =>
    obtain ⟨ih1, ih2⟩ := ih
    simp only [loop]
    refine ⟨by rw [List.length_set, ih1], ?_⟩
    intro m hm
    rw [getD_set_eq, Finset.sum_range_succ]
    by_cases h : τ n = m
    · rw [if_pos ⟨h, by rw [ih1, h]; exact hm⟩, if_pos h, h, ih2 m hm]
      ring
    · rw [if_neg (fun hc => h hc.1), if_neg h, ih2 m hm, add_zero]

theorem loop_scatter_sub (τ : ℕ → ℕ) (a : ℕ → ℚ) (n : ℕ) (y : List ℚ) :
    (loop n (fun t y => y.set (τ t) (y.getD (τ t) 0 - a t)) y).length = y.length
      ∧ ∀ m : ℕ, m < y.length →
        (loop n (fun t y => y.set (τ t) (y.getD (τ t) 0 - a t)) y).getD m 0
          = y.getD m 0 - ∑ t in Finset.range n, if τ t = m then a t else 0 := by
  induction n with
  | zero => exact ⟨rfl, fun m _ => by simp [loop]⟩
  | succ n ih =>
    obtain ⟨ih1, ih2⟩ := ih
    simp only [loop]
    refine ⟨by rw [List.length_set, ih1], ?_⟩
    intro m hm
    rw [getD_set_eq, Finset.sum_range_succ]
    by_cases h : τ n = m
    · rw [if_pos ⟨h, by rw [ih1, h]; exact hm⟩, if_pos h, h, ih2 m hm]
      ring
    · rw [if_neg (fun hc => h hc.1), if_neg h, ih2 m hm, add_zero]

theorem sp_matrix_skyline_ilu_upper_mv_row_spec (self : sp_matrix_skyline_ilu) (x : List ℚ)
    (i : ℕ) (y : List ℚ) :
    (sp_matrix_skyline_ilu_upper_mv_row self x i y).length = y.length
      ∧ ∀ m : ℕ, m < y.length →
        (sp_matrix_skyline_ilu_upper_mv_row self x i y).getD m 0
          = y.getD m 0 + ilu_upper_scatter self (x.getD i 0) i m :=
  loop_scatter
    (fun t => (self.parent.jptr.getD (self.parent.iptr.getD i 0 + (t : Int)).toNat 0).toNat)
    (fun t => x.getD i 0
      * self.ilu_uppertr.getD (self.parent.iptr.getD i 0 + (t : Int)).toNat 0) _ y

theorem sp_matrix_skyline_ilu_upper_solve_row_spec (self : sp_matrix_skyline_ilu)
    (i : ℕ) (s : List ℚ × List ℚ) :
    (sp_matrix_skyline_ilu_upper_solve_row self i s).2
        = s.2.set i (s.1.getD i 0 / self.ilu_diag.getD i 0)
      ∧ (sp_matrix_skyline_ilu_upper_solve_row self i s).1.length = s.1.length
      ∧ ∀ m : ℕ, m < s.1.length →
        (sp_matrix_skyline_ilu_upper_solve_row self i s).1.getD m 0
          = s.1.getD m 0
            - ilu_upper_scatter self
                ((s.2.set i (s.1.getD i 0 / self.ilu_diag.getD i 0)).getD i 0) i m := by
  refine ⟨rfl, ?_⟩
  exact loop_scatter_sub
    (fun t => (self.parent.jptr.getD (self.parent.iptr.getD i 0 + (t : Int)).toNat 0).toNat)
    (fun t => (s.2.set i (s.1.getD i 0 / self.ilu_diag.getD i 0)).getD i 0
      * self.ilu_uppertr.getD (self.parent.iptr.getD i 0 + (t : Int)).toNat 0) _ s.1

/-- In a valid view the slots of row `i` only touch cells below `i`. -/
theorem ilu_upper_scatter_eq_zero (self : sp_matrix_skyline_ilu)
    (hv : sp_matrix_skyline_valid self.parent) (c : ℚ) (i m : ℕ)
    (hi : i < self.parent.rows_count.toNat) (hm : i ≤ m) :
    ilu_upper_scatter self c i m = 0 := by
  unfold ilu_upper_scatter
  apply Finset.sum_eq_zero
  intro t ht
  rw [Finset.mem_range] at ht
  have hc := hv i hi t ht
  rw [if_neg (by omega)]

/-- The first loop of `sp_matrix_skyline_ilu_upper_mv`: `y[i] = x[i] * ilu_diag[i]`. -/
theorem sp_matrix_skyline_ilu_upper_mv_diag (self : sp_matrix_skyline_ilu) (x : List ℚ)
    (n : ℕ) (y : List ℚ) (hn : n ≤ y.length) :
    (loop n (fun i y => y.set i (x.getD i 0 * self.ilu_diag.getD i 0)) y).length = y.length
      ∧ ∀ m : ℕ, m < n →
        (loop n (fun i y => y.set i (x.getD i 0 * self.ilu_diag.getD i 0)) y).getD m 0
          = x.getD m 0 * self.ilu_diag.getD m 0 := by
  induction n with
  | zero => exact ⟨rfl, fun m hm => absurd hm (Nat.not_lt_zero m)⟩
  | succ n ih =>
    obtain ⟨ih1, ih2⟩ := ih (by omega)
    simp only [loop]
    refine ⟨by rw [List.length_set, ih1], ?_⟩
    intro m hm
    rw [getD_set_eq]
    by_cases h : n = m
    · subst h
      rw [if_pos ⟨rfl, by rw [ih1]; omega⟩]
    · rw [if_neg (fun hc => h hc.1)]
      exact ih2 m (by omega)

/-- After the rows below `k` of the second loop of the product, the cells
from `k` on still hold what the first loop stored. -/
theorem sp_matrix_skyline_ilu_upper_mv_loop (self : sp_matrix_skyline_ilu)
    (hv : sp_matrix_skyline_valid self.parent) (x y1 : List ℚ)
    (k : ℕ) (hk : k ≤ self.parent.rows_count.toNat) :
    (loop k (sp_matrix_skyline_ilu_upper_mv_row self x) y1).length = y1.length
      ∧ ∀ m : ℕ, k ≤ m → m < y1.length →
        (loop k (sp_matrix_skyline_ilu_upper_mv_row self x) y1).getD m 0 = y1.getD m 0 := by
  induction k with
  | zero => exact ⟨rfl, fun _ _ _ => rfl⟩
  | succ k ih =>
    obtain ⟨ih1, ih2⟩ := ih (by omega)
    simp only [loop]
    obtain ⟨h1, h2⟩ := sp_matrix_skyline_ilu_upper_mv_row_spec self x k
      (loop k (sp_matrix_skyline_ilu_upper_mv_row self x) y1)
    refine ⟨by rw [h1, ih1], ?_⟩
    intro m hkm hm
    rw [h2 m (by rw [ih1]; exact hm), ih2 m (by omega) hm,
      ilu_upper_scatter_eq_zero self hv _ k m (by omega) (by omega), add_zero]

/-- The invariant of the loop of `sp_matrix_skyline_ilu_upper_solve` run on
`b = U*x`: after `t` passes the buffer `b` is back to what the product held
before it added the columns `n-t .. n-1`, and the rows `n-t .. n-1` hold `x`. -/
theorem sp_matrix_skyline_ilu_upper_solve_loop (self : sp_matrix_skyline_ilu)
    (hv : sp_matrix_skyline_valid self.parent)
    (hd : ∀ i : ℕ, i < self.parent.rows_count.toNat → self.ilu_diag.getD i 0 ≠ 0)
    (x y1 x1 : List ℚ)
    (hy1 : y1.length = self.parent.rows_count.toNat)
    (hx1 : x1.length = self.parent.rows_count.toNat)
    (hyx : ∀ m : ℕ, m < self.parent.rows_count.toNat →
      y1.getD m 0 = x.getD m 0 * self.ilu_diag.getD m 0)
    (t : ℕ) (ht : t ≤ self.parent.rows_count.toNat) :
    (loop t
        (fun t s => sp_matrix_skyline_ilu_upper_solve_row self
          (self.parent.rows_count.toNat - 1 - t) s)
        (loop self.parent.rows_count.toNat (sp_matrix_skyline_ilu_upper_mv_row self x) y1,
          x1)).1
        = loop (self.parent.rows_count.toNat - t)
            (sp_matrix_skyline_ilu_upper_mv_row self x) y1
      ∧ (loop t
          (fun t s => sp_matrix_skyline_ilu_upper_solve_row self
            (self.parent.rows_count.toNat - 1 - t) s)
          (loop self.parent.rows_count.toNat (sp_matrix_skyline_ilu_upper_mv_row self x) y1,
            x1)).2.length = self.parent.rows_count.toNat
      ∧ ∀ m : ℕ, self.parent.rows_count.toNat - t ≤ m → m < self.parent.rows_count.toNat →
          (loop t
            (fun t s => sp_matrix_skyline_ilu_upper_solve_row self
              (self.parent.rows_count.toNat - 1 - t) s)
            (loop self.parent.rows_count.toNat (sp_matrix_skyline_ilu_upper_mv_row self x) y1,
              x1)).2.getD m 0 = x.getD m 0 := by
  induction t with
  | zero =>
    refine ⟨rfl, hx1, ?_⟩
    intro m h1 h2
    omega
  | succ t ih =>
    obtain ⟨ih1, ih2, ih3⟩ := ih (by omega)
    simp only [loop]
    generalize loop t
      (fun t s => sp_matrix_skyline_ilu_upper_solve_row self
        (self.parent.rows_count.toNat - 1 - t) s)
      (loop self.parent.rows_count.toNat (sp_matrix_skyline_ilu_upper_mv_row self x) y1,
        x1) = s at ih1 ih2 ih3
    obtain ⟨b', x'⟩ := s
    simp only at ih1 ih2 ih3
    -- the row handled by this pass
    have hi : self.parent.rows_count.toNat - 1 - t < self.parent.rows_count.toNat := by omega
    have hnt : self.parent.rows_count.toNat - t
        = (self.parent.rows_count.toNat - 1 - t) + 1 := by omega
    have hnt1 : self.parent.rows_count.toNat - (t + 1)
        = self.parent.rows_count.toNat - 1 - t := by omega
    generalize self.parent.rows_count.toNat - 1 - t = i at hi hnt hnt1 ⊢
    rw [hnt] at ih1 ih3
    rw [hnt1]
    simp only [loop] at ih1
    obtain ⟨hB1, hB2⟩ := sp_matrix_skyline_ilu_upper_mv_loop self hv x y1 i (by omega)
    obtain ⟨hR1, hR2⟩ := sp_matrix_skyline_ilu_upper_mv_row_spec self x i
      (loop i (sp_matrix_skyline_ilu_upper_mv_row self x) y1)
    obtain ⟨hS1, hS2, hS3⟩ := sp_matrix_skyline_ilu_upper_solve_row_spec self i (b', x')
    simp only at hS1 hS2 hS3
    -- the cell `i` of the buffer holds `x[i] * ilu_diag[i]`
    have hbi : b'.getD i 0 = x.getD i 0 * self.ilu_diag.getD i 0 := by
      rw [ih1, hR2 i (by rw [hB1, hy1]; exact hi), hB2 i (le_refl _) (by rw [hy1]; exact hi),
        ilu_upper_scatter_eq_zero self hv _ i i hi (le_refl _), add_zero, hyx i hi]
    have hxi : (x'.set i (b'.getD i 0 / self.ilu_diag.getD i 0)).getD i 0 = x.getD i 0 := by
      rw [getD_set_self _ _ _ _ (by omega), hbi]
      exact mul_div_cancel_right₀ _ (hd i hi)
    refine ⟨?_, by rw [hS1, List.length_set, ih2], ?_⟩
    · apply list_ext_getD
      · rw [hS2, ih1, hR1]
      · intro m hm
        rw [hS2] at hm
        rw [hS3 m hm, hxi, ih1, hR2 m (by rw [ih1, hR1] at hm; exact hm)]
        ring
    · intro m hm1 hm2
      rw [hS1, getD_set_eq]
      by_cases h : i = m
      · subst h
        rw [if_pos ⟨rfl, by omega⟩, hbi]
        exact mul_div_cancel_right₀ _ (hd i hi)
      · rw [if_neg (fun hc => h hc.1)]
        exact ih3 m (by omega) hm2

/-- C6. For every ILU factor over a valid skyline view whose diagonal
entries `ilu_diag[i]` are all nonzero and every vector `x`:
`sp_matrix_skyline_ilu_upper_solve` applied to
`b = sp_matrix_skyline_ilu_upper_mv(x)` returns exactly `x`, in exact
arithmetic, whatever the buffers held before. -/
theorem C6_upper_solve_upper_mv (self : sp_matrix_skyline_ilu)
    (hv : sp_matrix_skyline_valid self.parent)
    (hd : ∀ i : ℕ, i < self.parent.rows_count.toNat → self.ilu_diag.getD i 0 ≠ 0)
    (x y0 x0 : List ℚ)
    (hx : x.length = self.parent.rows_count.toNat)
    (hy0 : y0.length = self.parent.rows_count.toNat)
    (hx0 : x0.length = self.parent.rows_count.toNat) :
    (sp_matrix_skyline_ilu_upper_solve self
      (sp_matrix_skyline_ilu_upper_mv self x y0) x0).2 = x := by
  obtain ⟨hd1, hd2⟩ := sp_matrix_skyline_ilu_upper_mv_diag self x
    self.parent.rows_count.toNat (memset_zero y0 self.parent.rows_count)
    (by rw [length_memset_zero _ _ hy0])
  have hs := sp_matrix_skyline_ilu_upper_solve_loop self hv hd x
    (loop self.parent.rows_count.toNat
      (fun i y => y.set i (x.getD i 0 * self.ilu_diag.getD i 0))
      (memset_zero y0 self.parent.rows_count))
    (memset_zero x0 self.parent.rows_count)
    (by rw [hd1, length_memset_zero _ _ hy0]) (length_memset_zero _ _ hx0) hd2
    self.parent.rows_count.toNat (le_refl _)
  unfold sp_matrix_skyline_ilu_upper_solve sp_matrix_skyline_ilu_upper_mv
  apply list_ext_getD _ _ (by rw [hs.2.1, hx])
  intro m hm
  rw [hs.2.1] at hm
  exact hs.2.2 m (by omega) hm

/-- C6 at the factor of `test_ilu` and `x_exact = (1,2,3,0,3,2,1)`
(lines 3714-3726). -/
theorem C6_upper_solve_upper_mv_witness :
    sp_matrix_skyline_valid (init_copy_sp_matrix_skyline_ilu test_ilu_skyline).parent
      ∧ (∀ i : ℕ,
          i < (init_copy_sp_matrix_skyline_ilu test_ilu_skyline).parent.rows_count.toNat →
          (init_copy_sp_matrix_skyline_ilu test_ilu_skyline).ilu_diag.getD i 0 ≠ 0)
      ∧ (sp_matrix_skyline_ilu_upper_solve (init_copy_sp_matrix_skyline_ilu test_ilu_skyline)
          (sp_matrix_skyline_ilu_upper_mv (init_copy_sp_matrix_skyline_ilu test_ilu_skyline)
            x_exact [0, 0, 0, 0, 0, 0, 0]) [0, 0, 0, 0, 0, 0, 0]).2 = x_exact :=
  ⟨by decide!, by decide!,
    C6_upper_solve_upper_mv (init_copy_sp_matrix_skyline_ilu test_ilu_skyline) (by decide!)
      (by decide!) x_exact [0, 0, 0, 0, 0, 0, 0] [0, 0, 0, 0, 0, 0, 0] (by decide!)
      (by decide!) (by decide!)⟩

/-! ## Stores through element pointers -/

theorem sp_matrix_same_pattern_refl (K : sp_matrix) : sp_matrix_same_pattern K K :=
  ⟨rfl, rfl, rfl, rfl, fun _ => ⟨rfl, rfl, rfl, rfl⟩⟩

theorem sp_matrix_same_pattern_trans (K K1 K2 : sp_matrix)
    (h1 : sp_matrix_same_pattern K K1) (h2 : sp_matrix_same_pattern K1 K2) :
    sp_matrix_same_pattern K K2 := by
  obtain ⟨a1, a2, a3, a4, a5⟩ := h1
  obtain ⟨b1, b2, b3, b4, b5⟩ := h2
  refine ⟨b1.trans a1, b2.trans a2, b3.trans a3, b4.trans a4, fun i => ?_⟩
  exact ⟨(b5 i).1.trans (a5 i).1, (b5 i).2.1.trans (a5 i).2.1,
    (b5 i).2.2.1.trans (a5 i).2.2.1, (b5 i).2.2.2.trans (a5 i).2.2.2⟩

theorem sp_matrix_same_pattern_wf (K K1 : sp_matrix) (h : sp_matrix_same_pattern K K1)
    (hwf : sp_matrix_wf K) : sp_matrix_wf K1 := by
  obtain ⟨a1, a2, a3, a4, a5⟩ := h
  constructor
  · rw [a3, a1]; exact hwf.rows_len
  · intro i hi
    rw [a1] at hi
    have hr := hwf.rows_wf i hi
    obtain ⟨b1, b2, b3, b4⟩ := a5 i
    rw [a2]
    exact ⟨by rw [b2]; exact hr.last_ge, by rw [b3, b1]; exact hr.idx_len,
      by rw [b4, b1]; exact hr.val_len, by rw [b2, b1]; exact hr.last_lt,
      by rw [b2, b3]; exact hr.in_range, by rw [b2, b3]; exact hr.nodup⟩

theorem sp_matrix_same_pattern_element (K K1 : sp_matrix) (h : sp_matrix_same_pattern K K1)
    (i j : Int) : sp_matrix_element K1 i j = sp_matrix_element K i j := by
  obtain ⟨a1, a2, a3, a4, a5⟩ := h
  unfold sp_matrix_element
  rw [a1, a2]
  split
  · exact indexed_array_find_congr _ _ j (a5 i.toNat).2.1
      (fun k _ => by rw [(a5 i.toNat).2.2.1])
  · rfl

/-- The rows of a matrix after a store through a pointer. -/
theorem sp_matrix_store_row (self : sp_matrix) (i k : ℕ) (v : ℚ) (a : ℕ) :
    (sp_matrix_store self i k v).row a
      = if a = i then { self.row i with values := (self.row i).values.set k v }
        else self.row a := by
  unfold sp_matrix_store sp_matrix.row
  simp only
  rw [getD_set_eq]
  by_cases h : i = a
  · subst h
    by_cases h2 : i < self.rows.length
    · rw [if_pos ⟨rfl, h2⟩, if_pos rfl]
    · rw [if_neg (fun hc => h2 hc.2), if_pos rfl]
      have h3 : self.rows.getD i default = default := by
        rw [List.getD_eq_getElem?_getD, List.getElem?_eq_none (by omega)]
        rfl
      have h4 : (default : indexed_array).values.set k v = (default : indexed_array).values :=
        List.set_eq_of_length_le (Nat.zero_le k)
      rw [h3, h4]
  · rw [if_neg (fun hc => h hc.1), if_neg (fun hc => h hc.symm)]

theorem sp_matrix_store_same_pattern (self : sp_matrix) (i k : ℕ) (v : ℚ) :
    sp_matrix_same_pattern self (sp_matrix_store self i k v) := by
  refine ⟨rfl, rfl, by simp [sp_matrix_store], rfl, fun a => ?_⟩
  rw [sp_matrix_store_row]
  split
  · rename_i h
    subst h
    exact ⟨rfl, rfl, rfl, by simp⟩
  · exact ⟨rfl, rfl, rfl, rfl⟩

/-- The values of a matrix after a store through a pointer. -/
theorem sp_matrix_store_values (self : sp_matrix) (i k : ℕ) (v : ℚ) (a m : ℕ)
    (hk : k < (self.row i).values.length) :
    ((sp_matrix_store self i k v).row a).values.getD m 0
      = if a = i ∧ m = k then v else (self.row a).values.getD m 0 := by
  rw [sp_matrix_store_row]
  by_cases h : a = i
  · subst h
    rw [if_pos rfl]
    show ((self.row a).values.set k v).getD m 0 = _
    rw [getD_set_eq]
    by_cases h2 : k = m
    · subst h2
      rw [if_pos ⟨rfl, hk⟩, if_pos ⟨rfl, rfl⟩]
    · rw [if_neg (fun hc => h2 hc.1), if_neg (fun hc => h2 hc.2.symm)]
  · rw [if_neg h, if_neg (fun hc => h hc.1)]

/-- In a well-formed row every used slot is the slot its column is found in. -/
theorem indexed_array_find_slot (cols : Int) (row : indexed_array)
    (hwf : indexed_array_wf cols row) (k : ℕ) (hk : (k : Int) ≤ row.last_index) :
    indexed_array_find row (row.indexes.getD k 0) = some k := by
  rw [indexed_array_find_eq_some]
  exact ⟨hk, rfl, fun k1 hk1 => hwf.nodup k (by omega) k1 hk1⟩

/-- In a well-formed matrix, the slot of row `a` that holds column `b`. -/
theorem sp_matrix_element_eq_some (self : sp_matrix) (hwf : sp_matrix_wf self) (a : ℕ)
    (b : Int) (k : ℕ) (ha : (a : Int) < self.rows_count) :
    sp_matrix_element self (a : Int) b = some k
      ↔ (k : Int) ≤ (self.row a).last_index ∧ (self.row a).indexes.getD k 0 = b := by
  have hrow := hwf.rows_wf a (by omega)
  unfold sp_matrix_element
  simp only [Int.toNat_ofNat]
  constructor
  · intro h
    split at h
    · rw [indexed_array_find_eq_some] at h
      exact ⟨h.1, h.2.1⟩
    · exact absurd h (by simp)
  · rintro ⟨h1, h2⟩
    have hr := hrow.in_range k (by omega)
    rw [if_pos ⟨by omega, ha, by omega, by omega⟩, ← h2]
    exact indexed_array_find_slot _ _ hrow k h1

/-! ## `solver_apply_single_bc` -/

/-- A store through the pointer `sp_matrix_element` returns for `(a0, b0)`,
when it is not null: the slots of row `a0` that hold column `b0` take the
value `v`, no other slot changes. -/
theorem sp_matrix_store_element (K M : sp_matrix) (hwf : sp_matrix_wf K)
    (hp : sp_matrix_same_pattern K M) (a0 : ℕ) (b0 : Int) (v : ℚ)
    (ha0 : (a0 : Int) < K.rows_count) :
    sp_matrix_same_pattern K
        (match sp_matrix_element M (a0 : Int) b0 with
          | some p => sp_matrix_store M a0 p v
          | none => M)
      ∧ ∀ a k : ℕ, (k : Int) ≤ (K.row a).last_index →
          ((match sp_matrix_element M (a0 : Int) b0 with
              | some p => sp_matrix_store M a0 p v
              | none => M).row a).values.getD k 0
            = if a = a0 ∧ (K.row a).indexes.getD k 0 = b0 then v
              else (M.row a).values.getD k 0 := by
  have hrow := hwf.rows_wf a0 (by omega)
  have hlen : (M.row a0).values.length = (K.row a0).values.length := (hp.2.2.2.2 a0).2.2.2
  have h1 := hrow.val_len
  have h2 := hrow.last_lt
  rw [sp_matrix_same_pattern_element K M hp]
  cases he : sp_matrix_element K (a0 : Int) b0 with
  | none =>
    refine ⟨hp, ?_⟩
    intro a k hk
    simp only
    rw [if_neg]
    rintro ⟨rfl, hb⟩
    have := (sp_matrix_element_eq_some K hwf a b0 k ha0).2 ⟨hk, hb⟩
    rw [he] at this
    exact absurd this (by simp)
  | some p =>
    have hp' := (sp_matrix_element_eq_some K hwf a0 b0 p ha0).1 he
    refine ⟨sp_matrix_same_pattern_trans _ _ _ hp (sp_matrix_store_same_pattern M a0 p v), ?_⟩
    intro a k hk
    simp only
    rw [sp_matrix_store_values M a0 p v a k (by omega)]
    by_cases ha : a = a0
    · subst ha
      by_cases hkp : k = p
      · subst hkp
        rw [if_pos ⟨rfl, rfl⟩, if_pos ⟨rfl, hp'.2⟩]
      · rw [if_neg (fun hc => hkp hc.2), if_neg]
        rintro ⟨_, hb⟩
        exact hkp (hrow.nodup_eq k p hk hp'.1 (hb.trans hp'.2.symm))
    · rw [if_neg (fun hc => ha hc.1), if_neg (fun hc => ha hc.1)]

/-- The value read at a stored position is the value of its slot. -/
theorem sp_matrix_value_slot (K M : sp_matrix) (_hwf : sp_matrix_wf K)
    (hp : sp_matrix_same_pattern K M) (a : ℕ) (b : Int) (k : ℕ)
    (he : sp_matrix_element K (a : Int) b = some k) :
    sp_matrix_get M (a : Int) b = some ((M.row a).values.getD k 0) := by
  unfold sp_matrix_get
  rw [sp_matrix_same_pattern_element K M hp, he]
  simp

theorem sp_matrix_get_none (K M : sp_matrix)
    (hp : sp_matrix_same_pattern K M) (a b : Int)
    (he : sp_matrix_element K a b = none) :
    sp_matrix_get M a b = none := by
  unfold sp_matrix_get
  rw [sp_matrix_same_pattern_element K M hp, he]
  rfl

theorem solver_apply_single_bc_step_mtx (index : Int) (presc : ℚ) (j : ℕ) (self : fea_solver) :
    (solver_apply_single_bc_step index presc j self).global_mtx
      = match sp_matrix_element
            (match sp_matrix_element self.global_mtx (j : Int) index with
              | some p => sp_matrix_store self.global_mtx j p 0
              | none => self.global_mtx) index (j : Int) with
        | some p =>
          sp_matrix_store
            (match sp_matrix_element self.global_mtx (j : Int) index with
              | some p => sp_matrix_store self.global_mtx j p 0
              | none => self.global_mtx) index.toNat p 0
        | none =>
          match sp_matrix_element self.global_mtx (j : Int) index with
          | some p => sp_matrix_store self.global_mtx j p 0
          | none => self.global_mtx := by
  unfold solver_apply_single_bc_step
  cases h1 : sp_matrix_element self.global_mtx (j : Int) index with
  | none =>
    simp only
    cases h2 : sp_matrix_element self.global_mtx index (j : Int) <;> rfl
  | some p =>
    simp only
    cases h2 : sp_matrix_element (sp_matrix_store self.global_mtx j p 0) index (j : Int) <;> rfl

theorem solver_apply_single_bc_step_forces (index : Int) (presc : ℚ) (j : ℕ)
    (self : fea_solver) :
    (solver_apply_single_bc_step index presc j self).global_forces_vct
      = match sp_matrix_element self.global_mtx (j : Int) index with
        | some p =>
          self.global_forces_vct.set j
            (self.global_forces_vct.getD j 0 - (self.global_mtx.row j).values.getD p 0 * presc)
        | none => self.global_forces_vct := by
  unfold solver_apply_single_bc_step
  cases h1 : sp_matrix_element self.global_mtx (j : Int) index with
  | none =>
    simp only
    cases h2 : sp_matrix_element self.global_mtx index (j : Int) <;> rfl
  | some p =>
    simp only
    cases h2 : sp_matrix_element (sp_matrix_store self.global_mtx j p 0) index (j : Int) <;> rfl

/-- The invariant of the loop of `solver_apply_single_bc` after the rows
`j < n`: the stored elements `(a, index)` with `a < n` and `(index, b)` with
`b < n` are zero, the others as before; the forces of the rows `a < n` have
lost `K_{a,index} * presc`. -/
theorem solver_apply_single_bc_loop (self : fea_solver) (hwf : sp_matrix_wf self.global_mtx)
    (hf : self.global_forces_vct.length = self.global_mtx.rows_count.toNat)
    (index : Int) (hI : 0 ≤ index ∧ index < self.global_mtx.rows_count) (presc : ℚ)
    (n : ℕ) (hn : n ≤ self.global_mtx.rows_count.toNat) :
    sp_matrix_same_pattern self.global_mtx
        (loop n (solver_apply_single_bc_step index presc) self).global_mtx
      ∧ (loop n (solver_apply_single_bc_step index presc) self).global_forces_vct.length
          = self.global_forces_vct.length
      ∧ (∀ a k : ℕ, (a : Int) < self.global_mtx.rows_count →
          (k : Int) ≤ (self.global_mtx.row a).last_index →
          (((loop n (solver_apply_single_bc_step index presc) self).global_mtx).row a).values.getD
              k 0
            = if ((self.global_mtx.row a).indexes.getD k 0 = index ∧ a < n)
                  ∨ ((a : Int) = index ∧ (self.global_mtx.row a).indexes.getD k 0 < (n : Int))
              then 0 else (self.global_mtx.row a).values.getD k 0)
      ∧ ∀ a : ℕ,
          (loop n (solver_apply_single_bc_step index presc) self).global_forces_vct.getD a 0
            = if a < n then
                self.global_forces_vct.getD a 0
                  - sp_matrix_value self.global_mtx (a : Int) index * presc
              else self.global_forces_vct.getD a 0 := by
  induction n with
  | zero =>
    refine ⟨sp_matrix_same_pattern_refl _, rfl, ?_, fun a => by simp [loop]⟩
    intro a k ha hk
    have hr := (hwf.rows_wf a (by omega)).in_range k (by omega)
    rw [if_neg]
    · rfl
    · rintro (h | h)
      · exact absurd h.2 (Nat.not_lt_zero a)
      · have := h.2
        simp only [Nat.cast_zero] at this
        omega
  | succ n ih =>
    obtain ⟨ih1, ih2, ih3, ih4⟩ := ih (by omega)
    simp only [loop]
    generalize loop n (solver_apply_single_bc_step index presc) self = s at ih1 ih2 ih3 ih4
    have hnr : (n : Int) < self.global_mtx.rows_count := by omega
    have hindex : ((index.toNat : ℕ) : Int) = index := by omega
    -- the first store, at `(n, index)`, and the second, at `(index, n)`
    obtain ⟨hA1, hA2⟩ := sp_matrix_store_element self.global_mtx s.global_mtx hwf ih1 n index 0 hnr
    obtain ⟨hB1, hB2⟩ := sp_matrix_store_element self.global_mtx _ hwf hA1
      index.toNat (n : Int) 0 (by omega)
    rw [hindex] at hB1 hB2
    rw [solver_apply_single_bc_step_mtx, solver_apply_single_bc_step_forces]
    refine ⟨hB1, ?_, ?_, ?_⟩
    · split
      · rw [List.length_set, ih2]
      · exact ih2
    · intro a k ha hk
      have hr := (hwf.rows_wf a (by omega)).in_range k (by omega)
      rw [hB2 a k hk, hA2 a k hk, ih3 a k ha hk]
      by_cases c1 : a = index.toNat ∧ (self.global_mtx.row a).indexes.getD k 0 = (n : Int)
      · rw [if_pos c1, if_pos (Or.inr ⟨by omega, by omega⟩)]
      · rw [if_neg c1]
        by_cases c0 : a = n ∧ (self.global_mtx.row a).indexes.getD k 0 = index
        · rw [if_pos c0, if_pos (Or.inl ⟨c0.2, by omega⟩)]
        · rw [if_neg c0]
          by_cases c2 : ((self.global_mtx.row a).indexes.getD k 0 = index ∧ a < n)
              ∨ ((a : Int) = index ∧ (self.global_mtx.row a).indexes.getD k 0 < (n : Int))
          · rw [if_pos c2, if_pos]
            rcases c2 with c2 | c2
            · exact Or.inl ⟨c2.1, by omega⟩
            · exact Or.inr ⟨c2.1, by omega⟩
          · rw [if_neg c2, if_neg]
            rintro (h | h)
            · rcases Nat.lt_succ_iff_lt_or_eq.1 h.2 with h3 | h3
              · exact c2 (Or.inl ⟨h.1, h3⟩)
              · exact c0 ⟨h3, h.1⟩
            · by_cases h5 : (self.global_mtx.row a).indexes.getD k 0 < (n : Int)
              · exact c2 (Or.inr ⟨h.1, h5⟩)
              · exact c1 ⟨by omega, by omega⟩
    · intro a
      rw [sp_matrix_same_pattern_element _ _ ih1]
      cases he : sp_matrix_element self.global_mtx (n : Int) index with
      | none =>
        simp only
        have hval : sp_matrix_value self.global_mtx (n : Int) index = 0 := by
          unfold sp_matrix_value sp_matrix_get
          rw [he]; rfl
        rw [ih4 a]
        by_cases h : a < n
        · rw [if_pos h, if_pos (by omega)]
        · rw [if_neg h]
          by_cases h2 : a = n
          · subst h2
            rw [if_pos (Nat.lt_succ_self a), hval]
            ring
          · rw [if_neg (by omega)]
      | some p =>
        simp only
        have hp' := (sp_matrix_element_eq_some _ hwf n index p hnr).1 he
        have hforce : (s.global_mtx.row n).values.getD p 0
            = sp_matrix_value self.global_mtx (n : Int) index := by
          rw [ih3 n p hnr hp'.1, if_neg]
          · unfold sp_matrix_value
            rw [sp_matrix_value_slot _ _ hwf (sp_matrix_same_pattern_refl _) n index p he]
            rfl
          · rintro (h | h)
            · omega
            · omega
        rw [getD_set_eq]
        by_cases h2 : n = a
        · subst h2
          rw [if_pos ⟨rfl, by omega⟩, if_pos (Nat.lt_succ_self n), ih4 n,
            if_neg (Nat.lt_irrefl n), hforce]
        · rw [if_neg (fun hc => h2 hc.1), ih4 a]
          by_cases h : a < n
          · rw [if_pos h, if_pos (by omega)]
          · rw [if_neg h, if_neg (by omega)]

/-- What `solver_apply_single_bc` does, slot by slot: it returns when the
diagonal element is stored; the stored positions are kept; the slot of
`(index, index)` keeps its value, the other slots of column `index` and the
slots of row `index` with a column below `rows_count` become zero; the force
of row `index` becomes `K_II * presc` and the force of every other row `a`
loses `K_aI * presc`. -/
theorem solver_apply_single_bc_spec (self : fea_solver) (hwf : sp_matrix_wf self.global_mtx)
    (hf : self.global_forces_vct.length = self.global_mtx.rows_count.toNat)
    (index : Int) (hI : 0 ≤ index ∧ index < self.global_mtx.rows_count) (presc : ℚ)
    (hd : (sp_matrix_element self.global_mtx index index).isSome = true) :
    ∃ self1 : fea_solver, solver_apply_single_bc self index presc = some self1
      ∧ sp_matrix_same_pattern self.global_mtx self1.global_mtx
      ∧ self1.global_forces_vct.length = self.global_forces_vct.length
      ∧ (∀ a k : ℕ, (a : Int) < self.global_mtx.rows_count →
          (k : Int) ≤ (self.global_mtx.row a).last_index →
          (self1.global_mtx.row a).values.getD k 0
            = if (a : Int) = index ∧ (self.global_mtx.row a).indexes.getD k 0 = index then
                (self.global_mtx.row a).values.getD k 0
              else if (self.global_mtx.row a).indexes.getD k 0 = index
                  ∨ ((a : Int) = index
                    ∧ (self.global_mtx.row a).indexes.getD k 0 < self.global_mtx.rows_count)
              then 0 else (self.global_mtx.row a).values.getD k 0)
      ∧ ∀ a : ℕ,
          self1.global_forces_vct.getD a 0
            = if (a : Int) = index then sp_matrix_value self.global_mtx index index * presc
              else if (a : Int) < self.global_mtx.rows_count then
                self.global_forces_vct.getD a 0
                  - sp_matrix_value self.global_mtx (a : Int) index * presc
              else self.global_forces_vct.getD a 0 := by
  obtain ⟨p1, hp1⟩ := Option.isSome_iff_exists.1 hd
  have hindex : ((index.toNat : ℕ) : Int) = index := by omega
  have hp1' := (sp_matrix_element_eq_some _ hwf index.toNat index p1 (by omega)).1
    (by rw [hindex]; exact hp1)
  obtain ⟨h1, h2, h3, h4⟩ := solver_apply_single_bc_loop self hwf hf index hI presc
    self.global_mtx.rows_count.toNat (le_refl _)
  have hrow := hwf.rows_wf index.toNat (by omega)
  have hvalue : (self.global_mtx.row index.toNat).values.getD p1 0
      = sp_matrix_value self.global_mtx index index := by
    unfold sp_matrix_value sp_matrix_get
    rw [hp1]; rfl
  unfold solver_apply_single_bc
  rw [hp1]
  simp only
  generalize loop self.global_mtx.rows_count.toNat (solver_apply_single_bc_step index presc) self
    = s at h1 h2 h3 h4
  refine ⟨_, rfl, ?_, ?_, ?_, ?_⟩
  · exact sp_matrix_same_pattern_trans _ _ _ h1 (sp_matrix_store_same_pattern _ _ _ _)
  · simp only [List.length_set]
    exact h2
  · intro a k ha hk
    have hr := (hwf.rows_wf a (by omega)).in_range k (by omega)
    have hl1 := hrow.val_len
    have hl2 := hrow.last_lt
    simp only
    rw [sp_matrix_store_values _ _ _ _ _ _
      (by rw [(h1.2.2.2.2 index.toNat).2.2.2]; omega), h3 a k ha hk]
    by_cases c1 : a = index.toNat ∧ k = p1
    · obtain ⟨c1a, c1b⟩ := c1
      subst c1a c1b
      rw [if_pos ⟨rfl, rfl⟩, if_pos ⟨hindex, hp1'.2⟩]
    · rw [if_neg c1]
      by_cases c2 : (a : Int) = index ∧ (self.global_mtx.row a).indexes.getD k 0 = index
      · exfalso
        apply c1
        have ha' : a = index.toNat := by omega
        subst ha'
        exact ⟨rfl, hrow.nodup_eq k p1 hk hp1'.1 (c2.2.trans hp1'.2.symm)⟩
      · rw [if_neg c2]
        by_cases c3 : (self.global_mtx.row a).indexes.getD k 0 = index
            ∨ ((a : Int) = index
              ∧ (self.global_mtx.row a).indexes.getD k 0 < self.global_mtx.rows_count)
        · rw [if_pos c3, if_pos]
          rcases c3 with c3 | c3
          · exact Or.inl ⟨c3, by omega⟩
          · exact Or.inr ⟨c3.1, by omega⟩
        · rw [if_neg c3, if_neg]
          rintro (h | h)
          · exact c3 (Or.inl h.1)
          · exact c3 (Or.inr ⟨h.1, by omega⟩)
  · intro a
    simp only
    rw [getD_set_eq, hvalue]
    by_cases c1 : index.toNat = a
    · rw [if_pos ⟨c1, by omega⟩, if_pos (by omega)]
    · rw [if_neg (fun hc => c1 hc.1), if_neg (by omega), h4 a]
      by_cases c2 : (a : Int) < self.global_mtx.rows_count
      · rw [if_pos c2, if_pos (by omega)]
      · rw [if_neg c2, if_neg (by omega)]

/-- What `solver_apply_single_bc` does to the values `sp_matrix_element`
reads. -/
theorem solver_apply_single_bc_get (self self1 : fea_solver)
    (hwf : sp_matrix_wf self.global_mtx)
    (hf : self.global_forces_vct.length = self.global_mtx.rows_count.toNat)
    (index : Int) (hI : 0 ≤ index ∧ index < self.global_mtx.rows_count) (presc : ℚ)
    (h : solver_apply_single_bc self index presc = some self1) (a b : Int) :
    sp_matrix_get self1.global_mtx a b
      = if a = index ∧ b = index then sp_matrix_get self.global_mtx a b
        else if b = index ∨ (a = index ∧ b < self.global_mtx.rows_count) then
          (sp_matrix_get self.global_mtx a b).map (fun _ => 0)
        else sp_matrix_get self.global_mtx a b := by
  have hd : (sp_matrix_element self.global_mtx index index).isSome = true := by
    unfold solver_apply_single_bc at h
    cases he : sp_matrix_element self.global_mtx index index with
    | none => rw [he] at h; exact absurd h (by simp)
    | some p => rfl
  obtain ⟨self2, h1, h2, h3, h4, h5⟩ := solver_apply_single_bc_spec self hwf hf index hI presc hd
  rw [h] at h1
  injection h1 with h1
  subst h1
  cases he : sp_matrix_element self.global_mtx a b with
  | none =>
    rw [sp_matrix_get_none _ _ h2 a b he,
      sp_matrix_get_none _ _ (sp_matrix_same_pattern_refl _) a b he]
    split
    · rfl
    · split <;> rfl
  | some k =>
    have hin : 0 ≤ a ∧ a < self.global_mtx.rows_count := by
      unfold sp_matrix_element at he
      split at he
      · rename_i hc; exact ⟨hc.1, hc.2.1⟩
      · exact absurd he (by simp)
    have ha : ((a.toNat : ℕ) : Int) = a := by omega
    rw [← ha] at he
    have hk := (sp_matrix_element_eq_some _ hwf a.toNat b k (by omega)).1 he
    have e1 := sp_matrix_value_slot _ _ hwf h2 a.toNat b k he
    have e0 := sp_matrix_value_slot _ _ hwf (sp_matrix_same_pattern_refl _) a.toNat b k he
    rw [ha] at e1 e0
    rw [e1, e0, h4 a.toNat k (by omega) hk.1, ha, hk.2]
    split
    · rfl
    · split <;> rfl

theorem solver_apply_single_bc_value (self self1 : fea_solver)
    (hwf : sp_matrix_wf self.global_mtx)
    (hf : self.global_forces_vct.length = self.global_mtx.rows_count.toNat)
    (index : Int) (hI : 0 ≤ index ∧ index < self.global_mtx.rows_count) (presc : ℚ)
    (h : solver_apply_single_bc self index presc = some self1) (a b : Int) :
    sp_matrix_value self1.global_mtx a b
      = if a = index ∧ b = index then sp_matrix_value self.global_mtx a b
        else if b = index ∨ (a = index ∧ b < self.global_mtx.rows_count) then 0
        else sp_matrix_value self.global_mtx a b := by
  unfold sp_matrix_value
  rw [solver_apply_single_bc_get self self1 hwf hf index hI presc h a b]
  split
  · rfl
  · split
    · cases sp_matrix_get self.global_mtx a b <;> rfl
    · rfl

/-- An element outside the matrix reads as zero. -/
theorem sp_matrix_value_out (self : sp_matrix) (a b : Int)
    (h : ¬ (0 ≤ a ∧ a < self.rows_count ∧ 0 ≤ b ∧ b < self.cols_count)) :
    sp_matrix_value self a b = 0 := by
  unfold sp_matrix_value sp_matrix_get sp_matrix_element
  rw [if_neg h]
  rfl

/-! ## C9: the system after one prescribed dof -/

/-- C9. For every global matrix `K` (well formed, square as
`solver` allocates it) with right-hand side `f`, every in-range dof `I`
whose diagonal element is stored and every prescribed value `u`:
`solver_apply_single_bc(I, u)` returns, and afterwards `K_II` reads as
before the call, `K_jI` and `K_Ij` read as `0` for every `j ≠ I`, and
`f[I] = K_II * u`. -/
theorem C9_solver_apply_single_bc (self : fea_solver) (hwf : sp_matrix_wf self.global_mtx)
    (hsq : self.global_mtx.cols_count = self.global_mtx.rows_count)
    (hf : self.global_forces_vct.length = self.global_mtx.rows_count.toNat)
    (index : Int) (hI : 0 ≤ index ∧ index < self.global_mtx.rows_count) (presc : ℚ)
    (hd : (sp_matrix_element self.global_mtx index index).isSome = true) :
    ∃ self1 : fea_solver, solver_apply_single_bc self index presc = some self1
      ∧ sp_matrix_value self1.global_mtx index index
          = sp_matrix_value self.global_mtx index index
      ∧ (∀ j : Int, j ≠ index →
          sp_matrix_value self1.global_mtx j index = 0
            ∧ sp_matrix_value self1.global_mtx index j = 0)
      ∧ self1.global_forces_vct.getD index.toNat 0
          = sp_matrix_value self1.global_mtx index index * presc := by
  obtain ⟨self1, h1, h2, h3, h4, h5⟩ := solver_apply_single_bc_spec self hwf hf index hI presc hd
  have hv := solver_apply_single_bc_value self self1 hwf hf index hI presc h1
  have hII : sp_matrix_value self1.global_mtx index index
      = sp_matrix_value self.global_mtx index index := by
    rw [hv, if_pos ⟨rfl, rfl⟩]
  refine ⟨self1, h1, hII, ?_, ?_⟩
  · intro j hj
    constructor
    · rw [hv, if_neg (fun hc => hj hc.1), if_pos (Or.inl rfl)]
    · rw [hv, if_neg (fun hc => hj hc.2)]
      by_cases hjr : j < self.global_mtx.rows_count
      · rw [if_pos (Or.inr ⟨rfl, hjr⟩)]
      · rw [if_neg (by
          rintro (h | h)
          · exact hj h
          · exact hjr h.2)]
        exact sp_matrix_value_out _ _ _ (by omega)
  · rw [h5, hII, if_pos (by omega)]

/-- C9 at the matrix of `test_solver`, dof 0 prescribed to 1. -/
theorem C9_solver_apply_single_bc_witness :
    sp_matrix_wf test_solver_bc.global_mtx
      ∧ test_solver_bc.global_mtx.cols_count = test_solver_bc.global_mtx.rows_count
      ∧ test_solver_bc.global_forces_vct.length = test_solver_bc.global_mtx.rows_count.toNat
      ∧ (sp_matrix_element test_solver_bc.global_mtx 0 0).isSome = true
      ∧ ∃ self1 : fea_solver, solver_apply_single_bc test_solver_bc 0 1 = some self1
        ∧ sp_matrix_value self1.global_mtx 0 0 = sp_matrix_value test_solver_bc.global_mtx 0 0
        ∧ (∀ j : Int, j ≠ 0 →
            sp_matrix_value self1.global_mtx j 0 = 0
              ∧ sp_matrix_value self1.global_mtx 0 j = 0)
        ∧ self1.global_forces_vct.getD (0 : Int).toNat 0
            = sp_matrix_value self1.global_mtx 0 0 * 1 :=
  ⟨by decide!, by decide!, by decide!, by decide!,
    C9_solver_apply_single_bc test_solver_bc (by decide!) (by decide!) (by decide!) 0
      ⟨by decide, by decide⟩ 1 (by decide!)⟩

/-! ## C10: symmetry and diagonal after a sequence of prescribed dofs -/

/-- A sequence of prescribed dofs, each in range with a stored diagonal
element: `solver_apply_single_bc` returns for each of them, keeps the stored
positions and every diagonal element, and keeps a symmetric matrix
symmetric. -/
theorem solver_apply_bcs_spec (bcs : List (Int × ℚ)) :
    ∀ self : fea_solver, sp_matrix_wf self.global_mtx →
      self.global_mtx.cols_count = self.global_mtx.rows_count →
      self.global_forces_vct.length = self.global_mtx.rows_count.toNat →
      (∀ bc ∈ bcs, (0 ≤ bc.1 ∧ bc.1 < self.global_mtx.rows_count)
        ∧ (sp_matrix_element self.global_mtx bc.1 bc.1).isSome = true) →
      ∃ self1 : fea_solver, solver_apply_bcs self bcs = some self1
        ∧ sp_matrix_same_pattern self.global_mtx self1.global_mtx
        ∧ self1.global_forces_vct.length = self.global_forces_vct.length
        ∧ (∀ a : Int, sp_matrix_value self1.global_mtx a a = sp_matrix_value self.global_mtx a a)
        ∧ ((∀ a b : Int, sp_matrix_value self.global_mtx a b = sp_matrix_value self.global_mtx b a)
          → ∀ a b : Int,
              sp_matrix_value self1.global_mtx a b = sp_matrix_value self1.global_mtx b a) := by
  induction bcs with
  | nil =>
    intro self _ _ _ _
    exact ⟨self, rfl, sp_matrix_same_pattern_refl _, rfl, fun _ => rfl, fun h => h⟩
  | cons bc bcs ih =>
    intro self hwf hsq hf hbcs
    obtain ⟨hI, hd⟩ := hbcs bc (List.mem_cons_self _ _)
    obtain ⟨self2, h1, h2, h3, _, _⟩ := solver_apply_single_bc_spec self hwf hf bc.1 hI bc.2 hd
    have hv := solver_apply_single_bc_value self self2 hwf hf bc.1 hI bc.2 h1
    have hwf2 := sp_matrix_same_pattern_wf _ _ h2 hwf
    obtain ⟨self1, g1, g2, g3, g4, g5⟩ := ih self2 hwf2 (by rw [h2.2.1, h2.1, hsq])
      (by rw [h3, hf, h2.1])
      (by
        intro bc1 hbc1
        obtain ⟨hI1, hd1⟩ := hbcs bc1 (List.mem_cons_of_mem _ hbc1)
        rw [h2.1, sp_matrix_same_pattern_element _ _ h2]
        exact ⟨hI1, hd1⟩)
    refine ⟨self1, ?_, sp_matrix_same_pattern_trans _ _ _ h2 g2, g3.trans h3, ?_, ?_⟩
    · unfold solver_apply_bcs
      rw [h1]
      exact g1
    · intro a
      rw [g4 a, hv a a]
      split_ifs <;> first | rfl | (exfalso; omega)
    · intro hsym
      apply g5
      intro a b
      rw [hv a b, hv b a]
      split_ifs <;>
        first
        | rfl
        | exact hsym a b
        | exact sp_matrix_value_out _ _ _ (by omega)
        | exact (sp_matrix_value_out _ _ _ (by omega)).symm

/-- C10. If the global matrix (well formed, square) is symmetric, then after
enforcing any sequence of prescribed dofs (each in range, with a stored
diagonal element) with `solver_apply_single_bc` it is still symmetric, and
the diagonal element at every prescribed index reads as before the
enforcement. -/
theorem C10_solver_apply_bcs_symmetric (self : fea_solver) (hwf : sp_matrix_wf self.global_mtx)
    (hsq : self.global_mtx.cols_count = self.global_mtx.rows_count)
    (hf : self.global_forces_vct.length = self.global_mtx.rows_count.toNat)
    (bcs : List (Int × ℚ))
    (hbcs : ∀ bc ∈ bcs, (0 ≤ bc.1 ∧ bc.1 < self.global_mtx.rows_count)
      ∧ (sp_matrix_element self.global_mtx bc.1 bc.1).isSome = true)
    (hsym : ∀ i : ℕ, i < self.global_mtx.rows_count.toNat →
      ∀ j : ℕ, j < self.global_mtx.rows_count.toNat →
      sp_matrix_value self.global_mtx (i : Int) (j : Int)
        = sp_matrix_value self.global_mtx (j : Int) (i : Int)) :
    ∃ self1 : fea_solver, solver_apply_bcs self bcs = some self1
      ∧ (∀ a b : Int,
          sp_matrix_value self1.global_mtx a b = sp_matrix_value self1.global_mtx b a)
      ∧ ∀ bc ∈ bcs,
          sp_matrix_value self1.global_mtx bc.1 bc.1 = sp_matrix_value self.global_mtx bc.1 bc.1 := by
  obtain ⟨self1, h1, h2, h3, h4, h5⟩ := solver_apply_bcs_spec bcs self hwf hsq hf hbcs
  refine ⟨self1, h1, h5 ?_, fun bc _ => h4 bc.1⟩
  intro a b
  by_cases hin : (0 ≤ a ∧ a < self.global_mtx.rows_count)
      ∧ (0 ≤ b ∧ b < self.global_mtx.rows_count)
  · have h := hsym a.toNat (by omega) b.toNat (by omega)
    have ea : ((a.toNat : ℕ) : Int) = a := by omega
    have eb : ((b.toNat : ℕ) : Int) = b := by omega
    rw [ea, eb] at h
    exact h
  · rw [sp_matrix_value_out _ _ _ (by omega), sp_matrix_value_out _ _ _ (by omega)]

/-- C10 at the (symmetric) matrix of `test_solver` with two prescribed dofs,
0 and 2. -/
theorem C10_solver_apply_bcs_symmetric_witness :
    sp_matrix_wf test_solver_bc.global_mtx
      ∧ (∀ i : ℕ, i < test_solver_bc.global_mtx.rows_count.toNat →
          ∀ j : ℕ, j < test_solver_bc.global_mtx.rows_count.toNat →
          sp_matrix_value test_solver_bc.global_mtx (i : Int) (j : Int)
            = sp_matrix_value test_solver_bc.global_mtx (j : Int) (i : Int))
      ∧ ∃ self1 : fea_solver,
          solver_apply_bcs test_solver_bc [(0, 1), (2, 3)] = some self1
          ∧ (∀ a b : Int,
              sp_matrix_value self1.global_mtx a b = sp_matrix_value self1.global_mtx b a)
          ∧ ∀ bc ∈ [((0 : Int), (1 : ℚ)), (2, 3)],
              sp_matrix_value self1.global_mtx bc.1 bc.1
                = sp_matrix_value test_solver_bc.global_mtx bc.1 bc.1 :=
  ⟨by decide!, by decide!,
    C10_solver_apply_bcs_symmetric test_solver_bc (by decide!) (by decide!) (by decide!)
      [(0, 1), (2, 3)] (by decide!) (by decide!)⟩

/-! ## Skyline: the counting loops -/

theorem skyline_lower_in_row_succ (mtx : sp_matrix) (i n : ℕ) :
    skyline_lower_in_row mtx i (n + 1)
      = skyline_lower_in_row mtx i n
        + if (mtx.row i).indexes.getD n 0 < (i : Int) then 1 else 0 := by
  unfold skyline_lower_in_row
  rw [Finset.sum_range_succ]

theorem skyline_upper_in_row_succ (mtx : sp_matrix) (i n : ℕ) :
    skyline_upper_in_row mtx i (n + 1)
      = skyline_upper_in_row mtx i n
        + if (mtx.row i).indexes.getD n 0 > (i : Int) then 1 else 0 := by
  unfold skyline_upper_in_row
  rw [Finset.sum_range_succ]

theorem skyline_lower_before_succ (mtx : sp_matrix) (i : ℕ) :
    skyline_lower_before mtx (i + 1)
      = skyline_lower_before mtx i
        + skyline_lower_in_row mtx i ((mtx.row i).last_index + 1).toNat := by
  unfold skyline_lower_before
  rw [Finset.sum_range_succ]

theorem skyline_upper_before_succ (mtx : sp_matrix) (i : ℕ) :
    skyline_upper_before mtx (i + 1)
      = skyline_upper_before mtx i
        + skyline_upper_in_row mtx i ((mtx.row i).last_index + 1).toNat := by
  unfold skyline_upper_before
  rw [Finset.sum_range_succ]

theorem skyline_lower_in_row_mono (mtx : sp_matrix) (i n m : ℕ) (h : n ≤ m) :
    skyline_lower_in_row mtx i n ≤ skyline_lower_in_row mtx i m := by
  unfold skyline_lower_in_row
  exact Finset.sum_le_sum_of_subset (Finset.range_mono h)

theorem skyline_lower_before_mono (mtx : sp_matrix) (i m : ℕ) (h : i ≤ m) :
    skyline_lower_before mtx i ≤ skyline_lower_before mtx m := by
  unfold skyline_lower_before
  exact Finset.sum_le_sum_of_subset (Finset.range_mono h)

/-- The counting loop over the slots of row `i`. -/
theorem skyline_count_row (mtx : sp_matrix) (i n : ℕ) (c : Int × Int) :
    loop n
      (fun j (c : Int × Int) =>
        if (mtx.row i).indexes.getD j 0 > (i : Int) then (c.1, c.2 + 1)
        else if (mtx.row i).indexes.getD j 0 < (i : Int) then (c.1 + 1, c.2)
        else c) c
      = (c.1 + (skyline_lower_in_row mtx i n : Int), c.2 + (skyline_upper_in_row mtx i n : Int)) := by
  induction n with
  | zero => simp [loop, skyline_lower_in_row, skyline_upper_in_row]
  | succ n ih =>
    simp only [loop]
    rw [ih, skyline_lower_in_row_succ, skyline_upper_in_row_succ]
    by_cases h1 : (mtx.row i).indexes.getD n 0 > (i : Int)
    · rw [if_pos h1, if_pos h1, if_neg (by omega)]
      simp only [Nat.cast_add, Nat.cast_one, add_zero, Nat.cast_zero, add_assoc]
    · rw [if_neg h1, if_neg h1]
      by_cases h2 : (mtx.row i).indexes.getD n 0 < (i : Int)
      · rw [if_pos h2, if_pos h2]
        simp only [Nat.cast_add, Nat.cast_one, add_zero, Nat.cast_zero, add_assoc]
      · rw [if_neg h2, if_neg h2]
        simp only [Nat.cast_add, add_zero, Nat.cast_zero]

/-- The counting loops of `init_sp_matrix_skyline`: `l_count` and `u_count`
are the numbers of stored elements below and above the diagonal. -/
theorem skyline_count_eq (mtx : sp_matrix) :
    skyline_count mtx
      = ((skyline_lower_before mtx mtx.rows_count.toNat : Int),
          (skyline_upper_before mtx mtx.rows_count.toNat : Int)) := by
  unfold skyline_count
  generalize mtx.rows_count.toNat = n
  induction n with
  | zero => simp [loop, skyline_lower_before, skyline_upper_before]
  | succ n ih =>
    simp only [loop]
    rw [ih, skyline_count_row, skyline_lower_before_succ, skyline_upper_before_succ]
    simp only [Nat.cast_add]

/-! ## Skyline: a symmetric pattern has as many elements below as above -/

/-- A sum over the used slots of a well-formed row is a sum over the
columns the row stores. -/
theorem indexed_array_sum_slots (cols : Int) (row : indexed_array)
    (hwf : indexed_array_wf cols row) (g : Int → ℕ) :
    ∑ k in Finset.range (row.last_index + 1).toNat, g (row.indexes.getD k 0)
      = ∑ c in Finset.range cols.toNat,
          if (indexed_array_find row (c : Int)).isSome = true then g (c : Int) else 0 := by
  have h1 : ∀ c : ℕ,
      (if (indexed_array_find row (c : Int)).isSome = true then g (c : Int) else 0)
        = ∑ k in Finset.range (row.last_index + 1).toNat,
            if row.indexes.getD k 0 = (c : Int) then g (c : Int) else 0 := by
    intro c
    cases hf : indexed_array_find row (c : Int) with
    | none =>
      rw [indexed_array_find_eq_none] at hf
      symm
      simp only [Option.isSome_none, Bool.false_eq_true, if_false]
      apply Finset.sum_eq_zero
      intro k hk
      rw [Finset.mem_range] at hk
      rw [if_neg (hf k (by omega))]
    | some k0 =>
      rw [indexed_array_find_eq_some] at hf
      symm
      simp only [Option.isSome_some, if_true]
      rw [Finset.sum_eq_single k0]
      · rw [if_pos hf.2.1]
      · intro k hk hne
        rw [Finset.mem_range] at hk
        rw [if_neg]
        intro e
        exact hne (hwf.nodup_eq k k0 (by omega) hf.1 (e.trans hf.2.1.symm))
      · intro hk
        rw [Finset.mem_range] at hk
        omega
  rw [Finset.sum_congr rfl (fun c _ => h1 c), Finset.sum_comm]
  apply Finset.sum_congr rfl
  intro k hk
  rw [Finset.mem_range] at hk
  have hr := hwf.in_range k hk
  rw [Finset.sum_eq_single (row.indexes.getD k 0).toNat]
  · have e : (((row.indexes.getD k 0).toNat : ℕ) : Int) = row.indexes.getD k 0 := by omega
    rw [e, if_pos rfl]
  · intro c _ hne
    rw [if_neg (by omega)]
  · intro hnot
    rw [Finset.mem_range] at hnot
    omega

theorem sum_range_extend (F : ℕ → ℕ → ℕ) (R C N : ℕ) (hR : R ≤ N) (hC : C ≤ N)
    (h0 : ∀ i c : ℕ, (R ≤ i ∨ C ≤ c) → F i c = 0) :
    ∑ i in Finset.range R, ∑ c in Finset.range C, F i c
      = ∑ i in Finset.range N, ∑ c in Finset.range N, F i c := by
  have h1 : ∀ i : ℕ, ∑ c in Finset.range C, F i c = ∑ c in Finset.range N, F i c := by
    intro i
    apply Finset.sum_subset (Finset.range_mono hC)
    intro c _ hc
    rw [Finset.mem_range] at hc
    exact h0 i c (Or.inr (by omega))
  rw [Finset.sum_congr rfl (fun i _ => h1 i)]
  apply Finset.sum_subset (Finset.range_mono hR)
  intro i _ hi
  rw [Finset.mem_range] at hi
  apply Finset.sum_eq_zero
  intro c _
  exact h0 i c (Or.inl (by omega))

/-- The stored element `(i, c)` of a well-formed matrix, seen from row `i`. -/
theorem sp_matrix_element_isSome_iff (mtx : sp_matrix) (i c : ℕ)
    (hi : i < mtx.rows_count.toNat) (hc : c < mtx.cols_count.toNat) :
    (sp_matrix_element mtx (i : Int) (c : Int)).isSome
      = (indexed_array_find (mtx.row i) (c : Int)).isSome := by
  unfold sp_matrix_element
  rw [if_pos ⟨by omega, by omega, by omega, by omega⟩]
  simp only [Int.toNat_ofNat]

theorem sp_matrix_element_isSome_range (mtx : sp_matrix) (i c : ℕ)
    (h : (sp_matrix_element mtx (i : Int) (c : Int)).isSome = true) :
    i < mtx.rows_count.toNat ∧ c < mtx.cols_count.toNat := by
  unfold sp_matrix_element at h
  split at h
  · rename_i hc
    omega
  · exact absurd h (by simp)

theorem skyline_lower_before_eq_sum (mtx : sp_matrix) (hwf : sp_matrix_wf mtx) :
    skyline_lower_before mtx mtx.rows_count.toNat
      = ∑ i in Finset.range mtx.rows_count.toNat, ∑ c in Finset.range mtx.cols_count.toNat,
          if (sp_matrix_element mtx (i : Int) (c : Int)).isSome = true ∧ c < i then 1 else 0 := by
  unfold skyline_lower_before skyline_lower_in_row
  apply Finset.sum_congr rfl
  intro i hi
  rw [Finset.mem_range] at hi
  rw [indexed_array_sum_slots mtx.cols_count (mtx.row i) (hwf.rows_wf i hi)
    (fun c => if c < (i : Int) then 1 else 0)]
  apply Finset.sum_congr rfl
  intro c hc
  rw [Finset.mem_range] at hc
  rw [sp_matrix_element_isSome_iff mtx i c hi hc]
  by_cases h1 : (indexed_array_find (mtx.row i) (c : Int)).isSome = true
  · rw [if_pos h1]
    by_cases h2 : c < i
    · rw [if_pos (by omega), if_pos ⟨h1, h2⟩]
    · rw [if_neg (by omega), if_neg (fun hc => h2 hc.2)]
  · rw [if_neg h1, if_neg (fun hc => h1 hc.1)]

theorem skyline_upper_before_eq_sum (mtx : sp_matrix) (hwf : sp_matrix_wf mtx) :
    skyline_upper_before mtx mtx.rows_count.toNat
      = ∑ i in Finset.range mtx.rows_count.toNat, ∑ c in Finset.range mtx.cols_count.toNat,
          if (sp_matrix_element mtx (i : Int) (c : Int)).isSome = true ∧ i < c then 1 else 0 := by
  unfold skyline_upper_before skyline_upper_in_row
  apply Finset.sum_congr rfl
  intro i hi
  rw [Finset.mem_range] at hi
  rw [indexed_array_sum_slots mtx.cols_count (mtx.row i) (hwf.rows_wf i hi)
    (fun c => if c > (i : Int) then 1 else 0)]
  apply Finset.sum_congr rfl
  intro c hc
  rw [Finset.mem_range] at hc
  rw [sp_matrix_element_isSome_iff mtx i c hi hc]
  by_cases h1 : (indexed_array_find (mtx.row i) (c : Int)).isSome = true
  · rw [if_pos h1]
    by_cases h2 : i < c
    · rw [if_pos (by omega), if_pos ⟨h1, h2⟩]
    · rw [if_neg (by omega), if_neg (fun hc => h2 hc.2)]
  · rw [if_neg h1, if_neg (fun hc => h1 hc.1)]

/-- With a symmetric stored pattern the two counts of
`init_sp_matrix_skyline` agree. -/
theorem skyline_count_symmetric (mtx : sp_matrix) (hwf : sp_matrix_wf mtx)
    (hsym : ∀ i : ℕ, i < mtx.rows_count.toNat → ∀ j : ℕ, j < mtx.cols_count.toNat →
      (sp_matrix_element mtx (i : Int) (j : Int)).isSome = true →
      (sp_matrix_element mtx (j : Int) (i : Int)).isSome = true) :
    skyline_lower_before mtx mtx.rows_count.toNat
      = skyline_upper_before mtx mtx.rows_count.toNat := by
  have hs : ∀ i c : ℕ, (sp_matrix_element mtx (i : Int) (c : Int)).isSome = true
      ↔ (sp_matrix_element mtx (c : Int) (i : Int)).isSome = true := by
    intro i c
    constructor
    · intro h
      have hr := sp_matrix_element_isSome_range mtx i c h
      exact hsym i hr.1 c hr.2 h
    · intro h
      have hr := sp_matrix_element_isSome_range mtx c i h
      exact hsym c hr.1 i hr.2 h
  rw [skyline_lower_before_eq_sum mtx hwf, skyline_upper_before_eq_sum mtx hwf]
  rw [sum_range_extend _ _ _ (max mtx.rows_count.toNat mtx.cols_count.toNat)
      (le_max_left _ _) (le_max_right _ _),
    sum_range_extend _ _ _ (max mtx.rows_count.toNat mtx.cols_count.toNat)
      (le_max_left _ _) (le_max_right _ _)]
  · rw [Finset.sum_comm]
    apply Finset.sum_congr rfl
    intro i _
    apply Finset.sum_congr rfl
    intro c _
    by_cases h : (sp_matrix_element mtx (i : Int) (c : Int)).isSome = true ∧ i < c
    · rw [if_pos h, if_pos ⟨(hs i c).1 h.1, h.2⟩]
    · rw [if_neg h, if_neg (fun hc => h ⟨(hs c i).1 hc.1, hc.2⟩)]
  · intro i c hic
    rw [if_neg]
    rintro ⟨h, _⟩
    have := sp_matrix_element_isSome_range mtx i c h
    omega
  · intro i c hic
    rw [if_neg]
    rintro ⟨h, _⟩
    have := sp_matrix_element_isSome_range mtx i c h
    omega

/-! ## Skyline: the fill loops -/

/-- An element below the diagonal in slot `k` of row `a` has its place
before the start of the next row. -/
theorem skyline_place_lt (mtx : sp_matrix) (a k : ℕ)
    (hk : k < ((mtx.row a).last_index + 1).toNat)
    (hlow : (mtx.row a).indexes.getD k 0 < (a : Int)) :
    skyline_lower_before mtx a + skyline_lower_in_row mtx a k
      < skyline_lower_before mtx (a + 1) := by
  have h1 := skyline_lower_in_row_succ mtx a k
  rw [if_pos hlow] at h1
  have h2 := skyline_lower_in_row_mono mtx a (k + 1) ((mtx.row a).last_index + 1).toNat hk
  rw [skyline_lower_before_succ]
  omega

/-- One pass of the loop over the slots of row `i`. -/
theorem skyline_fill_slot_inv (junk : ℕ → ℚ) (mtx : sp_matrix) (i n : ℕ)
    (hi : i < mtx.rows_count.toNat) (hn : n < ((mtx.row i).last_index + 1).toNat)
    (s : skyline_fill)
    (h : skyline_fill_inv junk mtx (skyline_lower_before mtx mtx.rows_count.toNat) i n s) :
    skyline_fill_inv junk mtx (skyline_lower_before mtx mtx.rows_count.toNat) i (n + 1)
        (skyline_fill_slot mtx i n s)
      ∧ (skyline_fill_slot mtx i n s).iptr = s.iptr
      ∧ (skyline_fill_slot mtx i n s).iptr_flag
          = if (mtx.row i).indexes.getD n 0 < (i : Int) then
              (if s.iptr_flag = -1 then s.l_count else s.iptr_flag)
            else s.iptr_flag := by
  unfold skyline_fill_slot
  by_cases hlow : (mtx.row i).indexes.getD n 0 < (i : Int)
  · rw [if_pos hlow, if_pos hlow]
    refine ⟨?_, rfl, rfl⟩
    have hplace := skyline_place_lt mtx i n hn hlow
    have hmono := skyline_lower_before_mono mtx (i + 1) mtx.rows_count.toNat (by omega)
    have hl := h.l_count
    have hp0 : s.l_count.toNat = skyline_lower_before mtx i + skyline_lower_in_row mtx i n := by
      omega
    have hsucc := skyline_lower_in_row_succ mtx i n
    rw [if_pos hlow] at hsucc
    -- places filled before are below the current place
    have hbefore : ∀ a k : ℕ,
        ((a < i ∧ k < ((mtx.row a).last_index + 1).toNat) ∨ (a = i ∧ k < n)) →
        (mtx.row a).indexes.getD k 0 < (a : Int) →
        skyline_lower_before mtx a + skyline_lower_in_row mtx a k < s.l_count.toNat := by
      intro a k hak hlow'
      rw [hp0]
      rcases hak with ⟨ha, hk⟩ | ⟨ha, hk⟩
      · have h1 := skyline_place_lt mtx a k hk hlow'
        have h2 := skyline_lower_before_mono mtx (a + 1) i (by omega)
        omega
      · subst ha
        have h1 := skyline_lower_in_row_succ mtx a k
        rw [if_pos hlow'] at h1
        have h2 := skyline_lower_in_row_mono mtx a (k + 1) n (by omega)
        omega
    constructor
    · simp only
      rw [hl, hsucc]
      push_cast
      ring
    · simp only [List.length_set]
      exact h.jptr_len
    · simp only [List.length_set]
      exact h.lower_len
    · simp only
      split
      · simp only [List.length_set]
        exact h.upper_len
      · exact h.upper_len
    · intro a k hak hlow'
      simp only
      by_cases hcur : a = i ∧ k = n
      · obtain ⟨ha, hk⟩ := hcur
        subst ha hk
        rw [← hp0]
        refine ⟨getD_set_self _ _ _ _ (by rw [h.jptr_len]; omega),
          getD_set_self _ _ _ _ (by rw [h.lower_len]; omega), ?_⟩
        unfold skyline_upper_expected
        split
        · exact getD_set_self _ _ _ _ (by rw [h.upper_len]; omega)
        · exact h.fresh _ (by omega) (by omega)
      · have hak' : (a < i ∧ k < ((mtx.row a).last_index + 1).toNat) ∨ (a = i ∧ k < n) := by
          rcases hak with hak | hak
          · exact Or.inl hak
          · exact Or.inr ⟨hak.1, by
              rcases Nat.lt_succ_iff_lt_or_eq.1 hak.2 with h3 | h3
              · exact h3
              · exact absurd ⟨hak.1, h3⟩ hcur⟩
        have hlt := hbefore a k hak' hlow'
        obtain ⟨f1, f2, f3⟩ := h.filled a k hak' hlow'
        refine ⟨by rw [getD_set_ne _ _ _ _ _ (by omega)]; exact f1,
          by rw [getD_set_ne _ _ _ _ _ (by omega)]; exact f2, ?_⟩
        split
        · rw [getD_set_ne _ _ _ _ _ (by omega)]; exact f3
        · exact f3
    · intro p hp hpT
      simp only at hp ⊢
      split
      · rw [getD_set_ne _ _ _ _ _ (by omega)]
        exact h.fresh p (by omega) hpT
      · exact h.fresh p (by omega) hpT
  · rw [if_neg hlow, if_neg hlow]
    refine ⟨?_, rfl, rfl⟩
    have hsucc := skyline_lower_in_row_succ mtx i n
    rw [if_neg hlow] at hsucc
    constructor
    · rw [h.l_count, hsucc]
      rfl
    · exact h.jptr_len
    · exact h.lower_len
    · exact h.upper_len
    · intro a k hak hlow'
      have hak' : (a < i ∧ k < ((mtx.row a).last_index + 1).toNat) ∨ (a = i ∧ k < n) := by
        rcases hak with hak | hak
        · exact Or.inl hak
        · exact Or.inr ⟨hak.1, by
            rcases Nat.lt_succ_iff_lt_or_eq.1 hak.2 with h3 | h3
            · exact h3
            · exfalso
              obtain ⟨ha, _⟩ := hak
              subst ha h3
              exact hlow hlow'⟩
      exact h.filled a k hak' hlow'
    · exact h.fresh

theorem skyline_lower_in_row_zero (mtx : sp_matrix) (i : ℕ) :
    skyline_lower_in_row mtx i 0 = 0 := by
  unfold skyline_lower_in_row
  rw [Finset.range_zero, Finset.sum_empty]

/-- The loop over the slots of row `i`, and the store of `iptr[i]` after it. -/
theorem skyline_fill_row_inv (junk : ℕ → ℚ) (mtx : sp_matrix) (i : ℕ)
    (hi : i < mtx.rows_count.toNat) (s : skyline_fill)
    (h : skyline_fill_inv junk mtx (skyline_lower_before mtx mtx.rows_count.toNat) i 0 s) :
    skyline_fill_inv junk mtx (skyline_lower_before mtx mtx.rows_count.toNat) (i + 1) 0
        (skyline_fill_row mtx i s)
      ∧ (skyline_fill_row mtx i s).iptr
          = (s.iptr.set i 0).set i (skyline_lower_before mtx i : Int) := by
  have hloop := loop_invariant
    (fun (n : ℕ) (s1 : skyline_fill) =>
      n ≤ ((mtx.row i).last_index + 1).toNat →
      skyline_fill_inv junk mtx (skyline_lower_before mtx mtx.rows_count.toNat) i n s1
        ∧ s1.iptr = s.iptr.set i 0
        ∧ s1.iptr_flag
            = if skyline_lower_in_row mtx i n = 0 then -1
              else (skyline_lower_before mtx i : Int))
    ((mtx.row i).last_index + 1).toNat (skyline_fill_slot mtx i)
    { s with iptr_flag := -1, iptr := s.iptr.set i 0 }
    (fun _ => ⟨⟨h.l_count, h.jptr_len, h.lower_len, h.upper_len, h.filled, h.fresh⟩, rfl, by
      rw [skyline_lower_in_row_zero, if_pos rfl]⟩)
    (fun n hn s1 hs1 hn1 => by
      obtain ⟨g1, g2, g3⟩ := hs1 (by omega)
      obtain ⟨f1, f2, f3⟩ := skyline_fill_slot_inv junk mtx i n hi hn s1 g1
      refine ⟨f1, f2.trans g2, ?_⟩
      have hsucc := skyline_lower_in_row_succ mtx i n
      have hl := g1.l_count
      rw [f3]
      by_cases hlow : (mtx.row i).indexes.getD n 0 < (i : Int)
      · have hne : skyline_lower_in_row mtx i (n + 1) ≠ 0 := by
          rw [hsucc, if_pos hlow]; omega
        rw [if_pos hlow, if_neg hne]
        by_cases h0 : skyline_lower_in_row mtx i n = 0
        · have hflag : s1.iptr_flag = -1 := by rw [g3, if_pos h0]
          rw [if_pos hflag, hl, h0, add_zero]
        · have hflag : s1.iptr_flag = (skyline_lower_before mtx i : Int) := by
            rw [g3, if_neg h0]
          rw [if_neg (by rw [hflag]; omega), hflag]
      · have he : skyline_lower_in_row mtx i (n + 1) = skyline_lower_in_row mtx i n := by
          rw [hsucc, if_neg hlow, add_zero]
        rw [if_neg hlow, g3, he])
    (le_refl _)
  unfold skyline_fill_row
  simp only
  generalize loop ((mtx.row i).last_index + 1).toNat (skyline_fill_slot mtx i)
    { s with iptr_flag := -1, iptr := s.iptr.set i 0 } = s1 at hloop
  obtain ⟨g1, g2, g3⟩ := hloop
  constructor
  · constructor
    · rw [skyline_lower_in_row_zero, skyline_lower_before_succ, add_zero]
      exact g1.l_count
    · exact g1.jptr_len
    · exact g1.lower_len
    · exact g1.upper_len
    · intro a k hak hlow
      apply g1.filled a k _ hlow
      rcases hak with hak | hak
      · rcases Nat.lt_succ_iff_lt_or_eq.1 hak.1 with h3 | h3
        · exact Or.inl ⟨h3, hak.2⟩
        · subst h3
          exact Or.inr ⟨rfl, hak.2⟩
      · exact absurd hak.2 (Nat.not_lt_zero k)
    · exact g1.fresh
  · have hl := g1.l_count
    rw [g2]
    congr 1
    by_cases h0 : skyline_lower_in_row mtx i ((mtx.row i).last_index + 1).toNat = 0
    · have hflag : s1.iptr_flag = -1 := by rw [g3, if_pos h0]
      rw [if_pos hflag, hl, h0, add_zero]
    · have hflag : s1.iptr_flag = (skyline_lower_before mtx i : Int) := by
        rw [g3, if_neg h0]
      rw [if_neg (by rw [hflag]; omega), hflag]

/-- The loop over the rows: after the rows before `i`, `iptr[a]` is the
start of row `a` for every `a < i`. -/
theorem skyline_fill_loop_inv (junk : ℕ → ℚ) (mtx : sp_matrix) (s : skyline_fill)
    (h : skyline_fill_inv junk mtx (skyline_lower_before mtx mtx.rows_count.toNat) 0 0 s)
    (i : ℕ) (hi : i ≤ mtx.rows_count.toNat) :
    skyline_fill_inv junk mtx (skyline_lower_before mtx mtx.rows_count.toNat) i 0
        (loop i (skyline_fill_row mtx) s)
      ∧ (loop i (skyline_fill_row mtx) s).iptr.length = s.iptr.length
      ∧ ∀ a : ℕ, a < i → a < s.iptr.length →
          (loop i (skyline_fill_row mtx) s).iptr.getD a 0 = (skyline_lower_before mtx a : Int) := by
  induction i with
  | zero => exact ⟨h, rfl, fun a ha => absurd ha (Nat.not_lt_zero a)⟩
  | succ i ih =>
    obtain ⟨ih1, ih2, ih3⟩ := ih (by omega)
    simp only [loop]
    obtain ⟨f1, f2⟩ := skyline_fill_row_inv junk mtx i (by omega) _ ih1
    refine ⟨f1, by rw [f2, List.length_set, List.length_set, ih2], ?_⟩
    intro a ha hal
    rw [f2, List.set_set, getD_set_eq]
    by_cases hai : i = a
    · subst hai
      rw [if_pos ⟨rfl, by rw [ih2]; exact hal⟩]
    · rw [if_neg (fun hc => hai hc.1)]
      exact ih3 a (by omega) hal

/-- The elements below the diagonal of a row are numbered one by one: every
number below the count belongs to one slot. -/
theorem skyline_slot_of_place (mtx : sp_matrix) (i n t : ℕ)
    (ht : t < skyline_lower_in_row mtx i n) :
    ∃ k : ℕ, k < n ∧ (mtx.row i).indexes.getD k 0 < (i : Int)
      ∧ skyline_lower_in_row mtx i k = t := by
  induction n with
  | zero =>
    rw [skyline_lower_in_row_zero] at ht
    omega
  | succ n ih =>
    rw [skyline_lower_in_row_succ] at ht
    by_cases h : t < skyline_lower_in_row mtx i n
    · obtain ⟨k, hk1, hk2, hk3⟩ := ih h
      exact ⟨k, by omega, hk2, hk3⟩
    · by_cases hlow : (mtx.row i).indexes.getD n 0 < (i : Int)
      · rw [if_pos hlow] at ht
        exact ⟨n, Nat.lt_succ_self n, hlow, by omega⟩
      · rw [if_neg hlow] at ht
        omega

/-- The loop that fills `diag` (lines 1007-1011). -/
theorem skyline_diag_loop (mtx : sp_matrix) (n : ℕ) (d : List ℚ) (hn : n ≤ d.length) :
    (loop n (fun i (diag : List ℚ) => diag.set i (sp_matrix_value mtx (i : Int) (i : Int)))
        d).length = d.length
      ∧ ∀ i : ℕ, i < n →
        (loop n (fun i (diag : List ℚ) => diag.set i (sp_matrix_value mtx (i : Int) (i : Int)))
          d).getD i 0 = sp_matrix_value mtx (i : Int) (i : Int) := by
  induction n with
  | zero => exact ⟨rfl, fun i hi => absurd hi (Nat.not_lt_zero i)⟩
  | succ n ih =>
    obtain ⟨ih1, ih2⟩ := ih (by omega)
    simp only [loop]
    refine ⟨by rw [List.length_set, ih1], ?_⟩
    intro i hi
    rw [getD_set_eq]
    by_cases h : n = i
    · subst h
      rw [if_pos ⟨rfl, by rw [ih1]; omega⟩]
    · rw [if_neg (fun hc => h hc.1)]
      exact ih2 i (by omega)

/-! ## Skyline: what `init_sp_matrix_skyline` builds -/

theorem skyline_lower_before_zero (mtx : sp_matrix) : skyline_lower_before mtx 0 = 0 := by
  unfold skyline_lower_before
  rw [Finset.range_zero, Finset.sum_empty]

theorem getD_map_range (junk : ℕ → ℚ) (T p : ℕ) (hp : p < T) :
    ((List.range T).map junk).getD p 0 = junk p := by
  rw [List.getD_eq_getElem _ _ (by simp [hp])]
  simp

/-- Function `init_sp_matrix_skyline` on a well-formed matrix with the flag `ordered`
set and as many stored elements below as above the diagonal: it returns;
`diag[i]` is `A_ii`; row `i` starts in the triangle arrays at the number of
stored elements below the diagonal in the rows before it; and the element
below the diagonal in slot `k` of row `a` sits at the start of row `a` plus
the number of such elements in the slots before `k`. -/
theorem init_sp_matrix_skyline_spec (junk : ℕ → ℚ) (mtx : sp_matrix)
    (hord : mtx.ordered = true)
    (hcnt : skyline_lower_before mtx mtx.rows_count.toNat
      = skyline_upper_before mtx mtx.rows_count.toNat) :
    ∃ S : sp_matrix_skyline, init_sp_matrix_skyline junk mtx = some S
      ∧ S.rows_count = mtx.rows_count ∧ S.cols_count = mtx.cols_count
      ∧ S.tr_nonzeros = (skyline_lower_before mtx mtx.rows_count.toNat : Int)
      ∧ (∀ i : ℕ, i < mtx.rows_count.toNat →
          S.diag.getD i 0 = sp_matrix_value mtx (i : Int) (i : Int))
      ∧ (∀ i : ℕ, i < mtx.rows_count.toNat →
          S.iptr.getD i 0 = (skyline_lower_before mtx i : Int)
            ∧ S.iptr.getD (i + 1) 0 = (skyline_lower_before mtx (i + 1) : Int))
      ∧ ∀ a k : ℕ, a < mtx.rows_count.toNat → k < ((mtx.row a).last_index + 1).toNat →
          (mtx.row a).indexes.getD k 0 < (a : Int) →
          S.jptr.getD (skyline_lower_before mtx a + skyline_lower_in_row mtx a k) 0
              = (mtx.row a).indexes.getD k 0
            ∧ S.lower_triangle.getD (skyline_lower_before mtx a + skyline_lower_in_row mtx a k) 0
              = (mtx.row a).values.getD k 0
            ∧ S.upper_triangle.getD (skyline_lower_before mtx a + skyline_lower_in_row mtx a k) 0
              = skyline_upper_expected junk mtx a k
                  (skyline_lower_before mtx a + skyline_lower_in_row mtx a k) := by
  have hc := skyline_count_eq mtx
  have hc1 : (skyline_count mtx).1 = (skyline_lower_before mtx mtx.rows_count.toNat : Int) := by
    rw [hc]
  have hc2 : (skyline_count mtx).2 = (skyline_lower_before mtx mtx.rows_count.toNat : Int) := by
    rw [hc, hcnt]
  have hinit : skyline_fill_inv junk mtx (skyline_lower_before mtx mtx.rows_count.toNat) 0 0
      { iptr_flag := -1
        l_count := 0
        jptr := List.replicate (skyline_count mtx).1.toNat 0
        lower_triangle := List.replicate (skyline_count mtx).1.toNat 0
        upper_triangle := (List.range (skyline_count mtx).2.toNat).map junk
        iptr := List.replicate (mtx.rows_count + 1).toNat 0 } := by
    constructor
    · rw [skyline_lower_before_zero, skyline_lower_in_row_zero]
      rfl
    · simp [hc1]
    · simp [hc1]
    · simp [hc2]
    · intro a k hak
      rcases hak with hak | hak
      · exact absurd hak.1 (Nat.not_lt_zero a)
      · exact absurd hak.2 (Nat.not_lt_zero k)
    · intro p _ hp
      simp only
      exact getD_map_range junk _ p (by rw [hc2]; simpa using hp)
  obtain ⟨f1, f2, f3⟩ := skyline_fill_loop_inv junk mtx _ hinit mtx.rows_count.toNat (le_refl _)
  obtain ⟨d1, d2⟩ := skyline_diag_loop mtx mtx.rows_count.toNat
    (List.replicate mtx.rows_count.toNat 0) (by simp)
  unfold init_sp_matrix_skyline
  rw [if_neg (by rw [hord]; simp)]
  simp only
  rw [if_neg (by rw [hc1, hc2]; simp)]
  refine ⟨_, rfl, rfl, rfl, hc1, d2, ?_, ?_⟩
  · intro i hi
    simp only
    have hlen : (loop mtx.rows_count.toNat (skyline_fill_row mtx)
        { iptr_flag := -1
          l_count := 0
          jptr := List.replicate (skyline_count mtx).1.toNat 0
          lower_triangle := List.replicate (skyline_count mtx).1.toNat 0
          upper_triangle := (List.range (skyline_count mtx).2.toNat).map junk
          iptr := List.replicate (mtx.rows_count + 1).toNat 0 }).iptr.length
        = (mtx.rows_count + 1).toNat := by
      rw [f2]; simp
    constructor
    · rw [getD_set_ne _ _ _ _ _ (by omega)]
      exact f3 i hi (by simp; omega)
    · rw [getD_set_eq]
      by_cases h : mtx.rows_count.toNat = i + 1
      · rw [if_pos ⟨h, by rw [hlen]; omega⟩, hc1, h]
      · rw [if_neg (fun hc => h hc.1)]
        exact f3 (i + 1) (by omega) (by simp; omega)
  · intro a k ha hk hlow
    exact f1.filled a k (Or.inl ⟨ha, hk⟩) hlow

/-! ## C4: the skyline view of a matrix with a symmetric pattern -/

/-- C4. For every well-formed sparse matrix `A` with the flag `ordered` set
(every matrix reached by adds and a final reorder is such) whose stored
pattern is symmetric, whatever `malloc` left in the buffers:
`init_sp_matrix_skyline` returns a view with `diag[i] = A_ii` for every row
`i` (zero when the diagonal is not stored); for every row `i` and every slot
`p` with `iptr[i] ≤ p < iptr[i+1]`, `lower_triangle[p] = A_{i,jptr[p]}` and
`upper_triangle[p] = A_{jptr[p],i}`; and every stored element below the
diagonal appears in exactly one slot of its row. -/
theorem C4_init_sp_matrix_skyline (junk : ℕ → ℚ) (mtx : sp_matrix) (hwf : sp_matrix_wf mtx)
    (hord : mtx.ordered = true)
    (hsym : ∀ i : ℕ, i < mtx.rows_count.toNat → ∀ j : ℕ, j < mtx.cols_count.toNat →
      (sp_matrix_element mtx (i : Int) (j : Int)).isSome = true →
      (sp_matrix_element mtx (j : Int) (i : Int)).isSome = true) :
    ∃ S : sp_matrix_skyline, init_sp_matrix_skyline junk mtx = some S
      ∧ (∀ i : ℕ, i < mtx.rows_count.toNat →
          S.diag.getD i 0 = sp_matrix_value mtx (i : Int) (i : Int))
      ∧ (∀ i : ℕ, i < mtx.rows_count.toNat → ∀ p : ℕ,
          S.iptr.getD i 0 ≤ (p : Int) → (p : Int) < S.iptr.getD (i + 1) 0 →
          S.lower_triangle.getD p 0 = sp_matrix_value mtx (i : Int) (S.jptr.getD p 0)
            ∧ S.upper_triangle.getD p 0 = sp_matrix_value mtx (S.jptr.getD p 0) (i : Int))
      ∧ ∀ i : ℕ, i < mtx.rows_count.toNat → ∀ j : Int, j < (i : Int) →
          (sp_matrix_element mtx (i : Int) j).isSome = true →
          ∃! p : ℕ, S.iptr.getD i 0 ≤ (p : Int) ∧ (p : Int) < S.iptr.getD (i + 1) 0
            ∧ S.jptr.getD p 0 = j := by
  obtain ⟨S, h1, _, _, _, h5, h6, h7⟩ := init_sp_matrix_skyline_spec junk mtx hord
    (skyline_count_symmetric mtx hwf hsym)
  -- every slot of the view comes from a slot of the row
  have hslot : ∀ i : ℕ, i < mtx.rows_count.toNat → ∀ p : ℕ,
      S.iptr.getD i 0 ≤ (p : Int) → (p : Int) < S.iptr.getD (i + 1) 0 →
      ∃ k : ℕ, k < ((mtx.row i).last_index + 1).toNat
        ∧ (mtx.row i).indexes.getD k 0 < (i : Int)
        ∧ p = skyline_lower_before mtx i + skyline_lower_in_row mtx i k := by
    intro i hi p hp1 hp2
    rw [(h6 i hi).1] at hp1
    rw [(h6 i hi).2, skyline_lower_before_succ] at hp2
    obtain ⟨k, hk1, hk2, hk3⟩ := skyline_slot_of_place mtx i
      ((mtx.row i).last_index + 1).toNat (p - skyline_lower_before mtx i) (by omega)
    exact ⟨k, hk1, hk2, by omega⟩
  refine ⟨S, h1, h5, ?_, ?_⟩
  · intro i hi p hp1 hp2
    obtain ⟨k, hk1, hk2, hk3⟩ := hslot i hi p hp1 hp2
    obtain ⟨g1, g2, g3⟩ := h7 i k hi hk1 hk2
    rw [← hk3] at g1 g2 g3
    have hrow := hwf.rows_wf i hi
    have hr := hrow.in_range k hk1
    have he : sp_matrix_element mtx (i : Int) ((mtx.row i).indexes.getD k 0) = some k :=
      (sp_matrix_element_eq_some mtx hwf i _ k (by omega)).2 ⟨by omega, rfl⟩
    have hcol : ((((mtx.row i).indexes.getD k 0).toNat : ℕ) : Int)
        = (mtx.row i).indexes.getD k 0 := by omega
    rw [g1]
    constructor
    · rw [g2]
      unfold sp_matrix_value
      rw [sp_matrix_value_slot mtx mtx hwf (sp_matrix_same_pattern_refl _) i _ k he]
      rfl
    · rw [g3]
      have hst : (sp_matrix_element mtx
          ((((mtx.row i).indexes.getD k 0).toNat : ℕ) : Int) (i : Int)).isSome = true := by
        apply hsym i hi _ (by omega)
        rw [hcol, he]
        rfl
      obtain ⟨q, hq⟩ := Option.isSome_iff_exists.1 hst
      have hq' : indexed_array_find (mtx.row ((mtx.row i).indexes.getD k 0).toNat) (i : Int)
          = some q := by
        have := hq
        unfold sp_matrix_element at this
        split at this
        · rw [Int.toNat_ofNat] at this
          exact this
        · exact absurd this (by simp)
      unfold skyline_upper_expected
      rw [hq']
      simp only
      unfold sp_matrix_value
      rw [← hcol, sp_matrix_value_slot mtx mtx hwf (sp_matrix_same_pattern_refl _) _ _ q hq]
      rfl
  · intro i hi j hj hst
    obtain ⟨k, hk⟩ := Option.isSome_iff_exists.1 hst
    have hk' := (sp_matrix_element_eq_some mtx hwf i j k (by omega)).1 hk
    have hlow : (mtx.row i).indexes.getD k 0 < (i : Int) := by rw [hk'.2]; exact hj
    have hplace := skyline_place_lt mtx i k (by omega) hlow
    refine ⟨skyline_lower_before mtx i + skyline_lower_in_row mtx i k, ⟨?_, ?_, ?_⟩, ?_⟩
    · rw [(h6 i hi).1]
      push_cast
      omega
    · rw [(h6 i hi).2]
      exact_mod_cast hplace
    · rw [(h7 i k hi (by omega) hlow).1]
      exact hk'.2
    · rintro p ⟨hp1, hp2, hp3⟩
      obtain ⟨k1, hk1, hk2, hk3⟩ := hslot i hi p hp1 hp2
      have g1 := (h7 i k1 hi hk1 hk2).1
      rw [← hk3, hp3] at g1
      have : k1 = k := (hwf.rows_wf i hi).nodup_eq k1 k (by omega) hk'.1 (g1.symm.trans hk'.2.symm)
      rw [hk3, this]

/-- C4 at the matrix of `test_ilu`, the buffers holding zeros before. -/
theorem C4_init_sp_matrix_skyline_witness :
    sp_matrix_wf test_ilu_mtx ∧ test_ilu_mtx.ordered = true
      ∧ (∀ i : ℕ, i < test_ilu_mtx.rows_count.toNat →
          ∀ j : ℕ, j < test_ilu_mtx.cols_count.toNat →
          (sp_matrix_element test_ilu_mtx (i : Int) (j : Int)).isSome = true →
          (sp_matrix_element test_ilu_mtx (j : Int) (i : Int)).isSome = true)
      ∧ ∃ S : sp_matrix_skyline, init_sp_matrix_skyline (fun _ => 0) test_ilu_mtx = some S
        ∧ (∀ i : ℕ, i < test_ilu_mtx.rows_count.toNat →
            S.diag.getD i 0 = sp_matrix_value test_ilu_mtx (i : Int) (i : Int))
        ∧ (∀ i : ℕ, i < test_ilu_mtx.rows_count.toNat → ∀ p : ℕ,
            S.iptr.getD i 0 ≤ (p : Int) → (p : Int) < S.iptr.getD (i + 1) 0 →
            S.lower_triangle.getD p 0 = sp_matrix_value test_ilu_mtx (i : Int) (S.jptr.getD p 0)
              ∧ S.upper_triangle.getD p 0
                = sp_matrix_value test_ilu_mtx (S.jptr.getD p 0) (i : Int))
        ∧ ∀ i : ℕ, i < test_ilu_mtx.rows_count.toNat → ∀ j : Int, j < (i : Int) →
            (sp_matrix_element test_ilu_mtx (i : Int) j).isSome = true →
            ∃! p : ℕ, S.iptr.getD i 0 ≤ (p : Int) ∧ (p : Int) < S.iptr.getD (i + 1) 0
              ∧ S.jptr.getD p 0 = j :=
  ⟨by decide!, rfl, by decide!,
    C4_init_sp_matrix_skyline (fun _ => 0) test_ilu_mtx (by decide!) rfl (by decide!)⟩

/-! ## The product `sp_matrix_mv` of a well-formed matrix -/

/-- For a well-formed matrix `sp_matrix_mv` stores in `y[i]` the dense row
product `∑ j, A_ij * x[j]`. -/
theorem sp_matrix_mv_wf (M : sp_matrix) (hwf : sp_matrix_wf M) (x y : List ℚ)
    (hy : y.length = M.rows_count.toNat) :
    (sp_matrix_mv M x y).length = M.rows_count.toNat
      ∧ ∀ i : ℕ, i < M.rows_count.toNat →
          (sp_matrix_mv M x y).getD i 0
            = ∑ j in Finset.range M.cols_count.toNat,
                sp_matrix_value M (i : Int) (j : Int) * x.getD j 0 := by
  obtain ⟨h1, h2⟩ := sp_matrix_mv_loop_spec M x M.rows_count.toNat y (by omega)
  unfold sp_matrix_mv
  refine ⟨by rw [h1, hy], ?_⟩
  intro i hi
  rw [h2 i, if_pos (by omega),
    indexed_array_dot_eq_dense M.cols_count (M.row i) (hwf.rows_wf i (by omega)) x]
  apply Finset.sum_congr rfl
  intro j hj
  rw [Finset.mem_range] at hj
  unfold sp_matrix_value
  rw [sp_matrix_get_eq, if_pos ⟨by omega, by omega, by omega, by omega⟩]
  simp only [Int.toNat_ofNat]

/-! ## C20: an add outside the matrix -/

/-- C20. For every sparse matrix and every `(i, j)` with `i` outside
`[0, rows_count)` or `j` outside `[0, cols_count)`,
`sp_matrix_element_add(i, j, v)` returns the matrix it was given: every
row (indices, values, `last_index`, `width`) and the `ordered` flag are
unchanged, and the call does not abort. -/
theorem C20_sp_matrix_element_add_out_of_range (self : sp_matrix) (i j : Int) (v : ℚ)
    (h : ¬ (0 ≤ i ∧ i < self.rows_count) ∨ ¬ (0 ≤ j ∧ j < self.cols_count)) :
    sp_matrix_element_add self i j v = some self := by
  unfold sp_matrix_element_add
  rw [if_neg]
  rintro ⟨h1, h2, h3, h4⟩
  rcases h with h | h
  · exact h ⟨h1, h2⟩
  · exact h ⟨h3, h4⟩

/-- C20 at the matrix of `test_solver`: an add to row `3` of the 3x3
matrix. -/
theorem C20_sp_matrix_element_add_out_of_range_witness :
    (¬ (0 ≤ (3 : Int) ∧ (3 : Int) < test_solver_mtx.rows_count)
        ∨ ¬ (0 ≤ (0 : Int) ∧ (0 : Int) < test_solver_mtx.cols_count))
      ∧ sp_matrix_element_add test_solver_mtx 3 0 7 = some test_solver_mtx :=
  ⟨by decide, C20_sp_matrix_element_add_out_of_range test_solver_mtx 3 0 7 (by decide)⟩

/-! ## C16, C17: what `init_sp_matrix_skyline` checks -/

/-- Function `init_sp_matrix_skyline` aborts exactly when the matrix is not flagged
`ordered` or the two counts differ. -/
theorem init_sp_matrix_skyline_eq_none_iff (junk : ℕ → ℚ) (mtx : sp_matrix) :
    init_sp_matrix_skyline junk mtx = none
      ↔ (mtx.ordered ≠ true
          ∨ skyline_lower_before mtx mtx.rows_count.toNat
            ≠ skyline_upper_before mtx mtx.rows_count.toNat) := by
  unfold init_sp_matrix_skyline
  simp only [skyline_count_eq]
  by_cases h1 : mtx.ordered ≠ true
  · rw [if_pos h1]
    exact ⟨fun _ => Or.inl h1, fun _ => rfl⟩
  · rw [if_neg h1]
    by_cases h2 : skyline_lower_before mtx mtx.rows_count.toNat
        = skyline_upper_before mtx mtx.rows_count.toNat
    · rw [if_neg (by rw [h2]; exact fun hc => hc rfl)]
      constructor
      · intro hc
        exact absurd hc (by simp)
      · rintro (hc | hc)
        · exact absurd hc h1
        · exact absurd h2 hc
    · rw [if_pos (by exact_mod_cast h2)]
      exact ⟨fun _ => Or.inr h2, fun _ => rfl⟩

/-- C16. For every reordered sparse matrix (well formed, flagged
`ordered`), `init_sp_matrix_skyline` aborts (at the assertion
`l_count == u_count`) if and only if the number of stored elements strictly
below the diagonal differs from the number of stored elements strictly above
it. -/
theorem C16_init_sp_matrix_skyline_fails_iff (junk : ℕ → ℚ) (mtx : sp_matrix)
    (hwf : sp_matrix_wf mtx) (hord : mtx.ordered = true) :
    init_sp_matrix_skyline junk mtx = none
      ↔ (∑ i in Finset.range mtx.rows_count.toNat, ∑ c in Finset.range mtx.cols_count.toNat,
            if (sp_matrix_element mtx (i : Int) (c : Int)).isSome = true ∧ c < i then 1 else 0)
          ≠ ∑ i in Finset.range mtx.rows_count.toNat, ∑ c in Finset.range mtx.cols_count.toNat,
            if (sp_matrix_element mtx (i : Int) (c : Int)).isSome = true ∧ i < c then 1 else 0 := by
  rw [init_sp_matrix_skyline_eq_none_iff, ← skyline_lower_before_eq_sum mtx hwf,
    ← skyline_upper_before_eq_sum mtx hwf]
  constructor
  · rintro (h | h)
    · exact absurd hord h
    · exact h
  · exact fun h => Or.inr h

/-- C16 at the reordered matrix of `test_solver`. -/
theorem C16_init_sp_matrix_skyline_fails_iff_witness :
    sp_matrix_wf test_solver_mtx_reordered ∧ test_solver_mtx_reordered.ordered = true
      ∧ (init_sp_matrix_skyline (fun _ => 0) test_solver_mtx_reordered = none
        ↔ (∑ i in Finset.range test_solver_mtx_reordered.rows_count.toNat,
            ∑ c in Finset.range test_solver_mtx_reordered.cols_count.toNat,
              if (sp_matrix_element test_solver_mtx_reordered (i : Int) (c : Int)).isSome = true
                ∧ c < i then 1 else 0)
          ≠ ∑ i in Finset.range test_solver_mtx_reordered.rows_count.toNat,
            ∑ c in Finset.range test_solver_mtx_reordered.cols_count.toNat,
              if (sp_matrix_element test_solver_mtx_reordered (i : Int) (c : Int)).isSome = true
                ∧ i < c then 1 else 0) :=
  ⟨by decide!, rfl,
    C16_init_sp_matrix_skyline_fails_iff (fun _ => 0) test_solver_mtx_reordered (by decide!) rfl⟩

/-- The claim C17 fails at `skyline_asym_mtx`: the matrix is built by adds
and a reorder, it stores one element below the diagonal, `(1,0)`, and one
above, `(0,2)`, and `init_sp_matrix_skyline` accepts it; the element `(0,1)`
paired with `(1,0)` is not stored, and the slot of `(1,0)` keeps in
`upper_triangle` what `malloc` left there (here `99`), not `A_01 = 0`. -/
theorem C17_counterexample :
    sp_matrix_run (init_sp_matrix 3 3 2) skyline_asym_ops = some skyline_asym_mtx
      ∧ skyline_asym_mtx.ordered = true
      ∧ (sp_matrix_element skyline_asym_mtx 1 0).isSome = true
      ∧ (sp_matrix_element skyline_asym_mtx 0 1).isSome = false
      ∧ sp_matrix_value skyline_asym_mtx 0 1 = 0
      ∧ ∃ S : sp_matrix_skyline,
          init_sp_matrix_skyline (fun _ => 99) skyline_asym_mtx = some S
            ∧ S.iptr = [0, 0, 1, 1] ∧ S.jptr = [0] ∧ S.lower_triangle = [7]
            ∧ S.upper_triangle = [99] := by
  refine ⟨by decide!, rfl, by decide!, by decide!, by decide!, _, rfl, ?_, ?_, ?_, ?_⟩ <;> decide!

/-- C17, as the code has it. Whenever `init_sp_matrix_skyline` accepts a
well-formed matrix, the matrix is flagged `ordered` and stores as many
elements strictly below the diagonal as strictly above it (the stored
pattern need not be symmetric); a slot `p` of row `i` holds in
`upper_triangle` the paired element `A_{jptr[p],i}` when that element is
stored, and what `malloc` left there when it is not. -/
theorem C17_init_sp_matrix_skyline_accepts (junk : ℕ → ℚ) (mtx : sp_matrix)
    (S : sp_matrix_skyline) (hwf : sp_matrix_wf mtx)
    (hS : init_sp_matrix_skyline junk mtx = some S) :
    mtx.ordered = true
      ∧ (∑ i in Finset.range mtx.rows_count.toNat, ∑ c in Finset.range mtx.cols_count.toNat,
            if (sp_matrix_element mtx (i : Int) (c : Int)).isSome = true ∧ c < i then 1 else 0)
          = (∑ i in Finset.range mtx.rows_count.toNat,
              ∑ c in Finset.range mtx.cols_count.toNat,
                if (sp_matrix_element mtx (i : Int) (c : Int)).isSome = true ∧ i < c
                then 1 else 0)
      ∧ ∀ i : ℕ, i < mtx.rows_count.toNat → ∀ p : ℕ,
          S.iptr.getD i 0 ≤ (p : Int) → (p : Int) < S.iptr.getD (i + 1) 0 →
          S.upper_triangle.getD p 0
            = if (sp_matrix_element mtx (S.jptr.getD p 0) (i : Int)).isSome = true then
                sp_matrix_value mtx (S.jptr.getD p 0) (i : Int)
              else junk p := by
  have hnn : ¬ init_sp_matrix_skyline junk mtx = none := by rw [hS]; simp
  rw [init_sp_matrix_skyline_eq_none_iff, not_or, not_not, not_not] at hnn
  obtain ⟨hord, hcnt⟩ := hnn
  obtain ⟨S1, h1, _, _, _, _, h6, h7⟩ := init_sp_matrix_skyline_spec junk mtx hord hcnt
  rw [hS] at h1
  injection h1 with h1
  subst h1
  refine ⟨hord, ?_, ?_⟩
  · rw [← skyline_lower_before_eq_sum mtx hwf, ← skyline_upper_before_eq_sum mtx hwf]
    exact hcnt
  · intro i hi p hp1 hp2
    rw [(h6 i hi).1] at hp1
    rw [(h6 i hi).2, skyline_lower_before_succ] at hp2
    obtain ⟨k, hk1, hk2, hk3⟩ := skyline_slot_of_place mtx i
      ((mtx.row i).last_index + 1).toNat (p - skyline_lower_before mtx i) (by omega)
    have hp : p = skyline_lower_before mtx i + skyline_lower_in_row mtx i k := by omega
    obtain ⟨g1, _, g3⟩ := h7 i k hi hk1 hk2
    rw [← hp] at g1 g3
    have hr := (hwf.rows_wf i hi).in_range k hk1
    have hcol : ((((mtx.row i).indexes.getD k 0).toNat : ℕ) : Int)
        = (mtx.row i).indexes.getD k 0 := by omega
    have hcl : ((((mtx.row i).indexes.getD k 0).toNat : ℕ) : Int) < mtx.rows_count := by omega
    rw [g1, g3]
    unfold skyline_upper_expected
    cases hf : indexed_array_find (mtx.row ((mtx.row i).indexes.getD k 0).toNat) (i : Int) with
    | none =>
      have he : sp_matrix_element mtx ((mtx.row i).indexes.getD k 0) (i : Int) = none := by
        unfold sp_matrix_element
        split
        · exact hf
        · rfl
      rw [he]
      rfl
    | some q =>
      have hq := (indexed_array_find_eq_some _ _ _).1 hf
      have he : sp_matrix_element mtx ((mtx.row i).indexes.getD k 0) (i : Int) = some q := by
        rw [← hcol]
        exact (sp_matrix_element_eq_some mtx hwf _ _ q hcl).2 ⟨hq.1, hq.2.1⟩
      rw [he, if_pos (show (some q).isSome = true from rfl)]
      unfold sp_matrix_value
      rw [← hcol] at he
      rw [← hcol, sp_matrix_value_slot mtx mtx hwf (sp_matrix_same_pattern_refl _) _ _ q he]
      rfl

/-- C17 as the code has it, at `skyline_asym_mtx` with `99` left by
`malloc`. -/
theorem C17_init_sp_matrix_skyline_accepts_witness :
    sp_matrix_wf skyline_asym_mtx
      ∧ init_sp_matrix_skyline (fun _ => 99) skyline_asym_mtx
          = some ⟨3, 3, 5, 1, [1, 1, 1], [7], [99], [0], [0, 0, 1, 1]⟩
      ∧ skyline_asym_mtx.ordered = true
      ∧ (∑ i in Finset.range skyline_asym_mtx.rows_count.toNat,
            ∑ c in Finset.range skyline_asym_mtx.cols_count.toNat,
              if (sp_matrix_element skyline_asym_mtx (i : Int) (c : Int)).isSome = true ∧ c < i
              then 1 else 0)
          = (∑ i in Finset.range skyline_asym_mtx.rows_count.toNat,
              ∑ c in Finset.range skyline_asym_mtx.cols_count.toNat,
                if (sp_matrix_element skyline_asym_mtx (i : Int) (c : Int)).isSome = true ∧ i < c
                then 1 else 0)
      ∧ ∀ i : ℕ, i < skyline_asym_mtx.rows_count.toNat → ∀ p : ℕ,
          ([0, 0, 1, 1] : List Int).getD i 0 ≤ (p : Int)
            → (p : Int) < ([0, 0, 1, 1] : List Int).getD (i + 1) 0 →
          ([99] : List ℚ).getD p 0
            = if (sp_matrix_element skyline_asym_mtx (([0] : List Int).getD p 0)
                  (i : Int)).isSome = true then
                sp_matrix_value skyline_asym_mtx (([0] : List Int).getD p 0) (i : Int)
              else (fun _ => (99 : ℚ)) p :=
  ⟨by decide!, by decide!,
    C17_init_sp_matrix_skyline_accepts (fun _ => 99) skyline_asym_mtx
      ⟨3, 3, 5, 1, [1, 1, 1], [7], [99], [0], [0, 0, 1, 1]⟩ (by decide!) (by decide!)⟩

/-! ## C19: when `solver_apply_single_bc` aborts -/

theorem solver_apply_single_bc_zero_diag :
    solver_apply_single_bc bc_zero_diag 0 3 = some bc_zero_diag_after := by
  decide!

/-- The claim C19 fails at `bc_zero_diag`: the diagonal element `(0,0)` is
stored with the value `0`, and `solver_apply_single_bc(0, 3)` does not abort
but returns with the matrix and the right-hand side modified. -/
theorem C19_counterexample :
    sp_matrix_run (init_sp_matrix 2 2 2) bc_zero_diag_ops = some bc_zero_diag.global_mtx
      ∧ sp_matrix_get bc_zero_diag.global_mtx 0 0 = some 0
      ∧ solver_apply_single_bc bc_zero_diag 0 3 = some bc_zero_diag_after
      ∧ bc_zero_diag_after.global_mtx ≠ bc_zero_diag.global_mtx
      ∧ bc_zero_diag_after.global_forces_vct ≠ bc_zero_diag.global_forces_vct := by
  refine ⟨?_, ?_, solver_apply_single_bc_zero_diag, ?_, ?_⟩ <;> decide!

/-- C19, as the code has it. Function `solver_apply_single_bc` aborts (at
`assert(pvalue)`, before anything is modified) exactly when the diagonal
element `(I, I)` is not stored; a diagonal element stored with the value
`0` is accepted. -/
theorem C19_solver_apply_single_bc_aborts_iff (self : fea_solver) (index : Int) (presc : ℚ) :
    solver_apply_single_bc self index presc = none
      ↔ sp_matrix_element self.global_mtx index index = none := by
  unfold solver_apply_single_bc
  cases sp_matrix_element self.global_mtx index index <;> simp

/-! ## C11: the prescribed value in a solution of the modified system -/

/-- The claim C11 fails at `bc_zero_diag`: with `K_00` stored as `0`, the
system produced for dof `0` and value `3` has the row `0 = 0`, and
`x = (7, -13)` solves it although `x[0] ≠ 3`. -/
theorem C11_counterexample :
    sp_matrix_run (init_sp_matrix 2 2 2) bc_zero_diag_ops = some bc_zero_diag.global_mtx
      ∧ sp_matrix_wf bc_zero_diag.global_mtx
      ∧ solver_apply_single_bc bc_zero_diag 0 3 = some bc_zero_diag_after
      ∧ sp_matrix_mv bc_zero_diag_after.global_mtx [7, -13] [0, 0]
          = bc_zero_diag_after.global_forces_vct
      ∧ ([7, -13] : List ℚ).getD (0 : Int).toNat 0 ≠ 3 := by
  refine ⟨?_, ?_, solver_apply_single_bc_zero_diag, ?_, ?_⟩ <;> decide!

/-- C11, as the code has it. Let `(K1, f1)` be the system that
`solver_apply_single_bc` produces for the in-range dof `I` with value `u`
from a well-formed square matrix `K` whose diagonal element `K_II` is
nonzero. Every vector `x` that solves the modified system
(`sp_matrix_mv(K1, x) = f1`) has `x[I] = u`. -/
theorem C11_solution_has_prescribed_value (self self1 : fea_solver)
    (hwf : sp_matrix_wf self.global_mtx)
    (hsq : self.global_mtx.cols_count = self.global_mtx.rows_count)
    (hf : self.global_forces_vct.length = self.global_mtx.rows_count.toNat)
    (index : Int) (hI : 0 ≤ index ∧ index < self.global_mtx.rows_count) (presc : ℚ)
    (h : solver_apply_single_bc self index presc = some self1)
    (hnz : sp_matrix_value self.global_mtx index index ≠ 0)
    (x y : List ℚ) (hy : y.length = self.global_mtx.rows_count.toNat)
    (hx : sp_matrix_mv self1.global_mtx x y = self1.global_forces_vct) :
    x.getD index.toNat 0 = presc := by
  have hd : (sp_matrix_element self.global_mtx index index).isSome = true := by
    cases he : sp_matrix_element self.global_mtx index index with
    | none =>
      unfold solver_apply_single_bc at h
      rw [he] at h
      exact absurd h (by simp)
    | some p => rfl
  obtain ⟨self2, h1, h2, _, _, h5⟩ := solver_apply_single_bc_spec self hwf hf index hI presc hd
  rw [h] at h1
  injection h1 with h1
  subst h1
  have hv := solver_apply_single_bc_value self self1 hwf hf index hI presc h
  have hwf1 := sp_matrix_same_pattern_wf _ _ h2 hwf
  have hr1 : self1.global_mtx.rows_count = self.global_mtx.rows_count := h2.1
  have hc1 : self1.global_mtx.cols_count = self.global_mtx.cols_count := h2.2.1
  have hindex : ((index.toNat : ℕ) : Int) = index := by omega
  obtain ⟨_, hmv⟩ := sp_matrix_mv_wf self1.global_mtx hwf1 x y (by rw [hr1]; exact hy)
  have hrow := hmv index.toNat (by omega)
  rw [hx, h5, if_pos hindex, hindex,
    Finset.sum_eq_single index.toNat] at hrow
  · rw [hindex, hv, if_pos ⟨rfl, rfl⟩] at hrow
    exact (mul_left_cancel₀ hnz hrow).symm
  · intro j hj hne
    rw [Finset.mem_range] at hj
    rw [hv, if_neg (by omega), if_pos (Or.inr ⟨rfl, by omega⟩), zero_mul]
  · intro hni
    rw [Finset.mem_range] at hni
    omega

/-- C11 as the code has it, at the system of `test_solver` with dof `0`
prescribed to `1`: `x = (1, 2, 3)` solves the modified system. -/
theorem C11_solution_has_prescribed_value_witness :
    sp_matrix_wf test_solver_bc.global_mtx
      ∧ test_solver_bc.global_mtx.cols_count = test_solver_bc.global_mtx.rows_count
      ∧ sp_matrix_value test_solver_bc.global_mtx 0 0 ≠ 0
      ∧ solver_apply_single_bc test_solver_bc 0 1 = some test_solver_bc_after
      ∧ sp_matrix_mv test_solver_bc_after.global_mtx [1, 2, 3] [0, 0, 0]
          = test_solver_bc_after.global_forces_vct
      ∧ ([1, 2, 3] : List ℚ).getD (0 : Int).toNat 0 = 1 :=
  ⟨by decide!, by decide!, by decide!, by decide!, by decide!,
    C11_solution_has_prescribed_value test_solver_bc test_solver_bc_after (by decide!)
      (by decide!) (by decide!) 0 ⟨by decide, by decide⟩ 1 (by decide!) (by decide!)
      [1, 2, 3] [0, 0, 0] (by decide!) (by decide!)⟩

/-! ## The course of the loop of `sp_matrix_solve_cg` -/

theorem sp_matrix_solve_cg_loop_succ (self : sp_matrix) (msize : ℕ) (tol : ℚ) (n : ℕ)
    (s : cg_vars) :
    sp_matrix_solve_cg_loop self msize tol (n + 1) s
      = if (cg_update self msize s).1.residn < tol then (cg_update self msize s).1
        else sp_matrix_solve_cg_loop self msize tol n (cg_next self msize s) := rfl

/-- Function `sp_matrix_solve_cg` runs its loop from `sp_matrix_solve_cg_init` and
returns `x`, `j` and `residn`. -/
theorem sp_matrix_solve_cg_eq (self : sp_matrix) (b x0 : List ℚ) (m : Int) (t : ℚ)
    (x : List ℚ) :
    sp_matrix_solve_cg self b x0 (some m) (some t) x
      = some
          ((sp_matrix_solve_cg_loop self self.rows_count.toNat t m.toNat
              (sp_matrix_solve_cg_init self b x0 x)).x,
            (sp_matrix_solve_cg_loop self self.rows_count.toNat t m.toNat
              (sp_matrix_solve_cg_init self b x0 x)).j,
            (sp_matrix_solve_cg_loop self self.rows_count.toNat t m.toNat
              (sp_matrix_solve_cg_init self b x0 x)).residn) := rfl

/-- The counter `j` after the loop: the number of passes when the loop ran
out of passes, one less when it ended at the `break`. -/
theorem sp_matrix_solve_cg_loop_j (self : sp_matrix) (msize : ℕ) (tol : ℚ) (n : ℕ) :
    ∀ s : cg_vars,
      (sp_matrix_solve_cg_loop self msize tol n s).j
        = s.j + (sp_matrix_solve_cg_passes self msize tol n s : Int)
          - (if sp_matrix_solve_cg_converged self msize tol n s = true then 1 else 0) := by
  induction n with
  | zero =>
    intro s
    simp [sp_matrix_solve_cg_loop, sp_matrix_solve_cg_passes, sp_matrix_solve_cg_converged]
  | succ n ih =>
    intro s
    rw [sp_matrix_solve_cg_loop_succ]
    unfold sp_matrix_solve_cg_passes sp_matrix_solve_cg_converged
    by_cases h : (cg_update self msize s).1.residn < tol
    · simp only [if_pos h]
      have : (cg_update self msize s).1.j = s.j := rfl
      rw [this]
      simp
    · simp only [if_neg h]
      rw [ih]
      have : (cg_next self msize s).j = s.j + 1 := rfl
      rw [this]
      push_cast
      ring

/-! ## C12: the residual at the convergence test -/

/-- C12 fails for `x0 ≠ b`. On the system of `test_solver` started from
`x0 = 0` the loop of `sp_matrix_solve_cg` ends at its convergence test
(`residn = 0 < 1e-15`) and returns `x = (6, 0, -10)`, for which
`A*x = (26, 0, -62)` and `b - A*x = (-31, 2, 75)`: the norm of the residual
of the returned `x` is `75`. -/
theorem C12_cg_converged_with_residual :
    sp_matrix_solve_cg test_solver_mtx_reordered [-5, 2, 13] [0, 0, 0] (some 20000)
        (some 1e-15) [0, 0, 0] = some ([6, 0, -10], 1, 0)
      ∧ sp_matrix_solve_cg_converged test_solver_mtx_reordered 3 1e-15 20000
          (sp_matrix_solve_cg_init test_solver_mtx_reordered [-5, 2, 13] [0, 0, 0] [0, 0, 0])
          = true
      ∧ sp_matrix_mv test_solver_mtx_reordered [6, 0, -10] [0, 0, 0] = [26, 0, -62]
      ∧ ¬ (|(13 : ℚ) - (-62)| < 1e-15) := by
  refine ⟨?_, ?_, ?_, ?_⟩ <;> decide!

/-! ## C14: the iteration count stored through `max_iter` -/

/-- C14 fails when the loop ends at its convergence test. On the system of
`test_solver` (`x0 = b`) the loop of `sp_matrix_solve_cg` makes two passes,
each updating `x` and `r`, and ends at the convergence test of the second;
the value stored through `max_iter` is `1`. -/
theorem C14_max_iter_after_convergence :
    sp_matrix_solve_cg test_solver_mtx_reordered [-5, 2, 13] [-5, 2, 13] (some 20000)
        (some 1e-15) [0, 0, 0] = some ([1, 2, 3], 1, 0)
      ∧ sp_matrix_solve_cg_converged test_solver_mtx_reordered 3 1e-15 20000
          (sp_matrix_solve_cg_init test_solver_mtx_reordered [-5, 2, 13] [-5, 2, 13] [0, 0, 0])
          = true
      ∧ sp_matrix_solve_cg_passes test_solver_mtx_reordered 3 1e-15 20000
          (sp_matrix_solve_cg_init test_solver_mtx_reordered [-5, 2, 13] [-5, 2, 13] [0, 0, 0])
          = 2 := by
  refine ⟨?_, ?_, ?_⟩ <;> decide!

/-! ## C18: the divisors of the ILU decomposition -/

theorem init_copy_sp_matrix_skyline_ilu_eq (parent : sp_matrix_skyline) :
    init_copy_sp_matrix_skyline_ilu parent
      = loop parent.rows_count.toNat ilu_step (ilu_init parent) := rfl

theorem range_loop_invariant {σ : Type} (P : σ → Prop) (a b : Int) (f : Int → σ → σ) (s : σ)
    (h0 : P s) (hstep : ∀ (j : Int) (s : σ), P s → P (f j s)) :
    P (range_loop a b f s) := by
  unfold range_loop
  exact loop_invariant (fun _ s => P s) _ _ s h0 (fun t _ s hs => hstep _ s hs)

/-- The loop over the slots of a row stores into `ilu_lowertr` only. -/
theorem ilu_lower_entry_loop (parent : sp_matrix_skyline) (k : ℕ) (a b : Int)
    (self : sp_matrix_skyline_ilu) :
    (range_loop a b (ilu_lower_entry parent k) self).parent = self.parent
      ∧ (range_loop a b (ilu_lower_entry parent k) self).ilu_diag = self.ilu_diag := by
  apply range_loop_invariant
    (fun s : sp_matrix_skyline_ilu => s.parent = self.parent ∧ s.ilu_diag = self.ilu_diag)
  · exact ⟨rfl, rfl⟩
  · intro j s hs
    exact hs

/-- A pass of the loop over `k` keeps `parent` and stores into `ilu_diag`
at `k` only. -/
theorem ilu_step_diag (k : ℕ) (self : sp_matrix_skyline_ilu) :
    (ilu_step k self).parent = self.parent
      ∧ ∀ m : ℕ, m ≠ k → (ilu_step k self).ilu_diag.getD m 0 = self.ilu_diag.getD m 0 := by
  unfold ilu_step
  apply range_loop_invariant
    (fun s : sp_matrix_skyline_ilu => s.parent = self.parent
      ∧ ∀ m : ℕ, m ≠ k → s.ilu_diag.getD m 0 = self.ilu_diag.getD m 0)
  · refine ⟨?_, ?_⟩
    · exact (ilu_lower_entry_loop self.parent k _ _ self).1
    · intro m hm
      simp only
      rw [getD_set_ne _ _ _ _ _ (fun h => hm h.symm)]
      exact congrArg (fun l => l.getD m 0) (ilu_lower_entry_loop self.parent k _ _ self).2
  · intro j s hs
    apply range_loop_invariant
      (fun s : sp_matrix_skyline_ilu => s.parent = self.parent
        ∧ ∀ m : ℕ, m ≠ k → s.ilu_diag.getD m 0 = self.ilu_diag.getD m 0)
    · exact hs
    · intro q s hs
      split
      · exact hs
      · exact hs

theorem ilu_loop_parent (n : ℕ) (self : sp_matrix_skyline_ilu) :
    (loop n ilu_step self).parent = self.parent := by
  induction n with
  | zero => rfl
  | succ n ih =>
    simp only [loop]
    rw [(ilu_step_diag n _).1, ih]

/-- The cell `ilu_diag[q]` is final once the pass `q` is over. -/
theorem ilu_loop_diag (q k n : ℕ) (hq : q < k) (hk : k ≤ n) (self : sp_matrix_skyline_ilu) :
    (loop n ilu_step self).ilu_diag.getD q 0 = (loop k ilu_step self).ilu_diag.getD q 0 := by
  induction n with
  | zero =>
    have : k = 0 := by omega
    subst this
    rfl
  | succ n ih =>
    by_cases h : k = n + 1
    · subst h
      rfl
    · simp only [loop]
      rw [(ilu_step_diag n _).2 q (by omega), ih (by omega)]

/-- The divisor of an `L` entry is the final pivot of its column. -/
theorem ilu_pivot_eq (parent : sp_matrix_skyline) (hv : sp_matrix_skyline_valid parent)
    (k t : ℕ) (hk : k < parent.rows_count.toNat)
    (ht : t < (parent.iptr.getD (k + 1) 0 - parent.iptr.getD k 0).toNat) :
    ilu_pivot parent k t
      = (init_copy_sp_matrix_skyline_ilu parent).ilu_diag.getD
          (parent.jptr.getD (parent.iptr.getD k 0 + (t : Int)).toNat 0).toNat 0 := by
  obtain ⟨h1, h2⟩ := hv k hk t ht
  unfold ilu_pivot
  simp only
  rw [(ilu_lower_entry_loop parent k _ _ _).2, init_copy_sp_matrix_skyline_ilu_eq]
  exact (ilu_loop_diag _ k _ (by omega) (by omega) _).symm

/-- The claim C18 fails at `ilu_zero_pivot_skyline`, the skyline view of
the reordered 2x2 matrix `(0 1; 1 1)`: the pivot `ilu_diag[0]` is computed
as `0`, `init_copy_sp_matrix_skyline_ilu` has no check of it, and the entry
`L_10` of the next row is computed with the divisor `ilu_diag[0] = 0`. -/
theorem C18_counterexample :
    (∃ mtx : sp_matrix,
        sp_matrix_run (init_sp_matrix 2 2 2) ilu_zero_pivot_ops = some mtx
          ∧ init_sp_matrix_skyline (fun _ => 0) mtx = some ilu_zero_pivot_skyline)
      ∧ sp_matrix_skyline_valid ilu_zero_pivot_skyline
      ∧ (loop 1 ilu_step (ilu_init ilu_zero_pivot_skyline)).ilu_diag.getD 0 0 = 0
      ∧ ilu_pivot ilu_zero_pivot_skyline 1 0 = 0
      ∧ ilu_zero_division ilu_zero_pivot_skyline := by
  refine ⟨⟨⟨2, 2, [⟨2, 1, [0, 1], [0, 1]⟩, ⟨2, 1, [0, 1], [1, 1]⟩], true⟩, ?_, ?_⟩, ?_, ?_, ?_,
    ?_⟩ <;> decide!

/-- C18, as the code has it. Function `init_copy_sp_matrix_skyline_ilu` has no
check of the pivots: for every valid skyline view it runs to its end, the
divisor of the entry `L_kq` of every slot being the computed pivot
`U_qq = ilu_diag[q]` of the column `q` of the slot; so it divides by zero
exactly when the pivot of a column that holds an `L` entry is zero. -/
theorem C18_ilu_divides_by_pivot (parent : sp_matrix_skyline)
    (hv : sp_matrix_skyline_valid parent) :
    (∀ k : ℕ, k < parent.rows_count.toNat →
        ∀ t : ℕ, t < (parent.iptr.getD (k + 1) 0 - parent.iptr.getD k 0).toNat →
          ilu_pivot parent k t
            = (init_copy_sp_matrix_skyline_ilu parent).ilu_diag.getD
                (parent.jptr.getD (parent.iptr.getD k 0 + (t : Int)).toNat 0).toNat 0)
      ∧ (ilu_zero_division parent
          ↔ ∃ k : ℕ, k < parent.rows_count.toNat
            ∧ ∃ t : ℕ, t < (parent.iptr.getD (k + 1) 0 - parent.iptr.getD k 0).toNat
              ∧ (init_copy_sp_matrix_skyline_ilu parent).ilu_diag.getD
                  (parent.jptr.getD (parent.iptr.getD k 0 + (t : Int)).toNat 0).toNat 0 = 0) := by
  refine ⟨fun k hk t ht => ilu_pivot_eq parent hv k t hk ht, ?_⟩
  unfold ilu_zero_division
  constructor
  · rintro ⟨k, hk, t, ht, h⟩
    exact ⟨k, hk, t, ht, by rw [← ilu_pivot_eq parent hv k t hk ht]; exact h⟩
  · rintro ⟨k, hk, t, ht, h⟩
    exact ⟨k, hk, t, ht, by rw [ilu_pivot_eq parent hv k t hk ht]; exact h⟩

/-- C18 as the code has it, at the skyline view of `test_ilu`, where no
pivot is zero. -/
theorem C18_ilu_divides_by_pivot_witness :
    sp_matrix_skyline_valid test_ilu_skyline
      ∧ (∀ k : ℕ, k < test_ilu_skyline.rows_count.toNat →
          ∀ t : ℕ,
            t < (test_ilu_skyline.iptr.getD (k + 1) 0 - test_ilu_skyline.iptr.getD k 0).toNat →
            ilu_pivot test_ilu_skyline k t
              = (init_copy_sp_matrix_skyline_ilu test_ilu_skyline).ilu_diag.getD
                  (test_ilu_skyline.jptr.getD
                    (test_ilu_skyline.iptr.getD k 0 + (t : Int)).toNat 0).toNat 0)
      ∧ (ilu_zero_division test_ilu_skyline
          ↔ ∃ k : ℕ, k < test_ilu_skyline.rows_count.toNat
            ∧ ∃ t : ℕ,
              t < (test_ilu_skyline.iptr.getD (k + 1) 0 - test_ilu_skyline.iptr.getD k 0).toNat
              ∧ (init_copy_sp_matrix_skyline_ilu test_ilu_skyline).ilu_diag.getD
                  (test_ilu_skyline.jptr.getD
                    (test_ilu_skyline.iptr.getD k 0 + (t : Int)).toNat 0).toNat 0 = 0) :=
  ⟨by decide!, C18_ilu_divides_by_pivot test_ilu_skyline (by decide!)⟩

/-! ## C15: the local stiffness matrix is symmetric -/

theorem loop_sum (f : ℕ → ℚ) (n : ℕ) (s : ℚ) :
    loop n (fun t s => s + f t) s = s + ∑ t in Finset.range n, f t := by
  induction n with
  | zero => simp [loop]
  | succ n ih =>
    simp only [loop]
    rw [ih, Finset.sum_range_succ, add_assoc]

theorem loop_loop_sum (f : ℕ → ℕ → ℚ) (n m : ℕ) (s : ℚ) :
    loop n (fun k s => loop m (fun l s => s + f k l) s) s
      = s + ∑ k in Finset.range n, ∑ l in Finset.range m, f k l := by
  induction n with
  | zero => simp [loop]
  | succ n ih =>
    simp only [loop]
    rw [ih, loop_sum, Finset.sum_range_succ, add_assoc]

theorem getD_map_range_gen {α : Type} (f : ℕ → α) (n i : ℕ) (d : α) (h : i < n) :
    ((List.range n).map f).getD i d = f i := by
  simp [List.getD_eq_getElem?_getD, List.getElem?_range h]

/-- The cells of the array that `solver_ctensor` fills. -/
theorem ctensor_cell_eq (self : fea_solver_input) (i j k l : ℕ) (hi : i < MAX_DOF)
    (hj : j < MAX_DOF) (hk : k < MAX_DOF) (hl : l < MAX_DOF) :
    ctensor_cell (solver_ctensor self) i j k l
      = self.parameters.getD 0 0 * DELTA i j * DELTA k l
        + self.parameters.getD 1 0 * DELTA i k * DELTA j l
        + self.parameters.getD 1 0 * DELTA i l * DELTA j k := by
  unfold ctensor_cell solver_ctensor
  simp only
  rw [getD_map_range_gen _ _ _ _ hi, getD_map_range_gen _ _ _ _ hj,
    getD_map_range_gen _ _ _ _ hk, getD_map_range_gen _ _ _ _ hl]

theorem DELTA_comm (i j : ℕ) : DELTA i j = DELTA j i := by
  unfold DELTA
  by_cases h : i = j
  · rw [if_pos h, if_pos h.symm]
  · rw [if_neg h, if_neg (fun hc => h hc.symm)]

/-- The symmetry of the tensor that the sum of `solver_local_stiffness`
uses: `ctens[i][k][j][l] = ctens[j][l][i][k]`. -/
theorem ctensor_cell_symm (self : fea_solver_input) (i j k l : ℕ) (hi : i < MAX_DOF)
    (hj : j < MAX_DOF) (hk : k < MAX_DOF) (hl : l < MAX_DOF) :
    ctensor_cell (solver_ctensor self) i k j l = ctensor_cell (solver_ctensor self) j l i k := by
  rw [ctensor_cell_eq self i k j l hi hk hj hl, ctensor_cell_eq self j l i k hj hl hi hk,
    DELTA_comm j i, DELTA_comm l k, DELTA_comm j k, DELTA_comm l i]
  ring

/-- The entry `[K_ab]_ij` of a Gauss node is the entry `[K_ba]_ji`. -/
theorem solver_local_stiffness_sum_symm (self : fea_solver_input) (hdof : self.dof ≤ MAX_DOF)
    (grads : shape_gradients) (weight : ℚ) (a b i j : ℕ) (hi : i < self.dof)
    (hj : j < self.dof) :
    solver_local_stiffness_sum self (solver_ctensor self) grads weight a b i j
      = solver_local_stiffness_sum self (solver_ctensor self) grads weight b a j i := by
  unfold solver_local_stiffness_sum
  simp only
  rw [loop_loop_sum, loop_loop_sum, zero_add, zero_add]
  congr 2
  rw [Finset.sum_comm]
  apply Finset.sum_congr rfl
  intro l hl
  apply Finset.sum_congr rfl
  intro k hk
  rw [Finset.mem_range] at hl hk
  rw [ctensor_cell_symm self i j k l (by omega) (by omega) (by omega) (by omega)]
  ring

theorem cell_store (m : List (List ℚ)) (i j : ℕ) (v : ℚ) (hi : i < m.length)
    (hj : j < (m.getD i []).length) (i' j' : ℕ) :
    cell (store m i j v) i' j' = if i = i' ∧ j = j' then v else cell m i' j' := by
  unfold cell store
  by_cases h1 : i = i'
  · subst h1
    rw [getD_set_self _ _ _ _ hi]
    by_cases h2 : j = j'
    · subst h2
      rw [getD_set_self _ _ _ _ hj, if_pos ⟨rfl, rfl⟩]
    · rw [getD_set_ne _ _ _ _ _ h2, if_neg (fun hc => h2 hc.2)]
  · rw [getD_set_ne _ _ _ _ _ h1, if_neg (fun hc => h1 hc.1)]

theorem loop_abort_succ {σ : Type} (n : ℕ) (f : ℕ → σ → Option σ) (s : σ) :
    loop_abort (n + 1) f s = (loop_abort n f s).bind (f n) := rfl

/-- A loop whose passes keep an invariant, do not abort and add to the
cells that `rd` reads amounts that do not depend on the state: the loop
does not abort and adds the sums of these amounts. -/
theorem loop_abort_additive {σ κ : Type} (inv : σ → Prop) (rd : σ → κ → ℚ) (n : ℕ)
    (f : ℕ → σ → Option σ) (w : ℕ → κ → ℚ)
    (hf : ∀ t : ℕ, t < n → ∀ s : σ, inv s →
      ∃ s1 : σ, f t s = some s1 ∧ inv s1 ∧ ∀ c : κ, rd s1 c = rd s c + w t c)
    (s : σ) (hs : inv s) :
    ∃ s1 : σ, loop_abort n f s = some s1 ∧ inv s1
      ∧ ∀ c : κ, rd s1 c = rd s c + ∑ t in Finset.range n, w t c := by
  induction n with
  | zero => exact ⟨s, rfl, hs, fun c => by simp⟩
  | succ n ih =>
    obtain ⟨s1, h1, h2, h3⟩ := ih (fun t ht => hf t (by omega))
    obtain ⟨s2, g1, g2, g3⟩ := hf n (by omega) s1 h2
    refine ⟨s2, ?_, g2, ?_⟩
    · rw [loop_abort_succ, h1]
      exact g1
    · intro c
      rw [g3, h3, Finset.sum_range_succ, add_assoc]

/-- The invariant of the loops of `solver_local_stiffness`: `stiff` is a
square buffer of `size` rows and the global matrix is well formed with room
to grow. -/
structure local_stiffness_inv (size : ℕ) (s : local_stiffness) : Prop where
  rows : s.stiff.length = size
  cols : ∀ r : ℕ, r < size → (s.stiff.getD r []).length = size
  wf : sp_matrix_wf s.global_mtx
  cap : sp_matrix_cap s.global_mtx

theorem solver_local_stiffness_entry_spec (self : fea_solver_input) (element : ℕ)
    (ctens : List (List (List (List ℚ)))) (grads : shape_gradients) (weight : ℚ)
    (a b i j : ℕ) (ha : a < self.nodes_per_element.toNat)
    (hb : b < self.nodes_per_element.toNat) (hi : i < self.dof) (hj : j < self.dof)
    (s : local_stiffness)
    (hs : local_stiffness_inv (self.nodes_per_element.toNat * self.dof) s) :
    ∃ s1 : local_stiffness,
      solver_local_stiffness_entry self element ctens grads weight a b i j s = some s1
        ∧ local_stiffness_inv (self.nodes_per_element.toNat * self.dof) s1
        ∧ ∀ c : ℕ × ℕ, cell s1.stiff c.1 c.2
            = cell s.stiff c.1 c.2
              + if a * self.dof + i = c.1 ∧ b * self.dof + j = c.2 then
                  solver_local_stiffness_sum self ctens grads weight a b i j
                else 0 := by
  have hI : a * self.dof + i < self.nodes_per_element.toNat * self.dof := by
    calc a * self.dof + i < a * self.dof + self.dof := by omega
      _ = (a + 1) * self.dof := by ring
      _ ≤ self.nodes_per_element.toNat * self.dof := Nat.mul_le_mul_right _ (by omega)
  have hJ : b * self.dof + j < self.nodes_per_element.toNat * self.dof := by
    calc b * self.dof + j < b * self.dof + self.dof := by omega
      _ = (b + 1) * self.dof := by ring
      _ ≤ self.nodes_per_element.toNat * self.dof := Nat.mul_le_mul_right _ (by omega)
  unfold solver_local_stiffness_entry
  simp only
  obtain ⟨K, hK⟩ := Option.isSome_iff_exists.1
    (sp_matrix_element_add_isSome s.global_mtx
      ((self.elements.getD element []).getD a 0 * (self.dof : Int) + (i : Int))
      ((self.elements.getD element []).getD b 0 * (self.dof : Int) + (j : Int))
      (solver_local_stiffness_sum self ctens grads weight a b i j) hs.wf hs.cap)
  rw [hK]
  refine ⟨_, rfl, ⟨?_, ?_, ?_, ?_⟩, ?_⟩
  · simp only [store, List.length_set]
    exact hs.rows
  · intro r hr
    simp only [store]
    rw [getD_set_eq]
    split
    · rw [List.length_set]
      exact hs.cols _ hI
    · exact hs.cols r hr
  · exact sp_matrix_element_add_wf _ _ _ _ _ hs.wf hK
  · exact sp_matrix_element_add_cap _ _ _ _ _ hs.wf hs.cap hK
  · intro c
    simp only
    rw [cell_store _ _ _ _ (by rw [hs.rows]; exact hI) (by rw [hs.cols _ hI]; exact hJ)]
    split
    · rename_i h
      rw [← h.1, ← h.2]
    · rw [add_zero]
theorem solver_local_stiffness_gauss_spec (self : fea_solver_input) (element gauss : ℕ)
    (s : local_stiffness)
    (hs : local_stiffness_inv (self.nodes_per_element.toNat * self.dof) s) :
    ∃ s1 : local_stiffness,
      solver_local_stiffness_gauss self element (solver_ctensor self) gauss s = some s1
        ∧ local_stiffness_inv (self.nodes_per_element.toNat * self.dof) s1
        ∧ ∀ c : ℕ × ℕ, cell s1.stiff c.1 c.2
            = cell s.stiff c.1 c.2 + local_stiffness_term self element gauss c := by
  unfold solver_local_stiffness_gauss local_stiffness_term
  simp only
  cases solver_new_shape_gradients self element gauss with
  | none =>
    refine ⟨_, rfl, ⟨hs.rows, hs.cols, hs.wf, hs.cap⟩, ?_⟩
    intro c
    simp
  | some g =>
    simp only
    obtain ⟨s1, h1, h2, h3⟩ := loop_abort_additive
      (local_stiffness_inv (self.nodes_per_element.toNat * self.dof))
      (fun s (c : ℕ × ℕ) => cell s.stiff c.1 c.2) self.nodes_per_element.toNat _ _
      (fun a ha s hs => loop_abort_additive
        (local_stiffness_inv (self.nodes_per_element.toNat * self.dof))
        (fun s (c : ℕ × ℕ) => cell s.stiff c.1 c.2) self.nodes_per_element.toNat _ _
        (fun b hb s hs => loop_abort_additive
          (local_stiffness_inv (self.nodes_per_element.toNat * self.dof))
          (fun s (c : ℕ × ℕ) => cell s.stiff c.1 c.2) self.dof _ _
          (fun i hi s hs => loop_abort_additive
            (local_stiffness_inv (self.nodes_per_element.toNat * self.dof))
            (fun s (c : ℕ × ℕ) => cell s.stiff c.1 c.2) self.dof _ _
            (fun j hj s hs => solver_local_stiffness_entry_spec self element
              (solver_ctensor self) g (self.gauss_nodes.getD gauss default).weight
              a b i j ha hb hi hj s hs) s hs) s hs) s hs) s hs
    rw [h1]
    refine ⟨_, rfl, ⟨h2.rows, h2.cols, h2.wf, h2.cap⟩, ?_⟩
    intro c
    exact h3 c

theorem cell_replicate (n m i j : ℕ) :
    cell (List.replicate n (List.replicate m (0 : ℚ))) i j = 0 := by
  unfold cell
  simp only [List.getD_eq_getElem?_getD, List.getElem?_replicate]
  split
  · simp only [Option.getD_some, List.getElem?_replicate]
    split <;> rfl
  · rfl

/-- The local matrix that `solver_local_stiffness` accumulates: the sum over
the Gauss nodes of the entries that belong to the cell. -/
theorem solver_local_stiffness_spec (self : fea_solver_input) (element : ℕ)
    (global_mtx : sp_matrix) (sg : List (Option shape_gradients))
    (hwf : sp_matrix_wf global_mtx) (hcap : sp_matrix_cap global_mtx) :
    ∃ res : local_stiffness,
      solver_local_stiffness self element global_mtx sg = some res
        ∧ sp_matrix_wf res.global_mtx ∧ sp_matrix_cap res.global_mtx
        ∧ ∀ c : ℕ × ℕ, cell res.stiff c.1 c.2
            = ∑ gauss in Finset.range self.gauss_nodes_count.toNat,
                local_stiffness_term self element gauss c := by
  unfold solver_local_stiffness
  simp only
  have hsize : (self.nodes_per_element * (self.dof : Int)).toNat
      = self.nodes_per_element.toNat * self.dof := by
    by_cases h : 0 ≤ self.nodes_per_element
    · obtain ⟨n, hn⟩ := Int.eq_ofNat_of_zero_le h
      rw [hn]
      simp only [Int.toNat_ofNat]
      exact_mod_cast Int.toNat_ofNat (n * self.dof)
    · have h1 : self.nodes_per_element * (self.dof : Int) ≤ 0 :=
        Int.mul_nonpos_of_nonpos_of_nonneg (by omega) (by omega)
      have h2 : self.nodes_per_element.toNat = 0 := by omega
      rw [h2, zero_mul]
      omega
  rw [hsize]
  obtain ⟨s1, h1, h2, h3⟩ := loop_abort_additive
    (local_stiffness_inv (self.nodes_per_element.toNat * self.dof))
    (fun s (c : ℕ × ℕ) => cell s.stiff c.1 c.2) self.gauss_nodes_count.toNat _ _
    (fun gauss _ s hs => solver_local_stiffness_gauss_spec self element gauss s hs)
    { stiff := List.replicate (self.nodes_per_element.toNat * self.dof)
        (List.replicate (self.nodes_per_element.toNat * self.dof) (0 : ℚ))
      global_mtx := global_mtx
      shape_gradients := sg }
    ⟨by simp, by
      intro r hr
      simp only [List.getD_eq_getElem?_getD, List.getElem?_replicate, if_pos hr]
      simp, hwf, hcap⟩
  refine ⟨s1, h1, h2.wf, h2.cap, ?_⟩
  intro c
  rw [h3 c]
  simp only
  rw [cell_replicate, zero_add]

/-- What a Gauss node adds to `stiff[I][J]` it adds to `stiff[J][I]`. -/
theorem local_stiffness_term_symm (self : fea_solver_input) (hdof : self.dof ≤ MAX_DOF)
    (element gauss : ℕ) (I J : ℕ) :
    local_stiffness_term self element gauss (I, J)
      = local_stiffness_term self element gauss (J, I) := by
  unfold local_stiffness_term
  cases solver_new_shape_gradients self element gauss with
  | none => rfl
  | some g =>
    simp only
    rw [Finset.sum_comm]
    apply Finset.sum_congr rfl
    intro b hb
    apply Finset.sum_congr rfl
    intro a ha
    rw [Finset.sum_comm]
    apply Finset.sum_congr rfl
    intro j hj
    apply Finset.sum_congr rfl
    intro i hi
    rw [Finset.mem_range] at hi hj
    rw [solver_local_stiffness_sum_symm self hdof g _ a b i j hi hj]
    by_cases h : a * self.dof + i = I ∧ b * self.dof + j = J
    · rw [if_pos h, if_pos ⟨h.2, h.1⟩]
    · rw [if_neg h, if_neg (fun hc => h ⟨hc.2, hc.1⟩)]

/-- C15. For every element and every set of nodal coordinates (every solver
data with `dof ≤ MAX_DOF`, as the tensor array demands, and a well-formed
global matrix with room to grow), `solver_local_stiffness` returns, and the
local matrix `stiff` it has accumulated over the Gauss nodes that have
gradients is symmetric in exact arithmetic:
`stiff[dof*a + i][dof*b + j] = stiff[dof*b + j][dof*a + i]`, for TET10 the
30x30 matrix with `dof = 3` and `a, b` in `[0, 10)`. -/
theorem C15_local_stiffness_symmetric (self : fea_solver_input) (hdof : self.dof ≤ MAX_DOF)
    (element : ℕ) (global_mtx : sp_matrix) (sg : List (Option shape_gradients))
    (hwf : sp_matrix_wf global_mtx) (hcap : sp_matrix_cap global_mtx) :
    ∃ res : local_stiffness,
      solver_local_stiffness self element global_mtx sg = some res
        ∧ ∀ a b i j : ℕ,
            cell res.stiff (a * self.dof + i) (b * self.dof + j)
              = cell res.stiff (b * self.dof + j) (a * self.dof + i) := by
  obtain ⟨res, h1, _, _, h4⟩ := solver_local_stiffness_spec self element global_mtx sg hwf hcap
  refine ⟨res, h1, ?_⟩
  intro a b i j
  rw [h4 (a * self.dof + i, b * self.dof + j), h4 (b * self.dof + j, a * self.dof + i)]
  apply Finset.sum_congr rfl
  intro gauss _
  exact local_stiffness_term_symm self hdof element gauss _ _

/-- C15 at `test_element_input` and an empty 12x12 global matrix. -/
theorem C15_local_stiffness_symmetric_witness :
    test_element_input.dof ≤ MAX_DOF
      ∧ sp_matrix_wf (init_sp_matrix 12 12 4) ∧ sp_matrix_cap (init_sp_matrix 12 12 4)
      ∧ ∃ res : local_stiffness,
          solver_local_stiffness test_element_input 0 (init_sp_matrix 12 12 4) [none] = some res
            ∧ ∀ a b i j : ℕ,
                cell res.stiff (a * test_element_input.dof + i) (b * test_element_input.dof + j)
                  = cell res.stiff (b * test_element_input.dof + j)
                      (a * test_element_input.dof + i) :=
  ⟨by decide, init_sp_matrix_wf 12 12 4, init_sp_matrix_cap 12 12 4 (by decide),
    C15_local_stiffness_symmetric test_element_input (by decide) 0 (init_sp_matrix 12 12 4)
      [none] (init_sp_matrix_wf 12 12 4) (init_sp_matrix_cap 12 12 4 (by decide))⟩

/-! ## Conjugate gradients: the directions are conjugate -/

theorem cg_dot_self_pos {n : ℕ} (v : Fin n → ℚ) (hv : v ≠ 0) : 0 < Matrix.dotProduct v v := by
  have h0 : 0 ≤ Matrix.dotProduct v v := by
    unfold Matrix.dotProduct
    exact Finset.sum_nonneg (fun i _ => mul_self_nonneg (v i))
  rcases h0.lt_or_eq with h | h
  · exact h
  · exact absurd (Matrix.dotProduct_self_eq_zero.1 h.symm) hv

/-- The recurrences of the conjugate gradient method for a symmetric
positive definite matrix: as long as the residuals `R 0 .. R N` are nonzero,
each residual is orthogonal to the earlier directions and residuals, and
the directions are conjugate. -/
theorem cg_orthogonal {n : ℕ} (A : Matrix (Fin n) (Fin n) ℚ)
    (hsym : ∀ u v : Fin n → ℚ,
      Matrix.dotProduct u (A.mulVec v) = Matrix.dotProduct v (A.mulVec u))
    (hpd : ∀ v : Fin n → ℚ, v ≠ 0 → 0 < Matrix.dotProduct v (A.mulVec v))
    (R P : ℕ → Fin n → ℚ) (hP0 : P 0 = R 0)
    (hR : ∀ k : ℕ, R (k + 1) = R k
      - (Matrix.dotProduct (R k) (R k) / Matrix.dotProduct (P k) (A.mulVec (P k)))
        • A.mulVec (P k))
    (hP : ∀ k : ℕ, P (k + 1) = R (k + 1)
      + (Matrix.dotProduct (R (k + 1)) (R (k + 1)) / Matrix.dotProduct (R k) (R k)) • P k)
    (N : ℕ) (hnz : ∀ k : ℕ, k ≤ N → R k ≠ 0) :
    (∀ k : ℕ, k ≤ N → Matrix.dotProduct (R k) (P k) = Matrix.dotProduct (R k) (R k))
      ∧ ∀ k : ℕ, k ≤ N → ∀ i : ℕ, i < k →
          Matrix.dotProduct (R k) (P i) = 0
            ∧ Matrix.dotProduct (P k) (A.mulVec (P i)) = 0
            ∧ Matrix.dotProduct (R k) (R i) = 0 := by
  induction N with
  | zero =>
    refine ⟨?_, ?_⟩
    · intro k hk
      have : k = 0 := by omega
      subst this
      rw [hP0]
    · intro k hk i hi
      omega
  | succ N ih =>
    obtain ⟨ih1, ih2⟩ := ih (fun k hk => hnz k (by omega))
    -- the scalars of the pass `N`
    have ha1 : 0 < Matrix.dotProduct (R N) (R N) := cg_dot_self_pos _ (hnz N (by omega))
    have hPN : P N ≠ 0 := by
      intro hc
      have := ih1 N (le_refl _)
      rw [hc, Matrix.dotProduct_zero] at this
      exact absurd this.symm (ne_of_gt ha1)
    have ha2 : 0 < Matrix.dotProduct (P N) (A.mulVec (P N)) := hpd _ hPN
    -- the nonzero scalars of the earlier passes
    have hpos : ∀ i : ℕ, i ≤ N → 0 < Matrix.dotProduct (R i) (R i)
        ∧ 0 < Matrix.dotProduct (P i) (A.mulVec (P i)) := by
      intro i hi
      have h1 : 0 < Matrix.dotProduct (R i) (R i) := cg_dot_self_pos _ (hnz i (by omega))
      refine ⟨h1, hpd _ ?_⟩
      intro hc
      have := ih1 i hi
      rw [hc, Matrix.dotProduct_zero] at this
      exact absurd this.symm (ne_of_gt h1)
    -- the new residual is orthogonal to the directions
    have hRP : ∀ i : ℕ, i ≤ N → Matrix.dotProduct (R (N + 1)) (P i) = 0 := by
      intro i hi
      rw [hR N, Matrix.sub_dotProduct, Matrix.smul_dotProduct, smul_eq_mul,
        Matrix.dotProduct_comm (A.mulVec (P N)) (P i), hsym (P i) (P N)]
      rcases Nat.lt_or_ge i N with h | h
      · rw [(ih2 N (le_refl _) i h).1, (ih2 N (le_refl _) i h).2.1, mul_zero, sub_zero]
      · have : i = N := by omega
        subst this
        rw [ih1 i (le_refl _)]
        field_simp
    -- and to the residuals
    have hRR : ∀ i : ℕ, i ≤ N → Matrix.dotProduct (R (N + 1)) (R i) = 0 := by
      intro i hi
      cases i with
      | zero => rw [← hP0]; exact hRP 0 hi
      | succ i =>
        have h1 : R (i + 1) = P (i + 1)
            - (Matrix.dotProduct (R (i + 1)) (R (i + 1)) / Matrix.dotProduct (R i) (R i))
              • P i := by
          rw [hP i]
          simp
        rw [h1, Matrix.dotProduct_sub, Matrix.dotProduct_smul, smul_eq_mul, hRP (i + 1) hi,
          hRP i (by omega), mul_zero, sub_zero]
    -- the product with `A * P i`
    have hRAP : ∀ i : ℕ, i ≤ N →
        (Matrix.dotProduct (R i) (R i) / Matrix.dotProduct (P i) (A.mulVec (P i)))
            * Matrix.dotProduct (R (N + 1)) (A.mulVec (P i))
          = Matrix.dotProduct (R (N + 1)) (R i) - Matrix.dotProduct (R (N + 1)) (R (i + 1)) := by
      intro i hi
      have h1 : (Matrix.dotProduct (R i) (R i) / Matrix.dotProduct (P i) (A.mulVec (P i)))
          • A.mulVec (P i) = R i - R (i + 1) := by
        rw [hR i]
        simp
      rw [← Matrix.dotProduct_sub, ← h1, Matrix.dotProduct_smul, smul_eq_mul]
    refine ⟨?_, ?_⟩
    · intro k hk
      rcases Nat.lt_or_ge k (N + 1) with h | h
      · exact ih1 k (by omega)
      · have : k = N + 1 := by omega
        subst this
        rw [hP N, Matrix.dotProduct_add, Matrix.dotProduct_smul, smul_eq_mul, hRP N (le_refl _),
          mul_zero, add_zero]
    · intro k hk i hi
      rcases Nat.lt_or_ge k (N + 1) with h | h
      · exact ih2 k (by omega) i hi
      · have : k = N + 1 := by omega
        subst this
        refine ⟨hRP i (by omega), ?_, hRR i (by omega)⟩
        have hα := hRAP i (by omega)
        obtain ⟨p1, p2⟩ := hpos i (by omega)
        rw [hP N, Matrix.add_dotProduct, Matrix.smul_dotProduct, smul_eq_mul]
        rcases Nat.lt_or_ge i N with h | h
        · rw [hRR i (by omega), hRR (i + 1) (by omega), sub_zero] at hα
          have h0 : Matrix.dotProduct (R (N + 1)) (A.mulVec (P i)) = 0 := by
            rcases mul_eq_zero.1 hα with hc | hc
            · exact absurd hc (ne_of_gt (div_pos p1 p2))
            · exact hc
          rw [h0, (ih2 N (le_refl _) i h).2.1, mul_zero, add_zero]
        · have : i = N := by omega
          subst this
          rw [hRR i (le_refl _), zero_sub] at hα
          have h0 : Matrix.dotProduct (R (i + 1)) (A.mulVec (P i))
              = - (Matrix.dotProduct (R (i + 1)) (R (i + 1))
                    * Matrix.dotProduct (P i) (A.mulVec (P i)) / Matrix.dotProduct (R i) (R i)) := by
            field_simp
            field_simp at hα
            linarith
          rw [h0]
          field_simp

theorem cg_sum_dotProduct {n : ℕ} {ι : Type} (s : Finset ι) (f : ι → Fin n → ℚ)
    (w : Fin n → ℚ) :
    Matrix.dotProduct (∑ i in s, f i) w = ∑ i in s, Matrix.dotProduct (f i) w := by
  unfold Matrix.dotProduct
  simp only [Finset.sum_apply, Finset.sum_mul]
  exact Finset.sum_comm

/-- Nonzero, pairwise orthogonal vectors of `ℚ^n`: there are at most `n` of
them. -/
theorem cg_orthogonal_card {n N : ℕ} (R : ℕ → Fin n → ℚ)
    (hnz : ∀ k : ℕ, k ≤ N → R k ≠ 0)
    (horth : ∀ k : ℕ, k ≤ N → ∀ i : ℕ, i < k → Matrix.dotProduct (R k) (R i) = 0) :
    N + 1 ≤ n := by
  have hli : LinearIndependent ℚ (fun k : Fin (N + 1) => R k.val) := by
    rw [Fintype.linearIndependent_iff]
    intro g hg j
    have h1 : Matrix.dotProduct (∑ i : Fin (N + 1), g i • R i.val) (R j.val) = 0 := by
      rw [hg, Matrix.zero_dotProduct]
    rw [cg_sum_dotProduct, Finset.sum_eq_single j] at h1
    · rw [Matrix.smul_dotProduct, smul_eq_mul] at h1
      rcases mul_eq_zero.1 h1 with hc | hc
      · exact hc
      · exact absurd hc (ne_of_gt (cg_dot_self_pos _ (hnz j.val (by omega))))
    · intro i _ hij
      rw [Matrix.smul_dotProduct, smul_eq_mul]
      have hne : i.val ≠ j.val := fun hc => hij (Fin.ext hc)
      rcases Nat.lt_or_ge i.val j.val with h | h
      · rw [Matrix.dotProduct_comm, horth j.val (by omega) i.val h, mul_zero]
      · rw [horth i.val (by omega) j.val (by omega), mul_zero]
    · intro hc
      exact absurd (Finset.mem_univ j) hc
  have := hli.fintype_card_le_finrank
  rw [Fintype.card_fin, Module.finrank_fin_fun] at this
  exact this


/-! ## Conjugate gradients: the loop body in terms of vectors -/

theorem loop_set_cells (g : ℕ → ℚ → ℚ) (n : ℕ) (l : List ℚ) (hn : n ≤ l.length) :
    (loop n (fun i l => l.set i (g i (l.getD i 0))) l).length = l.length
      ∧ ∀ i : ℕ, (loop n (fun i l => l.set i (g i (l.getD i 0))) l).getD i 0
          = if i < n then g i (l.getD i 0) else l.getD i 0 := by
  induction n with
  | zero => exact ⟨rfl, fun i => by simp [loop]⟩
  | succ n ih =>
    obtain ⟨ih1, ih2⟩ := ih (by omega)
    simp only [loop]
    refine ⟨by rw [List.length_set, ih1], ?_⟩
    intro i
    rw [getD_set_eq]
    by_cases h : n = i
    · subst h
      rw [if_pos ⟨rfl, by rw [ih1]; omega⟩, if_pos (by omega), ih2, if_neg (by omega)]
    · rw [if_neg (fun hc => h hc.1), ih2]
      by_cases h2 : i < n
      · rw [if_pos h2, if_pos (by omega)]
      · rw [if_neg h2, if_neg (by omega)]

theorem loop_pair_sum (f g : ℕ → ℚ) (n : ℕ) :
    loop n (fun i (a : ℚ × ℚ) => (a.1 + f i, a.2 + g i)) (0, 0)
      = (∑ i in Finset.range n, f i, ∑ i in Finset.range n, g i) := by
  induction n with
  | zero => simp [loop]
  | succ n ih =>
    simp only [loop]
    rw [ih, Finset.sum_range_succ, Finset.sum_range_succ]

/-- The loop of lines 1287-1289: the largest of `|r[0]|, ..., |r[m]|`. -/
theorem loop_max_abs (r : ℕ → ℚ) (m : ℕ) :
    (∀ i : ℕ, i ≤ m →
        |r i| ≤ loop m (fun t (x : ℚ) => if |r (t + 1)| > x then |r (t + 1)| else x) |r 0|)
      ∧ ∃ i : ℕ, i ≤ m
          ∧ loop m (fun t (x : ℚ) => if |r (t + 1)| > x then |r (t + 1)| else x) |r 0|
            = |r i| := by
  induction m with
  | zero =>
    refine ⟨?_, 0, le_refl _, rfl⟩
    intro i hi
    have : i = 0 := by omega
    subst this
    exact le_refl _
  | succ m ih =>
    obtain ⟨ih1, i0, hi0, ih2⟩ := ih
    simp only [loop]
    by_cases h : |r (m + 1)|
        > loop m (fun t (x : ℚ) => if |r (t + 1)| > x then |r (t + 1)| else x) |r 0|
    · rw [if_pos h]
      refine ⟨?_, m + 1, le_refl _, rfl⟩
      intro i hi
      rcases Nat.lt_or_ge i (m + 1) with h1 | h1
      · exact le_trans (ih1 i (by omega)) (le_of_lt h)
      · have : i = m + 1 := by omega
        subst this
        exact le_refl _
    · rw [if_neg h]
      refine ⟨?_, i0, by omega, ih2⟩
      intro i hi
      rcases Nat.lt_or_ge i (m + 1) with h1 | h1
      · exact ih1 i (by omega)
      · have : i = m + 1 := by omega
        subst this
        exact not_lt.1 h

theorem vec_apply (n : ℕ) (l : List ℚ) (i : Fin n) : vec n l i = l.getD i.val 0 := rfl

theorem dot_vec (n : ℕ) (u v : List ℚ) :
    Matrix.dotProduct (vec n u) (vec n v)
      = ∑ i in Finset.range n, u.getD i 0 * v.getD i 0 := by
  unfold Matrix.dotProduct
  rw [Finset.sum_range]
  rfl

/-- The product `sp_matrix_mv` as a product of the dense matrix with a
vector. -/
theorem vec_sp_matrix_mv (self : sp_matrix) (hwf : sp_matrix_wf self)
    (hsq : self.cols_count = self.rows_count) (x y : List ℚ)
    (hy : y.length = self.rows_count.toNat) :
    vec self.rows_count.toNat (sp_matrix_mv self x y)
      = (sp_matrix_dense self self.rows_count.toNat).mulVec (vec self.rows_count.toNat x) := by
  funext i
  rw [vec_apply, (sp_matrix_mv_wf self hwf x y hy).2 i.val i.isLt, hsq, Finset.sum_range]
  rfl

/-- The buffers of the loop of `sp_matrix_solve_cg` have `n` cells. -/
structure cg_vars_ok (n : ℕ) (s : cg_vars) : Prop where
  x_len : s.x.length = n
  r_len : s.r.length = n
  p_len : s.p.length = n
  temp_len : s.temp.length = n

/-- The first part of a pass (lines 1262-1289) in terms of vectors:
`x + alpha*p`, `r - alpha*A*p` with `alpha = (r,r)/(p,A*p)`, and the norm of
the new residual. -/
theorem cg_update_spec (self : sp_matrix) (hwf : sp_matrix_wf self)
    (hsq : self.cols_count = self.rows_count) (s : cg_vars)
    (hs : cg_vars_ok self.rows_count.toNat s) :
    cg_vars_ok self.rows_count.toNat (cg_update self self.rows_count.toNat s).1
      ∧ (cg_update self self.rows_count.toNat s).1.p = s.p
      ∧ (cg_update self self.rows_count.toNat s).1.j = s.j
      ∧ (cg_update self self.rows_count.toNat s).2
          = Matrix.dotProduct (vec self.rows_count.toNat s.r) (vec self.rows_count.toNat s.r)
      ∧ cg_denominator self self.rows_count.toNat s
          = Matrix.dotProduct (vec self.rows_count.toNat s.p)
              ((sp_matrix_dense self self.rows_count.toNat).mulVec
                (vec self.rows_count.toNat s.p))
      ∧ vec self.rows_count.toNat (cg_update self self.rows_count.toNat s).1.x
          = vec self.rows_count.toNat s.x
            + ((cg_update self self.rows_count.toNat s).2
                / cg_denominator self self.rows_count.toNat s)
              • vec self.rows_count.toNat s.p
      ∧ vec self.rows_count.toNat (cg_update self self.rows_count.toNat s).1.r
          = vec self.rows_count.toNat s.r
            - ((cg_update self self.rows_count.toNat s).2
                / cg_denominator self self.rows_count.toNat s)
              • (sp_matrix_dense self self.rows_count.toNat).mulVec
                  (vec self.rows_count.toNat s.p)
      ∧ (∀ i : ℕ, i < self.rows_count.toNat →
          |(cg_update self self.rows_count.toNat s).1.r.getD i 0|
            ≤ (cg_update self self.rows_count.toNat s).1.residn)
      ∧ ∃ i : ℕ, i ≤ self.rows_count.toNat - 1
          ∧ (cg_update self self.rows_count.toNat s).1.residn
            = |(cg_update self self.rows_count.toNat s).1.r.getD i 0| := by
  have hmv := sp_matrix_mv_wf self hwf s.p s.temp hs.temp_len
  have hvmv := vec_sp_matrix_mv self hwf hsq s.p s.temp hs.temp_len
  have ha : loop self.rows_count.toNat
      (fun i (a : ℚ × ℚ) =>
        (a.1 + s.r.getD i 0 * s.r.getD i 0,
          a.2 + s.p.getD i 0 * (sp_matrix_mv self s.p s.temp).getD i 0)) (0, 0)
      = (Matrix.dotProduct (vec self.rows_count.toNat s.r) (vec self.rows_count.toNat s.r),
          Matrix.dotProduct (vec self.rows_count.toNat s.p)
            ((sp_matrix_dense self self.rows_count.toNat).mulVec
              (vec self.rows_count.toNat s.p))) := by
    rw [loop_pair_sum, ← hvmv, dot_vec, dot_vec]
  have hden : cg_denominator self self.rows_count.toNat s
      = Matrix.dotProduct (vec self.rows_count.toNat s.p)
          ((sp_matrix_dense self self.rows_count.toNat).mulVec
            (vec self.rows_count.toNat s.p)) := by
    unfold cg_denominator
    simp only
    rw [ha]
  have h2 : (cg_update self self.rows_count.toNat s).2
      = Matrix.dotProduct (vec self.rows_count.toNat s.r) (vec self.rows_count.toNat s.r) := by
    unfold cg_update
    simp only
    rw [ha]
  have hx := loop_set_cells
    (fun i v => v + ((cg_update self self.rows_count.toNat s).2
      / cg_denominator self self.rows_count.toNat s) * s.p.getD i 0)
    self.rows_count.toNat s.x (by rw [hs.x_len])
  have hr := loop_set_cells
    (fun i v => v - ((cg_update self self.rows_count.toNat s).2
      / cg_denominator self self.rows_count.toNat s) * (sp_matrix_mv self s.p s.temp).getD i 0)
    self.rows_count.toNat s.r (by rw [hs.r_len])
  have hxe : (cg_update self self.rows_count.toNat s).1.x
      = loop self.rows_count.toNat
          (fun i l => l.set i (l.getD i 0 + ((cg_update self self.rows_count.toNat s).2
            / cg_denominator self self.rows_count.toNat s) * s.p.getD i 0)) s.x := by
    rfl
  have hre : (cg_update self self.rows_count.toNat s).1.r
      = loop self.rows_count.toNat
          (fun i l => l.set i (l.getD i 0 - ((cg_update self self.rows_count.toNat s).2
            / cg_denominator self self.rows_count.toNat s)
              * (sp_matrix_mv self s.p s.temp).getD i 0)) s.r := by
    rfl
  have hmax := loop_max_abs (fun i => (cg_update self self.rows_count.toNat s).1.r.getD i 0)
    (self.rows_count.toNat - 1)
  have hres : (cg_update self self.rows_count.toNat s).1.residn
      = loop (self.rows_count.toNat - 1)
          (fun t (x : ℚ) =>
            if |(cg_update self self.rows_count.toNat s).1.r.getD (t + 1) 0| > x then
              |(cg_update self self.rows_count.toNat s).1.r.getD (t + 1) 0|
            else x) |(cg_update self self.rows_count.toNat s).1.r.getD 0 0| := rfl
  refine ⟨⟨?_, ?_, hs.p_len, hmv.1⟩, rfl, rfl, h2, hden, ?_, ?_, ?_, ?_⟩
  · rw [hxe, hx.1, hs.x_len]
  · rw [hre, hr.1, hs.r_len]
  · funext i
    rw [vec_apply, hxe, hx.2, if_pos i.isLt]
    rfl
  · funext i
    rw [vec_apply, hre, hr.2, if_pos i.isLt, ← hvmv]
    rfl
  · intro i hi
    rw [hres]
    exact hmax.1 i (by omega)
  · obtain ⟨i, hi, he⟩ := hmax.2
    exact ⟨i, hi, by rw [hres]; exact he⟩

/-- The second part of a pass (lines 1293-1303 and `j ++`) in terms of
vectors: `p = r + beta*p` with `beta = (r,r)/a1`. -/
theorem cg_next_spec (self : sp_matrix) (hwf : sp_matrix_wf self)
    (hsq : self.cols_count = self.rows_count) (s : cg_vars)
    (hs : cg_vars_ok self.rows_count.toNat s) :
    cg_vars_ok self.rows_count.toNat (cg_next self self.rows_count.toNat s)
      ∧ (cg_next self self.rows_count.toNat s).x = (cg_update self self.rows_count.toNat s).1.x
      ∧ (cg_next self self.rows_count.toNat s).r = (cg_update self self.rows_count.toNat s).1.r
      ∧ (cg_next self self.rows_count.toNat s).j = s.j + 1
      ∧ vec self.rows_count.toNat (cg_next self self.rows_count.toNat s).p
          = vec self.rows_count.toNat (cg_update self self.rows_count.toNat s).1.r
            + (Matrix.dotProduct
                  (vec self.rows_count.toNat (cg_update self self.rows_count.toNat s).1.r)
                  (vec self.rows_count.toNat (cg_update self self.rows_count.toNat s).1.r)
                / (cg_update self self.rows_count.toNat s).2)
              • vec self.rows_count.toNat s.p := by
  obtain ⟨h1, h2, h3, _⟩ := cg_update_spec self hwf hsq s hs
  have hp := loop_set_cells
    (fun i v => (cg_update self self.rows_count.toNat s).1.r.getD i 0
      + (Matrix.dotProduct
            (vec self.rows_count.toNat (cg_update self self.rows_count.toNat s).1.r)
            (vec self.rows_count.toNat (cg_update self self.rows_count.toNat s).1.r)
          / (cg_update self self.rows_count.toNat s).2) * v)
    self.rows_count.toNat s.p (by rw [hs.p_len])
  have hpe : (cg_next self self.rows_count.toNat s).p
      = loop self.rows_count.toNat
          (fun i l => l.set i ((cg_update self self.rows_count.toNat s).1.r.getD i 0
            + (Matrix.dotProduct
                  (vec self.rows_count.toNat (cg_update self self.rows_count.toNat s).1.r)
                  (vec self.rows_count.toNat (cg_update self self.rows_count.toNat s).1.r)
                / (cg_update self self.rows_count.toNat s).2) * l.getD i 0)) s.p := by
    rw [dot_vec, ← zero_add (∑ i in Finset.range self.rows_count.toNat, _), ← loop_sum]
    rfl
  refine ⟨⟨h1.x_len, h1.r_len, ?_, h1.temp_len⟩, rfl, rfl, ?_, ?_⟩
  · rw [hpe, hp.1, hs.p_len]
  · show (cg_update self self.rows_count.toNat s).1.j + 1 = s.j + 1
    rw [h3]
  · funext i
    rw [vec_apply, hpe, hp.2, if_pos i.isLt]
    rfl

theorem cg_iter_succ_left (self : sp_matrix) (msize : ℕ) (k : ℕ) (s : cg_vars) :
    cg_iter self msize (k + 1) s = cg_iter self msize k (cg_next self msize s) := by
  induction k with
  | zero => rfl
  | succ k ih =>
    show cg_next self msize (cg_iter self msize (k + 1) s) = _
    rw [ih]
    rfl

theorem cg_iter_ok (self : sp_matrix) (hwf : sp_matrix_wf self)
    (hsq : self.cols_count = self.rows_count) (s : cg_vars)
    (hs : cg_vars_ok self.rows_count.toNat s) (k : ℕ) :
    cg_vars_ok self.rows_count.toNat (cg_iter self self.rows_count.toNat k s)
      ∧ (cg_iter self self.rows_count.toNat k s).j = s.j + (k : Int) := by
  induction k with
  | zero => exact ⟨hs, by simp [cg_iter]⟩
  | succ k ih =>
    obtain ⟨h1, h2, h3, h4, _⟩ := cg_next_spec self hwf hsq _ ih.1
    refine ⟨h1, ?_⟩
    show (cg_next self self.rows_count.toNat (cg_iter self self.rows_count.toNat k s)).j = _
    rw [h4, ih.2]
    push_cast
    ring

/-- The loop ends at the `break` of the first pass whose residual norm is
below `tol`. -/
theorem sp_matrix_solve_cg_loop_break (self : sp_matrix) (msize : ℕ) (tol : ℚ) (m : ℕ) :
    ∀ (s : cg_vars) (k : ℕ), k < m →
      (∀ i : ℕ, i < k → ¬ (cg_update self msize (cg_iter self msize i s)).1.residn < tol) →
      (cg_update self msize (cg_iter self msize k s)).1.residn < tol →
      sp_matrix_solve_cg_loop self msize tol m s
          = (cg_update self msize (cg_iter self msize k s)).1
        ∧ sp_matrix_solve_cg_converged self msize tol m s = true
        ∧ sp_matrix_solve_cg_passes self msize tol m s = k + 1 := by
  induction m with
  | zero =>
    intro s k hk
    omega
  | succ m ih =>
    intro s k hk hno hyes
    rw [sp_matrix_solve_cg_loop_succ]
    unfold sp_matrix_solve_cg_converged sp_matrix_solve_cg_passes
    cases k with
    | zero =>
      have h0 : (cg_update self msize s).1.residn < tol := hyes
      rw [if_pos h0, if_pos h0, if_pos h0]
      exact ⟨rfl, rfl, rfl⟩
    | succ k =>
      have h0 : ¬ (cg_update self msize s).1.residn < tol := hno 0 (by omega)
      rw [if_neg h0, if_neg h0, if_neg h0]
      obtain ⟨g1, g2, g3⟩ := ih (cg_next self msize s) k (by omega)
        (fun i hi => by
          rw [← cg_iter_succ_left]
          exact hno (i + 1) (by omega))
        (by rw [← cg_iter_succ_left]; exact hyes)
      rw [← cg_iter_succ_left] at g1
      exact ⟨g1, g2, by rw [g3]⟩

/-- No division of the loop has the divisor zero when, up to the pass that
ends at the `break`, the divisors `(p, A*p)` and `(r, r)` are nonzero. -/
theorem sp_matrix_solve_cg_no_zero_division (self : sp_matrix) (msize : ℕ) (tol : ℚ) (m : ℕ) :
    ∀ (s : cg_vars) (k : ℕ), k < m →
      (∀ i : ℕ, i < k → ¬ (cg_update self msize (cg_iter self msize i s)).1.residn < tol) →
      (cg_update self msize (cg_iter self msize k s)).1.residn < tol →
      (∀ i : ℕ, i ≤ k → cg_denominator self msize (cg_iter self msize i s) ≠ 0) →
      (∀ i : ℕ, i < k → (cg_update self msize (cg_iter self msize i s)).2 ≠ 0) →
      sp_matrix_solve_cg_zero_division self msize tol m s = false := by
  induction m with
  | zero =>
    intro s k hk
    omega
  | succ m ih =>
    intro s k hk hno hyes hden hnum
    unfold sp_matrix_solve_cg_zero_division
    have hd0 : cg_denominator self msize s ≠ 0 := hden 0 (by omega)
    rw [if_neg hd0]
    cases k with
    | zero =>
      have h0 : (cg_update self msize s).1.residn < tol := hyes
      rw [if_pos h0]
    | succ k =>
      have h0 : ¬ (cg_update self msize s).1.residn < tol := hno 0 (by omega)
      have hn0 : (cg_update self msize s).2 ≠ 0 := hnum 0 (by omega)
      rw [if_neg h0, if_neg hn0]
      exact ih (cg_next self msize s) k (by omega)
        (fun i hi => by
          rw [← cg_iter_succ_left]
          exact hno (i + 1) (by omega))
        (by rw [← cg_iter_succ_left]; exact hyes)
        (fun i hi => by
          rw [← cg_iter_succ_left]
          exact hden (i + 1) (by omega))
        (fun i hi => by
          rw [← cg_iter_succ_left]
          exact hnum (i + 1) (by omega))

/-- The variables when the loop is entered, in terms of vectors. -/
theorem sp_matrix_solve_cg_init_spec (self : sp_matrix) (hwf : sp_matrix_wf self)
    (hsq : self.cols_count = self.rows_count) (b x0 x : List ℚ)
    (hx : x.length = self.rows_count.toNat) :
    cg_vars_ok self.rows_count.toNat (sp_matrix_solve_cg_init self b x0 x)
      ∧ (sp_matrix_solve_cg_init self b x0 x).j = 0
      ∧ vec self.rows_count.toNat (sp_matrix_solve_cg_init self b x0 x).x
          = vec self.rows_count.toNat x0
      ∧ vec self.rows_count.toNat (sp_matrix_solve_cg_init self b x0 x).r
          = vec self.rows_count.toNat b
            - (sp_matrix_dense self self.rows_count.toNat).mulVec (vec self.rows_count.toNat b)
      ∧ (sp_matrix_solve_cg_init self b x0 x).p = (sp_matrix_solve_cg_init self b x0 x).r := by
  have hmv := sp_matrix_mv_wf self hwf b (List.replicate self.rows_count.toNat 0) (by simp)
  have hvmv := vec_sp_matrix_mv self hwf hsq b (List.replicate self.rows_count.toNat 0)
    (by simp)
  have hxl := loop_set_cells (fun i _ => x0.getD i 0) self.rows_count.toNat x (by rw [hx])
  have hrl := loop_set_cells (fun i v => b.getD i 0 - v) self.rows_count.toNat
    (sp_matrix_mv self b (List.replicate self.rows_count.toNat 0)) (by rw [hmv.1])
  have hxe : (sp_matrix_solve_cg_init self b x0 x).x
      = loop self.rows_count.toNat (fun i l => l.set i (x0.getD i 0)) x := rfl
  have hre : (sp_matrix_solve_cg_init self b x0 x).r
      = loop self.rows_count.toNat (fun i l => l.set i (b.getD i 0 - l.getD i 0))
          (sp_matrix_mv self b (List.replicate self.rows_count.toNat 0)) := rfl
  have hrlen : (sp_matrix_solve_cg_init self b x0 x).r.length = self.rows_count.toNat := by
    rw [hre, hrl.1, hmv.1]
  have hpe : (sp_matrix_solve_cg_init self b x0 x).p
      = (sp_matrix_solve_cg_init self b x0 x).r := by
    show memcpy _ (sp_matrix_solve_cg_init self b x0 x).r self.rows_count = _
    unfold memcpy
    rw [List.take_of_length_le (by rw [hrlen]), List.drop_of_length_le (by simp),
      List.append_nil]
  refine ⟨⟨?_, hrlen, ?_, by simp [sp_matrix_solve_cg_init]⟩, rfl, ?_, ?_, hpe⟩
  · rw [hxe, hxl.1, hx]
  · rw [hpe, hrlen]
  · funext i
    rw [vec_apply, hxe, hxl.2, if_pos i.isLt]
    rfl
  · funext i
    rw [vec_apply, hre, hrl.2, if_pos i.isLt, ← hvmv]
    rfl

/-! ## C13: conjugate gradients on a symmetric positive definite matrix -/

theorem sp_matrix_dense_symm (self : sp_matrix) (n : ℕ)
    (hsym : ∀ i j : ℕ, i < n → j < n →
      sp_matrix_value self (i : Int) (j : Int) = sp_matrix_value self (j : Int) (i : Int))
    (u v : Fin n → ℚ) :
    Matrix.dotProduct u ((sp_matrix_dense self n).mulVec v)
      = Matrix.dotProduct v ((sp_matrix_dense self n).mulVec u) := by
  have hT : (sp_matrix_dense self n).transpose = sp_matrix_dense self n := by
    ext i j
    exact hsym j.val i.val j.isLt i.isLt
  rw [Matrix.dotProduct_mulVec, ← Matrix.mulVec_transpose, hT, Matrix.dotProduct_comm]

theorem sp_matrix_dense_pd (self : sp_matrix) (n : ℕ)
    (hpd : ∀ v : ℕ → ℚ, (∃ i : ℕ, i < n ∧ v i ≠ 0) →
      0 < ∑ i in Finset.range n, ∑ j in Finset.range n,
        v i * sp_matrix_value self (i : Int) (j : Int) * v j)
    (v : Fin n → ℚ) (hv : v ≠ 0) :
    0 < Matrix.dotProduct v ((sp_matrix_dense self n).mulVec v) := by
  obtain ⟨i0, hi0⟩ := Function.ne_iff.1 hv
  have h := hpd (fun i => if h : i < n then v ⟨i, h⟩ else 0)
    ⟨i0.val, i0.isLt, by
      show (if h : i0.val < n then v ⟨i0.val, h⟩ else 0) ≠ 0
      rw [dif_pos i0.isLt]
      exact hi0⟩
  have he : ∑ i in Finset.range n, ∑ j in Finset.range n,
      (fun i => if h : i < n then v ⟨i, h⟩ else 0) i * sp_matrix_value self (i : Int) (j : Int)
        * (fun i => if h : i < n then v ⟨i, h⟩ else 0) j
      = Matrix.dotProduct v ((sp_matrix_dense self n).mulVec v) := by
    unfold Matrix.dotProduct Matrix.mulVec Matrix.dotProduct
    rw [Finset.sum_range]
    apply Finset.sum_congr rfl
    intro i _
    rw [Finset.sum_range, Finset.mul_sum]
    apply Finset.sum_congr rfl
    intro j _
    simp only [Fin.is_lt, dite_true, Fin.eta]
    rw [mul_assoc]
    rfl
  rw [he] at h
  exact h

/-- A pass keeps `r = b - A*x`. -/
theorem cg_update_residual (self : sp_matrix) (hwf : sp_matrix_wf self)
    (hsq : self.cols_count = self.rows_count) (b : List ℚ) (s : cg_vars)
    (hs : cg_vars_ok self.rows_count.toNat s)
    (h : vec self.rows_count.toNat s.r
      = vec self.rows_count.toNat b
        - (sp_matrix_dense self self.rows_count.toNat).mulVec (vec self.rows_count.toNat s.x)) :
    vec self.rows_count.toNat (cg_update self self.rows_count.toNat s).1.r
      = vec self.rows_count.toNat b
        - (sp_matrix_dense self self.rows_count.toNat).mulVec
            (vec self.rows_count.toNat (cg_update self self.rows_count.toNat s).1.x) := by
  obtain ⟨_, _, _, _, _, ux, ur, _⟩ := cg_update_spec self hwf hsq s hs
  rw [ur, ux, h, Matrix.mulVec_add, Matrix.mulVec_smul]
  abel

theorem cg_iter_residual (self : sp_matrix) (hwf : sp_matrix_wf self)
    (hsq : self.cols_count = self.rows_count) (b : List ℚ) (s : cg_vars)
    (hs : cg_vars_ok self.rows_count.toNat s)
    (h : vec self.rows_count.toNat s.r
      = vec self.rows_count.toNat b
        - (sp_matrix_dense self self.rows_count.toNat).mulVec (vec self.rows_count.toNat s.x))
    (k : ℕ) :
    vec self.rows_count.toNat (cg_iter self self.rows_count.toNat k s).r
      = vec self.rows_count.toNat b
        - (sp_matrix_dense self self.rows_count.toNat).mulVec
            (vec self.rows_count.toNat (cg_iter self self.rows_count.toNat k s).x) := by
  induction k with
  | zero => exact h
  | succ k ih =>
    exact cg_update_residual self hwf hsq b _ (cg_iter_ok self hwf hsq s hs k).1 ih

/-- The residuals and the directions of the passes satisfy the recurrences
of the conjugate gradient method. -/
theorem cg_iter_rec (self : sp_matrix) (hwf : sp_matrix_wf self)
    (hsq : self.cols_count = self.rows_count) (s : cg_vars)
    (hs : cg_vars_ok self.rows_count.toNat s) (k : ℕ) :
    vec self.rows_count.toNat (cg_iter self self.rows_count.toNat (k + 1) s).r
        = vec self.rows_count.toNat (cg_iter self self.rows_count.toNat k s).r
          - (Matrix.dotProduct
                (vec self.rows_count.toNat (cg_iter self self.rows_count.toNat k s).r)
                (vec self.rows_count.toNat (cg_iter self self.rows_count.toNat k s).r)
              / Matrix.dotProduct
                  (vec self.rows_count.toNat (cg_iter self self.rows_count.toNat k s).p)
                  ((sp_matrix_dense self self.rows_count.toNat).mulVec
                    (vec self.rows_count.toNat (cg_iter self self.rows_count.toNat k s).p)))
            • (sp_matrix_dense self self.rows_count.toNat).mulVec
                (vec self.rows_count.toNat (cg_iter self self.rows_count.toNat k s).p)
      ∧ vec self.rows_count.toNat (cg_iter self self.rows_count.toNat (k + 1) s).p
        = vec self.rows_count.toNat (cg_iter self self.rows_count.toNat (k + 1) s).r
          + (Matrix.dotProduct
                (vec self.rows_count.toNat (cg_iter self self.rows_count.toNat (k + 1) s).r)
                (vec self.rows_count.toNat (cg_iter self self.rows_count.toNat (k + 1) s).r)
              / Matrix.dotProduct
                  (vec self.rows_count.toNat (cg_iter self self.rows_count.toNat k s).r)
                  (vec self.rows_count.toNat (cg_iter self self.rows_count.toNat k s).r))
            • vec self.rows_count.toNat (cg_iter self self.rows_count.toNat k s).p := by
  have hk := (cg_iter_ok self hwf hsq s hs k).1
  obtain ⟨_, _, _, u2, uden, _, ur, _⟩ := cg_update_spec self hwf hsq _ hk
  obtain ⟨_, _, nr, _, np⟩ := cg_next_spec self hwf hsq _ hk
  have hr1 : (cg_iter self self.rows_count.toNat (k + 1) s).r
      = (cg_update self self.rows_count.toNat
          (cg_iter self self.rows_count.toNat k s)).1.r := nr
  have hp1 : vec self.rows_count.toNat (cg_iter self self.rows_count.toNat (k + 1) s).p
      = _ := np
  constructor
  · rw [hr1, ur, u2, uden]
  · rw [hp1, hr1, u2]

/-- A zero residual has the norm zero. -/
theorem cg_update_residn_zero (self : sp_matrix) (hwf : sp_matrix_wf self)
    (hsq : self.cols_count = self.rows_count) (s : cg_vars)
    (hs : cg_vars_ok self.rows_count.toNat s) (hn : 0 < self.rows_count.toNat)
    (h : vec self.rows_count.toNat (cg_update self self.rows_count.toNat s).1.r = 0) :
    (cg_update self self.rows_count.toNat s).1.residn = 0 := by
  obtain ⟨_, _, _, _, _, _, _, _, i, hi, he⟩ := cg_update_spec self hwf hsq s hs
  have h0 := congrFun h ⟨i, by omega⟩
  rw [vec_apply] at h0
  rw [he, h0]
  simp

/-- Conjugate gradients on a symmetric positive definite `n x n` matrix,
started from `x0 = b` with `b - A*b` nonzero: one of the first `n` passes
ends at the `break`, and up to this pass no divisor is zero. -/
theorem sp_matrix_solve_cg_exit (self : sp_matrix) (hwf : sp_matrix_wf self)
    (hsq : self.cols_count = self.rows_count)
    (hsym : ∀ i j : ℕ, i < self.rows_count.toNat → j < self.rows_count.toNat →
      sp_matrix_value self (i : Int) (j : Int) = sp_matrix_value self (j : Int) (i : Int))
    (hpd : ∀ v : ℕ → ℚ, (∃ i : ℕ, i < self.rows_count.toNat ∧ v i ≠ 0) →
      0 < ∑ i in Finset.range self.rows_count.toNat, ∑ j in Finset.range self.rows_count.toNat,
        v i * sp_matrix_value self (i : Int) (j : Int) * v j)
    (s : cg_vars) (hs : cg_vars_ok self.rows_count.toNat s) (hp0 : s.p = s.r)
    (hr0 : vec self.rows_count.toNat s.r ≠ 0)
    (tol : ℚ) (htol : 0 < tol) :
    ∃ k : ℕ, k < self.rows_count.toNat
      ∧ (∀ i : ℕ, i < k →
          ¬ (cg_update self self.rows_count.toNat
              (cg_iter self self.rows_count.toNat i s)).1.residn < tol)
      ∧ (cg_update self self.rows_count.toNat
          (cg_iter self self.rows_count.toNat k s)).1.residn < tol
      ∧ (∀ i : ℕ, i ≤ k →
          cg_denominator self self.rows_count.toNat (cg_iter self self.rows_count.toNat i s) ≠ 0)
      ∧ ∀ i : ℕ, i ≤ k →
          (cg_update self self.rows_count.toNat
            (cg_iter self self.rows_count.toNat i s)).2 ≠ 0 := by
  have hn : 0 < self.rows_count.toNat := by
    rcases Nat.eq_zero_or_pos self.rows_count.toNat with h | h
    · exfalso
      apply hr0
      funext i
      exact absurd i.isLt (by omega)
    · exact h
  have hrec := cg_iter_rec self hwf hsq s hs
  have hP0 : vec self.rows_count.toNat (cg_iter self self.rows_count.toNat 0 s).p
      = vec self.rows_count.toNat (cg_iter self self.rows_count.toNat 0 s).r := by
    show vec self.rows_count.toNat s.p = vec self.rows_count.toNat s.r
    rw [hp0]
  -- a pass that does not end at the `break` leaves a nonzero residual
  have hnz : ∀ N : ℕ,
      (∀ i : ℕ, i < N →
        ¬ (cg_update self self.rows_count.toNat
            (cg_iter self self.rows_count.toNat i s)).1.residn < tol) →
      ∀ k : ℕ, k ≤ N →
        vec self.rows_count.toNat (cg_iter self self.rows_count.toNat k s).r ≠ 0 := by
    intro N hN k hk
    cases k with
    | zero => exact hr0
    | succ k =>
      intro hc
      apply hN k (by omega)
      rw [cg_update_residn_zero self hwf hsq _ (cg_iter_ok self hwf hsq s hs k).1 hn hc]
      exact htol
  -- the facts of the method up to the pass `N`
  have horth := fun N hN => cg_orthogonal (sp_matrix_dense self self.rows_count.toNat)
    (sp_matrix_dense_symm self _ hsym) (sp_matrix_dense_pd self _ hpd)
    (fun k => vec self.rows_count.toNat (cg_iter self self.rows_count.toNat k s).r)
    (fun k => vec self.rows_count.toNat (cg_iter self self.rows_count.toNat k s).p)
    hP0 (fun k => (hrec k).1) (fun k => (hrec k).2) N (hnz N hN)
  -- one of the first `n` passes ends at the `break`
  have hex : ∃ k : ℕ, k < self.rows_count.toNat
      ∧ (cg_update self self.rows_count.toNat
          (cg_iter self self.rows_count.toNat k s)).1.residn < tol := by
    by_contra hc
    have hN : ∀ i : ℕ, i < self.rows_count.toNat →
        ¬ (cg_update self self.rows_count.toNat
            (cg_iter self self.rows_count.toNat i s)).1.residn < tol :=
      fun i hi h => hc ⟨i, hi, h⟩
    have := cg_orthogonal_card
      (fun k => vec self.rows_count.toNat (cg_iter self self.rows_count.toNat k s).r)
      (hnz _ hN) (fun k hk i hi => ((horth _ hN).2 k hk i hi).2.2)
    omega
  classical
  have hk0 := Nat.find_spec hex
  have hmin := fun i (hi : i < Nat.find hex) => Nat.find_min hex hi
  have hN : ∀ i : ℕ, i < Nat.find hex →
      ¬ (cg_update self self.rows_count.toNat
          (cg_iter self self.rows_count.toNat i s)).1.residn < tol :=
    fun i hi h => hmin i hi ⟨by omega, h⟩
  have hpos : ∀ i : ℕ, i ≤ Nat.find hex →
      0 < Matrix.dotProduct
            (vec self.rows_count.toNat (cg_iter self self.rows_count.toNat i s).r)
            (vec self.rows_count.toNat (cg_iter self self.rows_count.toNat i s).r) :=
    fun i hi => cg_dot_self_pos _ (hnz _ hN i hi)
  refine ⟨Nat.find hex, hk0.1, hN, hk0.2, ?_, ?_⟩
  · intro i hi
    obtain ⟨_, _, _, _, uden, _⟩ := cg_update_spec self hwf hsq _ (cg_iter_ok self hwf hsq s hs i).1
    rw [uden]
    apply ne_of_gt
    apply sp_matrix_dense_pd self _ hpd
    intro hc
    have := (horth _ hN).1 i hi
    simp only at this
    rw [hc, Matrix.dotProduct_zero] at this
    exact absurd this.symm (ne_of_gt (hpos i hi))
  · intro i hi
    obtain ⟨_, _, _, u2, _⟩ := cg_update_spec self hwf hsq _ (cg_iter_ok self hwf hsq s hs i).1
    rw [u2]
    exact ne_of_gt (hpos i hi)

/-- The matrix of `test_solver` is positive definite: its quadratic form is
`(v0 - 2*v2)^2 + v1^2 + v2^2`. -/
theorem test_solver_mtx_pd (v : ℕ → ℚ)
    (hv : ∃ i : ℕ, i < test_solver_mtx_reordered.rows_count.toNat ∧ v i ≠ 0) :
    0 < ∑ i in Finset.range test_solver_mtx_reordered.rows_count.toNat,
      ∑ j in Finset.range test_solver_mtx_reordered.rows_count.toNat,
        v i * sp_matrix_value test_solver_mtx_reordered (i : Int) (j : Int) * v j := by
  have hn : test_solver_mtx_reordered.rows_count.toNat = 3 := rfl
  have h00 : sp_matrix_value test_solver_mtx_reordered 0 0 = 1 := by decide!
  have h01 : sp_matrix_value test_solver_mtx_reordered 0 1 = 0 := by decide!
  have h02 : sp_matrix_value test_solver_mtx_reordered 0 2 = -2 := by decide!
  have h10 : sp_matrix_value test_solver_mtx_reordered 1 0 = 0 := by decide!
  have h11 : sp_matrix_value test_solver_mtx_reordered 1 1 = 1 := by decide!
  have h12 : sp_matrix_value test_solver_mtx_reordered 1 2 = 0 := by decide!
  have h20 : sp_matrix_value test_solver_mtx_reordered 2 0 = -2 := by decide!
  have h21 : sp_matrix_value test_solver_mtx_reordered 2 1 = 0 := by decide!
  have h22 : sp_matrix_value test_solver_mtx_reordered 2 2 = 5 := by decide!
  have he : ∑ i in Finset.range test_solver_mtx_reordered.rows_count.toNat,
      ∑ j in Finset.range test_solver_mtx_reordered.rows_count.toNat,
        v i * sp_matrix_value test_solver_mtx_reordered (i : Int) (j : Int) * v j
      = (v 0 - 2 * v 2) ^ 2 + v 1 ^ 2 + v 2 ^ 2 := by
    rw [hn]
    simp only [Finset.sum_range_succ, Finset.sum_range_zero, Nat.cast_zero, Nat.cast_one,
      Nat.cast_ofNat, zero_add, h00, h01, h02, h10, h11, h12, h20, h21, h22]
    ring
  rw [he]
  obtain ⟨i, hi, hvi⟩ := hv
  rw [hn] at hi
  have h1 : 0 ≤ (v 0 - 2 * v 2) ^ 2 := sq_nonneg _
  have h2 : 0 ≤ v 1 ^ 2 := sq_nonneg _
  have h3 : 0 ≤ v 2 ^ 2 := sq_nonneg _
  by_contra hc
  have hz : (v 0 - 2 * v 2) ^ 2 = 0 ∧ v 1 ^ 2 = 0 ∧ v 2 ^ 2 = 0 := by
    refine ⟨?_, ?_, ?_⟩ <;> linarith
  have z2 : v 2 = 0 := pow_eq_zero_iff (by decide) |>.1 hz.2.2
  have z1 : v 1 = 0 := pow_eq_zero_iff (by decide) |>.1 hz.2.1
  have z0 : v 0 = 0 := by
    have := pow_eq_zero_iff (by decide) |>.1 hz.1
    rw [z2] at this
    linarith
  interval_cases i
  · exact hvi z0
  · exact hvi z1
  · exact hvi z2

/-- The claim C13 fails on the system of `test_solver`, whose matrix is
symmetric and positive definite. With the tolerance `1` the loop of
`sp_matrix_solve_cg` ends at the convergence test of its first pass with
the residual norm `868/3293`, and the `x` returned is not the solution
`(1, 2, 3)`. With `b = (0, 1, 0)`, for which `A*b = b`, the initial residual
is zero and the first pass divides by `(p, A*p) = 0`. -/
theorem C13_counterexample :
    sp_matrix_wf test_solver_mtx_reordered
      ∧ (∀ i : ℕ, i < test_solver_mtx_reordered.rows_count.toNat →
          ∀ j : ℕ, j < test_solver_mtx_reordered.rows_count.toNat →
            sp_matrix_value test_solver_mtx_reordered (i : Int) (j : Int)
              = sp_matrix_value test_solver_mtx_reordered (j : Int) (i : Int))
      ∧ (∀ v : ℕ → ℚ, (∃ i : ℕ, i < test_solver_mtx_reordered.rows_count.toNat ∧ v i ≠ 0) →
          0 < ∑ i in Finset.range test_solver_mtx_reordered.rows_count.toNat,
            ∑ j in Finset.range test_solver_mtx_reordered.rows_count.toNat,
              v i * sp_matrix_value test_solver_mtx_reordered (i : Int) (j : Int) * v j)
      ∧ sp_matrix_solve_cg test_solver_mtx_reordered [-5, 2, 13] [-5, 2, 13] (some 20000) (some 1)
        [0, 0, 0] = some ([-1775 / 3293, 2, 7779 / 3293], 0, 868 / 3293)
      ∧ sp_matrix_solve_cg_converged test_solver_mtx_reordered 3 1 20000
          (sp_matrix_solve_cg_init test_solver_mtx_reordered [-5, 2, 13] [-5, 2, 13] [0, 0, 0])
          = true
      ∧ sp_matrix_mv test_solver_mtx_reordered [1, 2, 3] [0, 0, 0] = [-5, 2, 13]
      ∧ sp_matrix_mv test_solver_mtx_reordered [-1775 / 3293, 2, 7779 / 3293] [0, 0, 0]
          ≠ [-5, 2, 13]
      ∧ sp_matrix_mv test_solver_mtx_reordered [0, 1, 0] [0, 0, 0] = [0, 1, 0]
      ∧ cg_denominator test_solver_mtx_reordered 3
          (sp_matrix_solve_cg_init test_solver_mtx_reordered [0, 1, 0] [0, 1, 0] [0, 0, 0]) = 0
      ∧ sp_matrix_solve_cg_zero_division test_solver_mtx_reordered 3 (1e-15) 20000
          (sp_matrix_solve_cg_init test_solver_mtx_reordered [0, 1, 0] [0, 1, 0] [0, 0, 0])
          = true := by
  refine ⟨?_, ?_, test_solver_mtx_pd, ?_, ?_, ?_, ?_, ?_, ?_, ?_⟩ <;> decide!

/-- C13, as the code has it. For every symmetric positive definite `n x n`
matrix `A` (well formed) and every `b` with `A*b ≠ b`, the conjugate
gradient loop as `sp_matrix_solve` runs it (`x0 = b`, exact arithmetic) with
a positive tolerance and an iteration cap of at least `n` ends at its
convergence test after at most `n` passes, no division having a zero
divisor; the value stored through `max_iter` is the number of passes less
one, and the `x` returned has the residual norm
`max |b - A*x| = residn < tol`, so it is the exact solution when the norm
reached is zero. -/
theorem C13_cg_converges_within_n (self : sp_matrix) (hwf : sp_matrix_wf self)
    (hsq : self.cols_count = self.rows_count)
    (hsym : ∀ i : ℕ, i < self.rows_count.toNat → ∀ j : ℕ, j < self.rows_count.toNat →
      sp_matrix_value self (i : Int) (j : Int) = sp_matrix_value self (j : Int) (i : Int))
    (hpd : ∀ v : ℕ → ℚ, (∃ i : ℕ, i < self.rows_count.toNat ∧ v i ≠ 0) →
      0 < ∑ i in Finset.range self.rows_count.toNat, ∑ j in Finset.range self.rows_count.toNat,
        v i * sp_matrix_value self (i : Int) (j : Int) * v j)
    (b x : List ℚ) (hx : x.length = self.rows_count.toNat)
    (hb : ∃ i : ℕ, i < self.rows_count.toNat
      ∧ (sp_matrix_mv self b (List.replicate self.rows_count.toNat 0)).getD i 0 ≠ b.getD i 0)
    (max_iter : Int) (hmax : (self.rows_count.toNat : Int) ≤ max_iter)
    (tol : ℚ) (htol : 0 < tol) :
    ∃ (x1 : List ℚ) (j : Int) (residn : ℚ),
      sp_matrix_solve_cg self b b (some max_iter) (some tol) x = some (x1, j, residn)
        ∧ sp_matrix_solve_cg_converged self self.rows_count.toNat tol max_iter.toNat
            (sp_matrix_solve_cg_init self b b x) = true
        ∧ sp_matrix_solve_cg_zero_division self self.rows_count.toNat tol max_iter.toNat
            (sp_matrix_solve_cg_init self b b x) = false
        ∧ (sp_matrix_solve_cg_passes self self.rows_count.toNat tol max_iter.toNat
            (sp_matrix_solve_cg_init self b b x) : Int) = j + 1
        ∧ j + 1 ≤ (self.rows_count.toNat : Int)
        ∧ residn < tol
        ∧ (∀ i : ℕ, i < self.rows_count.toNat →
            |b.getD i 0
                - (sp_matrix_mv self x1 (List.replicate self.rows_count.toNat 0)).getD i 0|
              ≤ residn)
        ∧ ∃ i : ℕ, i < self.rows_count.toNat
            ∧ |b.getD i 0
                - (sp_matrix_mv self x1 (List.replicate self.rows_count.toNat 0)).getD i 0|
              = residn := by
  obtain ⟨hok0, hj0, hx0, hr0, hp0⟩ := sp_matrix_solve_cg_init_spec self hwf hsq b b x hx
  have hvb := vec_sp_matrix_mv self hwf hsq b (List.replicate self.rows_count.toNat 0) (by simp)
  have hR0 : vec self.rows_count.toNat (sp_matrix_solve_cg_init self b b x).r ≠ 0 := by
    obtain ⟨i, hi, hne⟩ := hb
    intro hc
    have := congrFun hc ⟨i, hi⟩
    rw [hr0, ← hvb] at this
    simp only [Pi.sub_apply, vec_apply, Pi.zero_apply] at this
    apply hne
    linarith
  have hn : 0 < self.rows_count.toNat := by
    obtain ⟨i, hi, _⟩ := hb
    omega
  obtain ⟨k, hk, hno, hyes, hden, hnum⟩ := sp_matrix_solve_cg_exit self hwf hsq
    (fun i j hi hj => hsym i hi j hj) hpd _ hok0 hp0 hR0 tol htol
  obtain ⟨g1, g2, g3⟩ := sp_matrix_solve_cg_loop_break self self.rows_count.toNat tol
    max_iter.toNat _ k (by omega) hno hyes
  have gz := sp_matrix_solve_cg_no_zero_division self self.rows_count.toNat tol
    max_iter.toNat _ k (by omega) hno hyes hden (fun i hi => hnum i (by omega))
  have hkok := cg_iter_ok self hwf hsq _ hok0 k
  obtain ⟨uok, _, uj, _, _, _, _, umax, i0, hi0, hres⟩ := cg_update_spec self hwf hsq _ hkok.1
  have hinv := cg_update_residual self hwf hsq b _ hkok.1
    (cg_iter_residual self hwf hsq b _ hok0 (by rw [hr0, hx0]) k)
  have hvx := vec_sp_matrix_mv self hwf hsq
    (cg_update self self.rows_count.toNat
      (cg_iter self self.rows_count.toNat k (sp_matrix_solve_cg_init self b b x))).1.x
    (List.replicate self.rows_count.toNat 0) (by simp)
  have hcell : ∀ i : ℕ, i < self.rows_count.toNat →
      b.getD i 0 - (sp_matrix_mv self
          (cg_update self self.rows_count.toNat
            (cg_iter self self.rows_count.toNat k (sp_matrix_solve_cg_init self b b x))).1.x
          (List.replicate self.rows_count.toNat 0)).getD i 0
        = (cg_update self self.rows_count.toNat
            (cg_iter self self.rows_count.toNat k
              (sp_matrix_solve_cg_init self b b x))).1.r.getD i 0 := by
    intro i hi
    have := congrFun hinv ⟨i, hi⟩
    rw [← hvx] at this
    simp only [Pi.sub_apply, vec_apply] at this
    exact this.symm
  refine ⟨(cg_update self self.rows_count.toNat
      (cg_iter self self.rows_count.toNat k (sp_matrix_solve_cg_init self b b x))).1.x,
    (cg_update self self.rows_count.toNat
      (cg_iter self self.rows_count.toNat k (sp_matrix_solve_cg_init self b b x))).1.j,
    (cg_update self self.rows_count.toNat
      (cg_iter self self.rows_count.toNat k (sp_matrix_solve_cg_init self b b x))).1.residn,
    ?_, g2, gz, ?_, ?_, hyes, ?_, ?_⟩
  · rw [sp_matrix_solve_cg_eq, g1]
  · rw [g3, uj, hkok.2, hj0]
    push_cast
    ring
  · rw [uj, hkok.2, hj0]
    omega
  · intro i hi
    rw [hcell i hi]
    exact umax i hi
  · exact ⟨i0, by omega, by rw [hcell i0 (by omega), hres]⟩

/-- C13 as the code has it, at the system of `test_solver` with the
tolerance `1e-15` and the cap `20000` of `sp_matrix_solve`. -/
theorem C13_cg_converges_within_n_witness :
    sp_matrix_wf test_solver_mtx_reordered
      ∧ (0 : ℚ) < 1e-15
      ∧ ∃ (x1 : List ℚ) (j : Int) (residn : ℚ),
          sp_matrix_solve_cg test_solver_mtx_reordered [-5, 2, 13] [-5, 2, 13] (some 20000)
              (some 1e-15) [0, 0, 0] = some (x1, j, residn)
            ∧ sp_matrix_solve_cg_converged test_solver_mtx_reordered
                test_solver_mtx_reordered.rows_count.toNat 1e-15 (20000 : Int).toNat
                (sp_matrix_solve_cg_init test_solver_mtx_reordered [-5, 2, 13] [-5, 2, 13]
                  [0, 0, 0]) = true
            ∧ sp_matrix_solve_cg_zero_division test_solver_mtx_reordered
                test_solver_mtx_reordered.rows_count.toNat 1e-15 (20000 : Int).toNat
                (sp_matrix_solve_cg_init test_solver_mtx_reordered [-5, 2, 13] [-5, 2, 13]
                  [0, 0, 0]) = false
            ∧ (sp_matrix_solve_cg_passes test_solver_mtx_reordered
                test_solver_mtx_reordered.rows_count.toNat 1e-15 (20000 : Int).toNat
                (sp_matrix_solve_cg_init test_solver_mtx_reordered [-5, 2, 13] [-5, 2, 13]
                  [0, 0, 0]) : Int) = j + 1
            ∧ j + 1 ≤ (test_solver_mtx_reordered.rows_count.toNat : Int)
            ∧ residn < 1e-15
            ∧ (∀ i : ℕ, i < test_solver_mtx_reordered.rows_count.toNat →
                |([-5, 2, 13] : List ℚ).getD i 0
                    - (sp_matrix_mv test_solver_mtx_reordered x1
                        (List.replicate test_solver_mtx_reordered.rows_count.toNat 0)).getD i 0|
                  ≤ residn)
            ∧ ∃ i : ℕ, i < test_solver_mtx_reordered.rows_count.toNat
                ∧ |([-5, 2, 13] : List ℚ).getD i 0
                    - (sp_matrix_mv test_solver_mtx_reordered x1
                        (List.replicate test_solver_mtx_reordered.rows_count.toNat 0)).getD i 0|
                  = residn :=
  ⟨by decide!, by norm_num,
    C13_cg_converges_within_n test_solver_mtx_reordered (by decide!) (by decide!) (by decide!)
      test_solver_mtx_pd [-5, 2, 13] [0, 0, 0] (by decide!) ⟨0, by decide!, by decide!⟩ 20000
      (by decide!) 1e-15 (by norm_num)⟩

/-- When the loop ends at the `break`, it does so in the first pass whose
residual norm is below `tol`. -/
theorem sp_matrix_solve_cg_converged_exit (self : sp_matrix) (msize : ℕ) (tol : ℚ) (m : ℕ) :
    ∀ s : cg_vars, sp_matrix_solve_cg_converged self msize tol m s = true →
      ∃ k : ℕ, k < m
        ∧ (∀ i : ℕ, i < k → ¬ (cg_update self msize (cg_iter self msize i s)).1.residn < tol)
        ∧ (cg_update self msize (cg_iter self msize k s)).1.residn < tol := by
  induction m with
  | zero =>
    intro s h
    exact absurd h (by simp [sp_matrix_solve_cg_converged])
  | succ m ih =>
    intro s h
    unfold sp_matrix_solve_cg_converged at h
    by_cases h0 : (cg_update self msize s).1.residn < tol
    · exact ⟨0, by omega, fun i hi => by omega, h0⟩
    · rw [if_neg h0] at h
      obtain ⟨k, hk, hno, hyes⟩ := ih _ h
      refine ⟨k + 1, by omega, ?_, ?_⟩
      · intro i hi
        cases i with
        | zero => exact h0
        | succ i =>
          rw [cg_iter_succ_left]
          exact hno i (by omega)
      · rw [cg_iter_succ_left]
        exact hyes

/-- Started from `x0 = b`, as `sp_matrix_solve` does, the loop tracks the
residual of `x`: when it ends at the convergence test, the `x` returned has
`|b - A*x| ≤ residn < tol` in every row. -/
theorem sp_matrix_solve_cg_residual_of_b (self : sp_matrix) (hwf : sp_matrix_wf self)
    (hsq : self.cols_count = self.rows_count) (b x : List ℚ)
    (hx : x.length = self.rows_count.toNat) (max_iter : Int) (tol : ℚ)
    (hc : sp_matrix_solve_cg_converged self self.rows_count.toNat tol max_iter.toNat
      (sp_matrix_solve_cg_init self b b x) = true) :
    ∃ (x1 : List ℚ) (j : Int) (residn : ℚ),
      sp_matrix_solve_cg self b b (some max_iter) (some tol) x = some (x1, j, residn)
        ∧ residn < tol
        ∧ ∀ i : ℕ, i < self.rows_count.toNat →
            |b.getD i 0
                - (sp_matrix_mv self x1 (List.replicate self.rows_count.toNat 0)).getD i 0|
              ≤ residn := by
  obtain ⟨hok0, _, hx0, hr0, _⟩ := sp_matrix_solve_cg_init_spec self hwf hsq b b x hx
  obtain ⟨k, hk, hno, hyes⟩ := sp_matrix_solve_cg_converged_exit self _ tol _ _ hc
  obtain ⟨g1, _, _⟩ := sp_matrix_solve_cg_loop_break self self.rows_count.toNat tol
    max_iter.toNat _ k hk hno hyes
  have hkok := cg_iter_ok self hwf hsq _ hok0 k
  obtain ⟨_, _, _, _, _, _, _, umax, _⟩ := cg_update_spec self hwf hsq _ hkok.1
  have hinv := cg_update_residual self hwf hsq b _ hkok.1
    (cg_iter_residual self hwf hsq b _ hok0 (by rw [hr0, hx0]) k)
  have hvx := vec_sp_matrix_mv self hwf hsq
    (cg_update self self.rows_count.toNat
      (cg_iter self self.rows_count.toNat k (sp_matrix_solve_cg_init self b b x))).1.x
    (List.replicate self.rows_count.toNat 0) (by simp)
  refine ⟨(cg_update self self.rows_count.toNat
      (cg_iter self self.rows_count.toNat k (sp_matrix_solve_cg_init self b b x))).1.x,
    (cg_update self self.rows_count.toNat
      (cg_iter self self.rows_count.toNat k (sp_matrix_solve_cg_init self b b x))).1.j,
    (cg_update self self.rows_count.toNat
      (cg_iter self self.rows_count.toNat k (sp_matrix_solve_cg_init self b b x))).1.residn,
    ?_, hyes, ?_⟩
  · rw [sp_matrix_solve_cg_eq, g1]
  · intro i hi
    have := congrFun hinv ⟨i, hi⟩
    rw [← hvx] at this
    simp only [Pi.sub_apply, vec_apply] at this
    rw [← this]
    exact umax i hi

/-! ## C24: no column is stored twice -/

/-- C24. In every sparse matrix reached from `init_sp_matrix` by calls of
`sp_matrix_element_add` and `sp_matrix_reorder`, no row holds the same
column index in two of its slots `0..last_index`; and an add to a stored
position `(i, j)` returns with the slots, `last_index` and the indices of
every row as they were (it adds to the value in place). -/
theorem C24_no_duplicate_columns (rows cols bandwidth : Int)
    (ops : List sp_matrix_op) (M : sp_matrix)
    (hM : sp_matrix_run (init_sp_matrix rows cols bandwidth) ops = some M) :
    (∀ i : ℕ, (i : Int) < M.rows_count → ∀ k k1 : ℕ,
        (k : Int) ≤ (M.row i).last_index → (k1 : Int) ≤ (M.row i).last_index → k ≠ k1 →
        (M.row i).indexes.getD k 0 ≠ (M.row i).indexes.getD k1 0)
      ∧ ∀ (i j : Int) (v : ℚ), (sp_matrix_element M i j).isSome = true →
          ∃ M1 : sp_matrix, sp_matrix_element_add M i j v = some M1
            ∧ ∀ r : ℕ, (M1.row r).last_index = (M.row r).last_index
                ∧ (M1.row r).indexes = (M.row r).indexes
                ∧ (M1.row r).width = (M.row r).width := by
  have hwf : sp_matrix_wf M := sp_matrix_run_wf ops _ M (init_sp_matrix_wf _ _ _) hM
  constructor
  · intro i hi k k1 hk hk1 hne hc
    exact hne ((hwf.rows_wf i (by omega)).nodup_eq k k1 hk hk1 hc)
  · intro i j v hs
    obtain ⟨p, hp⟩ := Option.isSome_iff_exists.1 hs
    unfold sp_matrix_element at hp
    split at hp
    · rename_i hin
      unfold sp_matrix_element_add
      rw [if_pos hin]
      simp only [hp]
      refine ⟨_, rfl, ?_⟩
      intro r
      by_cases hr : r = i.toNat
      · subst hr
        rw [row_set_self M i.toNat _ _ _ _ (by rw [hwf.rows_len]; omega)]
        exact ⟨rfl, rfl, rfl⟩
      · rw [row_set_ne M i.toNat r _ _ _ _ (fun h => hr h.symm)]
        exact ⟨rfl, rfl, rfl⟩
    · exact absurd hp (by simp)

/-- C24 at the matrix of `test_solver`. -/
theorem C24_no_duplicate_columns_witness :
    sp_matrix_run (init_sp_matrix 3 3 2) test_solver_ops = some test_solver_mtx
      ∧ (∀ i : ℕ, (i : Int) < test_solver_mtx.rows_count → ∀ k k1 : ℕ,
          (k : Int) ≤ (test_solver_mtx.row i).last_index →
          (k1 : Int) ≤ (test_solver_mtx.row i).last_index → k ≠ k1 →
          (test_solver_mtx.row i).indexes.getD k 0 ≠ (test_solver_mtx.row i).indexes.getD k1 0)
      ∧ ∀ (i j : Int) (v : ℚ), (sp_matrix_element test_solver_mtx i j).isSome = true →
          ∃ M1 : sp_matrix, sp_matrix_element_add test_solver_mtx i j v = some M1
            ∧ ∀ r : ℕ, (M1.row r).last_index = (test_solver_mtx.row r).last_index
                ∧ (M1.row r).indexes = (test_solver_mtx.row r).indexes
                ∧ (M1.row r).width = (test_solver_mtx.row r).width :=
  ⟨by decide!, C24_no_duplicate_columns 3 3 2 test_solver_ops test_solver_mtx (by decide!)⟩

/-! ## C23: the flag `ordered` after an add -/

/-- C23 fails after an add that appends without growing the row. From
`init_sp_matrix 2 2 2` the calls add `(0,1)`, reorder, add `(0,0)` reach a
matrix whose flag `ordered` is still set and whose row `0` holds the
columns `1, 0` in this order. -/
theorem C23_ordered_flag_after_append :
    sp_matrix_run (init_sp_matrix 2 2 2) ordered_flag_ops = some ordered_flag_mtx
      ∧ ordered_flag_mtx.ordered = true
      ∧ (ordered_flag_mtx.row 0).last_index = 1
      ∧ (ordered_flag_mtx.row 0).indexes.getD 0 0 = 1
      ∧ (ordered_flag_mtx.row 0).indexes.getD 1 0 = 0
      ∧ ¬ ((ordered_flag_mtx.row 0).indexes.getD 0 0
            < (ordered_flag_mtx.row 0).indexes.getD 1 0) := by
  refine ⟨?_, ?_, ?_, ?_, ?_, ?_⟩ <;> decide!

/-! ## C28: the initial residual of `sp_matrix_solve_cg` -/

/-- C28 fails for `x0 ≠ b`. On the system of `test_solver` with
`x0 = (0, 0, 0)` the loop of `sp_matrix_solve_cg` is entered with `x = x0`
and `p = r`, but with `r = (26, 0, -62) = b - A*b`, where
`b - A*x0 = b = (-5, 2, 13)`. -/
theorem C28_cg_initial_residual :
    (sp_matrix_solve_cg_init test_solver_mtx_reordered [-5, 2, 13] [0, 0, 0] [9, 9, 9]).x
        = [0, 0, 0]
      ∧ (sp_matrix_solve_cg_init test_solver_mtx_reordered [-5, 2, 13] [0, 0, 0] [9, 9, 9]).r
          = [26, 0, -62]
      ∧ (sp_matrix_solve_cg_init test_solver_mtx_reordered [-5, 2, 13] [0, 0, 0] [9, 9, 9]).p
          = [26, 0, -62]
      ∧ sp_matrix_mv test_solver_mtx_reordered [0, 0, 0] [0, 0, 0] = [0, 0, 0]
      ∧ sp_matrix_mv test_solver_mtx_reordered [-5, 2, 13] [0, 0, 0] = [-31, 2, 75] := by
  refine ⟨?_, ?_, ?_, ?_, ?_⟩ <;> decide!

/-! ## C29: what `solver_apply_single_bc` leaves as it is -/

/-- C29. For every global matrix `K` (well formed) with right-hand side
`f`, every in-range dof `I` with a stored diagonal element and every value
`u`: `solver_apply_single_bc(I, u)` returns, and afterwards for every row
`j ≠ I` the new `f[j]` is the old `f[j]` minus the old `K_jI` times `u`
(the old `f[j]` when `K_jI` is not stored), every element `K_ij` with
`i ≠ I` and `j ≠ I` reads as before, and `sp_matrix_element` finds the same
positions stored, in the same slots. -/
theorem C29_solver_apply_single_bc_frame (self : fea_solver)
    (hwf : sp_matrix_wf self.global_mtx)
    (hf : self.global_forces_vct.length = self.global_mtx.rows_count.toNat)
    (index : Int) (hI : 0 ≤ index ∧ index < self.global_mtx.rows_count) (presc : ℚ)
    (hd : (sp_matrix_element self.global_mtx index index).isSome = true) :
    ∃ self1 : fea_solver, solver_apply_single_bc self index presc = some self1
      ∧ (∀ j : ℕ, (j : Int) < self.global_mtx.rows_count → (j : Int) ≠ index →
          self1.global_forces_vct.getD j 0
            = self.global_forces_vct.getD j 0
              - sp_matrix_value self.global_mtx (j : Int) index * presc)
      ∧ (∀ j : ℕ, (j : Int) < self.global_mtx.rows_count → (j : Int) ≠ index →
          sp_matrix_element self.global_mtx (j : Int) index = none →
          self1.global_forces_vct.getD j 0 = self.global_forces_vct.getD j 0)
      ∧ (∀ i j : Int, i ≠ index → j ≠ index →
          sp_matrix_get self1.global_mtx i j = sp_matrix_get self.global_mtx i j)
      ∧ ∀ i j : Int,
          sp_matrix_element self1.global_mtx i j = sp_matrix_element self.global_mtx i j := by
  obtain ⟨self1, h1, h2, _, _, h5⟩ := solver_apply_single_bc_spec self hwf hf index hI presc hd
  have hg := solver_apply_single_bc_get self self1 hwf hf index hI presc h1
  refine ⟨self1, h1, ?_, ?_, ?_, ?_⟩
  · intro j hj hne
    rw [h5, if_neg hne, if_pos hj]
  · intro j hj hne hnone
    rw [h5, if_neg hne, if_pos hj]
    unfold sp_matrix_value sp_matrix_get
    rw [hnone]
    simp
  · intro i j hi hj
    rw [hg, if_neg (fun hc => hi hc.1), if_neg]
    rintro (hc | hc)
    · exact hj hc
    · exact hi hc.1
  · intro i j
    exact sp_matrix_same_pattern_element _ _ h2 i j

/-- C29 at the matrix of `test_solver`, dof 0 prescribed to 1. -/
theorem C29_solver_apply_single_bc_frame_witness :
    sp_matrix_wf test_solver_bc.global_mtx
      ∧ (sp_matrix_element test_solver_bc.global_mtx 0 0).isSome = true
      ∧ ∃ self1 : fea_solver, solver_apply_single_bc test_solver_bc 0 1 = some self1
        ∧ (∀ j : ℕ, (j : Int) < test_solver_bc.global_mtx.rows_count → (j : Int) ≠ 0 →
            self1.global_forces_vct.getD j 0
              = test_solver_bc.global_forces_vct.getD j 0
                - sp_matrix_value test_solver_bc.global_mtx (j : Int) 0 * 1)
        ∧ (∀ j : ℕ, (j : Int) < test_solver_bc.global_mtx.rows_count → (j : Int) ≠ 0 →
            sp_matrix_element test_solver_bc.global_mtx (j : Int) 0 = none →
            self1.global_forces_vct.getD j 0 = test_solver_bc.global_forces_vct.getD j 0)
        ∧ (∀ i j : Int, i ≠ 0 → j ≠ 0 →
            sp_matrix_get self1.global_mtx i j = sp_matrix_get test_solver_bc.global_mtx i j)
        ∧ ∀ i j : Int,
            sp_matrix_element self1.global_mtx i j
              = sp_matrix_element test_solver_bc.global_mtx i j :=
  ⟨by decide!, by decide!,
    C29_solver_apply_single_bc_frame test_solver_bc (by decide!) (by decide!) 0
      ⟨by decide, by decide⟩ 1 (by decide!)⟩

/-! ## C22: the pointers of the skyline view -/

/-- C22. For every matrix that `init_sp_matrix_skyline` accepts, `n` being
its number of rows: `iptr[0] = 0`, `iptr[n] = tr_nonzeros`, `iptr` does not
decrease, and every column index `jptr[k]` with
`iptr[i] ≤ k < iptr[i+1]` is strictly less than `i`. -/
theorem C22_skyline_pointers (junk : ℕ → ℚ) (mtx : sp_matrix) (S : sp_matrix_skyline)
    (hS : init_sp_matrix_skyline junk mtx = some S) :
    S.iptr.getD 0 0 = 0
      ∧ S.iptr.getD mtx.rows_count.toNat 0 = S.tr_nonzeros
      ∧ (∀ i : ℕ, i < mtx.rows_count.toNat → S.iptr.getD i 0 ≤ S.iptr.getD (i + 1) 0)
      ∧ ∀ i : ℕ, i < mtx.rows_count.toNat → ∀ k : ℕ,
          S.iptr.getD i 0 ≤ (k : Int) → (k : Int) < S.iptr.getD (i + 1) 0 →
          S.jptr.getD k 0 < (i : Int) := by
  have hnn : ¬ init_sp_matrix_skyline junk mtx = none := by rw [hS]; simp
  rw [init_sp_matrix_skyline_eq_none_iff, not_or, not_not, not_not] at hnn
  obtain ⟨hord, hcnt⟩ := hnn
  obtain ⟨S1, h1, _, _, htr, _, h6, h7⟩ := init_sp_matrix_skyline_spec junk mtx hord hcnt
  rw [hS] at h1
  injection h1 with h1
  subst h1
  have hends : S.iptr.getD 0 0 = 0 ∧ S.iptr.getD mtx.rows_count.toNat 0 = S.tr_nonzeros := by
    rcases Nat.eq_zero_or_pos mtx.rows_count.toNat with h0 | hpos
    · have hz : skyline_lower_before mtx mtx.rows_count.toNat = 0 := by
        rw [h0]
        rfl
      have hc : skyline_count mtx = (0, 0) := by
        rw [skyline_count_eq, ← hcnt, hz]
        rfl
      have hi : S.iptr.getD 0 0 = 0 := by
        unfold init_sp_matrix_skyline at hS
        rw [if_neg (not_not.2 hord)] at hS
        simp only [hc, h0, loop] at hS
        rw [if_neg (by simp)] at hS
        injection hS with hS
        rw [← hS]
        simp only [getD_set_eq]
        split
        · rfl
        · simp only [List.getD_eq_getElem?_getD, List.getElem?_replicate]
          split <;> rfl
      rw [h0, htr, hz]
      exact ⟨hi, hi⟩
    · constructor
      · rw [(h6 0 hpos).1]
        rfl
      · have := (h6 (mtx.rows_count.toNat - 1) (by omega)).2
        rw [show mtx.rows_count.toNat - 1 + 1 = mtx.rows_count.toNat by omega] at this
        rw [this, htr]
  refine ⟨hends.1, hends.2, ?_, ?_⟩
  · intro i hi
    rw [(h6 i hi).1, (h6 i hi).2, skyline_lower_before_succ]
    push_cast
    omega
  · intro i hi k hk1 hk2
    rw [(h6 i hi).1] at hk1
    rw [(h6 i hi).2, skyline_lower_before_succ] at hk2
    obtain ⟨q, hq1, hq2, hq3⟩ := skyline_slot_of_place mtx i
      ((mtx.row i).last_index + 1).toNat (k - skyline_lower_before mtx i) (by omega)
    have hp : k = skyline_lower_before mtx i + skyline_lower_in_row mtx i q := by omega
    rw [hp, (h7 i q hi hq1 hq2).1]
    exact hq2

/-- C22 at the matrix of `test_ilu`, the buffers holding zeros before. -/
theorem C22_skyline_pointers_witness :
    init_sp_matrix_skyline (fun _ => 0) test_ilu_mtx = some test_ilu_skyline
      ∧ test_ilu_skyline.iptr.getD 0 0 = 0
      ∧ test_ilu_skyline.iptr.getD test_ilu_mtx.rows_count.toNat 0
          = test_ilu_skyline.tr_nonzeros
      ∧ (∀ i : ℕ, i < test_ilu_mtx.rows_count.toNat →
          test_ilu_skyline.iptr.getD i 0 ≤ test_ilu_skyline.iptr.getD (i + 1) 0)
      ∧ ∀ i : ℕ, i < test_ilu_mtx.rows_count.toNat → ∀ k : ℕ,
          test_ilu_skyline.iptr.getD i 0 ≤ (k : Int) →
          (k : Int) < test_ilu_skyline.iptr.getD (i + 1) 0 →
          test_ilu_skyline.jptr.getD k 0 < (i : Int) :=
  ⟨by decide!,
    C22_skyline_pointers (fun _ => 0) test_ilu_mtx test_ilu_skyline (by decide!)⟩

/-! ## C21: the division by `(p, A*p)` -/

/-- The claim C21 fails at the 1x1 matrix `(-1)` with `b = x0 = (1)`: the
first pass has `(p, A*p) = -4`, and `sp_matrix_solve_cg` divides by it,
updates `x` to `(-1)` and returns through the convergence test, with
nothing but the iteration count `0` and the residual norm `0` reported. On
the system of `test_solver` with `b = x0 = (0, 1, 0)` the first pass has
`(p, A*p) = 0` and the division by it is made. -/
theorem C21_counterexample :
    sp_matrix_run (init_sp_matrix 1 1 1) cg_negative_ops = some cg_negative_mtx
      ∧ cg_denominator cg_negative_mtx 1 (sp_matrix_solve_cg_init cg_negative_mtx [1] [1] [0])
          = -4
      ∧ sp_matrix_solve_cg cg_negative_mtx [1] [1] (some 20000) (some 1e-15) [0]
          = some ([-1], 0, 0)
      ∧ sp_matrix_solve_cg_zero_division cg_negative_mtx 1 (1e-15) 20000
          (sp_matrix_solve_cg_init cg_negative_mtx [1] [1] [0]) = false
      ∧ cg_denominator test_solver_mtx_reordered 3
          (sp_matrix_solve_cg_init test_solver_mtx_reordered [0, 1, 0] [0, 1, 0] [0, 0, 0]) = 0
      ∧ sp_matrix_solve_cg_zero_division test_solver_mtx_reordered 3 (1e-15) 20000
          (sp_matrix_solve_cg_init test_solver_mtx_reordered [0, 1, 0] [0, 1, 0] [0, 0, 0])
          = true := by
  refine ⟨?_, ?_, ?_, ?_, ?_, ?_⟩ <;> decide!

/-- C21, as the code has it. In `sp_matrix_solve_cg` the division by
`(p, A*p)` has no guard: every pass, whatever the sign of `(p, A*p)`,
computes `alpha = (r,r)/(p,A*p)` and updates `x` to `x + alpha*p` and `r`
to `r - alpha*A*p`; the loop then ends at the convergence test or goes on
with the next pass, and with `(p, A*p) = 0` the division by zero is made. -/
theorem C21_cg_division_unguarded (self : sp_matrix) (hwf : sp_matrix_wf self)
    (hsq : self.cols_count = self.rows_count) (s : cg_vars)
    (hs : cg_vars_ok self.rows_count.toNat s) (tol : ℚ) (m : ℕ) :
    cg_denominator self self.rows_count.toNat s
        = Matrix.dotProduct (vec self.rows_count.toNat s.p)
            ((sp_matrix_dense self self.rows_count.toNat).mulVec
              (vec self.rows_count.toNat s.p))
      ∧ vec self.rows_count.toNat (cg_update self self.rows_count.toNat s).1.x
          = vec self.rows_count.toNat s.x
            + (Matrix.dotProduct (vec self.rows_count.toNat s.r) (vec self.rows_count.toNat s.r)
                / cg_denominator self self.rows_count.toNat s)
              • vec self.rows_count.toNat s.p
      ∧ vec self.rows_count.toNat (cg_update self self.rows_count.toNat s).1.r
          = vec self.rows_count.toNat s.r
            - (Matrix.dotProduct (vec self.rows_count.toNat s.r) (vec self.rows_count.toNat s.r)
                / cg_denominator self self.rows_count.toNat s)
              • (sp_matrix_dense self self.rows_count.toNat).mulVec
                  (vec self.rows_count.toNat s.p)
      ∧ sp_matrix_solve_cg_loop self self.rows_count.toNat tol (m + 1) s
          = (if (cg_update self self.rows_count.toNat s).1.residn < tol then
              (cg_update self self.rows_count.toNat s).1
            else sp_matrix_solve_cg_loop self self.rows_count.toNat tol m
              (cg_next self self.rows_count.toNat s))
      ∧ (cg_denominator self self.rows_count.toNat s = 0 →
          sp_matrix_solve_cg_zero_division self self.rows_count.toNat tol (m + 1) s = true) := by
  obtain ⟨_, _, _, u2, uden, ux, ur, _⟩ := cg_update_spec self hwf hsq s hs
  refine ⟨uden, ?_, ?_, sp_matrix_solve_cg_loop_succ _ _ _ _ _, ?_⟩
  · rw [ux, u2]
  · rw [ur, u2]
  · intro h0
    unfold sp_matrix_solve_cg_zero_division
    rw [if_pos h0]

/-- C21 as the code has it, at the 1x1 matrix `(-1)` when the loop is
entered with `b = x0 = (1)`. -/
theorem C21_cg_division_unguarded_witness :
    sp_matrix_wf cg_negative_mtx
      ∧ cg_vars_ok cg_negative_mtx.rows_count.toNat
          (sp_matrix_solve_cg_init cg_negative_mtx [1] [1] [0])
      ∧ cg_denominator cg_negative_mtx cg_negative_mtx.rows_count.toNat
            (sp_matrix_solve_cg_init cg_negative_mtx [1] [1] [0])
          = Matrix.dotProduct
              (vec cg_negative_mtx.rows_count.toNat
                (sp_matrix_solve_cg_init cg_negative_mtx [1] [1] [0]).p)
              ((sp_matrix_dense cg_negative_mtx cg_negative_mtx.rows_count.toNat).mulVec
                (vec cg_negative_mtx.rows_count.toNat
                  (sp_matrix_solve_cg_init cg_negative_mtx [1] [1] [0]).p)) :=
  ⟨by decide!, ⟨rfl, rfl, rfl, rfl⟩,
    (C21_cg_division_unguarded cg_negative_mtx (by decide!) (by decide!)
      (sp_matrix_solve_cg_init cg_negative_mtx [1] [1] [0]) ⟨rfl, rfl, rfl, rfl⟩ 1e-15 0).1⟩

/-! ## C25: the tables of Gauss nodes -/

/-- C25. The tables of Gauss nodes of TETRAHEDRA10, their constants read as
rationals: each of the 4 rows of `gauss_nodes4_tetr10` has the weight
`1/24`; `gauss_nodes5_tetr10` has one row at `(1/4, 1/4, 1/4)` with the
weight `-4/30` and four rows with the weight `9/120` whose barycentric
coordinates `(1-r-s-t, r, s, t)` are permutations of
`(1/2, 1/6, 1/6, 1/6)`; in both tables the weights add up to `1/6`. -/
theorem C25_gauss_tables :
    gauss_nodes4_tetr10.length = 4
      ∧ (∀ g : ℕ, g < 4 → (gauss_nodes4_tetr10.getD g []).getD 0 0 = 1 / 24)
      ∧ gauss_nodes5_tetr10.length = 5
      ∧ gauss_nodes5_tetr10.getD 0 [] = [-4 / 30, 1 / 4, 1 / 4, 1 / 4]
      ∧ (∀ g : ℕ, g < 5 → 1 ≤ g →
          (gauss_nodes5_tetr10.getD g []).getD 0 0 = 9 / 120
            ∧ (gauss_node_barycentric (gauss_nodes5_tetr10.getD g [])).Perm
                [1 / 2, 1 / 6, 1 / 6, 1 / 6])
      ∧ (gauss_nodes4_tetr10.map (fun row => row.getD 0 0)).sum = 1 / 6
      ∧ (gauss_nodes5_tetr10.map (fun row => row.getD 0 0)).sum = 1 / 6 := by
  refine ⟨?_, ?_, ?_, ?_, ?_, ?_, ?_⟩ <;> decide!

/-! ## C27: the shape functions at the nodes -/

/-- C27. The shape functions of TETRAHEDRA10 interpolate at the nodes of
the element in its local order (corners `0..3` at `(0,0,0)`, `(1,0,0)`,
`(0,1,0)`, `(0,0,1)`, then the middles of the edges `0-1, 1-2, 0-2, 0-3,
1-3, 2-3`): `tetrahedra10_isoform(a, r_b, s_b, t_b)` is `1` for `a = b` and
`0` otherwise, for all `a, b` in `0..9`. -/
theorem C27_isoform_at_nodes :
    tetrahedra10_nodes.length = 10
      ∧ ∀ a : ℕ, a < 10 → ∀ b : ℕ, b < 10 →
          tetrahedra10_isoform (a : Int) (tetrahedra10_nodes.getD b (0, 0, 0)).1
              (tetrahedra10_nodes.getD b (0, 0, 0)).2.1 (tetrahedra10_nodes.getD b (0, 0, 0)).2.2
            = if a = b then 1 else 0 := by
  refine ⟨?_, ?_⟩ <;> decide!

/-! ## C26: the axes of a prescribed node -/

theorem solver_apply_bcs_append (bcs1 bcs2 : List (Int × ℚ)) :
    ∀ self : fea_solver,
      solver_apply_bcs self (bcs1 ++ bcs2)
        = (solver_apply_bcs self bcs1).bind (fun self1 => solver_apply_bcs self1 bcs2) := by
  induction bcs1 with
  | nil => intro self; rfl
  | cons bc bcs ih =>
    intro self
    simp only [List.cons_append, solver_apply_bcs]
    cases solver_apply_single_bc self bc.1 bc.2 with
    | none => rfl
    | some self1 => exact ih self1

theorem solver_apply_bcs_cons (self : fea_solver) (bc : Int × ℚ) (bcs : List (Int × ℚ)) :
    solver_apply_bcs self (bc :: bcs)
      = (solver_apply_single_bc self bc.1 bc.2).bind (fun self1 => solver_apply_bcs self1 bcs) := by
  simp only [solver_apply_bcs]
  cases solver_apply_single_bc self bc.1 bc.2 <;> rfl

theorem solver_apply_bcs_nil (self : fea_solver) : solver_apply_bcs self [] = some self := rfl

/-- One prescribed node with three degrees of freedom: the calls of
`solver_apply_single_bc` are those of `prescribed_dofs`, in the order
`x, y, z`. -/
theorem solver_apply_prescribed_bc_node_eq (presc0 : List ℚ) (node : prescibed_boundary_node)
    (hv : node.values.length = 3) (hm : 0 ≤ node.type ∧ node.type ≤ 7) (self : fea_solver) :
    solver_apply_prescribed_bc_node 3 presc0 node self
      = solver_apply_bcs self (prescribed_dofs node) := by
  obtain ⟨n, v, m⟩ := node
  have hpresc : ∀ a : ℕ, a < 3 → (memcpy presc0 v ((3 : ℕ) : Int)).getD a 0 = v.getD a 0 := by
    intro a ha
    unfold memcpy
    simp only [Int.toNat_ofNat]
    rw [List.take_of_length_le (by simp at hv; omega)]
    simp only [List.getD_eq_getElem?_getD]
    rw [List.getElem?_append_left (by simp at hv; omega)]
  simp only at hm hv
  have hcases : m = 0 ∨ m = 1 ∨ m = 2 ∨ m = 3 ∨ m = 4 ∨ m = 5 ∨ m = 6 ∨ m = 7 := by omega
  have e0 : n * ((3 : ℕ) : Int) + 0 = 3 * n + ((0 : ℕ) : Int) := by push_cast; ring
  have e1 : n * ((3 : ℕ) : Int) + 1 = 3 * n + ((1 : ℕ) : Int) := by push_cast; ring
  have e2 : n * ((3 : ℕ) : Int) + 2 = 3 * n + ((2 : ℕ) : Int) := by push_cast; ring
  have hr : List.range 3 = [0, 1, 2] := rfl
  unfold solver_apply_prescribed_bc_node prescribed_dofs
  simp only [hpresc 0 (by omega), hpresc 1 (by omega), hpresc 2 (by omega), e0, e1, e2, hr]
  rcases hcases with h | h | h | h | h | h | h | h <;> subst h <;>
    simp [PRESCRIBEDX, PRESCRIBEDY, PRESCRIBEDZ, PRESCRIBEDXY, PRESCRIBEDXZ, PRESCRIBEDYZ,
      PRESCRIBEDXYZ, List.filter, solver_apply_bcs_cons, solver_apply_bcs_nil, Nat.testBit,
      Option.bind_assoc, -List.getD_eq_getElem?_getD]

/-- The loop over the prescribed nodes makes the calls of
`solver_apply_single_bc` for the prescribed dofs of the nodes, node after
node. -/
theorem solver_apply_prescribed_bc_eq (presc0 : List ℚ)
    (nodes : List prescibed_boundary_node)
    (hn : ∀ node ∈ nodes, node.values.length = 3 ∧ 0 ≤ node.type ∧ node.type ≤ 7)
    (self : fea_solver) :
    solver_apply_prescribed_bc 3 presc0 nodes self
      = solver_apply_bcs self (nodes.map prescribed_dofs).flatten := by
  induction nodes using List.reverseRecOn with
  | nil => rfl
  | append_singleton nodes node ih =>
    have ih1 := ih (fun x hx => hn x (List.mem_append_left _ hx))
    have hnode := hn node (List.mem_append_right _ (List.mem_singleton_self _))
    unfold solver_apply_prescribed_bc at ih1 ⊢
    rw [List.length_append, List.length_singleton, loop_abort_succ]
    have hloop : loop_abort nodes.length
        (fun i self => solver_apply_prescribed_bc_node 3 presc0
          ((nodes ++ [node]).getD i default) self) self
        = loop_abort nodes.length
          (fun i self => solver_apply_prescribed_bc_node 3 presc0
            (nodes.getD i default) self) self := by
      have hgen : ∀ k : ℕ, k ≤ nodes.length →
          loop_abort k
            (fun i self => solver_apply_prescribed_bc_node 3 presc0
              ((nodes ++ [node]).getD i default) self) self
          = loop_abort k
            (fun i self => solver_apply_prescribed_bc_node 3 presc0
              (nodes.getD i default) self) self := by
        intro k hk
        induction k with
        | zero => rfl
        | succ k ihk =>
          rw [loop_abort_succ, loop_abort_succ, ihk (by omega)]
          have : (nodes ++ [node]).getD k default = nodes.getD k default := by
            simp only [List.getD_eq_getElem?_getD]
            rw [List.getElem?_append_left (by omega)]
          rw [this]
      exact hgen _ (le_refl _)
    have hlast : (nodes ++ [node]).getD nodes.length default = node := by
      simp [List.getD_eq_getElem?_getD]
    rw [hloop, ih1, hlast, List.map_append, List.flatten_append, solver_apply_bcs_append]
    simp only [List.map_cons, List.map_nil, List.flatten_cons, List.flatten_nil, List.append_nil]
    congr 1
    funext self1
    exact solver_apply_prescribed_bc_node_eq presc0 node hnode.1 hnode.2 self1

/-- C26. With three degrees of freedom per node, for every
prescribed-boundary record (node `n`, values `v[0..2]`, type `m` in `0..7`)
`solver_apply_prescribed_bc` calls `solver_apply_single_bc` for the global
index `3*n + a` with the value `v[a]` exactly for the axes `a` in
`0, 1, 2` whose bit `2^a` is set in `m`, in this order; the values of the
other axes are not used, and a record of type `0` leaves the system as it
is. For an array of records the calls are made record after record. -/
theorem C26_prescribed_axes (presc0 : List ℚ) (nodes : List prescibed_boundary_node)
    (hn : ∀ node ∈ nodes, node.values.length = 3 ∧ 0 ≤ node.type ∧ node.type ≤ 7)
    (self : fea_solver) :
    solver_apply_prescribed_bc 3 presc0 nodes self
        = solver_apply_bcs self (nodes.map prescribed_dofs).flatten
      ∧ (∀ node ∈ nodes, ∀ self1 : fea_solver,
          solver_apply_prescribed_bc_node 3 presc0 node self1
            = solver_apply_bcs self1
                (((List.range 3).filter (fun a => node.type.toNat.testBit a)).map
                  (fun (a : ℕ) => (3 * node.node_number + (a : Int), node.values.getD a 0))))
      ∧ ∀ node ∈ nodes, node.type = 0 → ∀ self1 : fea_solver,
          solver_apply_prescribed_bc_node 3 presc0 node self1 = some self1 := by
  refine ⟨solver_apply_prescribed_bc_eq presc0 nodes hn self, ?_, ?_⟩
  · intro node hnode self1
    exact solver_apply_prescribed_bc_node_eq presc0 node (hn node hnode).1 (hn node hnode).2 self1
  · intro node hnode h0 self1
    rw [solver_apply_prescribed_bc_node_eq presc0 node (hn node hnode).1 (hn node hnode).2 self1]
    unfold prescribed_dofs
    rw [h0]
    rfl

/-- C26 at the system of `test_solver`: node `0` with the values
`(1, 5, 6)` and the type `PRESCRIBEDX`. -/
theorem C26_prescribed_axes_witness :
    (∀ node ∈ [(⟨0, [1, 5, 6], 1⟩ : prescibed_boundary_node)],
        node.values.length = 3 ∧ 0 ≤ node.type ∧ node.type ≤ 7)
      ∧ solver_apply_prescribed_bc 3 [0, 0, 0] [⟨0, [1, 5, 6], 1⟩] test_solver_bc
          = solver_apply_bcs test_solver_bc
              (([(⟨0, [1, 5, 6], 1⟩ : prescibed_boundary_node)]).map prescribed_dofs).flatten :=
  ⟨by decide,
    (C26_prescribed_axes [0, 0, 0] [⟨0, [1, 5, 6], 1⟩] (by decide) test_solver_bc).1⟩

/-! ## C30: the inverse of a 3x3 matrix -/

/-- The claim C30 fails at `diag(2^-1022, 1, 1)`: the determinant is
`DBL_MIN`, which is not zero, and `inv3x3` returns `FALSE` and leaves the
matrix as it is. -/
theorem C30_counterexample :
    det3x3 inv3x3_tiny = DBL_MIN ∧ det3x3 inv3x3_tiny ≠ 0
      ∧ inv3x3 inv3x3_tiny = (false, inv3x3_tiny, DBL_MIN) := by
  refine ⟨?_, ?_, ?_⟩ <;> decide!

theorem cell_matrix3 (a b c d e f g h k : ℚ) :
    cell [[a, b, c], [d, e, f], [g, h, k]] 0 0 = a
      ∧ cell [[a, b, c], [d, e, f], [g, h, k]] 0 1 = b
      ∧ cell [[a, b, c], [d, e, f], [g, h, k]] 0 2 = c
      ∧ cell [[a, b, c], [d, e, f], [g, h, k]] 1 0 = d
      ∧ cell [[a, b, c], [d, e, f], [g, h, k]] 1 1 = e
      ∧ cell [[a, b, c], [d, e, f], [g, h, k]] 1 2 = f
      ∧ cell [[a, b, c], [d, e, f], [g, h, k]] 2 0 = g
      ∧ cell [[a, b, c], [d, e, f], [g, h, k]] 2 1 = h
      ∧ cell [[a, b, c], [d, e, f], [g, h, k]] 2 2 = k :=
  ⟨rfl, rfl, rfl, rfl, rfl, rfl, rfl, rfl, rfl⟩

/-- The matrix that `inv3x3` leaves when it returns `TRUE`: the nine stores
fill a 3x3 matrix with the cofactors over the determinant. -/
theorem inv3x3_eq (a b c d e f g h k : ℚ)
    (hdet : DBL_MIN < |det3x3 [[a, b, c], [d, e, f], [g, h, k]]|) :
    inv3x3 [[a, b, c], [d, e, f], [g, h, k]]
      = (true,
          [ [(e * k - f * h) / det3x3 [[a, b, c], [d, e, f], [g, h, k]],
              (c * h - b * k) / det3x3 [[a, b, c], [d, e, f], [g, h, k]],
              (b * f - c * e) / det3x3 [[a, b, c], [d, e, f], [g, h, k]]],
            [(f * g - d * k) / det3x3 [[a, b, c], [d, e, f], [g, h, k]],
              (a * k - c * g) / det3x3 [[a, b, c], [d, e, f], [g, h, k]],
              (c * d - a * f) / det3x3 [[a, b, c], [d, e, f], [g, h, k]]],
            [(d * h - e * g) / det3x3 [[a, b, c], [d, e, f], [g, h, k]],
              (b * g - a * h) / det3x3 [[a, b, c], [d, e, f], [g, h, k]],
              (a * e - b * d) / det3x3 [[a, b, c], [d, e, f], [g, h, k]]] ],
          det3x3 [[a, b, c], [d, e, f], [g, h, k]]) := by
  obtain ⟨c00, c01, c02, c10, c11, c12, c20, c21, c22⟩ := cell_matrix3 a b c d e f g h k
  have hE : ¬ (EQL (det3x3 [[a, b, c], [d, e, f], [g, h, k]]) 0 = true) := by
    unfold EQL
    rw [decide_eq_true_eq, sub_zero]
    exact not_le.2 hdet
  unfold inv3x3
  simp only [if_neg hE, c00, c01, c02, c10, c11, c12, c20, c21, c22]
  rfl

/-- With a determinant of absolute value at most `DBL_MIN`, `inv3x3`
returns `FALSE` and leaves the matrix as it is. -/
theorem inv3x3_singular (m : List (List ℚ)) (hdet : |det3x3 m| ≤ DBL_MIN) :
    inv3x3 m = (false, m, det3x3 m) := by
  unfold inv3x3
  have hE : EQL (det3x3 m) 0 = true := by
    unfold EQL
    rw [decide_eq_true_eq, sub_zero]
    exact hdet
  simp only [if_pos hE]

/-- C30, as the code has it. For every 3x3 matrix `m` whose determinant
`det3x3(m)` is larger than `DBL_MIN` in absolute value, `inv3x3` returns
`TRUE`, stores `det3x3(m)` through `det` and replaces `m` by a matrix `m1`
with `m * m1 = m1 * m = 1` (exact arithmetic). -/
theorem C30_inv3x3_inverse (a b c d e f g h k : ℚ)
    (hdet : DBL_MIN < |det3x3 [[a, b, c], [d, e, f], [g, h, k]]|) :
    (inv3x3 [[a, b, c], [d, e, f], [g, h, k]]).1 = true
      ∧ (inv3x3 [[a, b, c], [d, e, f], [g, h, k]]).2.2
          = det3x3 [[a, b, c], [d, e, f], [g, h, k]]
      ∧ ∀ i : ℕ, i < 3 → ∀ j : ℕ, j < 3 →
          (∑ l in Finset.range 3, cell [[a, b, c], [d, e, f], [g, h, k]] i l
              * cell (inv3x3 [[a, b, c], [d, e, f], [g, h, k]]).2.1 l j)
            = (if i = j then 1 else 0)
          ∧ (∑ l in Finset.range 3, cell (inv3x3 [[a, b, c], [d, e, f], [g, h, k]]).2.1 i l
              * cell [[a, b, c], [d, e, f], [g, h, k]] l j)
            = (if i = j then 1 else 0) := by
  have hD : det3x3 [[a, b, c], [d, e, f], [g, h, k]]
      = a * (e * k - f * h) - b * (d * k - f * g) + c * (d * h - e * g) := rfl
  have hpos : (0 : ℚ) < DBL_MIN := by
    unfold DBL_MIN
    positivity
  have hD0 : a * (e * k - f * h) - b * (d * k - f * g) + c * (d * h - e * g) ≠ 0 := by
    intro hc
    rw [hD, hc, abs_zero] at hdet
    exact absurd hdet (not_lt.2 (le_of_lt hpos))
  rw [inv3x3_eq a b c d e f g h k hdet, hD]
  refine ⟨rfl, rfl, ?_⟩
  intro i hi j hj
  interval_cases i <;> interval_cases j <;>
    simp only [Finset.sum_range_succ, Finset.sum_range_zero, zero_add, cell_matrix3] <;>
    constructor <;> simp <;> field_simp <;> ring

/-- C30 as the code has it, at the matrix `diag(2, 1, 1)`. -/
theorem C30_inv3x3_inverse_witness :
    DBL_MIN < |det3x3 [[2, 0, 0], [0, 1, 0], [0, 0, 1]]|
      ∧ inv3x3 [[2, 0, 0], [0, 1, 0], [0, 0, 1]]
          = (true, [[1 / 2, 0, 0], [0, 1, 0], [0, 0, 1]], 2)
      ∧ (inv3x3 [[2, 0, 0], [0, 1, 0], [0, 0, 1]]).1 = true :=
  ⟨by decide!, by decide!, (C30_inv3x3_inverse 2 0 0 0 1 0 0 0 1 (by decide!)).1⟩

/-! ## The derivatives of the shape functions -/

/-- A function that is a polynomial of degree two around `r`, with the
linear coefficient `d`, has the derivative `d` at `r`. -/
theorem hasDerivAt_of_quadratic (f : ℚ → ℚ) (r d A : ℚ)
    (_hA : A = (f (r + 1) + f (r - 1) - 2 * f r) / 2)
    (h : ∀ x : ℚ, f x = f r + (x - r) * d + A * (x - r) ^ 2) : HasDerivAt f d r := by
  have h1 : HasDerivAt (fun x : ℚ => x - r) 1 r := (hasDerivAt_id r).sub_const r
  have h2 := ((h1.mul_const d).add ((h1.pow 2).const_mul A)).const_add (f r)
  have h3 : f = fun x : ℚ => f r + ((x - r) * d + A * (x - r) ^ 2) := by
    funext x
    rw [h x]
    ring
  rw [h3]
  convert h2 using 1
  simp

/-- C32. For every node `a` in `0..9`, every `d` in `{0, 1, 2}` and every
point `(r, s, t)`, `tetrahedra10_disoform(a, d, r, s, t)` is the partial
derivative of `tetrahedra10_isoform(a, r, s, t)` with respect to the `d`-th
of the parent coordinates `(r, s, t)`: the derivative at that point of the
shape function as a function of this coordinate, the other two being
fixed. -/
theorem C32_disoform_is_derivative (a : Int) (ha : 0 ≤ a ∧ a ≤ 9) (r s t : ℚ) :
    HasDerivAt (fun x : ℚ => tetrahedra10_isoform a x s t) (tetrahedra10_disoform a 0 r s t) r
      ∧ HasDerivAt (fun x : ℚ => tetrahedra10_isoform a r x t)
          (tetrahedra10_disoform a 1 r s t) s
      ∧ HasDerivAt (fun x : ℚ => tetrahedra10_isoform a r s x)
          (tetrahedra10_disoform a 2 r s t) t := by
  obtain ⟨h0, h9⟩ := ha
  interval_cases a
  all_goals
    refine ⟨hasDerivAt_of_quadratic _ _ _ _ rfl (fun x => ?_),
      hasDerivAt_of_quadratic _ _ _ _ rfl (fun x => ?_),
      hasDerivAt_of_quadratic _ _ _ _ rfl (fun x => ?_)⟩
  all_goals
    simp only [tetrahedra10_isoform, tetrahedra10_disoform, tetrahedra10_df_dr,
      tetrahedra10_df_ds, tetrahedra10_df_dt, Int.reduceEq, if_true, if_false]
    ring

/-- C32 at the node `4`, the middle of the edge `0-1`, and the point
`(1/4, 1/4, 1/4)`. -/
theorem C32_disoform_is_derivative_witness :
    ((0 : Int) ≤ 4 ∧ (4 : Int) ≤ 9)
      ∧ HasDerivAt (fun x : ℚ => tetrahedra10_isoform 4 x (1 / 4) (1 / 4))
          (tetrahedra10_disoform 4 0 (1 / 4) (1 / 4) (1 / 4)) (1 / 4)
      ∧ HasDerivAt (fun x : ℚ => tetrahedra10_isoform 4 (1 / 4) x (1 / 4))
          (tetrahedra10_disoform 4 1 (1 / 4) (1 / 4) (1 / 4)) (1 / 4)
      ∧ HasDerivAt (fun x : ℚ => tetrahedra10_isoform 4 (1 / 4) (1 / 4) x)
          (tetrahedra10_disoform 4 2 (1 / 4) (1 / 4) (1 / 4)) (1 / 4) :=
  ⟨by decide, C32_disoform_is_derivative 4 (by decide) (1 / 4) (1 / 4) (1 / 4)⟩

/-- C37. The ten shape functions of TETRAHEDRA10 form a partition of unity:
at every point `(r, s, t)` the sum over `a = 0..9` of
`tetrahedra10_isoform(a, r, s, t)` is `1`, and for each `d` in `{0, 1, 2}` the
sum over `a` of `tetrahedra10_disoform(a, d, r, s, t)` is `0`. -/
theorem C37_partition_of_unity (r s t : ℚ) :
    ∑ a in Finset.range 10, tetrahedra10_isoform (a : Int) r s t = 1
      ∧ ∑ a in Finset.range 10, tetrahedra10_disoform (a : Int) 0 r s t = 0
      ∧ ∑ a in Finset.range 10, tetrahedra10_disoform (a : Int) 1 r s t = 0
      ∧ ∑ a in Finset.range 10, tetrahedra10_disoform (a : Int) 2 r s t = 0 := by
  refine ⟨?_, ?_, ?_, ?_⟩
  all_goals
    simp only [Finset.sum_range_succ, Finset.sum_range_zero, tetrahedra10_isoform,
      tetrahedra10_disoform, tetrahedra10_df_dr, tetrahedra10_df_ds, tetrahedra10_df_dt]
    norm_num
    ring

/-! ## `sp_matrix_reorder` keeps the matrix -/

theorem list_ext_getD_gen {α : Type} (d : α) (a b : List α) (hl : a.length = b.length)
    (h : ∀ m : ℕ, m < a.length → a.getD m d = b.getD m d) : a = b := by
  apply List.ext_getElem hl
  intro m h1 h2
  have := h m h1
  rw [List.getD_eq_getElem _ _ h1, List.getD_eq_getElem _ _ h2] at this
  exact this

/-- A rearrangement of the used slots of a well-formed row keeps what the
row holds for every column. -/
theorem indexed_array_permuted_get (cols : Int) (row row1 : indexed_array)
    (hwf : indexed_array_wf cols row)
    (h : indexed_array_permuted row row1 0 row.last_index) (j : Int) :
    indexed_array_get row1 j = indexed_array_get row j := by
  have hwf1 := indexed_array_permuted_wf cols row row1 hwf h
  obtain ⟨_, a2, _, _, σ, hσ, hσ'⟩ := h
  have hm := perm_maps_range σ 0 row.last_index hσ
  have hσs : ∀ k : ℕ, ((k : Int) < 0 ∨ row.last_index < (k : Int)) → σ.symm k = k := by
    intro k hk
    have := hσ k hk
    exact (Equiv.symm_apply_eq σ).2 this.symm
  have hms := perm_maps_range σ.symm 0 row.last_index hσs
  unfold indexed_array_get
  cases hfind : indexed_array_find row j with
  | none =>
    rw [indexed_array_find_eq_none] at hfind
    have : indexed_array_find row1 j = none := by
      rw [indexed_array_find_eq_none]
      intro k hk
      rw [a2] at hk
      rw [(hσ' k).1]
      exact hfind (σ k) (hm k (by omega)).2
    rw [this]
    rfl
  | some k =>
    rw [indexed_array_find_eq_some] at hfind
    obtain ⟨h1, h2, _⟩ := hfind
    have hk1 := hms k (by omega)
    have hidx : row1.indexes.getD (σ.symm k) 0 = j := by
      rw [(hσ' (σ.symm k)).1, Equiv.apply_symm_apply]
      exact h2
    have : indexed_array_find row1 j = some (σ.symm k) := by
      rw [indexed_array_find_eq_some]
      refine ⟨by rw [a2]; exact hk1.2, hidx, ?_⟩
      intro k' hk'
      rw [← hidx]
      exact hwf1.nodup (σ.symm k) (by rw [a2]; have := hk1.2; omega) k' hk'
    rw [this]
    simp only [Option.map_some']
    rw [(hσ' (σ.symm k)).2, Equiv.apply_symm_apply]

/-- Function `sp_matrix_reorder` keeps what `sp_matrix_get` reads. -/
theorem sp_matrix_reorder_get (M M1 : sp_matrix) (hwf : sp_matrix_wf M)
    (h : sp_matrix_reorder M = some M1) (i j : Int) :
    sp_matrix_get M1 i j = sp_matrix_get M i j := by
  obtain ⟨M2, h1, h2, h3, _, _, h6⟩ := sp_matrix_reorder_spec M hwf
  rw [h] at h1
  injection h1 with h1
  subst h1
  rw [sp_matrix_get_eq, sp_matrix_get_eq, h2, h3]
  split
  · rename_i hin
    exact indexed_array_permuted_get M.cols_count _ _ (hwf.rows_wf i.toNat (by omega))
      (h6 i.toNat (by omega)).1 j
  · rfl

theorem sp_matrix_get_isSome (M : sp_matrix) (i j : Int) :
    (sp_matrix_get M i j).isSome = (sp_matrix_element M i j).isSome := by
  unfold sp_matrix_get
  cases sp_matrix_element M i j <;> rfl

/-- A rearrangement of the used slots of a strictly increasing row that is
sorted again is the row itself. -/
theorem indexed_array_permuted_sorted_eq (cols : Int) (row row1 : indexed_array)
    (hwf : indexed_array_wf cols row) (hs : indexed_array_sorted row 0 row.last_index)
    (h : indexed_array_permuted row row1 0 row.last_index)
    (hs1 : indexed_array_sorted row1 0 row.last_index) : row1 = row := by
  have hwf1 := indexed_array_permuted_wf cols row row1 hwf h
  obtain ⟨a1, a2, a3, a4, σ, hσ, hσ'⟩ := h
  have hm := perm_maps_range σ 0 row.last_index hσ
  have hstrict := indexed_array_sorted_strict cols row hwf hs
  have hstrict1 : ∀ k k' : ℕ, k < k' → (k' : Int) ≤ row.last_index →
      row1.indexes.getD k 0 < row1.indexes.getD k' 0 := by
    intro k k' hk hk'
    exact indexed_array_sorted_strict cols row1 hwf1 (by rw [a2]; exact hs1) k k' hk
      (by rw [a2]; exact hk')
  -- the rearrangement is increasing on the used slots
  have hmono : ∀ k k' : ℕ, k < k' → (k' : Int) ≤ row.last_index → σ k < σ k' := by
    intro k k' hk hk'
    have h1 := hstrict1 k k' hk hk'
    rw [(hσ' k).1, (hσ' k').1] at h1
    by_contra hcon
    have hle : σ k' ≤ σ k := by omega
    rcases Nat.lt_or_eq_of_le hle with hlt | heq
    · have := hstrict (σ k') (σ k) hlt (hm k (by omega)).2
      omega
    · rw [heq] at h1
      omega
  have hge : ∀ k : ℕ, (k : Int) ≤ row.last_index → k ≤ σ k := by
    intro k
    induction k with
    | zero => intro _; omega
    | succ k ih =>
      intro hk
      have := ih (by omega)
      have := hmono k (k + 1) (by omega) hk
      omega
  have hle : ∀ d k : ℕ, (k : Int) + d = row.last_index → σ k ≤ k := by
    intro d
    induction d with
    | zero =>
      intro k hk
      have := (hm k (by omega)).2
      omega
    | succ d ih =>
      intro k hk
      have := ih (k + 1) (by push_cast; push_cast at hk; omega)
      have := hmono k (k + 1) (by omega) (by omega)
      omega
  have hid : ∀ k : ℕ, σ k = k := by
    intro k
    by_cases hk : (k : Int) ≤ row.last_index
    · have h1 := hge k hk
      have h2 := hle (row.last_index - (k : Int)).toNat k (by omega)
      omega
    · exact hσ k (Or.inr (by omega))
  have hi : row1.indexes = row.indexes := by
    apply list_ext_getD_gen 0 _ _ a3
    intro m _
    rw [(hσ' m).1, hid]
  have hv : row1.values = row.values := by
    apply list_ext_getD_gen 0 _ _ a4
    intro m _
    rw [(hσ' m).2, hid]
  cases row
  cases row1
  simp only at a1 a2 hi hv
  simp only [indexed_array.mk.injEq]
  exact ⟨a1, a2, hi, hv⟩

/-- Function `sp_matrix_reorder` leaves a matrix with sorted rows and the flag
`ordered` set as it is. -/
theorem sp_matrix_reorder_sorted (M : sp_matrix) (hwf : sp_matrix_wf M)
    (hord : M.ordered = true)
    (hs : ∀ i : ℕ, i < M.rows_count.toNat → indexed_array_sorted (M.row i) 0 (M.row i).last_index) :
    sp_matrix_reorder M = some M := by
  obtain ⟨M1, h1, h2, h3, h4, h5, h6⟩ := sp_matrix_reorder_spec M hwf
  rw [h1]
  have hrows : M1.rows = M.rows := by
    apply list_ext_getD_gen default _ _ h5
    intro m hm
    rw [h5, hwf.rows_len] at hm
    exact indexed_array_permuted_sorted_eq M.cols_count _ _ (hwf.rows_wf m hm) (hs m hm)
      (h6 m hm).1 (h6 m hm).2
  cases M
  cases M1
  simp only at h2 h3 h4 hrows hord
  simp only [Option.some.injEq, sp_matrix.mk.injEq]
  exact ⟨h2, h3, hrows, by rw [h4, hord]⟩

/-- Function `sp_matrix_reorder` is idempotent. -/
theorem sp_matrix_reorder_idem (M M1 : sp_matrix) (hwf : sp_matrix_wf M)
    (h : sp_matrix_reorder M = some M1) : sp_matrix_reorder M1 = some M1 := by
  obtain ⟨M2, h1, h2, _, h4, _, h6⟩ := sp_matrix_reorder_spec M hwf
  rw [h] at h1
  injection h1 with h1
  subst h1
  apply sp_matrix_reorder_sorted M1 (sp_matrix_reorder_wf M M1 hwf h) h4
  intro i hi
  rw [h2] at hi
  rw [(h6 i hi).1.2.1]
  exact (h6 i hi).2

/-- Function `sp_matrix_mv` gives the same product for two well-formed matrices
of the same size that read the same. -/
theorem sp_matrix_mv_congr (M M1 : sp_matrix) (hwf : sp_matrix_wf M) (hwf1 : sp_matrix_wf M1)
    (hr : M1.rows_count = M.rows_count) (hc : M1.cols_count = M.cols_count)
    (hget : ∀ i j : Int, sp_matrix_get M1 i j = sp_matrix_get M i j)
    (x y : List ℚ) (hy : y.length = M.rows_count.toNat) :
    sp_matrix_mv M1 x y = sp_matrix_mv M x y := by
  obtain ⟨l1, v1⟩ := sp_matrix_mv_wf M1 hwf1 x y (by rw [hr]; exact hy)
  obtain ⟨l, v⟩ := sp_matrix_mv_wf M hwf x y hy
  apply list_ext_getD _ _ (by rw [l1, l, hr])
  intro m hm
  rw [l1] at hm
  rw [v1 m hm, v m (by rw [← hr]; exact hm), hc]
  apply Finset.sum_congr rfl
  intro j _
  unfold sp_matrix_value
  rw [hget]

/-- C35. Function `sp_matrix_reorder` does not change the matrix it represents:
for every sparse matrix `M` reached from `init_sp_matrix` by calls of
`sp_matrix_element_add` and `sp_matrix_reorder` the call returns a matrix `M1`
such that for every `(i, j)` `sp_matrix_element` finds an element after the
call exactly when it finds one before, with the same value; the (index,
value) pairs of each row are permuted together, `last_index` and `width`
being unchanged; a second `sp_matrix_reorder` leaves `M1` as it is; and
`sp_matrix_mv` gives the same product before and after. -/
theorem C35_reorder_preserves_matrix (rows cols bandwidth : Int)
    (ops : List sp_matrix_op) (M : sp_matrix)
    (hM : sp_matrix_run (init_sp_matrix rows cols bandwidth) ops = some M) :
    ∃ M1 : sp_matrix, sp_matrix_reorder M = some M1
      ∧ (∀ i j : Int,
          (sp_matrix_element M1 i j).isSome = (sp_matrix_element M i j).isSome
            ∧ sp_matrix_get M1 i j = sp_matrix_get M i j)
      ∧ (∀ i : ℕ, (i : Int) < M.rows_count →
          (M1.row i).last_index = (M.row i).last_index ∧ (M1.row i).width = (M.row i).width
            ∧ indexed_array_permuted (M.row i) (M1.row i) 0 (M.row i).last_index)
      ∧ sp_matrix_reorder M1 = some M1
      ∧ ∀ x y : List ℚ, y.length = M.rows_count.toNat →
          sp_matrix_mv M1 x y = sp_matrix_mv M x y := by
  have hwf : sp_matrix_wf M := sp_matrix_run_wf ops _ M (init_sp_matrix_wf _ _ _) hM
  obtain ⟨M1, h1, h2, h3, _, _, h6⟩ := sp_matrix_reorder_spec M hwf
  refine ⟨M1, h1, ?_, ?_, sp_matrix_reorder_idem M M1 hwf h1, ?_⟩
  · intro i j
    have hg := sp_matrix_reorder_get M M1 hwf h1 i j
    refine ⟨?_, hg⟩
    rw [← sp_matrix_get_isSome, ← sp_matrix_get_isSome, hg]
  · intro i hi
    have hp := (h6 i (by omega)).1
    exact ⟨hp.2.1, hp.1, hp⟩
  · intro x y hy
    exact sp_matrix_mv_congr M M1 hwf (sp_matrix_reorder_wf M M1 hwf h1) h2 h3
      (sp_matrix_reorder_get M M1 hwf h1) x y hy

/-- C35 at the matrix of `test_solver`. -/
theorem C35_reorder_preserves_matrix_witness :
    sp_matrix_run (init_sp_matrix 3 3 2) test_solver_ops = some test_solver_mtx
      ∧ ∃ M1 : sp_matrix, sp_matrix_reorder test_solver_mtx = some M1
        ∧ (∀ i j : Int,
            (sp_matrix_element M1 i j).isSome = (sp_matrix_element test_solver_mtx i j).isSome
              ∧ sp_matrix_get M1 i j = sp_matrix_get test_solver_mtx i j)
        ∧ (∀ i : ℕ, (i : Int) < test_solver_mtx.rows_count →
            (M1.row i).last_index = (test_solver_mtx.row i).last_index
              ∧ (M1.row i).width = (test_solver_mtx.row i).width
              ∧ indexed_array_permuted (test_solver_mtx.row i) (M1.row i) 0
                  (test_solver_mtx.row i).last_index)
        ∧ sp_matrix_reorder M1 = some M1
        ∧ ∀ x y : List ℚ, y.length = test_solver_mtx.rows_count.toNat →
            sp_matrix_mv M1 x y = sp_matrix_mv test_solver_mtx x y :=
  ⟨by decide!,
    C35_reorder_preserves_matrix 3 3 2 test_solver_ops test_solver_mtx (by decide!)⟩

/-! ## The scatter into the global matrix -/

/-- What `sp_matrix_element_add` changes in the matrix as `sp_matrix_get`
reads it. -/
theorem sp_matrix_element_add_get (M M1 : sp_matrix) (hwf : sp_matrix_wf M) (i j : Int) (v : ℚ)
    (h : sp_matrix_element_add M i j v = some M1) :
    M1.rows_count = M.rows_count ∧ M1.cols_count = M.cols_count
      ∧ ∀ a b : Int, sp_matrix_get M1 a b
          = if a = i ∧ b = j ∧ (0 ≤ i ∧ i < M.rows_count ∧ 0 ≤ j ∧ j < M.cols_count) then
              some (sp_matrix_value M i j + v)
            else sp_matrix_get M a b := by
  by_cases hin : 0 ≤ i ∧ i < M.rows_count ∧ 0 ≤ j ∧ j < M.cols_count
  · obtain ⟨h1, h2, h3, h4, h5⟩ := sp_matrix_element_add_spec M M1 i j v hwf hin h
    have hrow := hwf.rows_wf i.toNat (by omega)
    refine ⟨h1, h2, ?_⟩
    intro a b
    by_cases hab : a = i ∧ b = j
    · rw [if_pos ⟨hab.1, hab.2, hin⟩, hab.1, hab.2]
      unfold sp_matrix_value
      rw [sp_matrix_get_eq, sp_matrix_get_eq, h1, h2, if_pos hin, if_pos hin]
      exact indexed_array_added_get_self _ _ _ j v hrow h5
    · rw [if_neg (fun hc => hab ⟨hc.1, hc.2.1⟩)]
      rw [sp_matrix_get_eq, sp_matrix_get_eq, h1, h2]
      split
      · by_cases hii : a = i
        · subst hii
          have hjj : b ≠ j := fun hc => hab ⟨rfl, hc⟩
          exact indexed_array_added_get_other _ _ _ j b v hrow hjj h5
        · rw [h4 a.toNat (by omega)]
      · rfl
  · unfold sp_matrix_element_add at h
    rw [if_neg hin] at h
    injection h with h
    subst h
    refine ⟨rfl, rfl, ?_⟩
    intro a b
    rw [if_neg (fun hc => hin hc.2.2)]

/-- A loop whose passes keep an invariant, do not abort, add to the cells
that `rd` reads amounts that do not depend on the state and can only extend
what `st` holds of, all this for the cells in `dom`: the loop does not abort,
adds the sums of these amounts and extends `st` by what some pass adds. -/
theorem loop_abort_scatter {σ κ : Type} (inv : σ → Prop) (dom : κ → Prop) (rd : σ → κ → ℚ)
    (st : σ → κ → Prop) (n : ℕ) (f : ℕ → σ → Option σ) (w : ℕ → κ → ℚ) (hit : ℕ → κ → Prop)
    (hf : ∀ t : ℕ, t < n → ∀ s : σ, inv s →
      ∃ s1 : σ, f t s = some s1 ∧ inv s1
        ∧ (∀ c : κ, dom c → rd s1 c = rd s c + w t c)
        ∧ ∀ c : κ, dom c → (st s1 c ↔ st s c ∨ hit t c))
    (s : σ) (hs : inv s) :
    ∃ s1 : σ, loop_abort n f s = some s1 ∧ inv s1
      ∧ (∀ c : κ, dom c → rd s1 c = rd s c + ∑ t in Finset.range n, w t c)
      ∧ ∀ c : κ, dom c → (st s1 c ↔ st s c ∨ ∃ t : ℕ, t < n ∧ hit t c) := by
  induction n with
  | zero =>
    refine ⟨s, rfl, hs, fun c _ => by simp, fun c _ => ?_⟩
    constructor
    · exact fun h => Or.inl h
    · rintro (h | ⟨t, ht, _⟩)
      · exact h
      · omega
  | succ n ih =>
    obtain ⟨s1, h1, h2, h3, h4⟩ := ih (fun t ht => hf t (by omega))
    obtain ⟨s2, g1, g2, g3, g4⟩ := hf n (by omega) s1 h2
    refine ⟨s2, ?_, g2, ?_, ?_⟩
    · rw [loop_abort_succ, h1]
      exact g1
    · intro c hc
      rw [g3 c hc, h3 c hc, Finset.sum_range_succ, add_assoc]
    · intro c hc
      rw [g4 c hc, h4 c hc]
      constructor
      · rintro ((h | ⟨t, ht, h⟩) | h)
        · exact Or.inl h
        · exact Or.inr ⟨t, by omega, h⟩
        · exact Or.inr ⟨n, by omega, h⟩
      · rintro (h | ⟨t, ht, h⟩)
        · exact Or.inl (Or.inl h)
        · by_cases htn : t = n
          · subst htn
            exact Or.inr h
          · exact Or.inl (Or.inr ⟨t, by omega, h⟩)

/-- The invariant of the loops of `solver_local_stiffness` for a square
global matrix of `N` rows. -/
structure global_stiffness_inv (size : ℕ) (N : Int) (s : local_stiffness) : Prop where
  loc : local_stiffness_inv size s
  rows : s.global_mtx.rows_count = N
  cols : s.global_mtx.cols_count = N

theorem solver_local_stiffness_entry_global (self : fea_solver_input) (element : ℕ)
    (ctens : List (List (List (List ℚ)))) (grads : shape_gradients) (weight : ℚ) (N : Int)
    (a b i j : ℕ) (ha : a < self.nodes_per_element.toNat)
    (hb : b < self.nodes_per_element.toNat) (hi : i < self.dof) (hj : j < self.dof)
    (s : local_stiffness)
    (hs : global_stiffness_inv (self.nodes_per_element.toNat * self.dof) N s) :
    ∃ s1 : local_stiffness,
      solver_local_stiffness_entry self element ctens grads weight a b i j s = some s1
        ∧ global_stiffness_inv (self.nodes_per_element.toNat * self.dof) N s1
        ∧ (∀ c : Int × Int, (0 ≤ c.1 ∧ c.1 < N ∧ 0 ≤ c.2 ∧ c.2 < N) →
            sp_matrix_value s1.global_mtx c.1 c.2
              = sp_matrix_value s.global_mtx c.1 c.2
                + if solver_global_index self element a i = c.1
                    ∧ solver_global_index self element b j = c.2 then
                    solver_local_stiffness_sum self ctens grads weight a b i j
                  else 0)
        ∧ ∀ c : Int × Int, (0 ≤ c.1 ∧ c.1 < N ∧ 0 ≤ c.2 ∧ c.2 < N) →
            ((sp_matrix_get s1.global_mtx c.1 c.2).isSome = true
              ↔ (sp_matrix_get s.global_mtx c.1 c.2).isSome = true
                ∨ (solver_global_index self element a i = c.1
                    ∧ solver_global_index self element b j = c.2)) := by
  obtain ⟨s1, h1, h2, _⟩ := solver_local_stiffness_entry_spec self element ctens grads weight
    a b i j ha hb hi hj s hs.loc
  have hadd : sp_matrix_element_add s.global_mtx (solver_global_index self element a i)
      (solver_global_index self element b j)
      (solver_local_stiffness_sum self ctens grads weight a b i j) = some s1.global_mtx := by
    unfold solver_local_stiffness_entry at h1
    simp only [Option.map_eq_some'] at h1
    obtain ⟨K, hK, hs1⟩ := h1
    rw [← hs1]
    exact hK
  obtain ⟨g1, g2, g3⟩ := sp_matrix_element_add_get _ _ hs.loc.wf _ _ _ hadd
  refine ⟨s1, h1, ⟨h2, by rw [g1, hs.rows], by rw [g2, hs.cols]⟩, ?_, ?_⟩
  · intro c hc
    unfold sp_matrix_value
    rw [g3 c.1 c.2]
    by_cases hab : solver_global_index self element a i = c.1
        ∧ solver_global_index self element b j = c.2
    · rw [if_pos hab, if_pos ⟨hab.1.symm, hab.2.symm, by
        rw [hab.1, hab.2, hs.rows, hs.cols]; exact hc⟩, hab.1, hab.2]
      rfl
    · rw [if_neg hab, if_neg (fun hc => hab ⟨hc.1.symm, hc.2.1.symm⟩), add_zero]
  · intro c hc
    rw [g3 c.1 c.2]
    by_cases hab : solver_global_index self element a i = c.1
        ∧ solver_global_index self element b j = c.2
    · rw [if_pos ⟨hab.1.symm, hab.2.symm, by
        rw [hab.1, hab.2, hs.rows, hs.cols]; exact hc⟩]
      exact ⟨fun _ => Or.inr hab, fun _ => rfl⟩
    · rw [if_neg (fun hc => hab ⟨hc.1.symm, hc.2.1.symm⟩)]
      exact ⟨fun h => Or.inl h, fun h => h.resolve_right hab⟩
theorem solver_local_stiffness_gauss_global (self : fea_solver_input) (element gauss : ℕ)
    (N : Int) (s : local_stiffness)
    (hs : global_stiffness_inv (self.nodes_per_element.toNat * self.dof) N s) :
    ∃ s1 : local_stiffness,
      solver_local_stiffness_gauss self element (solver_ctensor self) gauss s = some s1
        ∧ global_stiffness_inv (self.nodes_per_element.toNat * self.dof) N s1
        ∧ (∀ c : Int × Int, (0 ≤ c.1 ∧ c.1 < N ∧ 0 ≤ c.2 ∧ c.2 < N) →
            sp_matrix_value s1.global_mtx c.1 c.2
              = sp_matrix_value s.global_mtx c.1 c.2
                + global_stiffness_term self element gauss c)
        ∧ ∀ c : Int × Int, (0 ≤ c.1 ∧ c.1 < N ∧ 0 ≤ c.2 ∧ c.2 < N) →
            ((sp_matrix_get s1.global_mtx c.1 c.2).isSome = true
              ↔ (sp_matrix_get s.global_mtx c.1 c.2).isSome = true
                ∨ global_stiffness_hit self element gauss c) := by
  unfold solver_local_stiffness_gauss global_stiffness_term global_stiffness_hit
  simp only
  cases solver_new_shape_gradients self element gauss with
  | none =>
    refine ⟨_, rfl, ⟨⟨hs.loc.rows, hs.loc.cols, hs.loc.wf, hs.loc.cap⟩, hs.rows, hs.cols⟩,
      ?_, ?_⟩
    · intro c _
      simp
    · intro c _
      simp
  | some g =>
    simp only
    obtain ⟨s1, h1, h2, h3, h4⟩ := loop_abort_scatter
      (global_stiffness_inv (self.nodes_per_element.toNat * self.dof) N)
      (fun c : Int × Int => 0 ≤ c.1 ∧ c.1 < N ∧ 0 ≤ c.2 ∧ c.2 < N)
      (fun s (c : Int × Int) => sp_matrix_value s.global_mtx c.1 c.2)
      (fun s (c : Int × Int) => (sp_matrix_get s.global_mtx c.1 c.2).isSome = true)
      self.nodes_per_element.toNat _ _ _
      (fun a ha s hs => loop_abort_scatter
        (global_stiffness_inv (self.nodes_per_element.toNat * self.dof) N)
        (fun c : Int × Int => 0 ≤ c.1 ∧ c.1 < N ∧ 0 ≤ c.2 ∧ c.2 < N)
        (fun s (c : Int × Int) => sp_matrix_value s.global_mtx c.1 c.2)
        (fun s (c : Int × Int) => (sp_matrix_get s.global_mtx c.1 c.2).isSome = true)
        self.nodes_per_element.toNat _ _ _
        (fun b hb s hs => loop_abort_scatter
          (global_stiffness_inv (self.nodes_per_element.toNat * self.dof) N)
          (fun c : Int × Int => 0 ≤ c.1 ∧ c.1 < N ∧ 0 ≤ c.2 ∧ c.2 < N)
          (fun s (c : Int × Int) => sp_matrix_value s.global_mtx c.1 c.2)
          (fun s (c : Int × Int) => (sp_matrix_get s.global_mtx c.1 c.2).isSome = true)
          self.dof _ _ _
          (fun i hi s hs => loop_abort_scatter
            (global_stiffness_inv (self.nodes_per_element.toNat * self.dof) N)
            (fun c : Int × Int => 0 ≤ c.1 ∧ c.1 < N ∧ 0 ≤ c.2 ∧ c.2 < N)
            (fun s (c : Int × Int) => sp_matrix_value s.global_mtx c.1 c.2)
            (fun s (c : Int × Int) => (sp_matrix_get s.global_mtx c.1 c.2).isSome = true)
            self.dof _ _ _
            (fun j hj s hs => solver_local_stiffness_entry_global self element
              (solver_ctensor self) g (self.gauss_nodes.getD gauss default).weight N
              a b i j ha hb hi hj s hs) s hs) s hs) s hs) s hs
    rw [h1]
    refine ⟨_, rfl, ⟨⟨h2.loc.rows, h2.loc.cols, h2.loc.wf, h2.loc.cap⟩, h2.rows, h2.cols⟩,
      ?_, ?_⟩
    · intro c hc
      exact h3 c hc
    · intro c hc
      show (sp_matrix_get s1.global_mtx c.1 c.2).isSome = true ↔ _
      rw [h4 c hc]
      simp only [Option.isSome_some, true_and]
theorem solver_local_stiffness_size (self : fea_solver_input) :
    (self.nodes_per_element * (self.dof : Int)).toNat
      = self.nodes_per_element.toNat * self.dof := by
  by_cases h : 0 ≤ self.nodes_per_element
  · obtain ⟨n, hn⟩ := Int.eq_ofNat_of_zero_le h
    rw [hn]
    simp only [Int.toNat_ofNat]
    exact_mod_cast Int.toNat_ofNat (n * self.dof)
  · have h1 : self.nodes_per_element * (self.dof : Int) ≤ 0 :=
      Int.mul_nonpos_of_nonpos_of_nonneg (by omega) (by omega)
    have h2 : self.nodes_per_element.toNat = 0 := by omega
    rw [h2, zero_mul]
    omega

/-- What `solver_local_stiffness` scatters into a square global matrix: the
sums over the Gauss nodes of the entries that belong to each element, which
becomes stored when some entry goes to it. -/
theorem solver_local_stiffness_global (self : fea_solver_input) (element : ℕ)
    (global_mtx : sp_matrix) (sg : List (Option shape_gradients))
    (hwf : sp_matrix_wf global_mtx) (hcap : sp_matrix_cap global_mtx) (N : Int)
    (hrows : global_mtx.rows_count = N) (hcols : global_mtx.cols_count = N) :
    ∃ res : local_stiffness,
      solver_local_stiffness self element global_mtx sg = some res
        ∧ sp_matrix_wf res.global_mtx ∧ sp_matrix_cap res.global_mtx
        ∧ res.global_mtx.rows_count = N ∧ res.global_mtx.cols_count = N
        ∧ (∀ c : Int × Int, (0 ≤ c.1 ∧ c.1 < N ∧ 0 ≤ c.2 ∧ c.2 < N) →
            sp_matrix_value res.global_mtx c.1 c.2
              = sp_matrix_value global_mtx c.1 c.2
                + ∑ gauss in Finset.range self.gauss_nodes_count.toNat,
                    global_stiffness_term self element gauss c)
        ∧ ∀ c : Int × Int, (0 ≤ c.1 ∧ c.1 < N ∧ 0 ≤ c.2 ∧ c.2 < N) →
            ((sp_matrix_get res.global_mtx c.1 c.2).isSome = true
              ↔ (sp_matrix_get global_mtx c.1 c.2).isSome = true
                ∨ ∃ gauss : ℕ, gauss < self.gauss_nodes_count.toNat
                    ∧ global_stiffness_hit self element gauss c) := by
  unfold solver_local_stiffness
  simp only
  rw [solver_local_stiffness_size]
  obtain ⟨s1, h1, h2, h3, h4⟩ := loop_abort_scatter
    (global_stiffness_inv (self.nodes_per_element.toNat * self.dof) N)
    (fun c : Int × Int => 0 ≤ c.1 ∧ c.1 < N ∧ 0 ≤ c.2 ∧ c.2 < N)
    (fun s (c : Int × Int) => sp_matrix_value s.global_mtx c.1 c.2)
    (fun s (c : Int × Int) => (sp_matrix_get s.global_mtx c.1 c.2).isSome = true)
    self.gauss_nodes_count.toNat _ _ _
    (fun gauss _ s hs => solver_local_stiffness_gauss_global self element gauss N s hs)
    { stiff := List.replicate (self.nodes_per_element.toNat * self.dof)
        (List.replicate (self.nodes_per_element.toNat * self.dof) (0 : ℚ))
      global_mtx := global_mtx
      shape_gradients := sg }
    ⟨⟨by simp, by
      intro r hr
      simp only [List.getD_eq_getElem?_getD, List.getElem?_replicate, if_pos hr]
      simp, hwf, hcap⟩, hrows, hcols⟩
  exact ⟨s1, h1, h2.loc.wf, h2.loc.cap, h2.rows, h2.cols, h3, h4⟩

/-- What a Gauss node adds to the element `(I, J)` of the global matrix it
adds to the element `(J, I)`. -/
theorem global_stiffness_term_symm (self : fea_solver_input) (hdof : self.dof ≤ MAX_DOF)
    (element gauss : ℕ) (I J : Int) :
    global_stiffness_term self element gauss (I, J)
      = global_stiffness_term self element gauss (J, I) := by
  unfold global_stiffness_term
  cases solver_new_shape_gradients self element gauss with
  | none => rfl
  | some g =>
    simp only
    rw [Finset.sum_comm]
    apply Finset.sum_congr rfl
    intro b hb
    apply Finset.sum_congr rfl
    intro a ha
    rw [Finset.sum_comm]
    apply Finset.sum_congr rfl
    intro j hj
    apply Finset.sum_congr rfl
    intro i hi
    rw [Finset.mem_range] at hi hj
    rw [solver_local_stiffness_sum_symm self hdof g _ a b i j hi hj]
    by_cases h : solver_global_index self element a i = I
        ∧ solver_global_index self element b j = J
    · rw [if_pos h, if_pos ⟨h.2, h.1⟩]
    · rw [if_neg h, if_neg (fun hc => h ⟨hc.2, hc.1⟩)]

theorem global_stiffness_hit_symm (self : fea_solver_input) (element gauss : ℕ) (I J : Int)
    (h : global_stiffness_hit self element gauss (I, J)) :
    global_stiffness_hit self element gauss (J, I) := by
  obtain ⟨h0, a, ha, b, hb, i, hi, j, hj, h1, h2⟩ := h
  exact ⟨h0, b, hb, a, ha, j, hj, i, hi, h2, h1⟩

/-- The invariant of the loop over the elements: the global matrix is well
formed, square of `N` rows, with room to grow. -/
structure solve_local_stiffness_inv (N : Int)
    (s : sp_matrix × List (List (Option shape_gradients))) : Prop where
  wf : sp_matrix_wf s.1
  cap : sp_matrix_cap s.1
  rows : s.1.rows_count = N
  cols : s.1.cols_count = N

/-- What the loop over the elements scatters into a square global matrix. -/
theorem solve_local_stiffness_spec (self : fea_solver_input)
    (s : sp_matrix × List (List (Option shape_gradients))) (N : Int)
    (hs : solve_local_stiffness_inv N s) :
    ∃ s1 : sp_matrix × List (List (Option shape_gradients)),
      solve_local_stiffness self s = some s1
        ∧ solve_local_stiffness_inv N s1
        ∧ (∀ c : Int × Int, (0 ≤ c.1 ∧ c.1 < N ∧ 0 ≤ c.2 ∧ c.2 < N) →
            sp_matrix_value s1.1 c.1 c.2
              = sp_matrix_value s.1 c.1 c.2
                + ∑ element in Finset.range self.elements.length,
                    ∑ gauss in Finset.range self.gauss_nodes_count.toNat,
                      global_stiffness_term self element gauss c)
        ∧ ∀ c : Int × Int, (0 ≤ c.1 ∧ c.1 < N ∧ 0 ≤ c.2 ∧ c.2 < N) →
            ((sp_matrix_get s1.1 c.1 c.2).isSome = true
              ↔ (sp_matrix_get s.1 c.1 c.2).isSome = true
                ∨ ∃ element : ℕ, element < self.elements.length
                    ∧ ∃ gauss : ℕ, gauss < self.gauss_nodes_count.toNat
                      ∧ global_stiffness_hit self element gauss c) := by
  unfold solve_local_stiffness
  refine loop_abort_scatter (solve_local_stiffness_inv N)
    (fun c : Int × Int => 0 ≤ c.1 ∧ c.1 < N ∧ 0 ≤ c.2 ∧ c.2 < N)
    (fun s (c : Int × Int) => sp_matrix_value s.1 c.1 c.2)
    (fun s (c : Int × Int) => (sp_matrix_get s.1 c.1 c.2).isSome = true)
    self.elements.length _ _ _ ?_ s hs
  intro element _ s hs
  obtain ⟨res, h1, h2, h3, h4, h5, h6, h7⟩ := solver_local_stiffness_global self element s.1
    (s.2.getD element []) hs.wf hs.cap N hs.rows hs.cols
  rw [h1]
  exact ⟨_, rfl, ⟨h2, h3, h4, h5⟩, h6, h7⟩

theorem sp_matrix_get_init (rows cols bandwidth : Int) (i j : Int) :
    sp_matrix_get (init_sp_matrix rows cols bandwidth) i j = none := by
  rw [sp_matrix_get_eq]
  split
  · rename_i h
    have h1 : (init_sp_matrix rows cols bandwidth).rows_count = rows := rfl
    rw [init_sp_matrix_row _ _ _ _ (by omega)]
    rfl
  · rfl

/-- C39. For every mesh (any nodes, any list of elements, any table of Gauss
nodes, with `dof ≤ MAX_DOF` as the tensor array demands), the loop of `solve`
that runs `solver_local_stiffness` for every element on the empty global
matrix of `new_fea_solver` returns, and the global matrix is then symmetric in
pattern and in value: `(I, J)` is stored exactly when `(J, I)` is, and
`K_IJ = K_JI` in exact arithmetic; the pattern is still symmetric after
`sp_matrix_reorder`, and `init_sp_matrix_skyline` accepts the reordered
matrix. -/
theorem C39_global_matrix_symmetric (self : fea_solver_input) (hdof : self.dof ≤ MAX_DOF) :
    ∃ s1 : sp_matrix × List (List (Option shape_gradients)),
      solve_local_stiffness self
          (new_fea_solver_global_mtx self, new_fea_solver_shape_gradients self) = some s1
        ∧ (∀ I J : Int,
            (sp_matrix_element s1.1 I J).isSome = (sp_matrix_element s1.1 J I).isSome
              ∧ sp_matrix_value s1.1 I J = sp_matrix_value s1.1 J I)
        ∧ ∃ K1 : sp_matrix, sp_matrix_reorder s1.1 = some K1
            ∧ (∀ I J : Int,
                (sp_matrix_element K1 I J).isSome = (sp_matrix_element K1 J I).isSome)
            ∧ ∀ junk : ℕ → ℚ, (init_sp_matrix_skyline junk K1).isSome = true := by
  have hinv : solve_local_stiffness_inv ((self.nodes.length : Int) * (self.dof : Int))
      (new_fea_solver_global_mtx self, new_fea_solver_shape_gradients self) := by
    refine ⟨init_sp_matrix_wf _ _ _, ?_, rfl, rfl⟩
    intro i hi
    have hi' : i < ((self.nodes.length : Int) * (self.dof : Int)).toNat := hi
    show 0 < ((new_fea_solver_global_mtx self).row i).width
    unfold new_fea_solver_global_mtx
    simp only
    rw [init_sp_matrix_row _ _ _ _ hi']
    show (0 : Int) < (Nat.sqrt ((self.nodes.length : Int) * (self.dof : Int)).toNat : Int) * 2
    have : 0 < Nat.sqrt ((self.nodes.length : Int) * (self.dof : Int)).toNat :=
      Nat.sqrt_pos.2 (by omega)
    omega
  obtain ⟨s1, h1, h2, h3, h4⟩ := solve_local_stiffness_spec self _ _ hinv
  have hget0 : ∀ c : Int × Int,
      sp_matrix_get (new_fea_solver_global_mtx self) c.1 c.2 = none :=
    fun c => sp_matrix_get_init _ _ _ _ _
  have hsym : ∀ I J : Int,
      (sp_matrix_get s1.1 I J).isSome = (sp_matrix_get s1.1 J I).isSome
        ∧ sp_matrix_value s1.1 I J = sp_matrix_value s1.1 J I := by
    intro I J
    by_cases hin : 0 ≤ I ∧ I < (self.nodes.length : Int) * (self.dof : Int)
        ∧ 0 ≤ J ∧ J < (self.nodes.length : Int) * (self.dof : Int)
    · have hin' : 0 ≤ J ∧ J < (self.nodes.length : Int) * (self.dof : Int)
          ∧ 0 ≤ I ∧ I < (self.nodes.length : Int) * (self.dof : Int) :=
        ⟨hin.2.2.1, hin.2.2.2, hin.1, hin.2.1⟩
      constructor
      · have a1 := h4 (I, J) hin
        have a2 := h4 (J, I) hin'
        simp only [hget0 (I, J), hget0 (J, I), Option.isSome_none, Bool.false_eq_true,
          false_or] at a1 a2
        rw [Bool.eq_iff_iff, a1, a2]
        constructor
        · rintro ⟨e, he, g, hg, hh⟩
          exact ⟨e, he, g, hg, global_stiffness_hit_symm self e g I J hh⟩
        · rintro ⟨e, he, g, hg, hh⟩
          exact ⟨e, he, g, hg, global_stiffness_hit_symm self e g J I hh⟩
      · have a1 := h3 (I, J) hin
        have a2 := h3 (J, I) hin'
        have v1 : sp_matrix_value (new_fea_solver_global_mtx self) I J = 0 := by
          unfold sp_matrix_value
          rw [hget0 (I, J)]
          rfl
        have v2 : sp_matrix_value (new_fea_solver_global_mtx self) J I = 0 := by
          unfold sp_matrix_value
          rw [hget0 (J, I)]
          rfl
        simp only at a1 a2
        rw [a1, a2, v1, v2, zero_add, zero_add]
        apply Finset.sum_congr rfl
        intro e _
        apply Finset.sum_congr rfl
        intro g _
        exact global_stiffness_term_symm self hdof e g I J
    · have e1 : sp_matrix_get s1.1 I J = none := by
        rw [sp_matrix_get_eq, h2.rows, h2.cols, if_neg hin]
      have e2 : sp_matrix_get s1.1 J I = none := by
        rw [sp_matrix_get_eq, h2.rows, h2.cols, if_neg (by omega)]
      unfold sp_matrix_value
      rw [e1, e2]
      exact ⟨rfl, rfl⟩
  refine ⟨s1, h1, ?_, ?_⟩
  · intro I J
    rw [← sp_matrix_get_isSome, ← sp_matrix_get_isSome]
    exact hsym I J
  · obtain ⟨K1, k1, k2, k3, k4, _, _⟩ := sp_matrix_reorder_spec s1.1 h2.wf
    have hsym1 : ∀ I J : Int,
        (sp_matrix_element K1 I J).isSome = (sp_matrix_element K1 J I).isSome := by
      intro I J
      rw [← sp_matrix_get_isSome, ← sp_matrix_get_isSome,
        sp_matrix_reorder_get s1.1 K1 h2.wf k1, sp_matrix_reorder_get s1.1 K1 h2.wf k1]
      exact (hsym I J).1
    refine ⟨K1, k1, hsym1, ?_⟩
    intro junk
    obtain ⟨S, hS, _⟩ := init_sp_matrix_skyline_spec junk K1 k4
      (skyline_count_symmetric K1 (sp_matrix_reorder_wf s1.1 K1 h2.wf k1)
        (fun i _ j _ h => by rw [← hsym1]; exact h))
    rw [hS]
    rfl

/-- C39 at `test_element_input`: one element of four nodes on a 12x12 global
matrix. -/
theorem C39_global_matrix_symmetric_witness :
    test_element_input.dof ≤ MAX_DOF
      ∧ ∃ s1 : sp_matrix × List (List (Option shape_gradients)),
          solve_local_stiffness test_element_input
              (new_fea_solver_global_mtx test_element_input,
                new_fea_solver_shape_gradients test_element_input) = some s1
            ∧ (∀ I J : Int,
                (sp_matrix_element s1.1 I J).isSome = (sp_matrix_element s1.1 J I).isSome
                  ∧ sp_matrix_value s1.1 I J = sp_matrix_value s1.1 J I)
            ∧ ∃ K1 : sp_matrix, sp_matrix_reorder s1.1 = some K1
                ∧ (∀ I J : Int,
                    (sp_matrix_element K1 I J).isSome = (sp_matrix_element K1 J I).isSome)
                ∧ ∀ junk : ℕ → ℚ, (init_sp_matrix_skyline junk K1).isSome = true :=
  ⟨by decide, C39_global_matrix_symmetric test_element_input (by decide)⟩

/-! ## Prescribed dofs: the order of the calls -/

/-- The entry `(a, b)` after two calls of `solver_apply_single_bc`, for the
dofs `I` then `J`, from the entry `o` before them. -/
theorem solver_apply_single_bc_get_pair (o : Option ℚ) (a b I J R : Int) (hne : I ≠ J)
    (hI : I < R) (hJ : J < R) :
    (if a = J ∧ b = J then
        (if a = I ∧ b = I then o
          else if b = I ∨ (a = I ∧ b < R) then o.map (fun _ => (0 : ℚ)) else o)
      else if b = J ∨ (a = J ∧ b < R) then
        (if a = I ∧ b = I then o
          else if b = I ∨ (a = I ∧ b < R) then o.map (fun _ => (0 : ℚ)) else o).map
            (fun _ => (0 : ℚ))
      else
        (if a = I ∧ b = I then o
          else if b = I ∨ (a = I ∧ b < R) then o.map (fun _ => (0 : ℚ)) else o))
      = if (a = I ∧ b = I) ∨ (a = J ∧ b = J) then o
        else if b = I ∨ b = J ∨ ((a = I ∨ a = J) ∧ b < R) then o.map (fun _ => (0 : ℚ))
        else o := by
  have hne1 : J ≠ I := fun hc => hne hc.symm
  rcases o with _ | v <;> by_cases haI : a = I <;> by_cases haJ : a = J
    <;> by_cases hbI : b = I <;> by_cases hbJ : b = J <;> by_cases hb : b < R
    <;> first
      | (exfalso; omega)
      | simp [haI, haJ, hbI, hbJ, hb, hne, hne1, hI, hJ]

/-- Two calls of `solver_apply_single_bc` in a row, for two dofs `I` and `J`:
both return, and the matrix and the right-hand side after
them are given by the matrix and the right-hand side before them. -/
theorem solver_apply_single_bc_pair (self : fea_solver) (hwf : sp_matrix_wf self.global_mtx)
    (hf : self.global_forces_vct.length = self.global_mtx.rows_count.toNat)
    (I J : Int) (hI : 0 ≤ I ∧ I < self.global_mtx.rows_count)
    (hJ : 0 ≤ J ∧ J < self.global_mtx.rows_count) (hne : I ≠ J) (uI uJ : ℚ)
    (hdI : (sp_matrix_element self.global_mtx I I).isSome = true)
    (hdJ : (sp_matrix_element self.global_mtx J J).isSome = true) :
    ∃ s1 s2 : fea_solver, solver_apply_single_bc self I uI = some s1
      ∧ solver_apply_single_bc s1 J uJ = some s2
      ∧ s2.global_forces_vct.length = self.global_forces_vct.length
      ∧ (∀ a b : Int, sp_matrix_get s2.global_mtx a b
          = if (a = I ∧ b = I) ∨ (a = J ∧ b = J) then sp_matrix_get self.global_mtx a b
            else if b = I ∨ b = J ∨ ((a = I ∨ a = J) ∧ b < self.global_mtx.rows_count) then
              (sp_matrix_get self.global_mtx a b).map (fun _ => 0)
            else sp_matrix_get self.global_mtx a b)
      ∧ ∀ a : ℕ, s2.global_forces_vct.getD a 0
          = if (a : Int) = J then sp_matrix_value self.global_mtx J J * uJ
            else if (a : Int) = I then sp_matrix_value self.global_mtx I I * uI
            else if (a : Int) < self.global_mtx.rows_count then
              self.global_forces_vct.getD a 0 - sp_matrix_value self.global_mtx (a : Int) I * uI
                - sp_matrix_value self.global_mtx (a : Int) J * uJ
            else self.global_forces_vct.getD a 0 := by
  obtain ⟨s1, h1, p1, l1, _, f1⟩ := solver_apply_single_bc_spec self hwf hf I hI uI hdI
  have hwf1 := sp_matrix_same_pattern_wf _ _ p1 hwf
  have hr1 : s1.global_mtx.rows_count = self.global_mtx.rows_count := p1.1
  have hf1 : s1.global_forces_vct.length = s1.global_mtx.rows_count.toNat := by
    rw [l1, hf, hr1]
  have hJ1 : 0 ≤ J ∧ J < s1.global_mtx.rows_count := by rw [hr1]; exact hJ
  have hdJ1 : (sp_matrix_element s1.global_mtx J J).isSome = true := by
    rw [sp_matrix_same_pattern_element _ _ p1]
    exact hdJ
  obtain ⟨s2, h2, _, l2, _, f2⟩ := solver_apply_single_bc_spec s1 hwf1 hf1 J hJ1 uJ hdJ1
  have g1 := solver_apply_single_bc_get self s1 hwf hf I hI uI h1
  have g2 := solver_apply_single_bc_get s1 s2 hwf1 hf1 J hJ1 uJ h2
  have v1 := solver_apply_single_bc_value self s1 hwf hf I hI uI h1
  refine ⟨s1, s2, h1, h2, by rw [l2, l1], ?_, ?_⟩
  · intro a b
    rw [g2 a b, g1 a b, hr1]
    exact solver_apply_single_bc_get_pair _ a b I J _ hne hI.2 hJ.2
  · intro a
    have hJI : J ≠ I := fun hc => hne hc.symm
    rw [f2 a, f1 a, v1 J J, v1 (a : Int) J, hr1]
    by_cases haJ : (a : Int) = J
    · rw [if_pos haJ, if_pos haJ, if_neg (fun hc => hJI hc.1), if_neg (by
        rintro (h | h)
        · exact hJI h
        · exact hJI h.1)]
    · rw [if_neg haJ, if_neg haJ]
      by_cases haI : (a : Int) = I
      · have haR : (a : Int) < self.global_mtx.rows_count := by rw [haI]; exact hI.2
        rw [if_pos haR, if_pos haI, if_pos haI, if_neg (fun hc => hJI hc.2),
          if_pos (Or.inr ⟨haI, hJ.2⟩)]
        ring
      · rw [if_neg haI, if_neg haI]
        by_cases haR : (a : Int) < self.global_mtx.rows_count
        · rw [if_pos haR, if_pos haR, if_neg (fun hc => haI hc.1), if_neg (by
            rintro (h | h)
            · exact hJI h
            · exact haI h.1), if_pos haR]
        · rw [if_neg haR, if_neg haR, if_neg haR]

/-- C40. Prescribed-dof enforcement is order-independent and idempotent: for
two distinct dofs `I ≠ J` in range whose diagonal elements are stored and any
values `uI`, `uJ`, the calls of `solver_apply_single_bc` for `I` then `J` and
for `J` then `I` all return and yield the same matrix entries and the same
right-hand side; and a second call for the same dof with the same value
returns and leaves the matrix entries and the right-hand side of the first
call as they are. -/
theorem C40_single_bc_order_independent (self : fea_solver)
    (hwf : sp_matrix_wf self.global_mtx)
    (hf : self.global_forces_vct.length = self.global_mtx.rows_count.toNat)
    (I J : Int) (hI : 0 ≤ I ∧ I < self.global_mtx.rows_count)
    (hJ : 0 ≤ J ∧ J < self.global_mtx.rows_count) (hne : I ≠ J) (uI uJ : ℚ)
    (hdI : (sp_matrix_element self.global_mtx I I).isSome = true)
    (hdJ : (sp_matrix_element self.global_mtx J J).isSome = true) :
    (∃ sIJ sJI : fea_solver,
        solver_apply_bcs self [(I, uI), (J, uJ)] = some sIJ
          ∧ solver_apply_bcs self [(J, uJ), (I, uI)] = some sJI
          ∧ (∀ a b : Int, sp_matrix_get sIJ.global_mtx a b = sp_matrix_get sJI.global_mtx a b)
          ∧ sIJ.global_forces_vct = sJI.global_forces_vct)
      ∧ ∃ s1 s2 : fea_solver,
          solver_apply_single_bc self I uI = some s1
            ∧ solver_apply_single_bc s1 I uI = some s2
            ∧ (∀ a b : Int, sp_matrix_get s2.global_mtx a b = sp_matrix_get s1.global_mtx a b)
            ∧ s2.global_forces_vct = s1.global_forces_vct := by
  constructor
  · obtain ⟨s1, sIJ, a1, a2, a3, a4, a5⟩ :=
      solver_apply_single_bc_pair self hwf hf I J hI hJ hne uI uJ hdI hdJ
    obtain ⟨t1, sJI, b1, b2, b3, b4, b5⟩ :=
      solver_apply_single_bc_pair self hwf hf J I hJ hI (fun hc => hne hc.symm) uJ uI hdJ hdI
    refine ⟨sIJ, sJI, ?_, ?_, ?_, ?_⟩
    · rw [solver_apply_bcs_cons, a1, Option.some_bind, solver_apply_bcs_cons, a2,
        Option.some_bind, solver_apply_bcs_nil]
    · rw [solver_apply_bcs_cons, b1, Option.some_bind, solver_apply_bcs_cons, b2,
        Option.some_bind, solver_apply_bcs_nil]
    · intro a b
      rw [a4 a b, b4 a b]
      have e1 : ((a = I ∧ b = I) ∨ (a = J ∧ b = J)) ↔ ((a = J ∧ b = J) ∨ (a = I ∧ b = I)) :=
        Or.comm
      have e2 : (b = I ∨ b = J ∨ ((a = I ∨ a = J) ∧ b < self.global_mtx.rows_count))
          ↔ (b = J ∨ b = I ∨ ((a = J ∨ a = I) ∧ b < self.global_mtx.rows_count)) := by
        constructor
        · rintro (h | h | ⟨h | h, h1⟩)
          · exact Or.inr (Or.inl h)
          · exact Or.inl h
          · exact Or.inr (Or.inr ⟨Or.inr h, h1⟩)
          · exact Or.inr (Or.inr ⟨Or.inl h, h1⟩)
        · rintro (h | h | ⟨h | h, h1⟩)
          · exact Or.inr (Or.inl h)
          · exact Or.inl h
          · exact Or.inr (Or.inr ⟨Or.inr h, h1⟩)
          · exact Or.inr (Or.inr ⟨Or.inl h, h1⟩)
      simp only [e1, e2]
    · apply list_ext_getD _ _ (by rw [a3, b3])
      intro m _
      rw [a5 m, b5 m]
      by_cases hmJ : (m : Int) = J
      · rw [if_pos hmJ, if_neg (fun hc => hne (by rw [← hc, hmJ])), if_pos hmJ]
      · rw [if_neg hmJ, if_neg hmJ]
        by_cases hmI : (m : Int) = I
        · rw [if_pos hmI, if_pos hmI]
        · rw [if_neg hmI, if_neg hmI]
          split
          · ring
          · rfl
  · obtain ⟨s1, h1, p1, l1, _, f1⟩ := solver_apply_single_bc_spec self hwf hf I hI uI hdI
    have hwf1 := sp_matrix_same_pattern_wf _ _ p1 hwf
    have hr1 : s1.global_mtx.rows_count = self.global_mtx.rows_count := p1.1
    have hf1 : s1.global_forces_vct.length = s1.global_mtx.rows_count.toNat := by
      rw [l1, hf, hr1]
    have hI1 : 0 ≤ I ∧ I < s1.global_mtx.rows_count := by rw [hr1]; exact hI
    have hdI1 : (sp_matrix_element s1.global_mtx I I).isSome = true := by
      rw [sp_matrix_same_pattern_element _ _ p1]
      exact hdI
    obtain ⟨s2, h2, _, l2, _, f2⟩ := solver_apply_single_bc_spec s1 hwf1 hf1 I hI1 uI hdI1
    have g1 := solver_apply_single_bc_get self s1 hwf hf I hI uI h1
    have g2 := solver_apply_single_bc_get s1 s2 hwf1 hf1 I hI1 uI h2
    have v1 := solver_apply_single_bc_value self s1 hwf hf I hI uI h1
    refine ⟨s1, s2, h1, h2, ?_, ?_⟩
    · intro a b
      rw [g2 a b, g1 a b, hr1]
      generalize sp_matrix_get self.global_mtx a b = o
      rcases o with _ | v <;> by_cases haI : a = I <;> by_cases hbI : b = I
        <;> by_cases hb : b < self.global_mtx.rows_count
        <;> simp [haI, hbI, hb]
    · apply list_ext_getD _ _ l2
      intro m _
      rw [f2 m, f1 m, hr1]
      by_cases hmI : (m : Int) = I
      · rw [if_pos hmI, if_pos hmI, v1 I I, if_pos ⟨rfl, rfl⟩]
      · rw [v1 (m : Int) I]
        simp only [if_neg hmI, hmI, false_and, if_false, true_or, if_true, zero_mul, sub_zero]
        split <;> rfl

/-- C40 at the system of `test_solver`, the dofs `0` and `2` with the values
`1` and `3`. -/
theorem C40_single_bc_order_independent_witness :
    sp_matrix_wf test_solver_bc.global_mtx
      ∧ (sp_matrix_element test_solver_bc.global_mtx 0 0).isSome = true
      ∧ (sp_matrix_element test_solver_bc.global_mtx 2 2).isSome = true
      ∧ (∃ sIJ sJI : fea_solver,
          solver_apply_bcs test_solver_bc [(0, 1), (2, 3)] = some sIJ
            ∧ solver_apply_bcs test_solver_bc [(2, 3), (0, 1)] = some sJI
            ∧ (∀ a b : Int,
                sp_matrix_get sIJ.global_mtx a b = sp_matrix_get sJI.global_mtx a b)
            ∧ sIJ.global_forces_vct = sJI.global_forces_vct)
      ∧ ∃ s1 s2 : fea_solver,
          solver_apply_single_bc test_solver_bc 0 1 = some s1
            ∧ solver_apply_single_bc s1 0 1 = some s2
            ∧ (∀ a b : Int, sp_matrix_get s2.global_mtx a b = sp_matrix_get s1.global_mtx a b)
            ∧ s2.global_forces_vct = s1.global_forces_vct :=
  ⟨by decide, by decide, by decide,
    C40_single_bc_order_independent test_solver_bc (by decide) (by decide) 0 2
      ⟨by decide, by decide⟩ ⟨by decide, by decide⟩ (by decide) 1 3 (by decide) (by decide)⟩

/-! ## Loops that fill a two-dimensional buffer -/

theorem buffer_shape_store (R C : ℕ) (m : List (List ℚ)) (i j : ℕ) (v : ℚ)
    (h : buffer_shape R C m) : buffer_shape R C (store m i j v) := by
  obtain ⟨h1, h2⟩ := h
  refine ⟨by simp only [store, List.length_set]; exact h1, ?_⟩
  intro r hr
  simp only [store]
  rw [getD_set_eq]
  split
  · rename_i hir
    rw [List.length_set, hir.1]
    exact h2 r hr
  · exact h2 r hr

theorem buffer_shape_replicate (R C : ℕ) :
    buffer_shape R C (List.replicate R (List.replicate C (0 : ℚ))) := by
  refine ⟨by simp, ?_⟩
  intro r hr
  simp only [List.getD_eq_getElem?_getD, List.getElem?_replicate, if_pos hr]
  simp

theorem cell_store_shape (R C : ℕ) (m : List (List ℚ)) (h : buffer_shape R C m) (i j : ℕ)
    (v : ℚ) (hi : i < R) (hj : j < C) (i' j' : ℕ) :
    cell (store m i j v) i' j' = if i = i' ∧ j = j' then v else cell m i' j' :=
  cell_store m i j v (by rw [h.1]; exact hi) (by rw [h.2 i hi]; exact hj) i' j'

/-- The loop `for (k = 0; k < n; ++k) m[i][j] += f(k)`. -/
theorem loop_store_accumulate (R C : ℕ) (f : ℕ → ℚ) (n i j : ℕ) (hi : i < R) (hj : j < C)
    (m : List (List ℚ)) (h : buffer_shape R C m) :
    buffer_shape R C (loop n (fun k m => store m i j (cell m i j + f k)) m)
      ∧ ∀ i' j' : ℕ, cell (loop n (fun k m => store m i j (cell m i j + f k)) m) i' j'
          = if i = i' ∧ j = j' then cell m i j + ∑ k in Finset.range n, f k
            else cell m i' j' := by
  induction n with
  | zero =>
    refine ⟨h, ?_⟩
    intro i' j'
    simp only [loop, Finset.range_zero, Finset.sum_empty, add_zero]
    split
    · rename_i hc
      rw [hc.1, hc.2]
    · rfl
  | succ n ih =>
    obtain ⟨ih1, ih2⟩ := ih
    have e : loop (n + 1) (fun k m => store m i j (cell m i j + f k)) m
        = store (loop n (fun k m => store m i j (cell m i j + f k)) m) i j
            (cell (loop n (fun k m => store m i j (cell m i j + f k)) m) i j + f n) := rfl
    rw [e]
    refine ⟨buffer_shape_store R C _ i j _ ih1, ?_⟩
    intro i' j'
    rw [cell_store_shape R C _ ih1 i j _ hi hj]
    by_cases hc : i = i' ∧ j = j'
    · rw [if_pos hc, if_pos hc, ih2 i j, if_pos ⟨rfl, rfl⟩, Finset.sum_range_succ, add_assoc]
    · rw [if_neg hc, if_neg hc, ih2 i' j', if_neg hc]

/-- Two nested loops over the cells `(i, j)`, `i < a`, `j < b`, whose body
stores a value `v i j` in the cell `(i, j)` and nothing else. -/
theorem loop_loop_cells (R C a b : ℕ)
    (body : ℕ → ℕ → List (List ℚ) → List (List ℚ)) (v : ℕ → ℕ → ℚ) (m0 : List (List ℚ))
    (h0 : buffer_shape R C m0)
    (hbody : ∀ i : ℕ, i < a → ∀ j : ℕ, j < b → ∀ m : List (List ℚ), buffer_shape R C m →
      cell m i j = cell m0 i j →
      buffer_shape R C (body i j m)
        ∧ ∀ i' j' : ℕ, cell (body i j m) i' j'
            = if i = i' ∧ j = j' then v i j else cell m i' j') :
    buffer_shape R C (loop a (fun i m => loop b (fun j m => body i j m) m) m0)
      ∧ ∀ i' j' : ℕ, cell (loop a (fun i m => loop b (fun j m => body i j m) m) m0) i' j'
          = if i' < a ∧ j' < b then v i' j' else cell m0 i' j' := by
  refine loop_invariant
    (fun t m => buffer_shape R C m
      ∧ ∀ i' j' : ℕ, cell m i' j' = if i' < t ∧ j' < b then v i' j' else cell m0 i' j')
    a _ m0 ⟨h0, fun i' j' => by simp⟩ ?_
  intro t ht m hm
  have hinner := loop_invariant
    (fun s m => buffer_shape R C m
      ∧ ∀ i' j' : ℕ, cell m i' j'
          = if (i' < t ∧ j' < b) ∨ (i' = t ∧ j' < s) then v i' j' else cell m0 i' j')
    b (fun j m => body t j m) m
    ⟨hm.1, fun i' j' => by
      rw [hm.2 i' j']
      by_cases hc : i' < t ∧ j' < b
      · rw [if_pos hc, if_pos (Or.inl hc)]
      · rw [if_neg hc, if_neg (by
          rintro (h | h)
          · exact hc h
          · omega)]⟩
    (by
      intro s hs m1 hm1
      have hcell : cell m1 t s = cell m0 t s := by
        rw [hm1.2 t s, if_neg (by
          rintro (h | h)
          · omega
          · omega)]
      obtain ⟨b1, b2⟩ := hbody t ht s hs m1 hm1.1 hcell
      refine ⟨b1, ?_⟩
      intro i' j'
      rw [b2 i' j']
      by_cases hc : t = i' ∧ s = j'
      · rw [if_pos hc, if_pos (Or.inr ⟨hc.1.symm, by omega⟩), hc.1, hc.2]
      · rw [if_neg hc, hm1.2 i' j']
        by_cases hc2 : (i' < t ∧ j' < b) ∨ (i' = t ∧ j' < s)
        · rw [if_pos hc2, if_pos (by
            rcases hc2 with h | h
            · exact Or.inl h
            · exact Or.inr ⟨h.1, by omega⟩)]
        · rw [if_neg hc2, if_neg (by
            rintro (h | h)
            · exact hc2 (Or.inl h)
            · by_cases hjs : j' = s
              · exact hc ⟨h.1.symm, hjs.symm⟩
              · exact hc2 (Or.inr ⟨h.1, by omega⟩))])
  refine ⟨hinner.1, ?_⟩
  intro i' j'
  rw [hinner.2 i' j']
  by_cases hc : i' < t + 1 ∧ j' < b
  · rw [if_pos hc, if_pos (by
      by_cases hit : i' = t
      · exact Or.inr ⟨hit, hc.2⟩
      · exact Or.inl ⟨by omega, hc.2⟩)]
  · rw [if_neg hc, if_neg (by
      rintro (h | h)
      · exact hc ⟨by omega, h.2⟩
      · exact hc ⟨by omega, h.2⟩)]

/-- A buffer of three rows of three cells is the list of its nine cells. -/
theorem buffer_shape_three (m : List (List ℚ)) (h : buffer_shape 3 3 m) :
    m = [[cell m 0 0, cell m 0 1, cell m 0 2], [cell m 1 0, cell m 1 1, cell m 1 2],
      [cell m 2 0, cell m 2 1, cell m 2 2]] := by
  obtain ⟨h1, h2⟩ := h
  match m, h1 with
  | [r0, r1, r2], _ =>
    have e0 : r0.length = 3 := h2 0 (by omega)
    have e1 : r1.length = 3 := h2 1 (by omega)
    have e2 : r2.length = 3 := h2 2 (by omega)
    match r0, e0, r1, e1, r2, e2 with
    | [_, _, _], _, [_, _, _], _, [_, _, _], _ => rfl

/-! ## The Jacobi matrix and the gradients of the shape functions -/

/-- The Jacobi matrix: `J[i][j]` is the sum over the nodes `k` of the element
of `dforms[i][k] * x_k[j]`. -/
theorem solver_jacobi_matrix_spec (self : fea_solver_input) (element gauss : ℕ) :
    buffer_shape 3 3 (solver_jacobi_matrix self element gauss)
      ∧ ∀ i j : ℕ, cell (solver_jacobi_matrix self element gauss) i j
          = if i < 3 ∧ j < 3 then
              ∑ k in Finset.range self.nodes_per_element.toNat,
                cell (self.gauss_nodes.getD gauss default).dforms i k
                  * solver_node_dof self element k j
            else 0 := by
  have h := loop_loop_cells 3 3 3 3
    (fun i j J => loop self.nodes_per_element.toNat
      (fun k J => store J i j (cell J i j
        + cell (self.gauss_nodes.getD gauss default).dforms i k
          * solver_node_dof self element k j)) J)
    (fun i j => ∑ k in Finset.range self.nodes_per_element.toNat,
      cell (self.gauss_nodes.getD gauss default).dforms i k * solver_node_dof self element k j)
    (List.replicate 3 (List.replicate 3 0)) (buffer_shape_replicate 3 3)
    (by
      intro i hi j hj m hm hcell
      obtain ⟨a1, a2⟩ := loop_store_accumulate 3 3
        (fun k => cell (self.gauss_nodes.getD gauss default).dforms i k
          * solver_node_dof self element k j) self.nodes_per_element.toNat i j hi hj m hm
      refine ⟨a1, ?_⟩
      intro i' j'
      rw [a2 i' j', hcell, cell_replicate, zero_add])
  refine ⟨h.1, ?_⟩
  intro i j
  have := h.2 i j
  rw [cell_replicate] at this
  exact this

theorem solver_new_shape_gradients_eq (self : fea_solver_input) (element gauss : ℕ) :
    solver_new_shape_gradients self element gauss
      = if (inv3x3 (solver_jacobi_matrix self element gauss)).1 = true then
          some
            { grads := loop MAX_DOF
                (fun i G => loop self.nodes_per_element.toNat
                  (fun j G => loop MAX_DOF
                    (fun k G => store G i j (cell G i j
                      + cell (inv3x3 (solver_jacobi_matrix self element gauss)).2.1 i k
                        * cell (self.gauss_nodes.getD gauss default).dforms k j)) G) G)
                (List.replicate self.dof (List.replicate self.nodes_per_element.toNat 0))
              detJ := (inv3x3 (solver_jacobi_matrix self element gauss)).2.2 }
        else none := rfl

/-- With a determinant larger than `DBL_MIN` in absolute value `inv3x3`
returns `TRUE` and leaves a left inverse of the matrix. -/
theorem inv3x3_left_inverse (m : List (List ℚ)) (hm : buffer_shape 3 3 m)
    (hdet : DBL_MIN < |det3x3 m|) :
    (inv3x3 m).1 = true ∧ (inv3x3 m).2.2 = det3x3 m
      ∧ buffer_shape 3 3 (inv3x3 m).2.1
      ∧ ∀ i : ℕ, i < 3 → ∀ j : ℕ, j < 3 →
          (∑ l in Finset.range 3, cell (inv3x3 m).2.1 i l * cell m l j)
            = (if i = j then 1 else 0) := by
  rw [buffer_shape_three m hm] at hdet ⊢
  generalize cell m 0 0 = a at hdet ⊢
  generalize cell m 0 1 = b at hdet ⊢
  generalize cell m 0 2 = c at hdet ⊢
  generalize cell m 1 0 = d at hdet ⊢
  generalize cell m 1 1 = e at hdet ⊢
  generalize cell m 1 2 = f at hdet ⊢
  generalize cell m 2 0 = g at hdet ⊢
  generalize cell m 2 1 = h at hdet ⊢
  generalize cell m 2 2 = k at hdet ⊢
  have hD : det3x3 [[a, b, c], [d, e, f], [g, h, k]]
      = a * (e * k - f * h) - b * (d * k - f * g) + c * (d * h - e * g) := rfl
  have hpos : (0 : ℚ) < DBL_MIN := by
    unfold DBL_MIN
    positivity
  have hD0 : a * (e * k - f * h) - b * (d * k - f * g) + c * (d * h - e * g) ≠ 0 := by
    intro hc
    rw [hD, hc, abs_zero] at hdet
    exact absurd hdet (not_lt.2 (le_of_lt hpos))
  rw [inv3x3_eq a b c d e f g h k hdet, hD]
  refine ⟨rfl, rfl, ⟨rfl, ?_⟩, ?_⟩
  · intro r hr
    interval_cases r <;> rfl
  · intro i hi j hj
    interval_cases i <;> interval_cases j <;>
      simp only [Finset.sum_range_succ, Finset.sum_range_zero, zero_add, cell_matrix3] <;>
      simp <;> field_simp <;> ring

/-- The gradients that `solver_new_shape_gradients` returns when the
determinant of the Jacobi matrix is larger than `DBL_MIN` in absolute value:
`grads[i][a]` is the sum over `k` of `J^-1[i][k] * dforms[k][a]`. -/
theorem solver_new_shape_gradients_spec (self : fea_solver_input) (hdof : self.dof = 3)
    (element gauss : ℕ)
    (hdet : DBL_MIN < |det3x3 (solver_jacobi_matrix self element gauss)|) :
    ∃ g : shape_gradients, solver_new_shape_gradients self element gauss = some g
      ∧ g.detJ = det3x3 (solver_jacobi_matrix self element gauss)
      ∧ buffer_shape 3 self.nodes_per_element.toNat g.grads
      ∧ ∀ i a : ℕ, cell g.grads i a
          = if i < 3 ∧ a < self.nodes_per_element.toNat then
              ∑ k in Finset.range 3,
                cell (inv3x3 (solver_jacobi_matrix self element gauss)).2.1 i k
                  * cell (self.gauss_nodes.getD gauss default).dforms k a
            else 0 := by
  obtain ⟨h1, h2, _, _⟩ := inv3x3_left_inverse _ (solver_jacobi_matrix_spec self element gauss).1 hdet
  rw [solver_new_shape_gradients_eq, if_pos h1, hdof]
  refine ⟨_, rfl, h2, ?_⟩
  simp only
  have h := loop_loop_cells 3 self.nodes_per_element.toNat 3 self.nodes_per_element.toNat
    (fun i j G => loop 3
      (fun k G => store G i j (cell G i j
        + cell (inv3x3 (solver_jacobi_matrix self element gauss)).2.1 i k
          * cell (self.gauss_nodes.getD gauss default).dforms k j)) G)
    (fun i j => ∑ k in Finset.range 3,
      cell (inv3x3 (solver_jacobi_matrix self element gauss)).2.1 i k
        * cell (self.gauss_nodes.getD gauss default).dforms k j)
    (List.replicate 3 (List.replicate self.nodes_per_element.toNat 0))
    (buffer_shape_replicate 3 _)
    (by
      intro i hi j hj m hm hcell
      obtain ⟨a1, a2⟩ := loop_store_accumulate 3 self.nodes_per_element.toNat
        (fun k => cell (inv3x3 (solver_jacobi_matrix self element gauss)).2.1 i k
          * cell (self.gauss_nodes.getD gauss default).dforms k j) 3 i j hi hj m hm
      refine ⟨a1, ?_⟩
      intro i' j'
      rw [a2 i' j', hcell, cell_replicate, zero_add])
  refine ⟨h.1, ?_⟩
  intro i a
  have := h.2 i a
  rw [cell_replicate] at this
  exact this

/-- The gradients reproduce the gradient of the coordinate field. -/
theorem solver_new_shape_gradients_coordinates (self : fea_solver_input) (hdof : self.dof = 3)
    (element gauss : ℕ)
    (hdet : DBL_MIN < |det3x3 (solver_jacobi_matrix self element gauss)|) :
    ∃ g : shape_gradients, solver_new_shape_gradients self element gauss = some g
      ∧ g.detJ = det3x3 (solver_jacobi_matrix self element gauss)
      ∧ buffer_shape 3 self.nodes_per_element.toNat g.grads
      ∧ ∀ i : ℕ, i < 3 → ∀ j : ℕ, j < 3 →
          (∑ a in Finset.range self.nodes_per_element.toNat,
              cell g.grads i a * solver_node_dof self element a j)
            = (if i = j then 1 else 0) := by
  obtain ⟨g, h1, h2, h3, h4⟩ := solver_new_shape_gradients_spec self hdof element gauss hdet
  obtain ⟨_, _, _, k4⟩ := inv3x3_left_inverse _ (solver_jacobi_matrix_spec self element gauss).1 hdet
  refine ⟨g, h1, h2, h3, ?_⟩
  intro i hi j hj
  rw [← k4 i hi j hj]
  have e1 : ∀ a ∈ Finset.range self.nodes_per_element.toNat,
      cell g.grads i a * solver_node_dof self element a j
        = ∑ k in Finset.range 3,
            cell (inv3x3 (solver_jacobi_matrix self element gauss)).2.1 i k
              * (cell (self.gauss_nodes.getD gauss default).dforms k a
                * solver_node_dof self element a j) := by
    intro a ha
    rw [Finset.mem_range] at ha
    rw [h4 i a, if_pos ⟨hi, ha⟩, Finset.sum_mul]
    apply Finset.sum_congr rfl
    intro k _
    ring
  rw [Finset.sum_congr rfl e1, Finset.sum_comm]
  apply Finset.sum_congr rfl
  intro k hk
  rw [Finset.mem_range] at hk
  rw [(solver_jacobi_matrix_spec self element gauss).2 k j, if_pos ⟨hk, hj⟩, Finset.mul_sum]

/-! ## Gauss nodes without gradients -/

theorem inv3x3_true (m : List (List ℚ)) (h : (inv3x3 m).1 = true) : DBL_MIN < |det3x3 m| := by
  by_contra hc
  rw [inv3x3_singular m (not_lt.1 hc)] at h
  exact absurd h (by simp)

/-- C31. When the determinant of the Jacobi matrix at a Gauss node of an
element is zero as the code tests it, `|det J| <= DBL_MIN`: `inv3x3` returns
`FALSE` and leaves the matrix as it is, `solver_new_shape_gradients` returns
no gradients, the pass of the loop of `solver_local_stiffness` for this
Gauss node changes neither the local nor the global matrix (it only stores
the null pointer in `shape_gradients`), and the whole call adds to every
element of a square global matrix the sum of what the other Gauss nodes
contribute. -/
theorem C31_degenerate_gauss_node (self : fea_solver_input) (element gauss : ℕ)
    (hdet : |det3x3 (solver_jacobi_matrix self element gauss)| ≤ DBL_MIN) :
    inv3x3 (solver_jacobi_matrix self element gauss)
        = (false, solver_jacobi_matrix self element gauss,
            det3x3 (solver_jacobi_matrix self element gauss))
      ∧ solver_new_shape_gradients self element gauss = none
      ∧ (∀ (ctens : List (List (List (List ℚ)))) (s : local_stiffness),
          solver_local_stiffness_gauss self element ctens gauss s
            = some { s with shape_gradients := s.shape_gradients.set gauss none })
      ∧ ∀ (global_mtx : sp_matrix) (sg : List (Option shape_gradients)),
          sp_matrix_wf global_mtx → sp_matrix_cap global_mtx →
          global_mtx.cols_count = global_mtx.rows_count →
          ∃ res : local_stiffness,
            solver_local_stiffness self element global_mtx sg = some res
              ∧ ∀ I J : Int, 0 ≤ I → I < global_mtx.rows_count →
                  0 ≤ J → J < global_mtx.rows_count →
                  sp_matrix_value res.global_mtx I J
                    = sp_matrix_value global_mtx I J
                      + ∑ g in (Finset.range self.gauss_nodes_count.toNat).erase gauss,
                          global_stiffness_term self element g (I, J) := by
  have h1 := inv3x3_singular _ hdet
  have h2 : solver_new_shape_gradients self element gauss = none := by
    rw [solver_new_shape_gradients_eq, h1]
    rfl
  refine ⟨h1, h2, ?_, ?_⟩
  · intro ctens s
    unfold solver_local_stiffness_gauss
    simp only [h2]
    rfl
  · intro global_mtx sg hwf hcap hsq
    obtain ⟨res, r1, _, _, _, _, r6, _⟩ := solver_local_stiffness_global self element
      global_mtx sg hwf hcap global_mtx.rows_count rfl hsq
    refine ⟨res, r1, ?_⟩
    intro I J hI0 hI hJ0 hJ
    rw [r6 (I, J) ⟨hI0, hI, hJ0, hJ⟩]
    have h0 : global_stiffness_term self element gauss (I, J) = 0 := by
      unfold global_stiffness_term
      rw [h2]
    by_cases hg : gauss ∈ Finset.range self.gauss_nodes_count.toNat
    · rw [← Finset.add_sum_erase _ _ hg, h0, zero_add]
    · rw [Finset.erase_eq_of_not_mem hg]

/-- C31 at the element of `tetrahedra10_bent_nodes`, whose Jacobi matrix is
singular at the Gauss node `0`. -/
theorem C31_degenerate_gauss_node_witness :
    |det3x3 (solver_jacobi_matrix (tetrahedra10_input tetrahedra10_bent_nodes) 0 0)| ≤ DBL_MIN
      ∧ inv3x3 (solver_jacobi_matrix (tetrahedra10_input tetrahedra10_bent_nodes) 0 0)
          = (false, solver_jacobi_matrix (tetrahedra10_input tetrahedra10_bent_nodes) 0 0,
              det3x3 (solver_jacobi_matrix (tetrahedra10_input tetrahedra10_bent_nodes) 0 0))
      ∧ solver_new_shape_gradients (tetrahedra10_input tetrahedra10_bent_nodes) 0 0 = none
      ∧ (∀ (ctens : List (List (List (List ℚ)))) (s : local_stiffness),
          solver_local_stiffness_gauss (tetrahedra10_input tetrahedra10_bent_nodes) 0 ctens 0 s
            = some { s with shape_gradients := s.shape_gradients.set 0 none })
      ∧ ∀ (global_mtx : sp_matrix) (sg : List (Option shape_gradients)),
          sp_matrix_wf global_mtx → sp_matrix_cap global_mtx →
          global_mtx.cols_count = global_mtx.rows_count →
          ∃ res : local_stiffness,
            solver_local_stiffness (tetrahedra10_input tetrahedra10_bent_nodes) 0
                global_mtx sg = some res
              ∧ ∀ I J : Int, 0 ≤ I → I < global_mtx.rows_count →
                  0 ≤ J → J < global_mtx.rows_count →
                  sp_matrix_value res.global_mtx I J
                    = sp_matrix_value global_mtx I J
                      + ∑ g in (Finset.range
                          (tetrahedra10_input tetrahedra10_bent_nodes).gauss_nodes_count.toNat).erase
                            0,
                          global_stiffness_term (tetrahedra10_input tetrahedra10_bent_nodes)
                            0 g (I, J) :=
  ⟨by decide!, C31_degenerate_gauss_node (tetrahedra10_input tetrahedra10_bent_nodes) 0 0
    (by decide!)⟩

/-- C38. For every element and Gauss node (solver data with three degrees of
freedom per node), the gradients that `solver_new_shape_gradients` computes
reproduce the gradient of the coordinate field: for all `i, j` in `{0, 1, 2}`
the sum over the nodes `a` of the element of `grads[i][a] * X_a[j]` is `1` if
`i = j` and `0` otherwise, `X_a` being the node coordinates `solver_node_dof`
that build the Jacobi matrix.  Gradients are computed only for a nonzero
determinant of the Jacobi matrix, which is stored in `detJ`, and they are
computed whenever the determinant is larger than `DBL_MIN` in absolute
value. -/
theorem C38_gradients_reproduce_coordinates (self : fea_solver_input) (hdof : self.dof = 3)
    (element gauss : ℕ) :
    (∀ g : shape_gradients, solver_new_shape_gradients self element gauss = some g →
        det3x3 (solver_jacobi_matrix self element gauss) ≠ 0
          ∧ g.detJ = det3x3 (solver_jacobi_matrix self element gauss)
          ∧ ∀ i : ℕ, i < 3 → ∀ j : ℕ, j < 3 →
              (∑ a in Finset.range self.nodes_per_element.toNat,
                  cell g.grads i a * solver_node_dof self element a j)
                = (if i = j then 1 else 0))
      ∧ (DBL_MIN < |det3x3 (solver_jacobi_matrix self element gauss)| →
          (solver_new_shape_gradients self element gauss).isSome = true) := by
  constructor
  · intro g hg
    have hlt : DBL_MIN < |det3x3 (solver_jacobi_matrix self element gauss)| := by
      apply inv3x3_true
      by_contra hc
      rw [solver_new_shape_gradients_eq, if_neg hc] at hg
      exact absurd hg (by simp)
    obtain ⟨g1, h1, h2, _, h4⟩ :=
      solver_new_shape_gradients_coordinates self hdof element gauss hlt
    rw [hg] at h1
    injection h1 with h1
    subst h1
    refine ⟨?_, h2, h4⟩
    intro hc
    rw [hc, abs_zero] at hlt
    have hpos : (0 : ℚ) < DBL_MIN := by
      unfold DBL_MIN
      positivity
    exact absurd hlt (not_lt.2 (le_of_lt hpos))
  · intro hlt
    obtain ⟨g1, h1, _⟩ := solver_new_shape_gradients_coordinates self hdof element gauss hlt
    rw [h1]
    rfl

/-- C38 at the element of `tetrahedra10_bent_nodes` and its Gauss node `1`,
where the determinant of the Jacobi matrix is `-1`: the gradients are
computed and reproduce the coordinates. -/
theorem C38_gradients_reproduce_coordinates_witness :
    (tetrahedra10_input tetrahedra10_bent_nodes).dof = 3
      ∧ DBL_MIN
          < |det3x3 (solver_jacobi_matrix (tetrahedra10_input tetrahedra10_bent_nodes) 0 1)|
      ∧ ∃ g : shape_gradients,
          solver_new_shape_gradients (tetrahedra10_input tetrahedra10_bent_nodes) 0 1 = some g
            ∧ det3x3 (solver_jacobi_matrix (tetrahedra10_input tetrahedra10_bent_nodes) 0 1) ≠ 0
            ∧ g.detJ
              = det3x3 (solver_jacobi_matrix (tetrahedra10_input tetrahedra10_bent_nodes) 0 1)
            ∧ ∀ i : ℕ, i < 3 → ∀ j : ℕ, j < 3 →
                (∑ a in Finset.range
                    (tetrahedra10_input tetrahedra10_bent_nodes).nodes_per_element.toNat,
                    cell g.grads i a
                      * solver_node_dof (tetrahedra10_input tetrahedra10_bent_nodes) 0 a j)
                  = (if i = j then 1 else 0) :=
  have hd : DBL_MIN
      < |det3x3 (solver_jacobi_matrix (tetrahedra10_input tetrahedra10_bent_nodes) 0 1)| := by
    decide!
  have h := C38_gradients_reproduce_coordinates (tetrahedra10_input tetrahedra10_bent_nodes)
    rfl 0 1
  ⟨rfl, hd, (Option.isSome_iff_exists.1 (h.2 hd)).elim (fun g hg => ⟨g, hg, h.1 g hg⟩)⟩

/-! ## The stress of a uniaxial stretch -/

/-- The array `graddef` before `inv3x3`: the cell `(i, j)` is the sum over
the nodes `k` of `grads[j][k] * X_k[i]`, `X_k` the initial nodes. -/
theorem solver_element_gauss_graddef_eq (self : fea_solver_input) (nodes0 : List (List ℚ))
    (element gauss : ℕ) (g : shape_gradients)
    (hg : solver_new_shape_gradients self element gauss = some g) :
    ∃ m : List (List ℚ), solver_element_gauss_graddef self nodes0 element gauss
        = some (inv3x3 m).2.1
      ∧ buffer_shape 3 3 m
      ∧ ∀ i j : ℕ, i < 3 → j < 3 → cell m i j
          = ∑ k in Finset.range self.nodes_per_element.toNat,
              cell g.grads j k * cell nodes0 ((self.elements.getD element []).getD k 0).toNat i := by
  unfold solver_element_gauss_graddef
  rw [hg]
  refine ⟨_, rfl, ?_⟩
  have h := loop_loop_cells 3 3 3 3
    (fun i j m => loop self.nodes_per_element.toNat
      (fun k m => store m i j (cell m i j
        + cell g.grads j k * cell nodes0 ((self.elements.getD element []).getD k 0).toNat i))
      (store m i j 0))
    (fun i j => ∑ k in Finset.range self.nodes_per_element.toNat,
      cell g.grads j k * cell nodes0 ((self.elements.getD element []).getD k 0).toNat i)
    (List.replicate 3 (List.replicate 3 0)) (buffer_shape_replicate 3 3)
    (by
      intro i hi j hj m hm _
      have hs := buffer_shape_store 3 3 m i j 0 hm
      obtain ⟨a1, a2⟩ := loop_store_accumulate 3 3
        (fun k => cell g.grads j k
          * cell nodes0 ((self.elements.getD element []).getD k 0).toNat i)
        self.nodes_per_element.toNat i j hi hj (store m i j 0) hs
      have h0 : cell (store m i j 0) i j = 0 := by
        rw [cell_store_shape 3 3 m hm i j 0 hi hj i j, if_pos ⟨rfl, rfl⟩]
      refine ⟨a1, ?_⟩
      intro i' j'
      rw [a2 i' j', h0, zero_add]
      split
      · rfl
      · rename_i hc
        rw [cell_store_shape 3 3 m hm i j 0 hi hj i' j', if_neg hc])
  refine ⟨h.1, ?_⟩
  intro i j hi hj
  have := h.2 i j
  rw [if_pos ⟨hi, hj⟩] at this
  exact this

/-- The stress tensor of the deformation gradient `diag(a, 1, 1)`. -/
theorem solver_element_gauss_stress_of_diag (lambda mu a : ℚ) :
    solver_element_gauss_stress_of lambda mu [[a, 0, 0], [0, 1, 0], [0, 0, 1]]
      = [ [(lambda * (0.5 * (a * a - 1)) + 2 * mu * (0.5 * (a * a - 1))) / a, 0, 0],
          [0, lambda * (0.5 * (a * a - 1)) / a, 0],
          [0, 0, lambda * (0.5 * (a * a - 1)) / a] ] := by
  unfold solver_element_gauss_stress_of
  simp [loop, store, cell, DELTA, det3x3, MAX_DOF]

/-- C33, the claim at one element TETRAHEDRA10: the unit tetrahedron
stretched by `eps = 1/10` in `x`, with `lambda = mu = 100`.  The element is
not degenerate and the stress at the Gauss node `3` has
`sigma_xx = 315/11`, not `lambda*eps + 2*mu*eps = 30`, and
`sigma_yy = 105/11`, not `lambda*eps = 10`. -/
theorem C33_counterexample :
    DBL_MIN < |det3x3 (solver_jacobi_matrix
        (tetrahedra10_input (tetrahedra10_stretched_nodes (1 / 10))) 0 3)|
      ∧ solver_element_gauss_stress (tetrahedra10_input (tetrahedra10_stretched_nodes (1 / 10)))
          tetrahedra10_unit_nodes 0 3
        = some [[315 / 11, 0, 0], [0, 105 / 11, 0], [0, 0, 105 / 11]]
      ∧ ¬ (|(315 / 11 : ℚ) - (100 * (1 / 10) + 2 * 100 * (1 / 10))| ≤ 1e-8)
      ∧ ¬ (|(105 / 11 : ℚ) - 100 * (1 / 10)| ≤ 1e-8) := by
  decide!

/-- C33, as the code has it. For an element that is not degenerate at the
Gauss node (`|det J| > DBL_MIN` in the current nodes) and whose current nodes
are the initial nodes displaced by the uniaxial strain `u_x = eps * X`,
`u_y = u_z = 0` with `-1 < eps` (and `1 + eps < 2^1022`), with three degrees
of freedom per node, `solver_element_gauss_stress` returns at every such Gauss
node the same tensor, that of the strain `C = (F'F - 1)/2` over `det F`:
`sigma_xx = (lambda + 2*mu) * (eps + eps^2/2) / (1 + eps)`,
`sigma_yy = sigma_zz = lambda * (eps + eps^2/2) / (1 + eps)` and all
off-diagonal components zero, in exact arithmetic. -/
theorem C33_uniaxial_stress (self : fea_solver_input) (hdof : self.dof = 3)
    (nodes0 : List (List ℚ)) (element gauss : ℕ) (eps : ℚ) (heps : -1 < eps)
    (hbig : 1 + eps < 2 ^ 1022)
    (hnodes : ∀ k : ℕ, k < self.nodes_per_element.toNat →
      solver_node_dof self element k 0
          = cell nodes0 ((self.elements.getD element []).getD k 0).toNat 0
            + eps * cell nodes0 ((self.elements.getD element []).getD k 0).toNat 0
        ∧ solver_node_dof self element k 1
          = cell nodes0 ((self.elements.getD element []).getD k 0).toNat 1
        ∧ solver_node_dof self element k 2
          = cell nodes0 ((self.elements.getD element []).getD k 0).toNat 2)
    (hdet : DBL_MIN < |det3x3 (solver_jacobi_matrix self element gauss)|) :
    solver_element_gauss_stress self nodes0 element gauss
      = some
          [ [(self.parameters.getD 0 0 + 2 * self.parameters.getD 1 0)
                * (eps + eps ^ 2 / 2) / (1 + eps), 0, 0],
            [0, self.parameters.getD 0 0 * (eps + eps ^ 2 / 2) / (1 + eps), 0],
            [0, 0, self.parameters.getD 0 0 * (eps + eps ^ 2 / 2) / (1 + eps)] ] := by
  have hpos : (0 : ℚ) < 1 + eps := by linarith
  have hne : (1 : ℚ) + eps ≠ 0 := ne_of_gt hpos
  obtain ⟨g, g1, _, _, g4⟩ := solver_new_shape_gradients_coordinates self hdof element gauss hdet
  obtain ⟨m, m1, m2, m3⟩ := solver_element_gauss_graddef_eq self nodes0 element gauss g g1
  -- the rows 1 and 2 of `graddef` are those of the identity
  have hrow : ∀ i : ℕ, i = 1 ∨ i = 2 → ∀ j : ℕ, j < 3 →
      cell m i j = if j = i then 1 else 0 := by
    intro i hi j hj
    rw [m3 i j (by omega) hj, ← g4 j hj i (by omega)]
    apply Finset.sum_congr rfl
    intro k hk
    rw [Finset.mem_range] at hk
    rcases hi with hi | hi
    · rw [hi, (hnodes k hk).2.1]
    · rw [hi, (hnodes k hk).2.2]
  -- the row 0 is that of the identity over `1 + eps`
  have hrow0 : ∀ j : ℕ, j < 3 → cell m 0 j = (if j = 0 then 1 else 0) / (1 + eps) := by
    intro j hj
    rw [m3 0 j (by omega) hj, ← g4 j hj 0 (by omega), Finset.sum_div]
    apply Finset.sum_congr rfl
    intro k hk
    rw [Finset.mem_range] at hk
    rw [(hnodes k hk).1]
    field_simp
    ring
  have hm : m = [[1 / (1 + eps), 0, 0], [0, 1, 0], [0, 0, 1]] := by
    rw [buffer_shape_three m m2, hrow0 0 (by omega), hrow0 1 (by omega), hrow0 2 (by omega),
      hrow 1 (Or.inl rfl) 0 (by omega), hrow 1 (Or.inl rfl) 1 (by omega),
      hrow 1 (Or.inl rfl) 2 (by omega), hrow 2 (Or.inr rfl) 0 (by omega),
      hrow 2 (Or.inr rfl) 1 (by omega), hrow 2 (Or.inr rfl) 2 (by omega)]
    simp
  have hD : det3x3 [[1 / (1 + eps), 0, 0], [0, 1, 0], [0, 0, 1]] = 1 / (1 + eps) := by
    simp [det3x3, cell]
  have hdet1 : DBL_MIN < |det3x3 [[1 / (1 + eps), 0, 0], [0, 1, 0], [0, 0, 1]]| := by
    rw [hD, abs_of_pos (one_div_pos.2 hpos)]
    unfold DBL_MIN
    exact one_div_lt_one_div_of_lt hpos hbig
  have hF : (inv3x3 m).2.1 = [[1 + eps, 0, 0], [0, 1, 0], [0, 0, 1]] := by
    rw [hm, inv3x3_eq _ _ _ _ _ _ _ _ _ hdet1, hD]
    simp
    exact inv_mul_cancel₀ hne
  unfold solver_element_gauss_stress
  rw [m1, hF, Option.map_some', solver_element_gauss_stress_of_diag]
  simp only [Option.some.injEq, List.cons.injEq, and_true, true_and]
  refine ⟨?_, ?_, ?_⟩ <;> field_simp <;> ring

/-- C33 as the code has it, at the unit tetrahedron stretched by
`eps = 1/10` and its Gauss node `3`. -/
theorem C33_uniaxial_stress_witness :
    (tetrahedra10_input (tetrahedra10_stretched_nodes (1 / 10))).dof = 3
      ∧ (-1 : ℚ) < 1 / 10 ∧ (1 : ℚ) + 1 / 10 < 2 ^ 1022
      ∧ DBL_MIN < |det3x3 (solver_jacobi_matrix
          (tetrahedra10_input (tetrahedra10_stretched_nodes (1 / 10))) 0 3)|
      ∧ solver_element_gauss_stress (tetrahedra10_input (tetrahedra10_stretched_nodes (1 / 10)))
          tetrahedra10_unit_nodes 0 3
        = some
          [ [((tetrahedra10_input (tetrahedra10_stretched_nodes (1 / 10))).parameters.getD 0 0
                + 2 * (tetrahedra10_input
                    (tetrahedra10_stretched_nodes (1 / 10))).parameters.getD 1 0)
                * (1 / 10 + (1 / 10) ^ 2 / 2) / (1 + 1 / 10), 0, 0],
            [0, (tetrahedra10_input (tetrahedra10_stretched_nodes (1 / 10))).parameters.getD 0 0
                * (1 / 10 + (1 / 10) ^ 2 / 2) / (1 + 1 / 10), 0],
            [0, 0, (tetrahedra10_input (tetrahedra10_stretched_nodes (1 / 10))).parameters.getD 0 0
                * (1 / 10 + (1 / 10) ^ 2 / 2) / (1 + 1 / 10)] ] :=
  ⟨rfl, by decide!, by decide!, by decide!,
    C33_uniaxial_stress (tetrahedra10_input (tetrahedra10_stretched_nodes (1 / 10))) rfl
      tetrahedra10_unit_nodes 0 3 (1 / 10) (by decide!) (by decide!) (by decide!)
      (by decide!)⟩

/-! ## The ILU decomposition reproduces the matrix on its pattern -/

theorem skyline_iptr_le (S : sp_matrix_skyline) (hs : skyline_sorted S) (i j : ℕ)
    (hij : i ≤ j) (hj : j ≤ S.rows_count.toNat) : S.iptr.getD i 0 ≤ S.iptr.getD j 0 := by
  induction j with
  | zero =>
    have : i = 0 := by omega
    subst this
    exact le_refl _
  | succ j ih =>
    by_cases h : i = j + 1
    · subst h
      exact le_refl _
    · exact le_trans (ih (by omega) (by omega)) (hs.iptr_mono j (by omega))

theorem skyline_iptr_nonneg (S : sp_matrix_skyline) (hs : skyline_sorted S) (i : ℕ)
    (hi : i ≤ S.rows_count.toNat) : 0 ≤ S.iptr.getD i 0 :=
  le_trans hs.iptr_zero (skyline_iptr_le S hs 0 i (by omega) hi)

theorem skyline_slot_eq (S : sp_matrix_skyline) (hs : skyline_sorted S) (i t : ℕ)
    (hi : i < S.rows_count.toNat) :
    ((skyline_slot S i t : ℕ) : Int) = S.iptr.getD i 0 + (t : Int) := by
  have := skyline_iptr_nonneg S hs i (by omega)
  unfold skyline_slot
  omega

theorem skyline_slot_lt (S : sp_matrix_skyline) (hs : skyline_sorted S) (i t : ℕ)
    (hi : i < S.rows_count.toNat) (ht : t < skyline_row_count S i) :
    ((skyline_slot S i t : ℕ) : Int) < S.iptr.getD (i + 1) 0 := by
  rw [skyline_slot_eq S hs i t hi]
  unfold skyline_row_count at ht
  omega

theorem skyline_slot_lt_tr (S : sp_matrix_skyline) (hs : skyline_sorted S) (i t : ℕ)
    (hi : i < S.rows_count.toNat) (ht : t < skyline_row_count S i) :
    skyline_slot S i t < S.tr_nonzeros.toNat := by
  have h1 := skyline_slot_lt S hs i t hi ht
  have h2 := skyline_iptr_le S hs (i + 1) S.rows_count.toNat (by omega) (le_refl _)
  have h3 := hs.iptr_last
  omega

theorem skyline_slot_inj (S : sp_matrix_skyline) (hs : skyline_sorted S) (i t j u : ℕ)
    (hi : i < S.rows_count.toNat) (ht : t < skyline_row_count S i)
    (hj : j < S.rows_count.toNat) (hu : u < skyline_row_count S j)
    (h : skyline_slot S i t = skyline_slot S j u) : i = j ∧ t = u := by
  have a1 := skyline_slot_eq S hs i t hi
  have a2 := skyline_slot_eq S hs j u hj
  have b1 := skyline_slot_lt S hs i t hi ht
  have b2 := skyline_slot_lt S hs j u hj hu
  rw [h] at a1 b1
  rcases Nat.lt_trichotomy i j with hlt | heq | hgt
  · have := skyline_iptr_le S hs (i + 1) j (by omega) (by omega)
    omega
  · subst heq
    exact ⟨rfl, by omega⟩
  · have := skyline_iptr_le S hs (j + 1) i (by omega) (by omega)
    omega

theorem range_loop_sum (a b : Int) (f : Int → ℚ) (s : ℚ) :
    range_loop a b (fun i s => s + f i) s
      = s + ∑ t in Finset.range (b - a).toNat, f (a + (t : Int)) := by
  unfold range_loop
  exact loop_sum (fun t => f (a + (t : Int))) _ s

/-- The double loop `ilu_sum` as a sum. -/
theorem ilu_sum_eq (F : sp_matrix_skyline_ilu) (k q : Int) (hk : 0 ≤ k) (hq : 0 ≤ q) :
    ilu_sum F k q = ilu_dot F k.toNat q.toNat := by
  unfold ilu_sum ilu_dot range_loop skyline_row_count skyline_slot
  have e1 : (k + 1).toNat = k.toNat + 1 := by omega
  have e2 : (q + 1).toNat = q.toNat + 1 := by omega
  simp only [e1, e2]
  have hfun : ∀ (c : Prop) [Decidable c] (s v : ℚ),
      (if c then s + v else s) = s + if c then v else 0 := by
    intro c _ s v
    split
    · rfl
    · rw [add_zero]
  simp only [hfun]
  rw [loop_loop_sum, zero_add]
theorem ilu_dot_congr (F F' : sp_matrix_skyline_ilu) (a b : ℕ) (hp : F'.parent = F.parent)
    (h : ∀ t : ℕ, t < skyline_row_count F.parent a → ∀ u : ℕ, u < skyline_row_count F.parent b →
      F.parent.jptr.getD (skyline_slot F.parent a t) 0
        = F.parent.jptr.getD (skyline_slot F.parent b u) 0 →
      F'.ilu_lowertr.getD (skyline_slot F.parent a t) 0
          = F.ilu_lowertr.getD (skyline_slot F.parent a t) 0
        ∧ F'.ilu_uppertr.getD (skyline_slot F.parent b u) 0
          = F.ilu_uppertr.getD (skyline_slot F.parent b u) 0) :
    ilu_dot F' a b = ilu_dot F a b := by
  unfold ilu_dot
  rw [hp]
  apply Finset.sum_congr rfl
  intro t ht
  apply Finset.sum_congr rfl
  intro u hu
  rw [Finset.mem_range] at ht hu
  split
  · rename_i hc
    rw [(h t ht u hu hc).1, (h t ht u hu hc).2]
  · rfl

/-- The state of the loop of `init_copy_sp_matrix_skyline_ilu` when the
passes before `k` are over: the rows before `k` of `L`, the diagonal
elements before `k` and the rows before `k` of `U` satisfy the equations
they were computed from. -/
structure ilu_inv (S : sp_matrix_skyline) (k : ℕ) (F : sp_matrix_skyline_ilu) : Prop where
  parent : F.parent = S
  diag_len : F.ilu_diag.length = S.rows_count.toNat
  lower_len : F.ilu_lowertr.length = S.tr_nonzeros.toNat
  upper_len : F.ilu_uppertr.length = S.tr_nonzeros.toNat
  lower : ∀ i : ℕ, i < k → ∀ t : ℕ, t < skyline_row_count S i →
    F.ilu_lowertr.getD (skyline_slot S i t) 0
      = (S.lower_triangle.getD (skyline_slot S i t) 0
          - ilu_dot F i (S.jptr.getD (skyline_slot S i t) 0).toNat)
        / F.ilu_diag.getD (S.jptr.getD (skyline_slot S i t) 0).toNat 0
  diag : ∀ i : ℕ, i < k →
    F.ilu_diag.getD i 0
      = S.diag.getD i 0
        - ∑ t in Finset.range (skyline_row_count S i),
            F.ilu_lowertr.getD (skyline_slot S i t) 0 * F.ilu_uppertr.getD (skyline_slot S i t) 0
  upper : ∀ j : ℕ, j < S.rows_count.toNat → ∀ t : ℕ, t < skyline_row_count S j →
    S.jptr.getD (skyline_slot S j t) 0 < (k : Int) →
    F.ilu_uppertr.getD (skyline_slot S j t) 0
      = S.upper_triangle.getD (skyline_slot S j t) 0
        - ilu_dot F (S.jptr.getD (skyline_slot S j t) 0).toNat j

/-- The state `F1` has what the state `F` has in the rows before `k` of `L`,
in the diagonal elements before `k` and in the rows before `k` of `U`. -/
structure ilu_agree (S : sp_matrix_skyline) (k : ℕ) (F F1 : sp_matrix_skyline_ilu) : Prop where
  parent : F1.parent = F.parent
  diag_len : F1.ilu_diag.length = F.ilu_diag.length
  lower_len : F1.ilu_lowertr.length = F.ilu_lowertr.length
  upper_len : F1.ilu_uppertr.length = F.ilu_uppertr.length
  lower : ∀ i : ℕ, i < k → ∀ t : ℕ, t < skyline_row_count S i →
    F1.ilu_lowertr.getD (skyline_slot S i t) 0 = F.ilu_lowertr.getD (skyline_slot S i t) 0
  diag : ∀ i : ℕ, i < k → F1.ilu_diag.getD i 0 = F.ilu_diag.getD i 0
  upper : ∀ p : ℕ, S.jptr.getD p 0 < (k : Int) →
    F1.ilu_uppertr.getD p 0 = F.ilu_uppertr.getD p 0

theorem ilu_inv_of_agree (S : sp_matrix_skyline) (hs : skyline_sorted S) (k : ℕ)
    (hk : k ≤ S.rows_count.toNat) (F F1 : sp_matrix_skyline_ilu) (hF : ilu_inv S k F)
    (ha : ilu_agree S k F F1) : ilu_inv S k F1 := by
  have hp : F.parent = S := hF.parent
  refine ⟨by rw [ha.parent, hp], by rw [ha.diag_len, hF.diag_len],
    by rw [ha.lower_len, hF.lower_len], by rw [ha.upper_len, hF.upper_len], ?_, ?_, ?_⟩
  · intro i hi t ht
    obtain ⟨v1, v2⟩ := hs.valid i (by omega) t ht
    have hdot : ilu_dot F1 i (S.jptr.getD (skyline_slot S i t) 0).toNat
        = ilu_dot F i (S.jptr.getD (skyline_slot S i t) 0).toNat := by
      apply ilu_dot_congr F F1 _ _ ha.parent
      rw [hp]
      intro t1 ht1 u hu _
      refine ⟨ha.lower i hi t1 ht1, ha.upper _ ?_⟩
      have := (hs.valid (S.jptr.getD (skyline_slot S i t) 0).toNat (by omega) u hu).2
      omega
    rw [ha.lower i hi t ht, hF.lower i hi t ht, hdot, ha.diag _ (by omega)]
  · intro i hi
    rw [ha.diag i hi, hF.diag i hi]
    congr 1
    apply Finset.sum_congr rfl
    intro t ht
    rw [Finset.mem_range] at ht
    rw [ha.lower i hi t ht, ha.upper _ (by
      have := (hs.valid i (by omega) t ht).2
      omega)]
  · intro j hj t ht hlt
    obtain ⟨v1, v2⟩ := hs.valid j hj t ht
    have hdot : ilu_dot F1 (S.jptr.getD (skyline_slot S j t) 0).toNat j
        = ilu_dot F (S.jptr.getD (skyline_slot S j t) 0).toNat j := by
      apply ilu_dot_congr F F1 _ _ ha.parent
      rw [hp]
      intro t1 ht1 u hu hmatch
      refine ⟨ha.lower _ (by omega) t1 ht1, ha.upper _ ?_⟩
      have := (hs.valid (S.jptr.getD (skyline_slot S j t) 0).toNat (by omega) t1 ht1).2
      omega
    rw [ha.upper _ hlt, hF.upper j hj t ht hlt, hdot]

theorem ilu_inv_init (S : sp_matrix_skyline) (hs : skyline_sorted S) :
    ilu_inv S 0 (ilu_init S) := by
  refine ⟨rfl, by simp [ilu_init], by simp [ilu_init], by simp [ilu_init], ?_, ?_, ?_⟩
  · intro i hi
    omega
  · intro i hi
    omega
  · intro j hj t ht hlt
    have := (hs.valid j hj t ht).1
    omega
theorem ilu_lower_entry_eq (S : sp_matrix_skyline) (k t : ℕ) (G : sp_matrix_skyline_ilu)
    (hv : 0 ≤ S.jptr.getD (skyline_slot S k t) 0) :
    (ilu_lower_entry S k (S.iptr.getD k 0 + (t : Int)) G).parent = G.parent
      ∧ (ilu_lower_entry S k (S.iptr.getD k 0 + (t : Int)) G).ilu_diag = G.ilu_diag
      ∧ (ilu_lower_entry S k (S.iptr.getD k 0 + (t : Int)) G).ilu_uppertr = G.ilu_uppertr
      ∧ (ilu_lower_entry S k (S.iptr.getD k 0 + (t : Int)) G).ilu_lowertr
          = G.ilu_lowertr.set (skyline_slot S k t)
              ((S.lower_triangle.getD (skyline_slot S k t) 0
                  - ilu_dot G k (S.jptr.getD (skyline_slot S k t) 0).toNat)
                / G.ilu_diag.getD (S.jptr.getD (skyline_slot S k t) 0).toNat 0) := by
  refine ⟨rfl, rfl, rfl, ?_⟩
  have h := ilu_sum_eq G (k : Int) (S.jptr.getD (skyline_slot S k t) 0)
    (Int.natCast_nonneg k) hv
  rw [Int.toNat_ofNat] at h
  rw [← h]
  rfl

/-- The loop over the slots of row `k` (lines 1490-1509): the row `k` of
`L`. -/
theorem ilu_lower_entry_row (S : sp_matrix_skyline) (hs : skyline_sorted S) (k : ℕ)
    (hk : k < S.rows_count.toNat) (F : sp_matrix_skyline_ilu) (hp : F.parent = S)
    (hl : F.ilu_lowertr.length = S.tr_nonzeros.toNat) :
    (range_loop (S.iptr.getD k 0) (S.iptr.getD (k + 1) 0) (ilu_lower_entry S k) F).parent = S
      ∧ (range_loop (S.iptr.getD k 0) (S.iptr.getD (k + 1) 0) (ilu_lower_entry S k) F).ilu_diag
          = F.ilu_diag
      ∧ (range_loop (S.iptr.getD k 0) (S.iptr.getD (k + 1) 0)
          (ilu_lower_entry S k) F).ilu_uppertr = F.ilu_uppertr
      ∧ (range_loop (S.iptr.getD k 0) (S.iptr.getD (k + 1) 0)
          (ilu_lower_entry S k) F).ilu_lowertr.length = S.tr_nonzeros.toNat
      ∧ (∀ p : ℕ, (∀ t : ℕ, t < skyline_row_count S k → p ≠ skyline_slot S k t) →
          (range_loop (S.iptr.getD k 0) (S.iptr.getD (k + 1) 0)
            (ilu_lower_entry S k) F).ilu_lowertr.getD p 0 = F.ilu_lowertr.getD p 0)
      ∧ ∀ t : ℕ, t < skyline_row_count S k →
          (range_loop (S.iptr.getD k 0) (S.iptr.getD (k + 1) 0)
            (ilu_lower_entry S k) F).ilu_lowertr.getD (skyline_slot S k t) 0
            = (S.lower_triangle.getD (skyline_slot S k t) 0
                - ilu_dot (range_loop (S.iptr.getD k 0) (S.iptr.getD (k + 1) 0)
                    (ilu_lower_entry S k) F) k (S.jptr.getD (skyline_slot S k t) 0).toNat)
              / F.ilu_diag.getD (S.jptr.getD (skyline_slot S k t) 0).toNat 0 := by
  unfold range_loop
  have key := loop_invariant
    (fun s (G : sp_matrix_skyline_ilu) =>
      s ≤ skyline_row_count S k ∧ G.parent = S ∧ G.ilu_diag = F.ilu_diag
        ∧ G.ilu_uppertr = F.ilu_uppertr
        ∧ G.ilu_lowertr.length = S.tr_nonzeros.toNat
        ∧ (∀ p : ℕ, (∀ t : ℕ, t < s → p ≠ skyline_slot S k t) →
            G.ilu_lowertr.getD p 0 = F.ilu_lowertr.getD p 0)
        ∧ ∀ t : ℕ, t < s →
            G.ilu_lowertr.getD (skyline_slot S k t) 0
              = (S.lower_triangle.getD (skyline_slot S k t) 0
                  - ilu_dot G k (S.jptr.getD (skyline_slot S k t) 0).toNat)
                / F.ilu_diag.getD (S.jptr.getD (skyline_slot S k t) 0).toNat 0)
    (S.iptr.getD (k + 1) 0 - S.iptr.getD k 0).toNat
    (fun t s => ilu_lower_entry S k (S.iptr.getD k 0 + (t : Int)) s) F
    ⟨Nat.zero_le _, hp, rfl, rfl, hl, fun p _ => rfl, fun t ht => by omega⟩
    (by
      intro s hs1 G ⟨_, g1, g2, g3, g4, g5, g6⟩
      have hs2 : s < skyline_row_count S k := hs1
      obtain ⟨v1, v2⟩ := hs.valid k hk s hs2
      obtain ⟨e1, e2, e3, e4⟩ := ilu_lower_entry_eq S k s G v1
      have hlen : skyline_slot S k s < G.ilu_lowertr.length := by
        rw [g4]
        exact skyline_slot_lt_tr S hs k s hk hs2
      -- the sums of the row do not read the slot that is stored
      have hdot : ∀ c : ℕ, (c : Int) ≤ S.jptr.getD (skyline_slot S k s) 0 →
          c < S.rows_count.toNat →
          ilu_dot (ilu_lower_entry S k (S.iptr.getD k 0 + (s : Int)) G) k c = ilu_dot G k c := by
        intro c hc hcn
        apply ilu_dot_congr G _ k c e1
        rw [g1]
        intro t1 ht1 u hu hmatch
        refine ⟨?_, by rw [e3]⟩
        rw [e4, getD_set_ne]
        intro heq
        have := (skyline_slot_inj S hs k s k t1 hk hs2 hk ht1 heq).2
        subst this
        have := (hs.valid c hcn u hu).2
        omega
      refine ⟨by omega, by rw [e1, g1], by rw [e2, g2], by rw [e3, g3],
        by rw [e4, List.length_set]; exact g4, ?_, ?_⟩
      · intro p hp1
        rw [e4, getD_set_ne _ _ _ _ _ (fun h => hp1 s (by omega) h.symm)]
        exact g5 p (fun t ht => hp1 t (by omega))
      · intro t ht
        by_cases hts : t = s
        · subst hts
          rw [e4, getD_set_self _ _ _ _ hlen, g2,
            hdot (S.jptr.getD (skyline_slot S k t) 0).toNat (by omega) (by omega)]
        · have htl : t < s := by omega
          have hne : skyline_slot S k s ≠ skyline_slot S k t := by
            intro heq
            exact hts (skyline_slot_inj S hs k s k t hk hs2 hk (by omega) heq).2.symm
          have hlt := hs.sorted k hk s hs2 t htl
          have hv := hs.valid k hk t (by omega)
          rw [e4, getD_set_ne _ _ _ _ _ hne, g6 t htl,
            hdot (S.jptr.getD (skyline_slot S k t) 0).toNat (by omega) (by omega)])
  obtain ⟨_, k1, k2, k3, k4, k5, k6⟩ := key
  exact ⟨k1, k2, k3, k4, fun p hp1 => k5 p hp1, fun t ht => k6 t ht⟩
theorem ilu_upper_entry_eq (S : sp_matrix_skyline) (k j t : ℕ) (G : sp_matrix_skyline_ilu) :
    (ilu_upper_entry S k (j : Int) (S.iptr.getD j 0 + (t : Int)) G).parent = G.parent
      ∧ (ilu_upper_entry S k (j : Int) (S.iptr.getD j 0 + (t : Int)) G).ilu_diag = G.ilu_diag
      ∧ (ilu_upper_entry S k (j : Int) (S.iptr.getD j 0 + (t : Int)) G).ilu_lowertr
          = G.ilu_lowertr
      ∧ (ilu_upper_entry S k (j : Int) (S.iptr.getD j 0 + (t : Int)) G).ilu_uppertr
          = if (k : Int) = S.jptr.getD (skyline_slot S j t) 0 then
              G.ilu_uppertr.set (skyline_slot S j t)
                (S.upper_triangle.getD (skyline_slot S j t) 0 - ilu_dot G k j)
            else G.ilu_uppertr := by
  have h := ilu_sum_eq G (k : Int) (j : Int) (Int.natCast_nonneg k) (Int.natCast_nonneg j)
  rw [Int.toNat_ofNat, Int.toNat_ofNat] at h
  rw [← h]
  unfold ilu_upper_entry
  by_cases hc : (k : Int) = S.jptr.getD (S.iptr.getD j 0 + (t : Int)).toNat 0
  · rw [if_pos hc]
    refine ⟨rfl, rfl, rfl, ?_⟩
    rw [if_pos (by exact hc)]
    rfl
  · rw [if_neg hc]
    refine ⟨rfl, rfl, rfl, ?_⟩
    rw [if_neg (by exact hc)]

/-- The sums for row `k` do not read the slots of `U` whose column is
`k`. -/
theorem ilu_dot_frame (S : sp_matrix_skyline) (hs : skyline_sorted S) (k : ℕ)
    (hk : k < S.rows_count.toNat) (G G1 : sp_matrix_skyline_ilu) (hp : G.parent = S)
    (hp1 : G1.parent = S) (hl : G1.ilu_lowertr = G.ilu_lowertr)
    (hu : ∀ p : ℕ, S.jptr.getD p 0 ≠ (k : Int) → G1.ilu_uppertr.getD p 0 = G.ilu_uppertr.getD p 0)
    (j : ℕ) : ilu_dot G1 k j = ilu_dot G k j := by
  apply ilu_dot_congr G G1 k j (by rw [hp1, hp])
  rw [hp]
  intro t ht u _ hmatch
  refine ⟨by rw [hl], hu _ ?_⟩
  have := (hs.valid k hk t ht).2
  omega

/-- The loop over the slots of row `j` in the last part of a pass `k`. -/
theorem ilu_upper_entry_row (S : sp_matrix_skyline) (hs : skyline_sorted S) (k j : ℕ)
    (hk : k < S.rows_count.toNat) (hj : j < S.rows_count.toNat) (G : sp_matrix_skyline_ilu)
    (hp : G.parent = S) (hl : G.ilu_uppertr.length = S.tr_nonzeros.toNat) :
    (range_loop (S.iptr.getD j 0) (S.iptr.getD (j + 1) 0)
        (ilu_upper_entry S k (j : Int)) G).parent = S
      ∧ (range_loop (S.iptr.getD j 0) (S.iptr.getD (j + 1) 0)
          (ilu_upper_entry S k (j : Int)) G).ilu_diag = G.ilu_diag
      ∧ (range_loop (S.iptr.getD j 0) (S.iptr.getD (j + 1) 0)
          (ilu_upper_entry S k (j : Int)) G).ilu_lowertr = G.ilu_lowertr
      ∧ (range_loop (S.iptr.getD j 0) (S.iptr.getD (j + 1) 0)
          (ilu_upper_entry S k (j : Int)) G).ilu_uppertr.length = S.tr_nonzeros.toNat
      ∧ (∀ p : ℕ, S.jptr.getD p 0 ≠ (k : Int) →
          (range_loop (S.iptr.getD j 0) (S.iptr.getD (j + 1) 0)
            (ilu_upper_entry S k (j : Int)) G).ilu_uppertr.getD p 0 = G.ilu_uppertr.getD p 0)
      ∧ (∀ p : ℕ, (∀ t : ℕ, t < skyline_row_count S j → p ≠ skyline_slot S j t) →
          (range_loop (S.iptr.getD j 0) (S.iptr.getD (j + 1) 0)
            (ilu_upper_entry S k (j : Int)) G).ilu_uppertr.getD p 0 = G.ilu_uppertr.getD p 0)
      ∧ ∀ t : ℕ, t < skyline_row_count S j → S.jptr.getD (skyline_slot S j t) 0 = (k : Int) →
          (range_loop (S.iptr.getD j 0) (S.iptr.getD (j + 1) 0)
            (ilu_upper_entry S k (j : Int)) G).ilu_uppertr.getD (skyline_slot S j t) 0
            = S.upper_triangle.getD (skyline_slot S j t) 0 - ilu_dot G k j := by
  unfold range_loop
  have key := loop_invariant
    (fun s (G1 : sp_matrix_skyline_ilu) =>
      s ≤ skyline_row_count S j ∧ G1.parent = S ∧ G1.ilu_diag = G.ilu_diag
        ∧ G1.ilu_lowertr = G.ilu_lowertr
        ∧ G1.ilu_uppertr.length = S.tr_nonzeros.toNat
        ∧ (∀ p : ℕ, S.jptr.getD p 0 ≠ (k : Int) →
            G1.ilu_uppertr.getD p 0 = G.ilu_uppertr.getD p 0)
        ∧ (∀ p : ℕ, (∀ t : ℕ, t < s → p ≠ skyline_slot S j t) →
            G1.ilu_uppertr.getD p 0 = G.ilu_uppertr.getD p 0)
        ∧ ∀ t : ℕ, t < s → S.jptr.getD (skyline_slot S j t) 0 = (k : Int) →
            G1.ilu_uppertr.getD (skyline_slot S j t) 0
              = S.upper_triangle.getD (skyline_slot S j t) 0 - ilu_dot G k j)
    (S.iptr.getD (j + 1) 0 - S.iptr.getD j 0).toNat
    (fun t s => ilu_upper_entry S k (j : Int) (S.iptr.getD j 0 + (t : Int)) s) G
    ⟨Nat.zero_le _, hp, rfl, rfl, hl, fun p _ => rfl, fun p _ => rfl, fun t ht => by omega⟩
    (by
      intro s hs1 G1 ⟨_, g1, g2, g3, g4, g5, g6, g7⟩
      have hs2 : s < skyline_row_count S j := hs1
      obtain ⟨e1, e2, e3, e4⟩ := ilu_upper_entry_eq S k j s G1
      have hlen : skyline_slot S j s < G1.ilu_uppertr.length := by
        rw [g4]
        exact skyline_slot_lt_tr S hs j s hj hs2
      have hdot : ilu_dot G1 k j = ilu_dot G k j :=
        ilu_dot_frame S hs k hk G G1 hp g1 g3 g5 j
      refine ⟨by omega, by rw [e1, g1], by rw [e2, g2], by rw [e3, g3], ?_, ?_, ?_, ?_⟩
      · rw [e4]
        split
        · rw [List.length_set]
          exact g4
        · exact g4
      · intro p hp1
        rw [e4]
        split
        · rename_i hc
          rw [getD_set_ne _ _ _ _ _ (fun h => hp1 (by rw [← h, ← hc]))]
          exact g5 p hp1
        · exact g5 p hp1
      · intro p hp1
        rw [e4]
        split
        · rw [getD_set_ne _ _ _ _ _ (fun h => hp1 s (by omega) h.symm)]
          exact g6 p (fun t ht => hp1 t (by omega))
        · exact g6 p (fun t ht => hp1 t (by omega))
      · intro t ht hjk
        by_cases hts : t = s
        · subst hts
          rw [e4, if_pos hjk.symm, getD_set_self _ _ _ _ hlen, hdot]
        · have hne : skyline_slot S j s ≠ skyline_slot S j t := by
            intro heq
            exact hts (skyline_slot_inj S hs j s j t hj hs2 hj (by omega) heq).2.symm
          rw [e4]
          split
          · rw [getD_set_ne _ _ _ _ _ hne]
            exact g7 t (by omega) hjk
          · exact g7 t (by omega) hjk)
  obtain ⟨_, k1, k2, k3, k4, k5, k6, k7⟩ := key
  exact ⟨k1, k2, k3, k4, fun p hp1 => k5 p hp1, fun p hp1 => k6 p hp1, fun t ht h => k7 t ht h⟩

/-- The last part of a pass `k` (lines 1520-1545): the row `k` of `U`. -/
theorem ilu_upper_rows (S : sp_matrix_skyline) (hs : skyline_sorted S) (k : ℕ)
    (hk : k < S.rows_count.toNat) (F2 : sp_matrix_skyline_ilu)
    (hp : F2.parent = S) (hl : F2.ilu_uppertr.length = S.tr_nonzeros.toNat) :
    (range_loop (k : Int) S.rows_count
        (fun j G => range_loop (S.iptr.getD j.toNat 0) (S.iptr.getD (j + 1).toNat 0)
          (ilu_upper_entry S k j) G) F2).parent = S
      ∧ (range_loop (k : Int) S.rows_count
          (fun j G => range_loop (S.iptr.getD j.toNat 0) (S.iptr.getD (j + 1).toNat 0)
            (ilu_upper_entry S k j) G) F2).ilu_diag = F2.ilu_diag
      ∧ (range_loop (k : Int) S.rows_count
          (fun j G => range_loop (S.iptr.getD j.toNat 0) (S.iptr.getD (j + 1).toNat 0)
            (ilu_upper_entry S k j) G) F2).ilu_lowertr = F2.ilu_lowertr
      ∧ (range_loop (k : Int) S.rows_count
          (fun j G => range_loop (S.iptr.getD j.toNat 0) (S.iptr.getD (j + 1).toNat 0)
            (ilu_upper_entry S k j) G) F2).ilu_uppertr.length = S.tr_nonzeros.toNat
      ∧ (∀ p : ℕ, S.jptr.getD p 0 ≠ (k : Int) →
          (range_loop (k : Int) S.rows_count
            (fun j G => range_loop (S.iptr.getD j.toNat 0) (S.iptr.getD (j + 1).toNat 0)
              (ilu_upper_entry S k j) G) F2).ilu_uppertr.getD p 0 = F2.ilu_uppertr.getD p 0)
      ∧ ∀ j : ℕ, k ≤ j → j < S.rows_count.toNat → ∀ t : ℕ, t < skyline_row_count S j →
          S.jptr.getD (skyline_slot S j t) 0 = (k : Int) →
          (range_loop (k : Int) S.rows_count
            (fun j G => range_loop (S.iptr.getD j.toNat 0) (S.iptr.getD (j + 1).toNat 0)
              (ilu_upper_entry S k j) G) F2).ilu_uppertr.getD (skyline_slot S j t) 0
            = S.upper_triangle.getD (skyline_slot S j t) 0 - ilu_dot F2 k j := by
  unfold range_loop
  have hcount : (S.rows_count - (k : Int)).toNat = S.rows_count.toNat - k := by omega
  rw [hcount]
  have key := loop_invariant
    (fun tj (G : sp_matrix_skyline_ilu) =>
      tj ≤ S.rows_count.toNat - k ∧ G.parent = S ∧ G.ilu_diag = F2.ilu_diag
        ∧ G.ilu_lowertr = F2.ilu_lowertr
        ∧ G.ilu_uppertr.length = S.tr_nonzeros.toNat
        ∧ (∀ p : ℕ, S.jptr.getD p 0 ≠ (k : Int) →
            G.ilu_uppertr.getD p 0 = F2.ilu_uppertr.getD p 0)
        ∧ ∀ j : ℕ, k ≤ j → j < k + tj → ∀ t : ℕ, t < skyline_row_count S j →
            S.jptr.getD (skyline_slot S j t) 0 = (k : Int) →
            G.ilu_uppertr.getD (skyline_slot S j t) 0
              = S.upper_triangle.getD (skyline_slot S j t) 0 - ilu_dot F2 k j)
    (S.rows_count.toNat - k)
    (fun t G =>
      loop (S.iptr.getD ((k : Int) + (t : Int) + 1).toNat 0
          - S.iptr.getD ((k : Int) + (t : Int)).toNat 0).toNat
        (fun t_1 s => ilu_upper_entry S k ((k : Int) + (t : Int))
          (S.iptr.getD ((k : Int) + (t : Int)).toNat 0 + (t_1 : Int)) s) G) F2
    ⟨Nat.zero_le _, hp, rfl, rfl, hl, fun p _ => rfl, fun j h1 h2 => by omega⟩
    (by
      intro tj htj G ⟨_, g1, g2, g3, g4, g5, g6⟩
      have hj : k + tj < S.rows_count.toNat := by omega
      have e1 : ((k : Int) + (tj : Int)).toNat = k + tj := by omega
      have e2 : ((k : Int) + (tj : Int) + 1).toNat = k + tj + 1 := by omega
      have e3 : (k : Int) + (tj : Int) = ((k + tj : ℕ) : Int) := by push_cast; rfl
      beta_reduce
      rw [e1, e2, e3]
      obtain ⟨r1, r2, r3, r4, r5, r6, r7⟩ := ilu_upper_entry_row S hs k (k + tj) hk hj G g1 g4
      unfold range_loop at r1 r2 r3 r4 r5 r6 r7
      have hdot : ilu_dot G k (k + tj) = ilu_dot F2 k (k + tj) :=
        ilu_dot_frame S hs k hk F2 G hp g1 g3 g5 (k + tj)
      refine ⟨by omega, r1, by rw [r2, g2], by rw [r3, g3], r4, ?_, ?_⟩
      · intro p hp1
        rw [r5 p hp1]
        exact g5 p hp1
      · intro j hkj hjlt t ht hjk
        by_cases hjj : j = k + tj
        · subst hjj
          rw [r7 t ht hjk, hdot]
        · rw [r6 _ (fun t1 ht1 heq =>
            hjj (skyline_slot_inj S hs j t (k + tj) t1 (by omega) ht hj ht1 heq).1)]
          exact g6 j hkj (by omega) t ht hjk)
  obtain ⟨_, k1, k2, k3, k4, k5, k6⟩ := key
  exact ⟨k1, k2, k3, k4, fun p hp1 => k5 p hp1,
    fun j hkj hj t ht h => k6 j hkj (by omega) t ht h⟩

theorem ilu_step_eq (S : sp_matrix_skyline) (k : ℕ) (F : sp_matrix_skyline_ilu)
    (hp : F.parent = S) :
    ilu_step k F
      = range_loop (k : Int) S.rows_count
          (fun j G => range_loop (S.iptr.getD j.toNat 0) (S.iptr.getD (j + 1).toNat 0)
            (ilu_upper_entry S k j) G)
          { range_loop (S.iptr.getD k 0) (S.iptr.getD (k + 1) 0) (ilu_lower_entry S k) F with
            ilu_diag :=
              (range_loop (S.iptr.getD k 0) (S.iptr.getD (k + 1) 0)
                (ilu_lower_entry S k) F).ilu_diag.set k
                (S.diag.getD k 0
                  - range_loop (S.iptr.getD k 0) (S.iptr.getD (k + 1) 0)
                      (fun i sum => sum
                        + (range_loop (S.iptr.getD k 0) (S.iptr.getD (k + 1) 0)
                            (ilu_lower_entry S k) F).ilu_lowertr.getD i.toNat 0
                          * (range_loop (S.iptr.getD k 0) (S.iptr.getD (k + 1) 0)
                              (ilu_lower_entry S k) F).ilu_uppertr.getD i.toNat 0) 0) } := by
  subst hp
  rfl

/-- A pass of the loop of `init_copy_sp_matrix_skyline_ilu` extends the
equations to the row `k`. -/
theorem ilu_step_inv (S : sp_matrix_skyline) (hs : skyline_sorted S) (k : ℕ)
    (hk : k < S.rows_count.toNat) (F : sp_matrix_skyline_ilu) (hF : ilu_inv S k F) :
    ilu_inv S (k + 1) (ilu_step k F) := by
  obtain ⟨a1, a2, a3, a4, a5, a6⟩ := ilu_lower_entry_row S hs k hk F hF.parent hF.lower_len
  rw [ilu_step_eq S k F hF.parent]
  generalize hF1 : range_loop (S.iptr.getD k 0) (S.iptr.getD (k + 1) 0)
    (ilu_lower_entry S k) F = F1 at a1 a2 a3 a4 a5 a6 ⊢
  rw [range_loop_sum]
  have hsum : (∑ t in Finset.range (S.iptr.getD (k + 1) 0 - S.iptr.getD k 0).toNat,
      F1.ilu_lowertr.getD (S.iptr.getD k 0 + (t : Int)).toNat 0
        * F1.ilu_uppertr.getD (S.iptr.getD k 0 + (t : Int)).toNat 0)
      = ∑ t in Finset.range (skyline_row_count S k),
          F1.ilu_lowertr.getD (skyline_slot S k t) 0
            * F1.ilu_uppertr.getD (skyline_slot S k t) 0 := rfl
  rw [zero_add, hsum]
  generalize hF2 : ({ F1 with
    ilu_diag := F1.ilu_diag.set k
      (S.diag.getD k 0
        - ∑ t in Finset.range (skyline_row_count S k),
            F1.ilu_lowertr.getD (skyline_slot S k t) 0
              * F1.ilu_uppertr.getD (skyline_slot S k t) 0) } : sp_matrix_skyline_ilu) = F2
  have c1 : F2.parent = S := by rw [← hF2]; exact a1
  have c2 : F2.ilu_lowertr = F1.ilu_lowertr := by rw [← hF2]
  have c3 : F2.ilu_uppertr = F1.ilu_uppertr := by rw [← hF2]
  have c4 : F2.ilu_diag = F1.ilu_diag.set k
      (S.diag.getD k 0
        - ∑ t in Finset.range (skyline_row_count S k),
            F1.ilu_lowertr.getD (skyline_slot S k t) 0
              * F1.ilu_uppertr.getD (skyline_slot S k t) 0) := by rw [← hF2]
  obtain ⟨b1, b2, b3, b4, b5, b6⟩ := ilu_upper_rows S hs k hk F2 c1
    (by rw [c3, a3]; exact hF.upper_len)
  generalize range_loop (k : Int) S.rows_count
    (fun j G => range_loop (S.iptr.getD j.toNat 0) (S.iptr.getD (j + 1).toNat 0)
      (ilu_upper_entry S k j) G) F2 = F3 at b1 b2 b3 b4 b5 b6 ⊢
  -- the rows before `k` are as they were
  have hagree : ilu_agree S k F F3 := by
    refine ⟨by rw [b1, hF.parent], by rw [b2, c4, List.length_set, a2],
      by rw [b3, c2, a4, hF.lower_len], by rw [b4, hF.upper_len], ?_, ?_, ?_⟩
    · intro i hi t ht
      rw [b3, c2]
      apply a5
      intro t1 ht1 heq
      have := (skyline_slot_inj S hs i t k t1 (by omega) ht hk ht1 heq).1
      omega
    · intro i hi
      rw [b2, c4, getD_set_ne _ _ _ _ _ (by omega), a2]
    · intro p hp1
      rw [b5 p (by omega), c3, a3]
  have hinv := ilu_inv_of_agree S hs k (by omega) F F3 hF hagree
  have hdot1 : ∀ j : ℕ, ilu_dot F3 k j = ilu_dot F1 k j := by
    intro j
    apply ilu_dot_frame S hs k hk F1 F3 a1 b1 (by rw [b3, c2])
    intro p hp1
    rw [b5 p hp1, c3]
  have hdot2 : ∀ j : ℕ, ilu_dot F3 k j = ilu_dot F2 k j := by
    intro j
    apply ilu_dot_frame S hs k hk F2 F3 c1 b1 b3
    intro p hp1
    rw [b5 p hp1]
  refine ⟨hinv.parent, hinv.diag_len, hinv.lower_len, hinv.upper_len, ?_, ?_, ?_⟩
  · intro i hi t ht
    by_cases hik : i = k
    · subst hik
      have hv := hs.valid i hk t ht
      rw [b3, c2, a6 t ht, hdot1, hagree.diag _ (by omega)]
    · exact hinv.lower i (by omega) t ht
  · intro i hi
    by_cases hik : i = k
    · subst hik
      rw [b2, c4, getD_set_self _ _ _ _ (by rw [a2, hF.diag_len]; exact hk), b3, c2]
      congr 1
      apply Finset.sum_congr rfl
      intro t ht
      rw [Finset.mem_range] at ht
      have hv := hs.valid i hk t ht
      rw [b5 _ (by omega), c3]
    · exact hinv.diag i (by omega)
  · intro j hj t ht hlt
    by_cases hjk : S.jptr.getD (skyline_slot S j t) 0 = (k : Int)
    · have hv := hs.valid j hj t ht
      rw [b6 j (by omega) hj t ht hjk, hjk, Int.toNat_ofNat, hdot2]
    · exact hinv.upper j hj t ht (by push_cast at hlt; omega)

/-- The equations hold for all rows when the loop is over. -/
theorem ilu_loop_inv (S : sp_matrix_skyline) (hs : skyline_sorted S) (m : ℕ)
    (hm : m ≤ S.rows_count.toNat) : ilu_inv S m (loop m ilu_step (ilu_init S)) := by
  induction m with
  | zero => exact ilu_inv_init S hs
  | succ m ih => exact ilu_step_inv S hs m (by omega) _ (ih (by omega))

/-! ## The factors as matrices -/

theorem ilu_lower_strict_slot (S : sp_matrix_skyline) (hs : skyline_sorted S)
    (F : sp_matrix_skyline_ilu) (hp : F.parent = S) (n : ℕ) (hn : n = S.rows_count.toNat)
    (i c : Fin n) (t : ℕ) (ht : t < skyline_row_count S i.val)
    (hc : S.jptr.getD (skyline_slot S i.val t) 0 = (c.val : Int)) :
    ilu_lower_strict F n i c = F.ilu_lowertr.getD (skyline_slot S i.val t) 0 := by
  unfold ilu_lower_strict
  rw [Matrix.of_apply, hp, Finset.sum_eq_single t]
  · rw [if_pos hc]
  · intro t1 ht1 hne
    rw [Finset.mem_range] at ht1
    rw [if_neg]
    intro heq
    have hi : i.val < S.rows_count.toNat := by rw [← hn]; exact i.isLt
    rcases Nat.lt_or_gt_of_ne hne with h | h
    · have := hs.sorted i.val hi t ht t1 h
      omega
    · have := hs.sorted i.val hi t1 ht1 t h
      omega
  · intro h
    exact absurd (Finset.mem_range.2 ht) h

theorem ilu_lower_strict_upper (S : sp_matrix_skyline) (hs : skyline_sorted S)
    (F : sp_matrix_skyline_ilu) (hp : F.parent = S) (n : ℕ) (hn : n = S.rows_count.toNat)
    (a b : Fin n) (hab : a.val ≤ b.val) : ilu_lower_strict F n a b = 0 := by
  unfold ilu_lower_strict
  rw [Matrix.of_apply, hp]
  apply Finset.sum_eq_zero
  intro t ht
  rw [Finset.mem_range] at ht
  rw [if_neg]
  intro heq
  have := (hs.valid a.val (by rw [← hn]; exact a.isLt) t ht).2
  omega

theorem ilu_upper_strict_slot (S : sp_matrix_skyline) (hs : skyline_sorted S)
    (F : sp_matrix_skyline_ilu) (hp : F.parent = S) (n : ℕ) (hn : n = S.rows_count.toNat)
    (i c : Fin n) (t : ℕ) (ht : t < skyline_row_count S i.val)
    (hc : S.jptr.getD (skyline_slot S i.val t) 0 = (c.val : Int)) :
    ilu_upper_strict F n c i = F.ilu_uppertr.getD (skyline_slot S i.val t) 0 := by
  unfold ilu_upper_strict
  rw [Matrix.of_apply, hp, Finset.sum_eq_single t]
  · rw [if_pos hc]
  · intro t1 ht1 hne
    rw [Finset.mem_range] at ht1
    rw [if_neg]
    intro heq
    have hi : i.val < S.rows_count.toNat := by rw [← hn]; exact i.isLt
    rcases Nat.lt_or_gt_of_ne hne with h | h
    · have := hs.sorted i.val hi t ht t1 h
      omega
    · have := hs.sorted i.val hi t1 ht1 t h
      omega
  · intro h
    exact absurd (Finset.mem_range.2 ht) h

theorem ilu_upper_strict_lower (S : sp_matrix_skyline) (hs : skyline_sorted S)
    (F : sp_matrix_skyline_ilu) (hp : F.parent = S) (n : ℕ) (hn : n = S.rows_count.toNat)
    (a b : Fin n) (hab : b.val ≤ a.val) : ilu_upper_strict F n a b = 0 := by
  unfold ilu_upper_strict
  rw [Matrix.of_apply, hp]
  apply Finset.sum_eq_zero
  intro t ht
  rw [Finset.mem_range] at ht
  rw [if_neg]
  intro heq
  have := (hs.valid b.val (by rw [← hn]; exact b.isLt) t ht).2
  omega

/-- The product of the strict parts of `L` and `U` is the sum of
`ilu_sum`. -/
theorem ilu_strict_mul (S : sp_matrix_skyline) (hs : skyline_sorted S)
    (F : sp_matrix_skyline_ilu) (hp : F.parent = S) (n : ℕ) (hn : n = S.rows_count.toNat)
    (a b : Fin n) :
    (ilu_lower_strict F n * ilu_upper_strict F n) a b = ilu_dot F a.val b.val := by
  rw [Matrix.mul_apply]
  unfold ilu_lower_strict ilu_upper_strict ilu_dot
  simp only [Matrix.of_apply, hp, Finset.sum_mul_sum]
  rw [Finset.sum_comm]
  apply Finset.sum_congr rfl
  intro t ht
  rw [Finset.sum_comm]
  apply Finset.sum_congr rfl
  intro u _
  rw [Finset.mem_range] at ht
  obtain ⟨v1, v2⟩ := hs.valid a.val (by rw [← hn]; exact a.isLt) t ht
  have hlt : (S.jptr.getD (skyline_slot S a.val t) 0).toNat < n := by
    have := a.isLt
    omega
  by_cases hm : S.jptr.getD (skyline_slot S a.val t) 0 = S.jptr.getD (skyline_slot S b.val u) 0
  · rw [if_pos hm, Finset.sum_eq_single ⟨(S.jptr.getD (skyline_slot S a.val t) 0).toNat, hlt⟩]
    · rw [if_pos (by simp only; omega), if_pos (by simp only; omega)]
    · intro m _ hne
      rw [if_neg, zero_mul]
      intro heq
      apply hne
      apply Fin.ext
      simp only
      omega
    · intro h
      exact absurd (Finset.mem_univ _) h
  · rw [if_neg hm]
    apply Finset.sum_eq_zero
    intro m _
    by_cases h1 : S.jptr.getD (skyline_slot S a.val t) 0 = (m.val : Int)
    · have h2 : ¬ S.jptr.getD (skyline_slot S b.val u) 0 = (m.val : Int) :=
        fun h2 => hm (h1.trans h2.symm)
      rw [if_neg h2, mul_zero]
    · rw [if_neg h1, zero_mul]

theorem ilu_dot_self (S : sp_matrix_skyline) (hs : skyline_sorted S)
    (F : sp_matrix_skyline_ilu) (hp : F.parent = S) (i : ℕ) (hi : i < S.rows_count.toNat) :
    ilu_dot F i i
      = ∑ t in Finset.range (skyline_row_count S i),
          F.ilu_lowertr.getD (skyline_slot S i t) 0 * F.ilu_uppertr.getD (skyline_slot S i t) 0 := by
  unfold ilu_dot
  rw [hp]
  apply Finset.sum_congr rfl
  intro t ht
  rw [Finset.mem_range] at ht
  rw [Finset.sum_eq_single t]
  · rw [if_pos rfl]
  · intro u hu hne
    rw [Finset.mem_range] at hu
    rw [if_neg]
    intro heq
    rcases Nat.lt_or_gt_of_ne hne with h | h
    · have := hs.sorted i hi t ht u h
      omega
    · have := hs.sorted i hi u hu t h
      omega
  · intro h
    exact absurd (Finset.mem_range.2 ht) h

/-- The product `L*U` of the factors at the diagonal and at the two
positions of every slot, from the equations of the loop. -/
theorem ilu_dense_mul (S : sp_matrix_skyline) (hs : skyline_sorted S)
    (F : sp_matrix_skyline_ilu) (n : ℕ) (hn : n = S.rows_count.toNat)
    (hF : ilu_inv S n F)
    (hd : ∀ k : ℕ, k < n → F.ilu_diag.getD k 0 ≠ 0) :
    (∀ i : Fin n, (ilu_lower_dense F n * ilu_upper_dense F n) i i = S.diag.getD i.val 0)
      ∧ ∀ (i c : Fin n) (t : ℕ), t < skyline_row_count S i.val →
          S.jptr.getD (skyline_slot S i.val t) 0 = (c.val : Int) →
          (ilu_lower_dense F n * ilu_upper_dense F n) i c
              = S.lower_triangle.getD (skyline_slot S i.val t) 0
            ∧ (ilu_lower_dense F n * ilu_upper_dense F n) c i
              = S.upper_triangle.getD (skyline_slot S i.val t) 0 := by
  have hp := hF.parent
  have hmul : ∀ a b : Fin n, (ilu_lower_dense F n * ilu_upper_dense F n) a b
      = (if a = b then F.ilu_diag.getD a.val 0 else 0) + ilu_upper_strict F n a b
        + ilu_lower_strict F n a b * F.ilu_diag.getD b.val 0 + ilu_dot F a.val b.val := by
    intro a b
    unfold ilu_lower_dense ilu_upper_dense
    rw [Matrix.add_mul, Matrix.one_mul, Matrix.mul_add, Matrix.add_apply, Matrix.add_apply,
      Matrix.add_apply, Matrix.mul_diagonal, ilu_strict_mul S hs F hp n hn a b,
      Matrix.diagonal_apply]
    ring
  constructor
  · intro i
    have hi : i.val < S.rows_count.toNat := by rw [← hn]; exact i.isLt
    rw [hmul, if_pos rfl, ilu_upper_strict_lower S hs F hp n hn i i (le_refl _),
      ilu_lower_strict_upper S hs F hp n hn i i (le_refl _), ilu_dot_self S hs F hp i.val hi,
      hF.diag i.val i.isLt]
    ring
  · intro i c t ht hc
    have hi : i.val < S.rows_count.toNat := by rw [← hn]; exact i.isLt
    obtain ⟨v1, v2⟩ := hs.valid i.val hi t ht
    have hci : c.val < i.val := by omega
    have hne : i ≠ c := fun h => by rw [h] at hci; omega
    have hct : (S.jptr.getD (skyline_slot S i.val t) 0).toNat = c.val := by omega
    constructor
    · rw [hmul, if_neg hne, ilu_upper_strict_lower S hs F hp n hn i c (by omega),
        ilu_lower_strict_slot S hs F hp n hn i c t ht hc, hF.lower i.val i.isLt t ht, hct]
      have := hd c.val c.isLt
      rw [zero_add, zero_add, div_mul_cancel₀ _ this]
      ring
    · rw [hmul, if_neg (fun h => hne h.symm), ilu_upper_strict_slot S hs F hp n hn i c t ht hc,
        ilu_lower_strict_upper S hs F hp n hn c i (by omega),
        hF.upper i.val hi t ht (by omega), hct]
      ring

/-! ## The skyline view of a matrix with sorted rows -/

/-- The slots of row `i` of the skyline view of a well-formed matrix with a
symmetric pattern, slot by slot: slot `t` of row `i` of the view comes from
a slot `k` of the row with a column below the diagonal, and it holds the
two values of the pair. -/
theorem init_sp_matrix_skyline_slot (junk : ℕ → ℚ) (mtx : sp_matrix) (hwf : sp_matrix_wf mtx)
    (hord : mtx.ordered = true)
    (hsym : ∀ i : ℕ, i < mtx.rows_count.toNat → ∀ j : ℕ, j < mtx.cols_count.toNat →
      (sp_matrix_element mtx (i : Int) (j : Int)).isSome = true →
      (sp_matrix_element mtx (j : Int) (i : Int)).isSome = true)
    (S : sp_matrix_skyline) (hS : init_sp_matrix_skyline junk mtx = some S) :
    S.rows_count = mtx.rows_count
      ∧ S.tr_nonzeros = (skyline_lower_before mtx mtx.rows_count.toNat : Int)
      ∧ (∀ i : ℕ, i < mtx.rows_count.toNat →
          S.diag.getD i 0 = sp_matrix_value mtx (i : Int) (i : Int))
      ∧ (∀ i : ℕ, i < mtx.rows_count.toNat →
          S.iptr.getD i 0 = (skyline_lower_before mtx i : Int)
            ∧ S.iptr.getD (i + 1) 0 = (skyline_lower_before mtx (i + 1) : Int))
      ∧ ∀ i : ℕ, i < mtx.rows_count.toNat → ∀ t : ℕ, t < skyline_row_count S i →
          ∃ k : ℕ, k < ((mtx.row i).last_index + 1).toNat
            ∧ (mtx.row i).indexes.getD k 0 < (i : Int)
            ∧ skyline_lower_in_row mtx i k = t
            ∧ S.jptr.getD (skyline_slot S i t) 0 = (mtx.row i).indexes.getD k 0
            ∧ S.lower_triangle.getD (skyline_slot S i t) 0
                = sp_matrix_value mtx (i : Int) (S.jptr.getD (skyline_slot S i t) 0)
            ∧ S.upper_triangle.getD (skyline_slot S i t) 0
                = sp_matrix_value mtx (S.jptr.getD (skyline_slot S i t) 0) (i : Int) := by
  obtain ⟨S1, h1, h2, _, h4, h5, h6, h7⟩ := init_sp_matrix_skyline_spec junk mtx hord
    (skyline_count_symmetric mtx hwf hsym)
  rw [hS] at h1
  injection h1 with h1
  subst h1
  refine ⟨h2, h4, h5, h6, ?_⟩
  intro i hi t ht
  have hcnt : skyline_row_count S i
      = skyline_lower_in_row mtx i ((mtx.row i).last_index + 1).toNat := by
    unfold skyline_row_count
    rw [(h6 i hi).1, (h6 i hi).2, skyline_lower_before_succ]
    omega
  have hslot : skyline_slot S i t = skyline_lower_before mtx i + t := by
    unfold skyline_slot
    rw [(h6 i hi).1]
    omega
  obtain ⟨k, hk1, hk2, hk3⟩ := skyline_slot_of_place mtx i
    ((mtx.row i).last_index + 1).toNat t (by rw [← hcnt]; exact ht)
  obtain ⟨g1, g2, g3⟩ := h7 i k hi hk1 hk2
  rw [hk3, ← hslot] at g1 g2 g3
  have hrow := hwf.rows_wf i hi
  have hr := hrow.in_range k hk1
  have he : sp_matrix_element mtx (i : Int) ((mtx.row i).indexes.getD k 0) = some k :=
    (sp_matrix_element_eq_some mtx hwf i _ k (by omega)).2 ⟨by omega, rfl⟩
  have hcol : ((((mtx.row i).indexes.getD k 0).toNat : ℕ) : Int)
      = (mtx.row i).indexes.getD k 0 := by omega
  refine ⟨k, hk1, hk2, hk3, g1, ?_, ?_⟩
  · rw [g1, g2]
    unfold sp_matrix_value
    rw [sp_matrix_value_slot mtx mtx hwf (sp_matrix_same_pattern_refl _) i _ k he]
    rfl
  · rw [g1, g3]
    have hst : (sp_matrix_element mtx
        ((((mtx.row i).indexes.getD k 0).toNat : ℕ) : Int) (i : Int)).isSome = true := by
      apply hsym i hi _ (by omega)
      rw [hcol, he]
      rfl
    obtain ⟨q, hq⟩ := Option.isSome_iff_exists.1 hst
    have hq' : indexed_array_find (mtx.row ((mtx.row i).indexes.getD k 0).toNat) (i : Int)
        = some q := by
      have := hq
      unfold sp_matrix_element at this
      split at this
      · rw [Int.toNat_ofNat] at this
        exact this
      · exact absurd this (by simp)
    unfold skyline_upper_expected
    rw [hq']
    simp only
    unfold sp_matrix_value
    rw [← hcol, sp_matrix_value_slot mtx mtx hwf (sp_matrix_same_pattern_refl _) _ _ q hq]
    rfl

/-- The skyline view of a well-formed matrix with sorted rows and a
symmetric pattern has its pointers in order. -/
theorem init_sp_matrix_skyline_sorted (junk : ℕ → ℚ) (mtx : sp_matrix) (hwf : sp_matrix_wf mtx)
    (hord : mtx.ordered = true)
    (hsym : ∀ i : ℕ, i < mtx.rows_count.toNat → ∀ j : ℕ, j < mtx.cols_count.toNat →
      (sp_matrix_element mtx (i : Int) (j : Int)).isSome = true →
      (sp_matrix_element mtx (j : Int) (i : Int)).isSome = true)
    (hsort : ∀ i : ℕ, i < mtx.rows_count.toNat →
      indexed_array_sorted (mtx.row i) 0 (mtx.row i).last_index)
    (hpos : 0 < mtx.rows_count.toNat)
    (S : sp_matrix_skyline) (hS : init_sp_matrix_skyline junk mtx = some S) :
    skyline_sorted S := by
  obtain ⟨h2, h4, _, h6, h7⟩ := init_sp_matrix_skyline_slot junk mtx hwf hord hsym S hS
  have hslot : ∀ i : ℕ, i < mtx.rows_count.toNat → ∀ t : ℕ, t < skyline_row_count S i →
      ∃ k : ℕ, k < ((mtx.row i).last_index + 1).toNat
        ∧ (mtx.row i).indexes.getD k 0 < (i : Int)
        ∧ skyline_lower_in_row mtx i k = t
        ∧ S.jptr.getD (skyline_slot S i t) 0 = (mtx.row i).indexes.getD k 0 := by
    intro i hi t ht
    obtain ⟨k, a1, a2, a3, a4, _⟩ := h7 i hi t ht
    exact ⟨k, a1, a2, a3, a4⟩
  constructor
  · rw [(h6 0 hpos).1]
    exact Int.natCast_nonneg _
  · intro i hi
    rw [h2] at hi
    rw [(h6 i hi).1, (h6 i hi).2]
    exact_mod_cast skyline_lower_before_mono mtx i (i + 1) (by omega)
  · rw [h2, h4]
    have := (h6 (mtx.rows_count.toNat - 1) (by omega)).2
    rw [show mtx.rows_count.toNat - 1 + 1 = mtx.rows_count.toNat by omega] at this
    rw [this]
  · intro i hi t ht
    rw [h2] at hi
    obtain ⟨k, a1, a2, _, a4⟩ := hslot i hi t ht
    rw [a4]
    exact ⟨((hwf.rows_wf i hi).in_range k a1).1, a2⟩
  · intro i hi t' ht' t htt
    rw [h2] at hi
    obtain ⟨k, a1, a2, a3, a4⟩ := hslot i hi t (by omega)
    obtain ⟨k', b1, b2, b3, b4⟩ := hslot i hi t' ht'
    rw [a4, b4]
    have hkk : k < k' := by
      by_contra hc
      have := skyline_lower_in_row_mono mtx i k' k (by omega)
      omega
    have hle := hsort i hi k k' (by omega) hkk (by omega)
    have hne := (hwf.rows_wf i hi).nodup k' b1 k hkk
    omega

/-! ## C36: the ILU decomposition reproduces the matrix on its pattern -/

/-- C36. For every well-formed matrix `M`, the matrix `A` that
`sp_matrix_reorder` makes of it, when the stored pattern of `A` is
symmetric, and every skyline view `S` that `init_sp_matrix_skyline` builds
from `A` (whatever `malloc` left in the buffers), if all pivots `ilu_diag[k]`
computed by `init_copy_sp_matrix_skyline_ilu` are nonzero: with `L` the unit
lower triangular matrix that holds `ilu_lowertr[p]` at `(i, jptr[p])` and `U`
the upper triangular matrix that holds `ilu_diag[i]` at `(i, i)` and
`ilu_uppertr[p]` at `(jptr[p], i)`, the product `L*U` is `A` at every
diagonal position, and for every slot `p` of every row `i` of the view the
column `jptr[p]` is a row `c` of the matrix and `L*U` is `A` at both
positions `(i, c)` and `(c, i)`. -/
theorem C36_ilu_reproduces_pattern (junk : ℕ → ℚ) (M A : sp_matrix) (hwf : sp_matrix_wf M)
    (hA : sp_matrix_reorder M = some A)
    (hsym : ∀ i : ℕ, i < A.rows_count.toNat → ∀ j : ℕ, j < A.cols_count.toNat →
      (sp_matrix_element A (i : Int) (j : Int)).isSome = true →
      (sp_matrix_element A (j : Int) (i : Int)).isSome = true)
    (S : sp_matrix_skyline) (hS : init_sp_matrix_skyline junk A = some S)
    (hd : ∀ k : ℕ, k < A.rows_count.toNat →
      (init_copy_sp_matrix_skyline_ilu S).ilu_diag.getD k 0 ≠ 0) :
    (∀ i : Fin A.rows_count.toNat,
        (ilu_lower_dense (init_copy_sp_matrix_skyline_ilu S) A.rows_count.toNat
            * ilu_upper_dense (init_copy_sp_matrix_skyline_ilu S) A.rows_count.toNat) i i
          = sp_matrix_value A (i.val : Int) (i.val : Int))
      ∧ ∀ (i : Fin A.rows_count.toNat) (p : ℕ),
          S.iptr.getD i.val 0 ≤ (p : Int) → (p : Int) < S.iptr.getD (i.val + 1) 0 →
          ∃ c : Fin A.rows_count.toNat, S.jptr.getD p 0 = (c.val : Int)
            ∧ (ilu_lower_dense (init_copy_sp_matrix_skyline_ilu S) A.rows_count.toNat
                * ilu_upper_dense (init_copy_sp_matrix_skyline_ilu S) A.rows_count.toNat) i c
              = sp_matrix_value A (i.val : Int) (c.val : Int)
            ∧ (ilu_lower_dense (init_copy_sp_matrix_skyline_ilu S) A.rows_count.toNat
                * ilu_upper_dense (init_copy_sp_matrix_skyline_ilu S) A.rows_count.toNat) c i
              = sp_matrix_value A (c.val : Int) (i.val : Int) := by
  by_cases hpos : 0 < A.rows_count.toNat
  · have hwfA := sp_matrix_reorder_wf M A hwf hA
    obtain ⟨A1, r1, r2, _, r4, _, r6⟩ := sp_matrix_reorder_spec M hwf
    rw [hA] at r1
    injection r1 with r1
    subst r1
    have hsort : ∀ i : ℕ, i < A.rows_count.toNat →
        indexed_array_sorted (A.row i) 0 (A.row i).last_index := by
      intro i hi
      rw [r2] at hi
      rw [(r6 i hi).1.2.1]
      exact (r6 i hi).2
    have hs := init_sp_matrix_skyline_sorted junk A hwfA r4 hsym hsort hpos S hS
    obtain ⟨h2, _, h5, h6, h7⟩ := init_sp_matrix_skyline_slot junk A hwfA r4 hsym S hS
    have hn : A.rows_count.toNat = S.rows_count.toNat := by rw [h2]
    have hF : ilu_inv S A.rows_count.toNat (init_copy_sp_matrix_skyline_ilu S) := by
      rw [init_copy_sp_matrix_skyline_ilu_eq, hn]
      exact ilu_loop_inv S hs S.rows_count.toNat (le_refl _)
    obtain ⟨d1, d2⟩ := ilu_dense_mul S hs (init_copy_sp_matrix_skyline_ilu S)
      A.rows_count.toNat hn hF hd
    constructor
    · intro i
      rw [d1 i, h5 i.val i.isLt]
    · intro i p hp1 hp2
      have hi0 := (h6 i.val i.isLt).1
      have ht : p - skyline_lower_before A i.val < skyline_row_count S i.val := by
        unfold skyline_row_count
        omega
      have hslot : skyline_slot S i.val (p - skyline_lower_before A i.val) = p := by
        unfold skyline_slot
        omega
      obtain ⟨v1, v2⟩ := hs.valid i.val (by rw [← hn]; exact i.isLt) _ ht
      obtain ⟨k, _, _, _, _, a5, a6⟩ := h7 i.val i.isLt _ ht
      rw [hslot] at v1 v2 a5 a6
      have hc : (S.jptr.getD p 0).toNat < A.rows_count.toNat := by
        have := i.isLt
        omega
      have hcv : S.jptr.getD p 0 = (((S.jptr.getD p 0).toNat : ℕ) : Int) := by omega
      obtain ⟨e1, e2⟩ := d2 i ⟨(S.jptr.getD p 0).toNat, hc⟩ _ ht (by rw [hslot]; exact hcv)
      rw [hslot] at e1 e2
      refine ⟨⟨(S.jptr.getD p 0).toNat, hc⟩, hcv, ?_, ?_⟩
      · rw [e1, a5]
        simp only
        rw [← hcv]
      · rw [e2, a6]
        simp only
        rw [← hcv]
  · have h0 : A.rows_count.toNat = 0 := by omega
    constructor
    · intro i
      exact absurd i.isLt (by omega)
    · intro i
      exact absurd i.isLt (by omega)

/-- C36 at the matrix of `test_ilu`, the buffers holding zeros before. -/
theorem C36_ilu_reproduces_pattern_witness :
    sp_matrix_wf test_ilu_mtx
      ∧ sp_matrix_reorder test_ilu_mtx = some test_ilu_mtx
      ∧ init_sp_matrix_skyline (fun _ => 0) test_ilu_mtx = some test_ilu_skyline
      ∧ (∀ k : ℕ, k < test_ilu_mtx.rows_count.toNat →
          (init_copy_sp_matrix_skyline_ilu test_ilu_skyline).ilu_diag.getD k 0 ≠ 0)
      ∧ (∀ i : Fin test_ilu_mtx.rows_count.toNat,
          (ilu_lower_dense (init_copy_sp_matrix_skyline_ilu test_ilu_skyline)
              test_ilu_mtx.rows_count.toNat
            * ilu_upper_dense (init_copy_sp_matrix_skyline_ilu test_ilu_skyline)
              test_ilu_mtx.rows_count.toNat) i i
            = sp_matrix_value test_ilu_mtx (i.val : Int) (i.val : Int))
      ∧ ∀ (i : Fin test_ilu_mtx.rows_count.toNat) (p : ℕ),
          test_ilu_skyline.iptr.getD i.val 0 ≤ (p : Int) →
          (p : Int) < test_ilu_skyline.iptr.getD (i.val + 1) 0 →
          ∃ c : Fin test_ilu_mtx.rows_count.toNat,
            test_ilu_skyline.jptr.getD p 0 = (c.val : Int)
            ∧ (ilu_lower_dense (init_copy_sp_matrix_skyline_ilu test_ilu_skyline)
                  test_ilu_mtx.rows_count.toNat
                * ilu_upper_dense (init_copy_sp_matrix_skyline_ilu test_ilu_skyline)
                  test_ilu_mtx.rows_count.toNat) i c
              = sp_matrix_value test_ilu_mtx (i.val : Int) (c.val : Int)
            ∧ (ilu_lower_dense (init_copy_sp_matrix_skyline_ilu test_ilu_skyline)
                  test_ilu_mtx.rows_count.toNat
                * ilu_upper_dense (init_copy_sp_matrix_skyline_ilu test_ilu_skyline)
                  test_ilu_mtx.rows_count.toNat) c i
              = sp_matrix_value test_ilu_mtx (c.val : Int) (i.val : Int) :=
  ⟨by decide!, by decide!, by decide!, by decide!,
    C36_ilu_reproduces_pattern (fun _ => 0) test_ilu_mtx test_ilu_mtx (by decide!) (by decide!)
      (by decide!) test_ilu_skyline (by decide!) (by decide!)⟩

/-! ## C34: the preconditioner of `sp_matrix_solve_pcg` -/

/-- The invariant of the loop of `sp_matrix_skyline_ilu_lower_solve` on any
right-hand side `b`: the rows done satisfy row `m` of `L*x = b`, the rows to
do still hold `b`. -/
theorem sp_matrix_skyline_ilu_lower_solve_inv (self : sp_matrix_skyline_ilu)
    (hv : sp_matrix_skyline_valid self.parent) (b x1 : List ℚ)
    (hb : b.length = self.parent.rows_count.toNat)
    (hx1 : x1.length = self.parent.rows_count.toNat)
    (n : ℕ) (hn : n ≤ self.parent.rows_count.toNat) :
    (loop n (sp_matrix_skyline_ilu_lower_solve_row self) (b, x1)).1.length
        = self.parent.rows_count.toNat
      ∧ (loop n (sp_matrix_skyline_ilu_lower_solve_row self) (b, x1)).2.length
        = self.parent.rows_count.toNat
      ∧ ∀ m : ℕ, m < self.parent.rows_count.toNat →
          (m < n →
            (loop n (sp_matrix_skyline_ilu_lower_solve_row self) (b, x1)).2.getD m 0
              + ilu_lower_dot self
                  (loop n (sp_matrix_skyline_ilu_lower_solve_row self) (b, x1)).2 m
              = b.getD m 0)
          ∧ (n ≤ m →
            (loop n (sp_matrix_skyline_ilu_lower_solve_row self) (b, x1)).1.getD m 0
              = b.getD m 0) := by
  induction n with
  | zero => exact ⟨hb, hx1, fun m _ => ⟨fun h => absurd h (Nat.not_lt_zero m), fun _ => rfl⟩⟩
  | succ n ih =>
    obtain ⟨ih1, ih2, ih3⟩ := ih (by omega)
    simp only [loop]
    generalize loop n (sp_matrix_skyline_ilu_lower_solve_row self) (b, x1) = s at ih1 ih2 ih3
    rw [sp_matrix_skyline_ilu_lower_solve_row_eq _ _ _ (by omega)]
    refine ⟨by simp only [List.length_set, ih1], by simp only [List.length_set, ih2], ?_⟩
    intro m hm
    constructor
    · intro hmn
      simp only
      rw [ilu_lower_dot_congr self hv s.2 _ m hm
        (fun m1 hm1 => getD_set_ne _ _ _ _ _ (by omega)), getD_set_eq]
      by_cases h : n = m
      · subst h
        rw [if_pos ⟨rfl, by omega⟩, (ih3 n hm).2 (le_refl _)]
        ring
      · rw [if_neg (fun hc => h hc.1)]
        exact (ih3 m hm).1 (by omega)
    · intro hmn
      simp only
      rw [getD_set_ne _ _ _ _ _ (by omega)]
      exact (ih3 m hm).2 (by omega)

/-- The product `L*x` of the solution `x` of the lower solve is the
right-hand side. -/
theorem sp_matrix_skyline_ilu_lower_mv_solve (self : sp_matrix_skyline_ilu)
    (hv : sp_matrix_skyline_valid self.parent) (b x0 y0 : List ℚ)
    (hb : b.length = self.parent.rows_count.toNat)
    (hx0 : x0.length = self.parent.rows_count.toNat)
    (hy0 : y0.length = self.parent.rows_count.toNat) :
    (sp_matrix_skyline_ilu_lower_solve self b x0).2.length = self.parent.rows_count.toNat
      ∧ sp_matrix_skyline_ilu_lower_mv self (sp_matrix_skyline_ilu_lower_solve self b x0).2 y0
        = b := by
  have hs := sp_matrix_skyline_ilu_lower_solve_inv self hv b
    (memset_zero x0 self.parent.rows_count) hb (length_memset_zero _ _ hx0)
    self.parent.rows_count.toNat (le_refl _)
  have hmv := sp_matrix_skyline_ilu_lower_mv_loop self
    (sp_matrix_skyline_ilu_lower_solve self b x0).2 self.parent.rows_count.toNat
    (memset_zero y0 self.parent.rows_count) (by rw [length_memset_zero _ _ hy0])
  refine ⟨hs.2.1, ?_⟩
  unfold sp_matrix_skyline_ilu_lower_mv
  apply list_ext_getD _ _ (by rw [hmv.1, length_memset_zero _ _ hy0, hb])
  intro m hm
  rw [hmv.1, length_memset_zero _ _ hy0] at hm
  rw [hmv.2 m hm]
  exact (hs.2.2 m hm).1 hm

/-- The rows below `k` of the second loop of `sp_matrix_skyline_ilu_upper_mv`
add their columns to the buffer. -/
theorem sp_matrix_skyline_ilu_upper_mv_sum (self : sp_matrix_skyline_ilu) (x y1 : List ℚ)
    (k : ℕ) :
    (loop k (sp_matrix_skyline_ilu_upper_mv_row self x) y1).length = y1.length
      ∧ ∀ m : ℕ, m < y1.length →
        (loop k (sp_matrix_skyline_ilu_upper_mv_row self x) y1).getD m 0
          = y1.getD m 0
            + ∑ i in Finset.range k, ilu_upper_scatter self (x.getD i 0) i m := by
  induction k with
  | zero => exact ⟨rfl, fun m _ => by simp [loop]⟩
  | succ k ih =>
    obtain ⟨ih1, ih2⟩ := ih
    simp only [loop]
    obtain ⟨h1, h2⟩ := sp_matrix_skyline_ilu_upper_mv_row_spec self x k
      (loop k (sp_matrix_skyline_ilu_upper_mv_row self x) y1)
    refine ⟨by rw [h1, ih1], ?_⟩
    intro m hm
    rw [h2 m (by rw [ih1]; exact hm), ih2 m hm, Finset.sum_range_succ]
    ring

/-- The invariant of the loop of `sp_matrix_skyline_ilu_upper_solve` on any
right-hand side `b`: after `t` passes the columns `n-t .. n-1` of `U` times
the solution are taken from `b`, and the rows `n-t .. n-1` of the solution
times the diagonal are what is left of `b` there. -/
theorem sp_matrix_skyline_ilu_upper_solve_inv (self : sp_matrix_skyline_ilu)
    (hv : sp_matrix_skyline_valid self.parent)
    (hd : ∀ i : ℕ, i < self.parent.rows_count.toNat → self.ilu_diag.getD i 0 ≠ 0)
    (b x1 : List ℚ)
    (hb : b.length = self.parent.rows_count.toNat)
    (hx1 : x1.length = self.parent.rows_count.toNat)
    (t : ℕ) (ht : t ≤ self.parent.rows_count.toNat) :
    (loop t
        (fun t s => sp_matrix_skyline_ilu_upper_solve_row self
          (self.parent.rows_count.toNat - 1 - t) s) (b, x1)).1.length
        = self.parent.rows_count.toNat
      ∧ (loop t
          (fun t s => sp_matrix_skyline_ilu_upper_solve_row self
            (self.parent.rows_count.toNat - 1 - t) s) (b, x1)).2.length
        = self.parent.rows_count.toNat
      ∧ (∀ m : ℕ, m < self.parent.rows_count.toNat →
          (loop t
            (fun t s => sp_matrix_skyline_ilu_upper_solve_row self
              (self.parent.rows_count.toNat - 1 - t) s) (b, x1)).1.getD m 0
            = b.getD m 0
              - ∑ i in Finset.range self.parent.rows_count.toNat,
                  if self.parent.rows_count.toNat - t ≤ i then
                    ilu_upper_scatter self
                      ((loop t
                        (fun t s => sp_matrix_skyline_ilu_upper_solve_row self
                          (self.parent.rows_count.toNat - 1 - t) s) (b, x1)).2.getD i 0) i m
                  else 0)
      ∧ ∀ i : ℕ, self.parent.rows_count.toNat - t ≤ i → i < self.parent.rows_count.toNat →
          (loop t
            (fun t s => sp_matrix_skyline_ilu_upper_solve_row self
              (self.parent.rows_count.toNat - 1 - t) s) (b, x1)).2.getD i 0
              * self.ilu_diag.getD i 0
            = (loop t
              (fun t s => sp_matrix_skyline_ilu_upper_solve_row self
                (self.parent.rows_count.toNat - 1 - t) s) (b, x1)).1.getD i 0 := by
  induction t with
  | zero =>
    refine ⟨hb, hx1, ?_, ?_⟩
    · intro m _
      rw [Finset.sum_eq_zero, sub_zero]
      · rfl
      · intro i hi
        rw [Finset.mem_range] at hi
        rw [if_neg (by omega)]
    · intro i h1 h2
      omega
  | succ t ih =>
    obtain ⟨ih1, ih2, ih3, ih4⟩ := ih (by omega)
    simp only [loop]
    generalize loop t
      (fun t s => sp_matrix_skyline_ilu_upper_solve_row self
        (self.parent.rows_count.toNat - 1 - t) s) (b, x1) = s at ih1 ih2 ih3 ih4
    obtain ⟨b1, x2⟩ := s
    simp only at ih1 ih2 ih3 ih4
    have hi : self.parent.rows_count.toNat - 1 - t < self.parent.rows_count.toNat := by omega
    have hnt : self.parent.rows_count.toNat - t
        = (self.parent.rows_count.toNat - 1 - t) + 1 := by omega
    have hnt1 : self.parent.rows_count.toNat - (t + 1)
        = self.parent.rows_count.toNat - 1 - t := by omega
    generalize self.parent.rows_count.toNat - 1 - t = i at hi hnt hnt1 ⊢
    rw [hnt] at ih3 ih4
    rw [hnt1]
    obtain ⟨hS1, hS2, hS3⟩ := sp_matrix_skyline_ilu_upper_solve_row_spec self i (b1, x2)
    simp only at hS1 hS2 hS3
    have hxi : (x2.set i (b1.getD i 0 / self.ilu_diag.getD i 0)).getD i 0
        = b1.getD i 0 / self.ilu_diag.getD i 0 := getD_set_self _ _ _ _ (by omega)
    have hxne : ∀ a : ℕ, i + 1 ≤ a →
        (x2.set i (b1.getD i 0 / self.ilu_diag.getD i 0)).getD a 0 = x2.getD a 0 :=
      fun a ha => getD_set_ne _ _ _ _ _ (by omega)
    refine ⟨by rw [hS2, ih1], by rw [hS1, List.length_set, ih2], ?_, ?_⟩
    · intro m hm
      rw [hS3 m (by rw [ih1]; exact hm), ih3 m hm, hS1, sub_sub]
      congr 1
      have hsplit : ∀ a : ℕ, a ∈ Finset.range self.parent.rows_count.toNat →
          (if i ≤ a then
            ilu_upper_scatter self
              ((x2.set i (b1.getD i 0 / self.ilu_diag.getD i 0)).getD a 0) a m
          else 0)
          = (if i + 1 ≤ a then ilu_upper_scatter self (x2.getD a 0) a m else 0)
            + if i = a then
                ilu_upper_scatter self
                  ((x2.set i (b1.getD i 0 / self.ilu_diag.getD i 0)).getD i 0) i m
              else 0 := by
        intro a _
        by_cases h1 : i = a
        · subst h1
          rw [if_pos (le_refl _), if_neg (by omega), if_pos rfl, zero_add]
        · by_cases h2 : i + 1 ≤ a
          · rw [if_pos (by omega), if_pos h2, if_neg h1, add_zero, hxne a h2]
          · rw [if_neg (by omega), if_neg h2, if_neg h1, add_zero]
      rw [Finset.sum_congr rfl hsplit, Finset.sum_add_distrib, Finset.sum_ite_eq,
        if_pos (Finset.mem_range.2 hi)]
    · intro a ha1 ha2
      rw [hS1, hS3 a (by rw [ih1]; exact ha2),
        ilu_upper_scatter_eq_zero self hv _ i a hi ha1, sub_zero]
      by_cases h : i = a
      · subst h
        rw [hxi]
        exact div_mul_cancel₀ _ (hd i hi)
      · rw [hxne a (by omega)]
        exact ih4 a (by omega) ha2

/-- The product `U*x` of the solution `x` of the upper solve is the
right-hand side. -/
theorem sp_matrix_skyline_ilu_upper_mv_solve (self : sp_matrix_skyline_ilu)
    (hv : sp_matrix_skyline_valid self.parent)
    (hd : ∀ i : ℕ, i < self.parent.rows_count.toNat → self.ilu_diag.getD i 0 ≠ 0)
    (b x0 y0 : List ℚ)
    (hb : b.length = self.parent.rows_count.toNat)
    (hx0 : x0.length = self.parent.rows_count.toNat)
    (hy0 : y0.length = self.parent.rows_count.toNat) :
    (sp_matrix_skyline_ilu_upper_solve self b x0).2.length = self.parent.rows_count.toNat
      ∧ sp_matrix_skyline_ilu_upper_mv self (sp_matrix_skyline_ilu_upper_solve self b x0).2 y0
        = b := by
  obtain ⟨s1, s2, s3, s4⟩ := sp_matrix_skyline_ilu_upper_solve_inv self hv hd b
    (memset_zero x0 self.parent.rows_count) hb (length_memset_zero _ _ hx0)
    self.parent.rows_count.toNat (le_refl _)
  obtain ⟨hd1, hd2⟩ := sp_matrix_skyline_ilu_upper_mv_diag self
    (sp_matrix_skyline_ilu_upper_solve self b x0).2
    self.parent.rows_count.toNat (memset_zero y0 self.parent.rows_count)
    (by rw [length_memset_zero _ _ hy0])
  obtain ⟨hm1, hm2⟩ := sp_matrix_skyline_ilu_upper_mv_sum self
    (sp_matrix_skyline_ilu_upper_solve self b x0).2
    (loop self.parent.rows_count.toNat
      (fun i y => y.set i
        ((sp_matrix_skyline_ilu_upper_solve self b x0).2.getD i 0 * self.ilu_diag.getD i 0))
      (memset_zero y0 self.parent.rows_count))
    self.parent.rows_count.toNat
  refine ⟨s2, ?_⟩
  unfold sp_matrix_skyline_ilu_upper_mv
  apply list_ext_getD _ _ (by rw [hm1, hd1, length_memset_zero _ _ hy0, hb])
  intro m hm
  rw [hm1, hd1, length_memset_zero _ _ hy0] at hm
  rw [hm2 m (by rw [hd1, length_memset_zero _ _ hy0]; exact hm), hd2 m hm]
  have e1 := s3 m hm
  have e2 := s4 m (by omega) hm
  unfold sp_matrix_skyline_ilu_upper_solve
  rw [e2, e1]
  rw [Finset.sum_congr rfl (fun i _ => if_pos (by omega))]
  ring

theorem memcpy_full (dst src : List ℚ) (n : Int) (hd : dst.length = n.toNat)
    (hs : src.length = n.toNat) : memcpy dst src n = src := by
  unfold memcpy
  rw [List.drop_of_length_le (by omega), List.take_of_length_le (by omega), List.append_nil]

/-- The buffers `r`, `r1`, `z` and `temp` of `sp_matrix_solve_pcg` have `n`
cells. -/
structure pcg_vars_ok (n : ℕ) (s : pcg_vars) : Prop where
  r_len : s.r.length = n
  r1_len : s.r1.length = n
  z_len : s.z.length = n
  temp_len : s.temp.length = n

theorem sp_matrix_skyline_ilu_lower_solve_length (self : sp_matrix_skyline_ilu) (b x : List ℚ)
    (hb : b.length = self.parent.rows_count.toNat)
    (hx : x.length = self.parent.rows_count.toNat) :
    (sp_matrix_skyline_ilu_lower_solve self b x).1.length = self.parent.rows_count.toNat
      ∧ (sp_matrix_skyline_ilu_lower_solve self b x).2.length
        = self.parent.rows_count.toNat := by
  unfold sp_matrix_skyline_ilu_lower_solve
  apply loop_invariant
    (fun _ (s : List ℚ × List ℚ) => s.1.length = self.parent.rows_count.toNat
      ∧ s.2.length = self.parent.rows_count.toNat)
  · exact ⟨hb, length_memset_zero _ _ hx⟩
  · intro t ht s hs
    rw [sp_matrix_skyline_ilu_lower_solve_row_eq _ _ _ (by omega)]
    exact ⟨by simp only [List.length_set, hs.1], by simp only [List.length_set, hs.2]⟩

theorem sp_matrix_skyline_ilu_upper_solve_length (self : sp_matrix_skyline_ilu) (b x : List ℚ)
    (hb : b.length = self.parent.rows_count.toNat)
    (hx : x.length = self.parent.rows_count.toNat) :
    (sp_matrix_skyline_ilu_upper_solve self b x).1.length = self.parent.rows_count.toNat
      ∧ (sp_matrix_skyline_ilu_upper_solve self b x).2.length
        = self.parent.rows_count.toNat := by
  unfold sp_matrix_skyline_ilu_upper_solve
  apply loop_invariant
    (fun _ (s : List ℚ × List ℚ) => s.1.length = self.parent.rows_count.toNat
      ∧ s.2.length = self.parent.rows_count.toNat)
  · exact ⟨hb, length_memset_zero _ _ hx⟩
  · intro t _ s hs
    obtain ⟨h1, h2, _⟩ := sp_matrix_skyline_ilu_upper_solve_row_spec self
      (self.parent.rows_count.toNat - 1 - t) s
    exact ⟨by rw [h2, hs.1], by rw [h1, List.length_set, hs.2]⟩

/-- The buffers of `sp_matrix_solve_pcg` have `rows_count` cells when the
preconditioner is applied for the first time. -/
theorem sp_matrix_solve_pcg_init_ok (self : sp_matrix) (hwf : sp_matrix_wf self)
    (b x0 x : List ℚ) :
    pcg_vars_ok self.rows_count.toNat (sp_matrix_solve_pcg_init self b x0 x) := by
  have hmv := (sp_matrix_mv_wf self hwf b (List.replicate self.rows_count.toNat 0)
    (List.length_replicate _ _)).1
  refine ⟨?_, List.length_replicate _ _, List.length_replicate _ _, List.length_replicate _ _⟩
  unfold sp_matrix_solve_pcg_init
  simp only
  rw [(loop_set_cells (fun i v => b.getD i 0 - v) _ _ (by rw [hmv])).1, hmv]

/-- The first part of a pass of the loop of `sp_matrix_solve_pcg`, and the
`memset` of `temp` after it, keep the sizes of the buffers. -/
theorem pcg_update_ok (self : sp_matrix) (hwf : sp_matrix_wf self) (s : pcg_vars)
    (hs : pcg_vars_ok self.rows_count.toNat s) :
    pcg_vars_ok self.rows_count.toNat
      { (pcg_update self self.rows_count.toNat s).1 with
        temp := memset_zero (pcg_update self self.rows_count.toNat s).1.temp
          self.rows_count } := by
  have hmv := (sp_matrix_mv_wf self hwf s.p (memset_zero s.temp self.rows_count)
    (length_memset_zero _ _ hs.temp_len)).1
  refine ⟨?_, hs.r1_len, hs.z_len, ?_⟩
  · unfold pcg_update
    simp only
    rw [(loop_set_cells (fun i v => v - _ * (sp_matrix_mv self s.p
      (memset_zero s.temp self.rows_count)).getD i 0) _ _ (by rw [hs.r_len])).1, hs.r_len]
  · exact length_memset_zero _ _ hmv

/-- The preconditioner keeps the sizes of the buffers. -/
theorem pcg_precondition_ok (ILU : sp_matrix_skyline_ilu) (s : pcg_vars)
    (hs : pcg_vars_ok ILU.parent.rows_count.toNat s) :
    pcg_vars_ok ILU.parent.rows_count.toNat
      (pcg_precondition ILU ILU.parent.rows_count s) := by
  have hl := sp_matrix_skyline_ilu_lower_solve_length ILU
    (memcpy s.r1 s.r ILU.parent.rows_count) s.temp
    (by rw [memcpy_full _ _ _ hs.r1_len hs.r_len, hs.r_len]) hs.temp_len
  have hu := sp_matrix_skyline_ilu_upper_solve_length ILU
    (sp_matrix_skyline_ilu_lower_solve ILU (memcpy s.r1 s.r ILU.parent.rows_count) s.temp).2
    s.z hl.2 hs.z_len
  exact ⟨hs.r_len, hl.1, hu.2, hu.1⟩

/-- The second part of a pass of the loop of `sp_matrix_solve_pcg` keeps
the sizes of the buffers. -/
theorem pcg_direction_ok (n : ℕ) (s : pcg_vars) (a1 : ℚ) (hs : pcg_vars_ok n s) :
    pcg_vars_ok n { pcg_direction n s a1 with j := s.j + 1 } :=
  ⟨hs.r_len, hs.r1_len, hs.z_len, hs.temp_len⟩

/-- C34. Each time `sp_matrix_solve_pcg` applies the preconditioner, that is
`pcg_precondition` with an ILU factor over a valid skyline view on variables
whose buffers `r`, `r1`, `z` and `temp` have `rows_count` cells (as they
have at the start and in every pass of the loop): the residual `r` is left
as it was, and when every `ilu_diag[i]` is nonzero the resulting `z`
satisfies `L*(U*z) = r`, that is `sp_matrix_skyline_ilu_lower_mv` applied to
`sp_matrix_skyline_ilu_upper_mv(z)` gives `r`, whatever the buffers of the
two products held before. -/
theorem C34_preconditioner_application (ILU : sp_matrix_skyline_ilu)
    (hv : sp_matrix_skyline_valid ILU.parent) (s : pcg_vars)
    (hs : pcg_vars_ok ILU.parent.rows_count.toNat s)
    (y0 y1 : List ℚ)
    (hy0 : y0.length = ILU.parent.rows_count.toNat)
    (hy1 : y1.length = ILU.parent.rows_count.toNat) :
    (pcg_precondition ILU ILU.parent.rows_count s).r = s.r
      ∧ ((∀ i : ℕ, i < ILU.parent.rows_count.toNat → ILU.ilu_diag.getD i 0 ≠ 0) →
          sp_matrix_skyline_ilu_lower_mv ILU
            (sp_matrix_skyline_ilu_upper_mv ILU
              (pcg_precondition ILU ILU.parent.rows_count s).z y0) y1 = s.r) := by
  refine ⟨rfl, ?_⟩
  intro hd
  unfold pcg_precondition
  simp only
  rw [memcpy_full _ _ _ hs.r1_len hs.r_len]
  obtain ⟨l1, l2⟩ := sp_matrix_skyline_ilu_lower_mv_solve ILU hv s.r s.temp y1 hs.r_len
    hs.temp_len hy1
  obtain ⟨_, u2⟩ := sp_matrix_skyline_ilu_upper_mv_solve ILU hv hd
    (sp_matrix_skyline_ilu_lower_solve ILU s.r s.temp).2 s.z y0 l1 hs.z_len hy0
  rw [u2, l2]

/-- C34 at the factor of `test_ilu` and the variables of
`sp_matrix_solve_pcg` at its start for the right-hand side
`b = x0 = (1,2,3,0,3,2,1)`. -/
theorem C34_preconditioner_application_witness :
    sp_matrix_skyline_valid (init_copy_sp_matrix_skyline_ilu test_ilu_skyline).parent
      ∧ pcg_vars_ok (init_copy_sp_matrix_skyline_ilu test_ilu_skyline).parent.rows_count.toNat
          (sp_matrix_solve_pcg_init test_ilu_mtx x_exact x_exact [0, 0, 0, 0, 0, 0, 0])
      ∧ (∀ i : ℕ, i < (init_copy_sp_matrix_skyline_ilu test_ilu_skyline).parent.rows_count.toNat →
          (init_copy_sp_matrix_skyline_ilu test_ilu_skyline).ilu_diag.getD i 0 ≠ 0)
      ∧ (pcg_precondition (init_copy_sp_matrix_skyline_ilu test_ilu_skyline)
            (init_copy_sp_matrix_skyline_ilu test_ilu_skyline).parent.rows_count
            (sp_matrix_solve_pcg_init test_ilu_mtx x_exact x_exact [0, 0, 0, 0, 0, 0, 0])).r
          = (sp_matrix_solve_pcg_init test_ilu_mtx x_exact x_exact [0, 0, 0, 0, 0, 0, 0]).r
      ∧ sp_matrix_skyline_ilu_lower_mv (init_copy_sp_matrix_skyline_ilu test_ilu_skyline)
          (sp_matrix_skyline_ilu_upper_mv (init_copy_sp_matrix_skyline_ilu test_ilu_skyline)
            (pcg_precondition (init_copy_sp_matrix_skyline_ilu test_ilu_skyline)
              (init_copy_sp_matrix_skyline_ilu test_ilu_skyline).parent.rows_count
              (sp_matrix_solve_pcg_init test_ilu_mtx x_exact x_exact
                [0, 0, 0, 0, 0, 0, 0])).z
            [0, 0, 0, 0, 0, 0, 0]) [0, 0, 0, 0, 0, 0, 0]
          = (sp_matrix_solve_pcg_init test_ilu_mtx x_exact x_exact [0, 0, 0, 0, 0, 0, 0]).r :=
  ⟨by decide!, sp_matrix_solve_pcg_init_ok test_ilu_mtx (by decide!) _ _ _, by decide!,
    (C34_preconditioner_application (init_copy_sp_matrix_skyline_ilu test_ilu_skyline)
      (by decide!) _ (sp_matrix_solve_pcg_init_ok test_ilu_mtx (by decide!) _ _ _)
      [0, 0, 0, 0, 0, 0, 0] [0, 0, 0, 0, 0, 0, 0] (by decide!) (by decide!)).1,
    (C34_preconditioner_application (init_copy_sp_matrix_skyline_ilu test_ilu_skyline)
      (by decide!) _ (sp_matrix_solve_pcg_init_ok test_ilu_mtx (by decide!) _ _ _)
      [0, 0, 0, 0, 0, 0, 0] [0, 0, 0, 0, 0, 0, 0] (by decide!) (by decide!)).2 (by decide!)⟩

end Fea
